import Mathlib

/-!
# smfilter: sector extraction, validation and segment derivation

A shallow embedding of `src/sector_calc.c` and of the sector pipeline of
`main` in `src/smfilter.c`.

Conventions of the embedding

* A C `double` is an `Option ℚ`: `none` is NaN, `some q` is the number `q`.
  An operation with a NaN operand yields NaN and every comparison with a NaN
  operand is false, as in IEEE 754.  Infinities are not modelled.  The
  functions are embedded with exact arithmetic (`dadd`, `dsub`, `ddiv`);
  `proc_sfrac` is embedded a second time, as `proc_sfrac_r`, with the rounding
  of every sum, difference and quotient as a parameter, and `fl` is the
  rounding of IEEE 754 doubles: what is stated of `proc_sfrac_r` for every
  rounding holds of the exact functions and of the arithmetic of doubles.
* The segment array `sf[MAX_SFRAC]` of a sector is a function `Nat → sector_frac`;
  indices `≥ MAX_SFRAC` lie outside the C array.  The sector array of `main`
  is a function `Int → sector`; indices outside `0 .. MAX_SEC-1` lie outside
  the C array.
* A `bstring_t` (pointer and length) is the list of its characters.
* The program is embedded as compiled with `EXT_RADIUS_TAG` and
  `RENDER_TAPERING` defined and `RENDER_UNSECTORED_RADIUS` undefined.
-/

namespace Smfilter

/-! ## Doubles -/

/-- A C `double`: `none` is NaN. -/
abbrev double := Option ℚ

/-- NaN. -/
def NAN : double := none

/-- C `isnan`. -/
def isnan (x : double) : Bool := x.isNone

/-- C `x + y` on doubles. -/
def dadd (x y : double) : double :=
  match x, y with
  | some a, some b => some (a + b)
  | _, _ => none

/-- C `x - y` on doubles. -/
def dsub (x y : double) : double :=
  match x, y with
  | some a, some b => some (a - b)
  | _, _ => none

/-- C `-x` on doubles. -/
def dneg (x : double) : double :=
  match x with
  | some a => some (-a)
  | none => none

/-- C `x / c` for a non-zero constant `c`. -/
def ddiv (x : double) (c : ℚ) : double :=
  match x with
  | some a => some (a / c)
  | none => none

/-- C `x < y` on doubles (false when an operand is NaN). -/
def dlt (x y : double) : Bool :=
  match x, y with
  | some a, some b => decide (a < b)
  | _, _ => false

/-- C `x > y` on doubles (false when an operand is NaN). -/
def dgt (x y : double) : Bool := dlt y x

/-- C `x == y` on doubles (false when an operand is NaN). -/
def deq (x y : double) : Bool :=
  match x, y with
  | some a, some b => decide (a = b)
  | _, _ => false

/-! ## Constants of `seamark.h` -/

/-- Modelled from the spec: the header `seamark.h` is not part of the sources;
the per-sector segment capacity is 16. -/
def MAX_SFRAC : Nat := 16

/-- Modelled from the spec: the header `seamark.h` is not part of the sources;
a tapering segment is subdivided into 7 sub-segments. -/
def TAPER_SEGS : Nat := 7

/-- Modelled from the spec: capacity of the sector array (`#define MAX_SEC 32`
in `main`). -/
def MAX_SEC : Nat := 32

/-- Modelled from the spec: the arc types are the indices of the table
`atype_` of `sector_calc.c`. -/
def ARC_UNDEF : Nat := 0
/-- Index of "solid" in `atype_`. -/
def ARC_SOLID : Nat := 1
/-- Index of "suppress" in `atype_`. -/
def ARC_SUPPRESS : Nat := 2
/-- Index of "dashed" in `atype_`. -/
def ARC_DASHED : Nat := 3
/-- Index of "taper_up" in `atype_`. -/
def ARC_TAPER_UP : Nat := 4
/-- Index of "taper_down" in `atype_`. -/
def ARC_TAPER_DOWN : Nat := 5
/-- Index of "taper_1" in `atype_`. -/
def ARC_TAPER_1 : Nat := 6
/-- Index of "taper_7" in `atype_`. -/
def ARC_TAPER_7 : Nat := 12

/-- Modelled from the spec: category value of a directional light
(`seamark.h` is not part of the sources); `0` is the plain category. -/
def CAT_DIR : Int := 1

/-! ## Data model -/

/-- The C `struct sector_frac`: one segment of a sector. -/
structure sector_frac where
  r : double
  a : double
  start : double
  end_ : double
  col : Int
  type : Nat
  startr : Bool
  endr : Bool

/-- The C `struct lchar`: light character of a sector. -/
structure lchar where
  lc : List Char
  group : Int
  period : Int
  range : Int

/-- The C `struct sector`. -/
structure sector where
  used : Bool
  nr : Int
  lc : lchar
  cat : Int
  dir : double
  start : double
  end_ : double
  r : double
  col0 : Int
  col1 : Int
  fused : Nat
  sf : Nat → sector_frac
  sspace : double
  espace : double
  mean : double
  al : Nat

/-- The global configuration values read by the pipeline. -/
structure config where
  sec_radius_ : double
  dir_arc_ : double
  parse_rhint_ : Bool
  untagged_circle_ : Bool
  gen_sec_ : Bool

/-- The configuration of a run without command-line options, for the default
radius `SEC_RADIUS` of `seamark.h` passed as `r`. -/
def default_config (r : ℚ) : config :=
  { sec_radius_ := some r, dir_arc_ := some 2, parse_rhint_ := false,
    untagged_circle_ := false, gen_sec_ := true }

/-- The assignment `sec->sf[i] = f`. -/
def setSf (sec : sector) (i : Nat) (f : sector_frac) : sector :=
  { sec with sf := fun j => if j = i then f else sec.sf j }

/-- A segment as left by `memset(.., 0, ..)` followed by `r = a = NAN`. -/
def init_frac : sector_frac :=
  { r := NAN, a := NAN, start := some 0, end_ := some 0, col := 0, type := 0,
    startr := false, endr := false }

/-- The C `init_sector`: all zero, the angles and radii NaN, no second colour.
The segments at indices `≥ MAX_SFRAC`, which are not part of the C array, are
given the same initial value. -/
def init_sector : sector :=
  { used := false, nr := 0, lc := { lc := [], group := 0, period := 0, range := 0 },
    cat := 0, dir := NAN, start := NAN, end_ := NAN, r := NAN, col0 := 0, col1 := -1,
    fused := 0, sf := fun _ => init_frac,
    sspace := some 0, espace := some 0, mean := some 0, al := 0 }

/-! ## `proc_sfrac` (`sector_calc.c`, lines 634-783) -/

/-- Lines 638-641: the radius of segment 0 defaults to the radius of the
sector or to `sec_radius_`, and a negative radius becomes `sec_radius_`. -/
def init_radius (cfg : config) (sec : sector) : sector :=
  let s1 :=
    if isnan (sec.sf 0).r then
      setSf sec 0 { sec.sf 0 with r := if isnan sec.r then cfg.sec_radius_ else sec.r }
    else sec
  if dlt (s1.sf 0).r (some 0) then setSf s1 0 { s1.sf 0 with r := cfg.sec_radius_ } else s1

/-- Lines 645-652: the single segment of a sector without raw segments. -/
def plain_sector (cfg : config) (sec : sector) : sector :=
  let f : sector_frac :=
    { sec.sf 0 with r := cfg.sec_radius_, start := sec.start, end_ := sec.end_,
                    col := sec.col0, type := ARC_SOLID }
  let f := if dlt (dsub sec.end_ sec.start) (some 360) then
      { f with startr := true, endr := true } else f
  { setSf sec 0 f with fused := sec.fused + 1 }

/-- Lines 659-661 and 669-671: the half-angle of a directional light on a side
with neighbour spacing `space`. -/
def dir_half (cfg : config) (space : double) : double :=
  if dlt space (some 0) then cfg.dir_arc_
  else if dlt (ddiv space 2) cfg.dir_arc_ then ddiv space 2
  else cfg.dir_arc_

/-- Lines 659-675: the two segments of a directional light. -/
def directional (cfg : config) (sec : sector) : sector :=
  let f0 : sector_frac :=
    { sec.sf 0 with start := dsub sec.dir (dir_half cfg sec.sspace), end_ := sec.dir,
                    col := sec.col0, type := ARC_SOLID, endr := true }
  let f1 : sector_frac :=
    { sec.sf 1 with r := f0.r, start := sec.dir,
                    end_ := dadd sec.dir (dir_half cfg sec.espace),
                    col := sec.col0, type := ARC_SOLID }
  { setSf (setSf sec 0 f0) 1 f1 with fused := 2 }

/-- Lines 680-699: the span of segment 0; the first component is the value
returned by `proc_sfrac` (`-1`) when it returns here, and `0` otherwise. -/
def first_span (sec : sector) : Int × sector :=
  let f0 := sec.sf 0
  if isnan f0.a then
    (0, setSf sec 0 { f0 with a := dsub sec.end_ sec.start })
  else if dlt f0.a (some 0) then
    if sec.fused > 1 then (-1, sec)
    else
      let a := if dlt f0.a (dsub sec.start sec.end_) then dsub sec.start sec.end_ else f0.a
      let f1 : sector_frac := { sec.sf 1 with type := f0.type, a := a }
      let g0 : sector_frac := { f0 with a := dsub (dadd a sec.end_) sec.start, type := ARC_SOLID }
      (0, { setSf (setSf sec 0 g0) 1 f1 with fused := sec.fused + 1 })
  else (0, sec)

/-- Lines 701-709: clamp and place segment 0. -/
def first_segment (sec : sector) : sector :=
  let f0 := sec.sf 0
  let a := if dgt f0.a (dsub sec.end_ sec.start) then dsub sec.end_ sec.start else f0.a
  setSf sec 0
    { f0 with a := a, start := sec.start, end_ := dadd sec.start a, col := sec.col0,
              startr := true, type := if f0.type = ARC_UNDEF then ARC_SOLID else f0.type }

/-- Lines 713-746: the body of the loop over the later segments, for index `i`;
the first component is `-1` when `proc_sfrac` returns there. -/
def resolve_step (sec : sector) (i : Nat) : Int × sector :=
  let p := sec.sf (i - 1)
  let c : sector_frac :=
    { sec.sf i with r := if isnan (sec.sf i).r then p.r else (sec.sf i).r,
                    type := if (sec.sf i).type = ARC_UNDEF then p.type else (sec.sf i).type,
                    col := p.col }
  if isnan c.a then
    (0, setSf sec i { c with start := p.end_, end_ := sec.end_, a := dsub sec.end_ p.end_ })
  else if dlt c.a (some 0) then
    if sec.fused > i + 1 then (-1, setSf sec i c)
    else
      let a := if dlt c.a (dsub sec.start sec.end_) then dsub sec.start sec.end_ else c.a
      let s1 := setSf sec (i - 1) { p with end_ := dadd sec.end_ a }
      (0, setSf s1 i { c with start := dadd sec.end_ a, end_ := sec.end_, a := dneg a })
  else
    let a := if dgt (dadd c.a p.end_) sec.end_ then dsub sec.end_ p.end_ else c.a
    (0, setSf sec i { c with a := a, start := p.end_, end_ := dadd p.end_ a })

/-- Lines 711-747: `for (i = ..; i < sec->fused; i++)`, as `n` iterations from
index `i` on (the loop does not change `fused`, so it runs `fused - 1` times
from `i = 1`). -/
def resolve_loop : Nat → Nat → sector → Int × sector
  | 0, _, sec => (0, sec)
  | n + 1, i, sec =>
    let r := resolve_step sec i
    if r.1 = 0 then resolve_loop n (i + 1) r.2 else r

/-- Lines 764-769: sub-segment `j` of the tapering segment `i`. -/
def taper_sub (sec : sector) (i j : Nat) : sector :=
  let st := (sec.sf (i + j - 1)).end_
  setSf sec (i + j)
    { sec.sf i with start := st, end_ := dadd st (sec.sf i).a,
                    type := if (sec.sf i).type = ARC_TAPER_UP then ARC_TAPER_1 + j
                            else ARC_TAPER_7 - j,
                    startr := false }

/-- Lines 758-772: expansion of the tapering segment `i`. -/
def taper_expand (sec : sector) (i : Nat) : sector :=
  -- memmove(&sf[i + TAPER_SEGS], &sf[i + 1], (TAPER_SEGS - 1) segments)
  let s1 : sector :=
    { sec with sf := fun k =>
        if i + TAPER_SEGS ≤ k ∧ k < i + TAPER_SEGS + (TAPER_SEGS - 1)
        then sec.sf (k - (TAPER_SEGS - 1)) else sec.sf k }
  let a := ddiv (s1.sf i).a TAPER_SEGS
  let s2 := setSf s1 i { s1.sf i with a := a, end_ := dadd (s1.sf i).start a }
  let s3 := (List.range' 1 (TAPER_SEGS - 1)).foldl (fun s j => taper_sub s i j) s2
  let s4 := setSf s3 i
    { s3.sf i with type := if (s3.sf i).type = ARC_TAPER_UP then ARC_TAPER_1 else ARC_TAPER_7 }
  { s4 with fused := s4.fused + (TAPER_SEGS - 1) }

/-- Lines 750-773: the loop creating the tapering segments, from index `i` on.
The loop is bounded by `fuel` iterations; `none` means the fuel ran out. -/
def taper_loop : Nat → Nat → sector → Option (Int × sector)
  | 0, _, _ => none
  | fuel + 1, i, sec =>
    if i < sec.fused then
      if (sec.sf i).type ≠ ARC_TAPER_UP ∧ (sec.sf i).type ≠ ARC_TAPER_DOWN then
        taper_loop fuel (i + 1) sec
      else if sec.fused > MAX_SFRAC - TAPER_SEGS + 1 then some (-2, sec)
      else taper_loop fuel (i + 1) (taper_expand sec i)
    else some (0, sec)

/-- Lines 775-780: the last segment is extended to the end of the sector and
gets a radial. -/
def close_last (sec : sector) : sector :=
  let i := sec.fused - 1
  let f := sec.sf i
  setSf sec i { f with end_ := if dlt f.end_ sec.end_ then sec.end_ else f.end_, endr := true }

/-- The C `proc_sfrac`: the value returned and the sector as it is left.
The tapering loop runs at most `fused + 2 * TAPER_SEGS` times: it expands at
most twice, since an expansion needs `fused ≤ MAX_SFRAC - TAPER_SEGS + 1`. -/
def proc_sfrac (cfg : config) (sec : sector) : Option (Int × sector) :=
  let s0 := init_radius cfg sec
  if s0.fused = 0 ∧ isnan s0.dir then some (0, plain_sector cfg s0)
  else if !isnan s0.dir then some (0, directional cfg s0)
  else
    let r1 := first_span s0
    if r1.1 ≠ 0 then some r1
    else
      let s2 := first_segment r1.2
      let r3 := resolve_loop (s2.fused - 1) 1 s2
      if r3.1 ≠ 0 then some r3
      else
        match taper_loop (r3.2.fused + 2 * TAPER_SEGS) 0 r3.2 with
        | none => none
        | some r4 => if r4.1 ≠ 0 then some r4 else some (0, close_last r4.2)

/-! ## Strings and tags (`bstring.h`, `libhpxml.h`, `osm_inplace.h`) -/

/-- A `bstring_t`: the characters `buf[0 .. len-1]`. -/
abbrev bstring := List Char

/-- An attribute of an XML tag: `name="value"`. -/
structure hpx_attr where
  name : bstring
  value : bstring

/-- The attributes `attr[0 .. nattr-1]` of an XML tag. -/
abbrev hpx_tag := List hpx_attr

/-- The tags `subtag[0 .. nsub-1]` below a node. -/
abbrev hpx_tree := List hpx_tag

/-- Modelled from the spec: cursor advance of the string-slice utilities
(`bstring.c` is not part of the sources); drops the first character. -/
def bs_advance (b : bstring) : bstring := b.tail

/-- The character `*b.buf`.  When the slice is empty this is the character that
follows it in the input, the quote that closes the attribute value. -/
def peek (b : bstring) : Char := b.headD '"'

/-- Modelled from the spec: comparison of the string-slice utilities
(`bstring.c` is not part of the sources) of a slice with a C string; `0` when
they are equal (the callers only test for `0`). -/
def bs_cmp (b : bstring) (s : String) : Int := if b = s.toList then 0 else 1

/-- Modelled from the spec: comparison of the first `n` characters of a slice
with those of a C string (`bstring.c` is not part of the sources); `0` when
they are equal (the callers only test for `0`). -/
def bs_ncmp (b : bstring) (s : String) (n : Nat) : Int :=
  if b.take n = s.toList.take n then 0 else 1

/-- The test `c >= '0' && c <= '9'` (`'0'` is 48 and `'9'` is 57). -/
def is_digit (c : Char) : Bool := decide (48 ≤ c.toNat) && decide (c.toNat ≤ 57)

/-- The value `c - '0'` of a digit. -/
def digit_val (c : Char) : Nat := c.toNat - 48

/-- The loop `for (; b.len && is_digit(*b.buf); bs_advance(&b))`. -/
def skip_digits (b : bstring) : bstring := b.dropWhile is_digit

/-- The number written by the leading digits of a slice, after `acc`. -/
def digits_nat (acc : Nat) : bstring → Nat
  | [] => acc
  | c :: t => if is_digit c then digits_nat (acc * 10 + digit_val c) t else acc

/-- The value of the leading digits of a slice behind a decimal point, the
first digit having the weight `10^-e`. -/
def digits_frac (e : Nat) : bstring → ℚ
  | [] => 0
  | c :: t => if is_digit c then (digit_val c : ℚ) / (10 : ℚ) ^ e + digits_frac (e + 1) t else 0

/-- Modelled from the spec: numeric parsing of the string-slice utilities
(`bstring.c` is not part of the sources): an optional `-` and the digits that
follow, as an integer. -/
def bs_tol (b : bstring) : Int :=
  match b with
  | '-' :: t => -(digits_nat 0 t : Int)
  | _ => (digits_nat 0 b : Int)

/-- Modelled from the spec: numeric parsing of the string-slice utilities
(`bstring.c` is not part of the sources): an optional `-`, digits, and an
optional decimal point with digits, as a double; never NaN. -/
def bs_tod (b : bstring) : double :=
  let neg := decide (b.head? = some '-')
  let b1 := if neg then b.tail else b
  let d : ℚ := (digits_nat 0 b1 : ℚ)
  let rest := skip_digits b1
  let v : ℚ := if rest.head? = some '.' then d + digits_frac 1 rest.tail else d
  some (if neg then -v else v)

/-- Modelled from the spec: `get_v` of `osm_inplace.c`, which is not part of
the sources: the value of the attribute `v` of a tag, `none` when the tag has
none (the C function then returns non-zero). -/
def get_v (t : hpx_tag) : Option bstring :=
  (t.find? (fun a => decide (bs_cmp a.name "v" = 0))).map (fun a => a.value)

/-- The C `bs_isnum` (`sector_calc.c`, lines 92-112). -/
def bs_isnum (b : bstring) : Bool :=
  if peek b = '-' ∧ (bs_advance b).length = 0 then false
  else
    let b1 := if peek b = '-' then bs_advance b else b
    let i := b1.length - (skip_digits b1).length
    let b2 := skip_digits b1
    if b2.length = 0 then decide (i > 0)
    else if peek b2 ≠ '.' then decide (i > 0)
    else if (bs_advance b2).length = 0 then decide (i > 0)
    else decide ((bs_advance b2).length - (skip_digits (bs_advance b2)).length > 0)

/-- The table `col_` of colour names. -/
def col_ : List String :=
  ["white", "red", "green", "yellow", "orange", "blue", "violet", "amber"]

/-- The table `atype_` of arc type names (with `RENDER_TAPERING`). -/
def atype_ : List String :=
  ["undef", "solid", "suppress", "dashed", "taper_up", "taper_down", "taper_1", "taper_2",
   "taper_3", "taper_4", "taper_5", "taper_6", "taper_7"]

/-- The C `parse_arc_type` (lines 115-123): index of the first name of
`atype_` the slice starts with, `-1` when there is none. -/
def parse_arc_type (b : bstring) : Int :=
  match atype_.findIdx? (fun s => decide (bs_ncmp b s s.length = 0)) with
  | some i => (i : Int)
  | none => -1

/-- The loop `for (; c.len && *c.buf != ch; bs_advance(&c))`. -/
def skip_to (ch : Char) (c : bstring) : bstring := c.dropWhile (fun x => x != ch)

/-- The C `find_sep` (lines 133-145): the value returned (`true` for 1) and the
slice as it is left. -/
def find_sep (c : bstring) : Bool × bstring :=
  let c1 := c.dropWhile (fun x => x != ':' && x != ';')
  if c1.length = 0 then (true, c1)
  else if peek c1 = ';' then (true, c1)
  else if (bs_advance c1).length = 0 then (true, bs_advance c1)
  else (false, bs_advance c1)

/-! ## `get_sectors` (`sector_calc.c`, lines 154-487) -/

/-- The sector array `sec[]`, by index. -/
abbrev secarr := Int → sector

/-- The assignment `sec[k] = s`. -/
def setSec (sec : secarr) (k : Int) (s : sector) : secarr :=
  fun i => if i = k then s else sec i

/-- The state of `get_sectors`: the sector array and the counter `n`. -/
abbrev gs_state := secarr × Int

/-- The statement `if (!(sec + k)->used) { n++; (sec + k)->used = 1; (sec + k)->nr = k; }`. -/
def mark_used (st : gs_state) (k : Int) : gs_state :=
  if (st.1 k).used then st
  else (setSec st.1 k { st.1 k with used := true, nr := k }, st.2 + 1)

/-- The colour loops `for (l = 0; col_[l]; l++) if (match) { ..; break; }`:
the index of the first colour name accepted by `p`, `none` when the loop ends
with `col_[l] == NULL`. -/
def find_col (p : String → Bool) : Option Nat := col_.findIdx? p

/-- Lines 421-427 and 432-438: the arc type of a radius group, "suppress" when
the name is unknown. -/
def arc_type_of (c : bstring) : Nat :=
  if parse_arc_type c ≠ -1 then (parse_arc_type c).toNat else ARC_SUPPRESS

/-- Lines 390-446: the loop `for (; c.len; (sec + k)->fused++)` over the groups
of a radius value, on the sector `s = sec[k]`.  The loop is bounded by `fuel`
iterations; `none` means the fuel ran out. -/
def radius_loop : Nat → sector → bstring → Option sector
  | 0, _, _ => none
  | fuel + 1, s, c =>
    if c.length = 0 then some s
    else
      -- behind the next ';' when this is not the first segment
      let c0 := if s.fused ≠ 0 then skip_to ';' c else c
      if s.fused ≠ 0 ∧ (c0.length = 0 ∨ (bs_advance c0).length = 0) then some s
      else
        let c1 := if s.fused ≠ 0 then bs_advance c0 else c0
        let s1 := if peek c1 ≠ ':' then setSf s s.fused { s.sf s.fused with r := bs_tod c1 } else s
        let next (s' : sector) (c' : bstring) : Option sector :=
          radius_loop fuel { s' with fused := s'.fused + 1 } c'
        let p1 := find_sep c1
        if p1.1 then next s1 p1.2
        else if bs_isnum p1.2 then
          let s2 := setSf s1 s1.fused { s1.sf s1.fused with a := bs_tod p1.2 }
          let p2 := find_sep p1.2
          if p2.1 then next s2 p2.2
          else next (setSf s2 s2.fused { s2.sf s2.fused with type := arc_type_of p2.2 }) p2.2
        else
          let s2 := setSf s1 s1.fused { s1.sf s1.fused with type := arc_type_of p1.2 }
          let p2 := find_sep p1.2
          if p2.1 then next s2 p2.2
          else if bs_isnum p2.2 then
            next (setSf s2 s2.fused { s2.sf s2.fused with a := bs_tod p2.2 }) p2.2
          else next s2 p2.2

/-- Lines 283-324: the renderer hint `seamark:light:#=colour:start:end:radius`
with value `v`, for the sector number `k`. -/
def rhint (st : gs_state) (k : Int) (v : Option bstring) : gs_state :=
  match v with
  | none => st
  | some c =>
    let sec1 := match find_col (fun s => s.toList.isPrefixOf c) with
      | some l => setSec st.1 k { st.1 k with col0 := (l : Int) }
      | none => st.1
    let st1 := mark_used (sec1, st.2) k
    let c1 := skip_to ':' c
    if c1.length = 0 ∨ (bs_advance c1).length = 0 then st1
    else
      let c2 := bs_advance c1
      let st2 : gs_state := (setSec st1.1 k { st1.1 k with start := bs_tod c2 }, st1.2)
      let c3 := skip_to ':' c2
      if c3.length = 0 ∨ (bs_advance c3).length = 0 then st2
      else
        let c4 := bs_advance c3
        let st3 : gs_state := (setSec st2.1 k { st2.1 k with end_ := bs_tod c4 }, st2.2)
        let c5 := skip_to ':' c4
        if c5.length = 0 ∨ (bs_advance c5).length = 0 then st3
        else
          (setSec st3.1 k { st3.1 k with r := ddiv (bs_tod (bs_advance c5)) 278 }, st3.2)

/-- Lines 342-380: the tag `seamark:light:<k>:colour` with value `c`. -/
def numbered_colour (st : gs_state) (k : Int) (c : bstring) : gs_state :=
  match find_col (fun s => decide (bs_ncmp c s s.length = 0)) with
  | none => st
  | some l =>
    let st1 : gs_state := (setSec st.1 k { st.1 k with col0 := (l : Int) }, st.2)
    let c1 := skip_to ';' c
    if c1.length = 0 ∨ (bs_advance c1).length = 0 then st1
    else
      match find_col (fun s => decide (bs_ncmp (bs_advance c1) s s.length = 0)) with
      | none => st1
      | some l2 => mark_used (setSec st1.1 k { st1.1 k with col1 := (l2 : Int) }, st1.2) k

/-- Lines 262-483: a key `seamark:light:<rest>` that is none of the global keys;
`b` is `<rest>`, `v` the value of the tag. -/
def numbered_tag (cfg : config) (nmax : Int) (st : gs_state) (b : bstring)
    (v : Option bstring) : Option gs_state :=
  if !bs_isnum b then some st
  else
    let k := bs_tol b
    if k ≤ 0 ∨ k ≥ nmax then some st
    else
      let b1 := skip_digits b
      if b1.length = 0 ∧ cfg.parse_rhint_ = true then some (rhint st k v)
      else if peek b1 = ':' ∧ (bs_advance b1).length = 0 then some st
      else
        let b2 := if peek b1 = ':' then bs_advance b1 else b1
        if bs_cmp b2 "sector_start" = 0 then
          match v with
          | none => some st
          | some c => some (mark_used (setSec st.1 k { st.1 k with start := bs_tod c }, st.2) k)
        else if bs_cmp b2 "sector_end" = 0 then
          match v with
          | none => some st
          | some c => some (mark_used (setSec st.1 k { st.1 k with end_ := bs_tod c }, st.2) k)
        else if bs_cmp b2 "colour" = 0 then
          match v with
          | none => some st
          | some c => some (numbered_colour st k c)
        else if bs_cmp b2 "radius" = 0 then
          match v with
          | none => some st
          | some c =>
            if c.length = 0 then some st
            else
              match radius_loop (c.length + 1) (st.1 k) c with
              | none => none
              | some s => some (mark_used (setSec st.1 k s, st.2) k)
        else if bs_cmp b2 "orientation" = 0 then
          match v with
          | none => some st
          | some c => some (mark_used (setSec st.1 k { st.1 k with dir := bs_tod c }, st.2) k)
        else if bs_cmp b2 "category" = 0 then
          match v with
          | none => some st
          | some c =>
            if bs_cmp c "directional" ≠ 0 then some st
            else some (mark_used (setSec st.1 k { st.1 k with cat := CAT_DIR }, st.2) k)
        else some st

/-- Lines 163-484: the body of the loops of `get_sectors` for an attribute `k`
with value `key` of a tag with value `v`. -/
def get_sectors_key (cfg : config) (nmax : Int) (st : gs_state) (key : bstring)
    (v : Option bstring) : Option gs_state :=
  if bs_cmp key "seamark:light:orientation" = 0 then
    match v with
    | none => some st
    | some c => some (mark_used (setSec st.1 0 { st.1 0 with dir := bs_tod c }, st.2) 0)
  else if bs_cmp key "seamark:light:category" = 0 then
    match v with
    | none => some st
    | some c =>
      if bs_cmp c "directional" = 0 then
        some (mark_used (setSec st.1 0 { st.1 0 with cat := CAT_DIR }, st.2) 0)
      else some st
  else if bs_cmp key "seamark:light:colour" = 0 then
    match v with
    | none => some st
    | some c =>
      match find_col (fun s => decide (bs_cmp c s = 0)) with
      | some l => some (setSec st.1 0 { st.1 0 with col0 := (l : Int) }, st.2)
      | none => some st
  else if bs_cmp key "seamark:light:character" = 0 then
    match v with
    | none => some st
    | some c => some (setSec st.1 0 { st.1 0 with lc := { (st.1 0).lc with lc := c } }, st.2)
  else if bs_cmp key "seamark:light:period" = 0 then
    match v with
    | none => some st
    | some c =>
      some (setSec st.1 0 { st.1 0 with lc := { (st.1 0).lc with period := bs_tol c } }, st.2)
  else if bs_cmp key "seamark:light:range" = 0 then
    match v with
    | none => some st
    | some c =>
      some (setSec st.1 0 { st.1 0 with lc := { (st.1 0).lc with range := bs_tol c } }, st.2)
  else if bs_cmp key "seamark:light:group" = 0 then
    match v with
    | none => some st
    | some c =>
      some (setSec st.1 0 { st.1 0 with lc := { (st.1 0).lc with group := bs_tol c } }, st.2)
  else if key.length > 14 ∧ key.take 14 = "seamark:light:".toList then
    numbered_tag cfg nmax st (key.drop 14) v
  else some st

/-- The loop over the attributes `attr[j]` of a tag: the attributes named `k`
are processed from the left to the right. -/
def get_sectors_tag (cfg : config) (nmax : Int) (tag : hpx_tag) :
    List hpx_attr → gs_state → Option gs_state
  | [], st => some st
  | a :: rest, st =>
    if bs_cmp a.name "k" = 0 then
      match get_sectors_key cfg nmax st a.value (get_v tag) with
      | none => none
      | some st1 => get_sectors_tag cfg nmax tag rest st1
    else get_sectors_tag cfg nmax tag rest st

/-- The loop over the tags `subtag[i]` of the node. -/
def get_sectors_loop (cfg : config) (nmax : Int) : hpx_tree → gs_state → Option gs_state
  | [], st => some st
  | tag :: rest, st =>
    match get_sectors_tag cfg nmax tag tag st with
    | none => none
    | some st1 => get_sectors_loop cfg nmax rest st1

/-- The C `get_sectors`: the sector array as it is left and the value returned
(`none` only if the bound of `radius_loop` were too small). -/
def get_sectors (cfg : config) (t : hpx_tree) (sec : secarr) (nmax : Int) : Option gs_state :=
  get_sectors_loop cfg nmax t (sec, 0)

/-! ## The sector pipeline of `main` (`smfilter.c`) -/

/-- Lines 228-229: the freshly initialised sector array. -/
def init_sectors : secarr := fun _ => init_sector

/-- Lines 286-290: the wrap of a sector that stays valid, and the count. -/
def keep_sector (st : gs_state) (i : Int) (s : sector) : gs_state :=
  let s1 := if dgt s.start s.end_ then { s with end_ := dadd s.end_ (some 360) } else s
  (setSec st.1 i s1, st.2 + 1)

/-- Lines 240-291: the body of the validation loop for slot `i`; the second
component of the state is the counter `n` of valid sectors. -/
def validate_slot (cfg : config) (st : gs_state) (i : Nat) : gs_state :=
  let s := st.1 (i : Int)
  if s.used then
    if i ≠ 0 ∧ deq s.start s.end_ = true ∧ deq s.start (st.1 0).dir = true then
      (setSec st.1 i { s with used := false }, st.2)
    else if (!isnan s.dir ∧ s.cat ≠ CAT_DIR) ∨ (isnan s.dir ∧ s.cat = CAT_DIR) then
      (setSec st.1 i { s with dir := NAN, cat := 0, used := false }, st.2)
    else if isnan s.start ∧ isnan s.end_ then
      if s.cat = CAT_DIR then keep_sector st i { s with start := s.dir, end_ := s.dir }
      else if cfg.untagged_circle_ then keep_sector st i { s with start := some 0, end_ := some 360 }
      else (setSec st.1 i { s with used := false }, st.2)
    else if isnan s.start ∨ isnan s.end_ then
      (setSec st.1 i { s with used := false }, st.2)
    else keep_sector st i s
  else st

/-- Lines 236-292: `for (i = 0, n = 0; i < MAX_SEC; i++)`. -/
def validate_loop (cfg : config) (sec : secarr) : gs_state :=
  (List.range MAX_SEC).foldl (validate_slot cfg) (sec, 0)

/-- Lines 302-303: `memcpy(&sec[i], &sec[i + 1], ..(MAX_SEC - i - 1))` and
`init_sector(&sec[MAX_SEC - 1])`. -/
def remove_slot (sec : secarr) (i : Nat) : secarr :=
  fun m =>
    if (i : Int) ≤ m ∧ m < (MAX_SEC : Int) - 1 then sec (m + 1)
    else if m = (MAX_SEC : Int) - 1 then init_sector
    else sec m

/-- Lines 295-306: the loop removing the unused sectors, from `i = j` on
(`i` and `j` move together).  The loop is bounded by `fuel` iterations; `none`
means the fuel ran out. -/
def compact_loop : Nat → Nat → Int → secarr → Option secarr
  | 0, _, _, _ => none
  | fuel + 1, i, n, sec =>
    if i < MAX_SEC ∧ (i : Int) < n then
      if (sec i).used then
        compact_loop fuel (i + 1) n
          (setSec sec i { sec i with mean := ddiv (dadd (sec i).start (sec i).end_) 2 })
      else compact_loop fuel i n (remove_slot sec i)
    else some sec

/-- Lines 100-108: the inner loop of `sort_sectors`, `c` iterations from `i` on. -/
def sort_pass : Nat → Nat → secarr → secarr
  | 0, _, sec => sec
  | c + 1, i, sec =>
    let sec1 :=
      if dgt (sec i).mean (sec ((i : Int) + 1)).mean then
        setSec (setSec sec i (sec ((i : Int) + 1))) ((i : Int) + 1) (sec i)
      else sec
    sort_pass c (i + 1) sec1

/-- Lines 99-108: the outer loop of `sort_sectors`, `c` iterations from `j` on;
the inner loop `for (i = 0; i < n - j; i++)` runs `n - j` times. -/
def sort_passes : Nat → Nat → Int → secarr → secarr
  | 0, _, _, sec => sec
  | c + 1, j, n, sec => sort_passes c (j + 1) n (sort_pass (n - (j : Int)).toNat 0 sec)

/-- The C `sort_sectors` (lines 94-109): `for (j = 1; j < n - 1; j++)` runs
`n - 2` times when `n ≥ 2` and not at all otherwise. -/
def sort_sectors (sec : secarr) (n : Int) : secarr :=
  sort_passes (n - 1 - 1).toNat 1 n sec

/-- Lines 312-313: the loop `for (i = ..; i < n - 1; i++)`, `c` iterations from
`i` on. -/
def spacing_loop : Nat → Nat → secarr → secarr
  | 0, _, sec => sec
  | c + 1, i, sec =>
    let v := dsub (sec ((i : Int) + 1)).start (sec i).end_
    let sec1 := setSec sec ((i : Int) + 1) { sec ((i : Int) + 1) with sspace := v }
    spacing_loop c (i + 1) (setSec sec1 i { sec1 i with espace := v })

/-- Lines 311-313: the spacing of the neighbours. -/
def neighbour_spacing (sec : secarr) (n : Int) : secarr :=
  let v := dsub (sec 0).start (sec (n - 1)).end_
  let sec1 := setSec sec 0 { sec 0 with sspace := v }
  let sec2 := setSec sec1 (n - 1) { sec1 (n - 1) with espace := v }
  spacing_loop (n - 1).toNat 0 sec2

/-- Lines 236-313: validation, compaction, sorting and spacing of the sectors
of a node; the number `n` of valid sectors and the sector array. -/
def validate_sectors (cfg : config) (sec : secarr) : Option (Int × secarr) :=
  let st := validate_loop cfg sec
  match compact_loop (2 * MAX_SEC + 1) 0 st.2 st.1 with
  | none => none
  | some sec1 => some (st.2, neighbour_spacing (sort_sectors sec1 st.2) st.2)

/-- Lines 228-313: the sectors of a node with the tags `t`, extracted and
validated; `main` goes on only if `get_sectors` returns a count other than 0. -/
def node_sectors (cfg : config) (t : hpx_tree) : Option (Int × secarr) :=
  match get_sectors cfg t init_sectors MAX_SEC with
  | none => none
  | some st => if st.2 ≠ 0 then validate_sectors cfg st.1 else some (0, st.1)

/-! ## The rendering loop of `main` (`smfilter.c`, lines 330-355) -/

/-- The table `altr_` of `sector_calc.c`: 0.003, 0.0035, 0.009, 0.005. -/
def altr_ : List ℚ := [3 / 1000, 35 / 10000, 9 / 1000, 5 / 1000]

/-- Lines 348-351: one repeat for a sector with a second colour: the radius of
every segment is reduced by `d`, `al` is increased, and `sector_calc2` is
called; the sector as it is left, which is also the argument of the call. -/
def alt_pass (sec : sector) (d : ℚ) : sector :=
  { sec with
      sf := fun k => if k < sec.fused then { sec.sf k with r := dsub (sec.sf k).r (some d) }
                     else sec.sf k,
      al := sec.al + 1 }

/-- Lines 345-352: the repeats for a sector with a second colour, for the
offsets `ds`: the sector as it is left and the arguments of the calls of
`sector_calc2`, in their order. -/
def alt_passes : List ℚ → sector → sector × List sector
  | [], sec => (sec, [])
  | d :: ds, sec =>
    let r := alt_passes ds (alt_pass sec d)
    (r.1, alt_pass sec d :: r.2)

/-- Lines 332-354: the body of the rendering loop for the sector `sec = sec[i]`:
the sector as it is left and the arguments of the calls of `sector_calc2`, in
their order (`none` only if the bound of the tapering loop were too small). -/
def render_sector (cfg : config) (sec : sector) : Option (sector × List sector) :=
  if sec.used ∧ cfg.gen_sec_ = true then
    match proc_sfrac cfg sec with
    | none => none
    | some r =>
      if r.1 = -1 then some (r.2, [])
      else if r.2.col1 ≠ -1 then
        -- sf[0].startr = sf[fused - 1].endr = 0
        let s1 := setSf r.2 (r.2.fused - 1) { r.2.sf (r.2.fused - 1) with endr := false }
        let s2 := setSf s1 0 { s1.sf 0 with startr := false }
        let p := alt_passes altr_ s2
        some (p.1, r.2 :: p.2)
      else some (r.2, [r.2])
  else some (sec, [])

/-- Lines 330-355: the rendering loop over the slots `i .. i+c-1`: the sector
array as it is left and the arguments of all calls of `sector_calc2`. -/
def render_loop (cfg : config) : Nat → Nat → secarr → Option (secarr × List sector)
  | 0, _, sec => some (sec, [])
  | c + 1, i, sec =>
    match render_sector cfg (sec i) with
    | none => none
    | some r =>
      match render_loop cfg c (i + 1) (setSec sec i r.1) with
      | none => none
      | some rest => some (rest.1, r.2 ++ rest.2)

/-- Lines 228-355: the sectors passed to `sector_calc2` for a node with the
tags `t`, in the order of the calls. -/
def node_render (cfg : config) (t : hpx_tree) : Option (List sector) :=
  match get_sectors cfg t init_sectors MAX_SEC with
  | none => none
  | some st =>
    if st.2 ≠ 0 then
      match validate_sectors cfg st.1 with
      | none => none
      | some v => (render_loop cfg MAX_SEC 0 v.2).map (fun r => r.2)
    else some []

/-! ## `sector_calc2` (`sector_calc.c`, lines 525-603) -/

/-- C `x != y` on doubles (true when an operand is NaN). -/
def dne (x y : double) : Bool := !deq x y

/-- The ways that `sector_calc2` writes for the segment `i` of a sector: the
radial line from the anchor node to the start point of the segment, the line
from the end point of the segment before to the start point, the radial line
from the anchor node to the end point, and the arc. -/
inductive way where
  | start_radial (i : Nat)
  | step_radial (i : Nat)
  | end_radial (i : Nat)
  | arc (i : Nat)
deriving DecidableEq

/-- Lines 536-602: the ways written in the iteration `i` of the loop of
`sector_calc2`, in their order.  The nodes (the two boundary points, the points
on the arc) and the coordinates are left out. -/
def segment_ways (sec : sector) (i : Nat) : List way :=
  let f := sec.sf i
  (if f.startr = true ∧ ¬ (deq f.start (some 0) = true ∧ deq f.end_ (some 360) = true)
    then [way.start_radial i] else []) ++
  (if i ≠ 0 ∧ dne f.r (sec.sf (i - 1)).r = true ∧ f.type ≠ ARC_SUPPRESS ∧
      (sec.sf (i - 1)).type ≠ ARC_SUPPRESS
    then [way.step_radial i] else []) ++
  (if f.endr = true ∧ ¬ (deq f.start (some 0) = true ∧ deq f.end_ (some 360) = true)
    then [way.end_radial i] else []) ++
  (if f.type = ARC_SUPPRESS ∨ deq f.r (some 0) = true then [] else [way.arc i])

/-- The C `sector_calc2`: the ways written for the sector, in their order. -/
def sector_calc2 (sec : sector) : List way :=
  ((List.range sec.fused).map (segment_ways sec)).flatten

/-- Lines 228-355 of `main`: the ways written for a node with the tags `t`, one
list for every call of `sector_calc2`. -/
def node_ways (cfg : config) (t : hpx_tree) : Option (List (List way)) :=
  (node_render cfg t).map (fun l => l.map sector_calc2)

/-! ## Auxiliary notions used in the statements -/

/-- A span that `proc_sfrac` treats as negative: not NaN and below zero. -/
def negspan (f : sector_frac) : Bool := !isnan f.a && dlt f.a (some 0)

/-- A style that `proc_sfrac` expands into tapering sub-segments. -/
def tapering (t : Nat) : Bool := t == ARC_TAPER_UP || t == ARC_TAPER_DOWN

/-- No segment of the sector has a tapering style. -/
def notaper (sec : sector) : Prop :=
  ∀ j, j < sec.fused → tapering (sec.sf j).type = false

/-- The state of the segment list of a sector `[s, e]` once the segments
`0 .. i-1` are resolved: the list starts at `s`, consecutive segments touch,
and segment `i-1` ends at or before `e`. -/
structure Chain (s e : ℚ) (i : Nat) (sec : sector) : Prop where
  hstart : sec.start = some s
  hend : sec.end_ = some e
  first : (sec.sf 0).start = some s
  link : ∀ m, m + 1 < i → ∃ q, (sec.sf m).end_ = some q ∧ (sec.sf (m + 1)).start = some q
  last : ∃ q, (sec.sf (i - 1)).end_ = some q ∧ q ≤ e

/-- The decision of the validation pass for a used sector that the zero-width
rule does not remove, as the specification words it: `none` when the sector is
dropped, the validated start and end when it stays. -/
def validation_rule (cfg : config) (s : sector) : Option (double × double) :=
  if (!isnan s.dir) ≠ decide (s.cat = CAT_DIR) then none
  else if isnan s.start && isnan s.end_ then
    if s.cat = CAT_DIR then some (s.dir, s.dir)
    else if cfg.untagged_circle_ then some (some 0, some 360)
    else none
  else if isnan s.start || isnan s.end_ then none
  else some (s.start, if dgt s.start s.end_ then dadd s.end_ (some 360) else s.end_)

/-- The number of slots below `k` of the sector array that are marked used. -/
def used_count (sec : secarr) : Nat → Nat
  | 0 => 0
  | k + 1 => used_count sec k + (if (sec (k : Int)).used then 1 else 0)

/-- The sector `s` with the mean bearing of line 299, `(start + end) / 2`. -/
def with_mean (s : sector) : sector :=
  { s with mean := ddiv (dadd s.start s.end_) 2 }

/-- Two segments agree in what is drawn: start, end, radius, colour, style
and the two radial flags. -/
def same_segment (f g : sector_frac) : Prop :=
  f.start = g.start ∧ f.end_ = g.end_ ∧ f.r = g.r ∧ f.col = g.col ∧ f.type = g.type ∧
  f.startr = g.startr ∧ f.endr = g.endr

/-- A segment that is placed: a span `a ≥ 0` from `st`, inside the sector that
ends at `e`, with a radius, a style that is neither undefined nor tapering, and
the colour `c0`. -/
def Settled (c0 : Int) (e st a : ℚ) (f : sector_frac) : Prop :=
  f.a = some a ∧ 0 ≤ a ∧ f.start = some st ∧ f.end_ = some (st + a) ∧ st + a ≤ e ∧
  isnan f.r = false ∧ f.type ≠ ARC_UNDEF ∧ tapering f.type = false ∧ f.col = c0

/-- The state of a sector `[s, e]` in the loop over the later segments once the
segments `0 .. i-1` are placed, each starting where the one before it ends. -/
structure Resolved (s e : ℚ) (i : Nat) (sec : sector) : Prop where
  hstart : sec.start = some s
  hend : sec.end_ = some e
  first : (sec.sf 0).start = some s
  startr : (sec.sf 0).startr = true
  seg : ∀ m, m < i → ∃ st a, Settled sec.col0 e st a (sec.sf m)
  link : ∀ m, m + 1 < i → (sec.sf (m + 1)).start = (sec.sf m).end_

/-- A resolved sector `[s, e]` without tapering as `proc_sfrac` leaves it: all
segments placed, the last one extended to `e` and with its radial. -/
structure Closed (s e : ℚ) (sec : sector) : Prop where
  hstart : sec.start = some s
  hend : sec.end_ = some e
  hdir : sec.dir = none
  hk : 1 ≤ sec.fused
  first : (sec.sf 0).start = some s
  startr : (sec.sf 0).startr = true
  seg : ∀ m, m < sec.fused → ∃ st a, (sec.sf m).a = some a ∧ 0 ≤ a ∧
    (sec.sf m).start = some st ∧ st + a ≤ e ∧
    (sec.sf m).end_ = some (if m + 1 = sec.fused then e else st + a) ∧
    isnan (sec.sf m).r = false ∧ (sec.sf m).type ≠ ARC_UNDEF ∧
    tapering (sec.sf m).type = false ∧ (sec.sf m).col = sec.col0
  link : ∀ m, m + 1 < sec.fused → (sec.sf (m + 1)).start = (sec.sf m).end_
  endr : (sec.sf (sec.fused - 1)).endr = true

/-- The sector with the end of segment `i` set back to `start + a`, as the
loops of `proc_sfrac` place it before the last segment is extended. -/
def reopen (sec : sector) (i : Nat) : sector :=
  setSf sec i { sec.sf i with end_ := dadd (sec.sf i).start (sec.sf i).a }

/-! ## Example nodes -/

/-- The XML tag `<tag k="k" v="v"/>` of a node. -/
def tag_kv (k v : String) : hpx_tag :=
  [{ name := "k".toList, value := k.toList }, { name := "v".toList, value := v.toList }]

/-- A run without command-line options; the default radius `SEC_RADIUS` of
`seamark.h` is taken as 0.2 nm (no statement depends on the value). -/
def example_config : config := default_config (1 / 5)

/-- Slot `i` of the validated sectors of a node. -/
def sector_of (r : Option (Int × secarr)) (i : Int) : sector :=
  match r with
  | some x => x.2 i
  | none => init_sector

/-- The start, the end and the style of the resolved segments of a sector. -/
def seg_list (sec : sector) : List (double × double × Nat) :=
  (List.range sec.fused).map (fun i => ((sec.sf i).start, (sec.sf i).end_, (sec.sf i).type))

/-- A light with the single sector 100-200 and no radius tag. -/
def plain_example : sector :=
  sector_of (node_sectors example_config
    [tag_kv "seamark:light:1:sector_start" "100", tag_kv "seamark:light:1:sector_end" "200"]) 0

/-- A light with the sector 100-200 and the radius value `:-10:dashed`. -/
def negative_example : sector :=
  sector_of (node_sectors example_config
    [tag_kv "seamark:light:1:sector_start" "100", tag_kv "seamark:light:1:sector_end" "200",
     tag_kv "seamark:light:1:radius" ":-10:dashed"]) 0

/-- A light with the sector 100-200 and the radius value `:10;:dashed;:solid:-10`. -/
def three_example : sector :=
  sector_of (node_sectors example_config
    [tag_kv "seamark:light:1:sector_start" "100", tag_kv "seamark:light:1:sector_end" "200",
     tag_kv "seamark:light:1:radius" ":10;:dashed;:solid:-10"]) 0

/-- A light with the sector 100-200 and the radius value `:-10;:dashed`, a
negative span on the first of two segments. -/
def invalid_example : sector :=
  sector_of (node_sectors example_config
    [tag_kv "seamark:light:1:sector_start" "100", tag_kv "seamark:light:1:sector_end" "200",
     tag_kv "seamark:light:1:radius" ":-10;:dashed"]) 0

/-- A light with the sector 100-200 and the radius value `:taper_up`. -/
def taper_example : sector :=
  sector_of (node_sectors example_config
    [tag_kv "seamark:light:1:sector_start" "100", tag_kv "seamark:light:1:sector_end" "200",
     tag_kv "seamark:light:1:radius" ":taper_up"]) 0

/-- A light with the sector 100-200 and the radius value `:30;:dashed:20`. -/
def two_example : sector :=
  sector_of (node_sectors example_config
    [tag_kv "seamark:light:1:sector_start" "100", tag_kv "seamark:light:1:sector_end" "200",
     tag_kv "seamark:light:1:radius" ":30;:dashed:20"]) 0

/-- The tags of a light with the sectors 0-40 and 50-90 and a directional
sector at 45 between them. -/
def between_tags : hpx_tree :=
  [tag_kv "seamark:light:1:sector_start" "0", tag_kv "seamark:light:1:sector_end" "40",
   tag_kv "seamark:light:2:orientation" "45", tag_kv "seamark:light:2:category" "directional",
   tag_kv "seamark:light:3:sector_start" "50", tag_kv "seamark:light:3:sector_end" "90"]

/-- The directional sector of `between_tags`, validated. -/
def between_example : sector := sector_of (node_sectors example_config between_tags) 1

/-- The tags of a lone directional light: orientation 45, category
directional. -/
def lone_tags : hpx_tree :=
  [tag_kv "seamark:light:orientation" "45", tag_kv "seamark:light:category" "directional"]

/-- The tags of a light whose sector 1 (180-220) lies behind its sector 2
(80-120). -/
def unsorted_tags : hpx_tree :=
  [tag_kv "seamark:light:1:sector_start" "180", tag_kv "seamark:light:1:sector_end" "220",
   tag_kv "seamark:light:2:sector_start" "80", tag_kv "seamark:light:2:sector_end" "120"]

/-- Two sectors with the mean bearings 200 and 100, in this order. -/
def unsorted_pair : secarr :=
  fun i => if i = 0 then { init_sector with used := true, mean := some 200 }
           else { init_sector with used := true, mean := some 100 }

/-- A light with the sector 100-200 and the radius value `:10;:20;:solid:-95`:
the negative span of the last segment is wider than the segment before it. -/
def overlap_example : sector :=
  sector_of (node_sectors example_config
    [tag_kv "seamark:light:1:sector_start" "100", tag_kv "seamark:light:1:sector_end" "200",
     tag_kv "seamark:light:1:radius" ":10;:20;:solid:-95"]) 0

/-- The tags of a light with the sector 100-200 and a radius value of 17
groups, `1;2;3;4;5;6;7;8;9;10;11;12;13;14;15;16;17`. -/
def long_radius_tags : hpx_tree :=
  [tag_kv "seamark:light:1:sector_start" "100", tag_kv "seamark:light:1:sector_end" "200",
   tag_kv "seamark:light:1:radius" "1;2;3;4;5;6;7;8;9;10;11;12;13;14;15;16;17"]

/-- The tags of a light with the sector 0-110 and a radius value of 11
groups, the first one tapering. -/
def overflow_tags : hpx_tree :=
  [tag_kv "seamark:light:1:sector_start" "0", tag_kv "seamark:light:1:sector_end" "110",
   tag_kv "seamark:light:1:radius" "1:taper_up;1;1;1;1;1;1;1;1;1;1"]

/-- The sector of `overflow_tags`, validated. -/
def overflow_example : sector := sector_of (node_sectors example_config overflow_tags) 0

/-- The tags of a light with the sector 800-10, bearings outside 0..360. -/
def wide_tags : hpx_tree :=
  [tag_kv "seamark:light:1:sector_start" "800", tag_kv "seamark:light:1:sector_end" "10"]

/-- The sector array of a node with the tags `t` as `get_sectors` leaves it,
before the validation. -/
def extracted_sectors (cfg : config) (t : hpx_tree) : secarr :=
  match get_sectors cfg t init_sectors MAX_SEC with
  | some st => st.1
  | none => init_sectors

/-- The result of a second call of `proc_sfrac`, on the sector left by a first
call that returned 0. -/
def proc_sfrac_twice (cfg : config) (sec : sector) : Option (Int × sector) :=
  match proc_sfrac cfg sec with
  | some (0, res) => proc_sfrac cfg res
  | _ => none

/-- The start, the end and the radial flags of the resolved
segments of a sector. -/
def flag_list (sec : sector) : List (double × double × Bool × Bool) :=
  (List.range sec.fused).map
    (fun i => ((sec.sf i).start, (sec.sf i).end_, (sec.sf i).startr, (sec.sf i).endr))

/-- A light with the single sector 0-360 and no radius tag. -/
def circle_example : sector :=
  sector_of (node_sectors example_config
    [tag_kv "seamark:light:1:sector_start" "0", tag_kv "seamark:light:1:sector_end" "360"]) 0

/-- The tags of a light with the sector 0-360 and the radius value
`:180;:solid`, two segments of a full circle. -/
def circle_two_tags : hpx_tree :=
  [tag_kv "seamark:light:1:sector_start" "0", tag_kv "seamark:light:1:sector_end" "360",
   tag_kv "seamark:light:1:radius" ":180;:solid"]

/-- The sector of `circle_two_tags`, validated. -/
def circle_two_example : sector := sector_of (node_sectors example_config circle_two_tags) 0

/-- The tags of a light with a sector start and no sector end. -/
def half_tags : hpx_tree := [tag_kv "seamark:light:1:sector_start" "10"]

/-- The tags of a light with the sector 0-100 and a radius value of ten groups
with the span 10 and the radii 1 to 10, the first one tapering and the others
solid. -/
def taper_long_tags : hpx_tree :=
  [tag_kv "seamark:light:1:sector_start" "0", tag_kv "seamark:light:1:sector_end" "100",
   tag_kv "seamark:light:1:radius"
     "1:10:taper_up;2:10:solid;3:10:solid;4:10:solid;5:10:solid;6:10:solid;7:10:solid;8:10:solid;9:10:solid;10:10:solid"]

/-- The sector of `taper_long_tags`, validated. -/
def taper_long_example : sector := sector_of (node_sectors example_config taper_long_tags) 0

/-- The start, the end and the radius of the resolved segments of a sector. -/
def radius_list (sec : sector) : List (double × double × double) :=
  (List.range sec.fused).map (fun i => ((sec.sf i).start, (sec.sf i).end_, (sec.sf i).r))

/-- The radius, the span and the style of the raw segment `i` of a sector. -/
def raw_seg (s : sector) (i : Nat) : double × double × Nat :=
  ((s.sf i).r, (s.sf i).a, (s.sf i).type)

/-- The tags of a light whose sector 1 has the radius value `v`. -/
def radius_tags (v : String) : hpx_tree := [tag_kv "seamark:light:1:radius" v]

/-- The tags of a light with the sector 100-200 and the colour value `v` of
sector 1. -/
def colour_tags (v : String) : hpx_tree :=
  [tag_kv "seamark:light:1:sector_start" "100", tag_kv "seamark:light:1:sector_end" "200",
   tag_kv "seamark:light:1:colour" v]

/-- The XML tag `<tag k="key" v="value"/>` of a node, for slices. -/
def tag_of (key value : bstring) : hpx_tag :=
  [{ name := "k".toList, value := key }, { name := "v".toList, value := value }]

/-- The common start `seamark:light:` of the keys of the numbered tags. -/
def light_pre : bstring := "seamark:light:".toList

/-- A sector number as it is written in a key: one or more digits. -/
def digits (ds : bstring) : Prop := ds ≠ [] ∧ ∀ c ∈ ds, is_digit c = true

/-- A run with the option for the renderer hints. -/
def rhint_config : config := { example_config with parse_rhint_ := true }

/-- The colour indices, the start and the end of a sector, and whether it is
marked used. -/
def colour_state (s : sector) : Bool × Int × Int × double :=
  (s.used, s.col0, s.col1, s.start)

/-! ## The radial flags of the segments -/

/-- No segment of the sector has a radial flag: the state in which
`init_sector` and `get_sectors` leave the segments. -/
def flags_clear (s : sector) : Prop :=
  ∀ k, (s.sf k).startr = false ∧ (s.sf k).endr = false

/-- No segment of the sector has a radial flag, `startr` of segment 0 apart. -/
def flags_first (s : sector) : Prop :=
  ∀ k, (k ≠ 0 → (s.sf k).startr = false) ∧ (s.sf k).endr = false

/-- No segment of the sector has a radial flag, `startr` of segment 0 and
`endr` of the last segment apart. -/
def flags_ends (s : sector) : Prop :=
  ∀ k, (k ≠ 0 → (s.sf k).startr = false) ∧ (k ≠ s.fused - 1 → (s.sf k).endr = false)

/-- The tags of a light with the sectors 0-40 and 50-90 and between them a
directional sector at 45 with the colours red and green. -/
def dir_two_tags : hpx_tree :=
  [tag_kv "seamark:light:1:sector_start" "0", tag_kv "seamark:light:1:sector_end" "40",
   tag_kv "seamark:light:2:orientation" "45", tag_kv "seamark:light:2:category" "directional",
   tag_kv "seamark:light:2:colour" "red;green",
   tag_kv "seamark:light:3:sector_start" "50", tag_kv "seamark:light:3:sector_end" "90"]

/-- The tags of a light with the sector 100-200, the colours red and green and
the radius value `0`. -/
def zero_radius_tags : hpx_tree :=
  [tag_kv "seamark:light:1:sector_start" "100", tag_kv "seamark:light:1:sector_end" "200",
   tag_kv "seamark:light:1:colour" "red;green", tag_kv "seamark:light:1:radius" "0"]

/-- Line 345 of `smfilter.c`, `sf[0].startr = sf[fused - 1].endr = 0`, as it
stands in `render_sector`. -/
def clear_ends (s : sector) : sector :=
  let s1 := setSf s (s.fused - 1) { s.sf (s.fused - 1) with endr := false }
  setSf s1 0 { s1.sf 0 with startr := false }

/-- No segment of any sector of the array has a radial flag. -/
def clear_array (sec : secarr) : Prop := ∀ k : Int, flags_clear (sec k)

/-- The tags of a light with the sector 100-200, the colours red and green and
the radius value `:30;:dashed:20`. -/
def two_colour_tags : hpx_tree :=
  [tag_kv "seamark:light:1:sector_start" "100", tag_kv "seamark:light:1:sector_end" "200",
   tag_kv "seamark:light:1:colour" "red;green",
   tag_kv "seamark:light:1:radius" ":30;:dashed:20"]

/-- The tags of a light with the sector 100-200, the colours red and green and
the radius value `:suppress`. -/
def suppress_tags : hpx_tree :=
  [tag_kv "seamark:light:1:sector_start" "100", tag_kv "seamark:light:1:sector_end" "200",
   tag_kv "seamark:light:1:colour" "red;green", tag_kv "seamark:light:1:radius" ":suppress"]

/-! ## The `int` of a sector number -/

/-- The conversion of the `long` that `bs_tol` returns to the `int k` of
`get_sectors` (line 272, `k = bs_tol(b)`) for an `int` of 32 bits: the value
modulo 2^32 in `-2^31 .. 2^31 - 1`.  `numbered_tag` takes the number of a key as
`bs_tol` gives it, which is what `k` holds for the numbers that this conversion
leaves as they are. -/
def to_int (x : Int) : Int := (x + 2147483648) % 4294967296 - 2147483648

/-- The tags of a light with the sector 0-50 and five raw segments of span 10,
the fifth one tapering. -/
def taper_fifth_tags : hpx_tree :=
  [tag_kv "seamark:light:1:sector_start" "0", tag_kv "seamark:light:1:sector_end" "50",
   tag_kv "seamark:light:1:radius"
     "1:10:solid;2:10:solid;3:10:solid;4:10:solid;5:10:taper_up"]

/-- The sector of `taper_fifth_tags`, validated. -/
def taper_fifth_example : sector := sector_of (node_sectors example_config taper_fifth_tags) 0

/-! ## The arithmetic of C doubles

The definitions above compute with rationals.  Below, the functions of
`proc_sfrac` are given once more with the rounding of every sum, difference and
quotient as a parameter `rnd`: `rnd = id` gives the definitions above
(`proc_sfrac_r_id`), and `rnd = fl` is the arithmetic of C doubles, as far as
no result leaves the range of the normal numbers. -/

/-- The integer nearest to `n / d`, the even one of two that are equally near. -/
def round_even (n d : Nat) : Nat :=
  if 2 * (n % d) < d then n / d
  else if d < 2 * (n % d) then n / d + 1
  else if (n / d) % 2 = 0 then n / d else n / d + 1

/-- The number of binary digits of `n`, for `n < 2 ^ fuel`. -/
def bit_length : Nat → Nat → Nat
  | 0, _ => 0
  | f + 1, n => if n = 0 then 0 else bit_length f (n / 2) + 1

/-- The exponent `k` with `2 ^ k ≤ n / d < 2 ^ (k + 1)`, for positive `n` and
`d` below `2 ^ 2200`. -/
def floor_log2 (n d : Nat) : Int :=
  let k : Int := (bit_length 2200 n : Int) - (bit_length 2200 d : Int)
  if 0 ≤ k then (if d * 2 ^ k.toNat ≤ n then k else k - 1)
  else (if d ≤ n * 2 ^ (-k).toNat then k else k - 1)

/-- The double nearest to the positive rational `n / d`: a significand of 53
binary digits, rounded to the nearest, to the even one in a tie. -/
def fl_pos (n d : Nat) : ℚ :=
  let sh : Int := floor_log2 n d - 52
  if 0 ≤ sh then ((round_even n (d * 2 ^ sh.toNat) * 2 ^ sh.toNat : Nat) : ℚ)
  else (round_even (n * 2 ^ (-sh).toNat) d : ℚ) / (2 ^ (-sh).toNat : Nat)

/-- The rounding of IEEE 754 double arithmetic (round to nearest, ties to
even) for a result in the range of the normal numbers: the double nearest to
the rational `q`. -/
def fl (q : ℚ) : ℚ :=
  if q.num = 0 then 0
  else if 0 < q.num then fl_pos q.num.natAbs q.den
  else - fl_pos q.num.natAbs q.den

/-- C `x + y` on doubles, the sum rounded by `rnd`. -/
def radd (rnd : ℚ → ℚ) (x y : double) : double :=
  match x, y with
  | some a, some b => some (rnd (a + b))
  | _, _ => none

/-- C `x - y` on doubles, the difference rounded by `rnd`. -/
def rsub (rnd : ℚ → ℚ) (x y : double) : double :=
  match x, y with
  | some a, some b => some (rnd (a - b))
  | _, _ => none

/-- C `x / c` on doubles for a constant `c`, the quotient rounded by `rnd`. -/
def rdiv (rnd : ℚ → ℚ) (x : double) (c : ℚ) : double :=
  match x with
  | some a => some (rnd (a / c))
  | none => none

/-- Lines 645-652 with rounding: as `plain_sector`. -/
def plain_sector_r (rnd : ℚ → ℚ) (cfg : config) (sec : sector) : sector :=
  let f : sector_frac :=
    { sec.sf 0 with r := cfg.sec_radius_, start := sec.start, end_ := sec.end_,
                    col := sec.col0, type := ARC_SOLID }
  let f := if dlt (rsub rnd sec.end_ sec.start) (some 360) then
      { f with startr := true, endr := true } else f
  { setSf sec 0 f with fused := sec.fused + 1 }

/-- Lines 659-661 and 669-671 with rounding: as `dir_half`. -/
def dir_half_r (rnd : ℚ → ℚ) (cfg : config) (space : double) : double :=
  if dlt space (some 0) then cfg.dir_arc_
  else if dlt (rdiv rnd space 2) cfg.dir_arc_ then rdiv rnd space 2
  else cfg.dir_arc_

/-- Lines 659-675 with rounding: as `directional`. -/
def directional_r (rnd : ℚ → ℚ) (cfg : config) (sec : sector) : sector :=
  let f0 : sector_frac :=
    { sec.sf 0 with start := rsub rnd sec.dir (dir_half_r rnd cfg sec.sspace), end_ := sec.dir,
                    col := sec.col0, type := ARC_SOLID, endr := true }
  let f1 : sector_frac :=
    { sec.sf 1 with r := f0.r, start := sec.dir,
                    end_ := radd rnd sec.dir (dir_half_r rnd cfg sec.espace),
                    col := sec.col0, type := ARC_SOLID }
  { setSf (setSf sec 0 f0) 1 f1 with fused := 2 }

/-- Lines 680-699 with rounding: as `first_span`. -/
def first_span_r (rnd : ℚ → ℚ) (sec : sector) : Int × sector :=
  let f0 := sec.sf 0
  if isnan f0.a then
    (0, setSf sec 0 { f0 with a := rsub rnd sec.end_ sec.start })
  else if dlt f0.a (some 0) then
    if sec.fused > 1 then (-1, sec)
    else
      let a := if dlt f0.a (rsub rnd sec.start sec.end_) then rsub rnd sec.start sec.end_
               else f0.a
      let f1 : sector_frac := { sec.sf 1 with type := f0.type, a := a }
      let g0 : sector_frac :=
        { f0 with a := rsub rnd (radd rnd a sec.end_) sec.start, type := ARC_SOLID }
      (0, { setSf (setSf sec 0 g0) 1 f1 with fused := sec.fused + 1 })
  else (0, sec)

/-- Lines 701-709 with rounding: as `first_segment`. -/
def first_segment_r (rnd : ℚ → ℚ) (sec : sector) : sector :=
  let f0 := sec.sf 0
  let a := if dgt f0.a (rsub rnd sec.end_ sec.start) then rsub rnd sec.end_ sec.start else f0.a
  setSf sec 0
    { f0 with a := a, start := sec.start, end_ := radd rnd sec.start a, col := sec.col0,
              startr := true, type := if f0.type = ARC_UNDEF then ARC_SOLID else f0.type }

/-- Lines 713-746 with rounding: as `resolve_step`. -/
def resolve_step_r (rnd : ℚ → ℚ) (sec : sector) (i : Nat) : Int × sector :=
  let p := sec.sf (i - 1)
  let c : sector_frac :=
    { sec.sf i with r := if isnan (sec.sf i).r then p.r else (sec.sf i).r,
                    type := if (sec.sf i).type = ARC_UNDEF then p.type else (sec.sf i).type,
                    col := p.col }
  if isnan c.a then
    (0, setSf sec i { c with start := p.end_, end_ := sec.end_, a := rsub rnd sec.end_ p.end_ })
  else if dlt c.a (some 0) then
    if sec.fused > i + 1 then (-1, setSf sec i c)
    else
      let a := if dlt c.a (rsub rnd sec.start sec.end_) then rsub rnd sec.start sec.end_ else c.a
      let s1 := setSf sec (i - 1) { p with end_ := radd rnd sec.end_ a }
      (0, setSf s1 i { c with start := radd rnd sec.end_ a, end_ := sec.end_, a := dneg a })
  else
    let a := if dgt (radd rnd c.a p.end_) sec.end_ then rsub rnd sec.end_ p.end_ else c.a
    (0, setSf sec i { c with a := a, start := p.end_, end_ := radd rnd p.end_ a })

/-- Lines 711-747 with rounding: as `resolve_loop`. -/
def resolve_loop_r (rnd : ℚ → ℚ) : Nat → Nat → sector → Int × sector
  | 0, _, sec => (0, sec)
  | n + 1, i, sec =>
    let r := resolve_step_r rnd sec i
    if r.1 = 0 then resolve_loop_r rnd n (i + 1) r.2 else r

/-- Lines 764-769 with rounding: as `taper_sub`. -/
def taper_sub_r (rnd : ℚ → ℚ) (sec : sector) (i j : Nat) : sector :=
  let st := (sec.sf (i + j - 1)).end_
  setSf sec (i + j)
    { sec.sf i with start := st, end_ := radd rnd st (sec.sf i).a,
                    type := if (sec.sf i).type = ARC_TAPER_UP then ARC_TAPER_1 + j
                            else ARC_TAPER_7 - j,
                    startr := false }

/-- Lines 758-772 with rounding: as `taper_expand`. -/
def taper_expand_r (rnd : ℚ → ℚ) (sec : sector) (i : Nat) : sector :=
  let s1 : sector :=
    { sec with sf := fun k =>
        if i + TAPER_SEGS ≤ k ∧ k < i + TAPER_SEGS + (TAPER_SEGS - 1)
        then sec.sf (k - (TAPER_SEGS - 1)) else sec.sf k }
  let a := rdiv rnd (s1.sf i).a TAPER_SEGS
  let s2 := setSf s1 i { s1.sf i with a := a, end_ := radd rnd (s1.sf i).start a }
  let s3 := (List.range' 1 (TAPER_SEGS - 1)).foldl (fun s j => taper_sub_r rnd s i j) s2
  let s4 := setSf s3 i
    { s3.sf i with type := if (s3.sf i).type = ARC_TAPER_UP then ARC_TAPER_1 else ARC_TAPER_7 }
  { s4 with fused := s4.fused + (TAPER_SEGS - 1) }

/-- Lines 750-773 with rounding: as `taper_loop`. -/
def taper_loop_r (rnd : ℚ → ℚ) : Nat → Nat → sector → Option (Int × sector)
  | 0, _, _ => none
  | fuel + 1, i, sec =>
    if i < sec.fused then
      if (sec.sf i).type ≠ ARC_TAPER_UP ∧ (sec.sf i).type ≠ ARC_TAPER_DOWN then
        taper_loop_r rnd fuel (i + 1) sec
      else if sec.fused > MAX_SFRAC - TAPER_SEGS + 1 then some (-2, sec)
      else taper_loop_r rnd fuel (i + 1) (taper_expand_r rnd sec i)
    else some (0, sec)

/-- The C `proc_sfrac` with rounding: as `proc_sfrac`; `init_radius` and
`close_last` do no arithmetic. -/
def proc_sfrac_r (rnd : ℚ → ℚ) (cfg : config) (sec : sector) : Option (Int × sector) :=
  let s0 := init_radius cfg sec
  if s0.fused = 0 ∧ isnan s0.dir then some (0, plain_sector_r rnd cfg s0)
  else if !isnan s0.dir then some (0, directional_r rnd cfg s0)
  else
    let r1 := first_span_r rnd s0
    if r1.1 ≠ 0 then some r1
    else
      let s2 := first_segment_r rnd r1.2
      let r3 := resolve_loop_r rnd (s2.fused - 1) 1 s2
      if r3.1 ≠ 0 then some r3
      else
        match taper_loop_r rnd (r3.2.fused + 2 * TAPER_SEGS) 0 r3.2 with
        | none => none
        | some r4 => if r4.1 ≠ 0 then some r4 else some (0, close_last r4.2)

/-- The result of a second call of `proc_sfrac` with rounding, on the sector
left by a first call that returned 0. -/
def proc_sfrac_r_twice (rnd : ℚ → ℚ) (cfg : config) (sec : sector) : Option (Int × sector) :=
  match proc_sfrac_r rnd cfg sec with
  | some (0, res) => proc_sfrac_r rnd cfg res
  | _ => none

/-- An input of `proc_sfrac`: a used sector without direction from `lo` to `hi`
with the raw segments `segs` (radius, span and style of each); the fields that
`proc_sfrac` does not read for such a sector are those of the only sector of a
light. -/
def raw_sector (lo hi : ℚ) (segs : List (double × double × Nat)) : sector :=
  { init_sector with
      used := true, nr := 1, start := some lo, end_ := some hi, fused := segs.length,
      sf := fun i => match segs[i]? with
        | some g => { init_frac with r := g.1, a := g.2.1, type := g.2.2 }
        | none => init_frac,
      mean := some ((lo + hi) / 2), sspace := some (lo - hi), espace := some (lo - hi) }

/-- The start, the end and the span of the resolved segments of a sector. -/
def span_list (sec : sector) : List (double × double × double) :=
  (List.range sec.fused).map (fun i => ((sec.sf i).start, (sec.sf i).end_, (sec.sf i).a))

/-- No segment before the last one has a tapering style. -/
def notaper_front (sec : sector) : Prop :=
  ∀ j, j + 1 < sec.fused → tapering (sec.sf j).type = false

/-- Segment 0 of the sector is in the state in which lines 680-709 leave it,
but for its end: a style, the colour of the sector, a span that is a number
and is not cut again by line 701, the start of the sector and `startr`. -/
structure Kept0 (rnd : ℚ → ℚ) (X : sector) : Prop where
  type_def : (X.sf 0).type ≠ ARC_UNDEF
  col_eq : (X.sf 0).col = X.col0
  a_num : isnan (X.sf 0).a = false
  clip : dgt (X.sf 0).a (rsub rnd X.end_ X.start) = true →
    (X.sf 0).a = rsub rnd X.end_ X.start
  start_eq : (X.sf 0).start = X.start
  startr : (X.sf 0).startr = true

/-- Segment `i ≥ 1` of the sector is in the state in which lines 740-745 leave
a segment, but for its end: a radius, a style, the colour of the segment
before it, a span that is a number and is not cut again by line 741, and the
start at the end of the segment before it. -/
structure Kept (rnd : ℚ → ℚ) (X : sector) (i : Nat) : Prop where
  r_num : isnan (X.sf i).r = false
  type_def : (X.sf i).type ≠ ARC_UNDEF
  col_eq : (X.sf i).col = (X.sf (i - 1)).col
  a_num : isnan (X.sf i).a = false
  clip : dgt (radd rnd (X.sf i).a (X.sf (i - 1)).end_) X.end_ = true →
    (X.sf i).a = rsub rnd X.end_ (X.sf (i - 1)).end_
  start_eq : (X.sf i).start = (X.sf (i - 1)).end_

/-! ### Sectors whose resolution rounds -/

/-- The sector from 0.3 to 0.9 (the nearest doubles) without raw segments. -/
def plain_overshoot_example : sector := raw_sector (fl (3 / 10)) (fl (9 / 10)) []

/-- The sector from 0 to 0.9 with the raw segments `:0.3;:1000`. -/
def clipped_example : sector :=
  raw_sector 0 (fl (9 / 10)) [(NAN, some (fl (3 / 10)), ARC_UNDEF), (NAN, some 1000, ARC_UNDEF)]

/-- The sector from 0 to 0.9 with the raw segments `:0.3;:`, the second
without a span. -/
def open_last_example : sector :=
  raw_sector 0 (fl (9 / 10)) [(NAN, some (fl (3 / 10)), ARC_UNDEF), (NAN, NAN, ARC_UNDEF)]

/-- The sector from 0.3 to 0.9 with the raw segments `:1000;:5;:5`. -/
def inverted_example : sector :=
  raw_sector (fl (3 / 10)) (fl (9 / 10))
    [(NAN, some 1000, ARC_UNDEF), (NAN, some 5, ARC_UNDEF), (NAN, some 5, ARC_UNDEF)]

/-- The sector from 0.1 to 0.7 with the single raw segment `:-0.2:dashed`. -/
def negative_single_example : sector :=
  raw_sector (fl (1 / 10)) (fl (7 / 10)) [(NAN, some (- fl (2 / 10)), ARC_DASHED)]

/-- The sector from 0 to 13 with the single raw segment `:taper_up`. -/
def taper_single_example : sector := raw_sector 0 13 [(NAN, NAN, ARC_TAPER_UP)]

theorem setSf_self (sec : sector) (i : Nat) : setSf sec i (sec.sf i) = sec := by
  cases sec
  simp only [setSf, sector.mk.injEq, true_and, and_true]
  funext j
  split_ifs with h
  · rw [h]
  · rfl

theorem init_radius_eq (cfg : config) (sec : sector) :
    init_radius cfg sec = setSf sec 0 { sec.sf 0 with r := ((init_radius cfg sec).sf 0).r } := by
  unfold init_radius
  by_cases h1 : isnan (sec.sf 0).r = true
  · by_cases h2 : dlt (if isnan sec.r = true then cfg.sec_radius_ else sec.r) (some 0) = true
    · simp only [h1, h2, if_true, setSf, sector.mk.injEq, true_and, and_true]
      funext j
      split_ifs <;> rfl
    · simp [h1, h2, setSf]
  · by_cases h2 : dlt (sec.sf 0).r (some 0) = true
    · simp [h1, h2, setSf]
    · simp only [h1, h2, if_false, Bool.false_eq_true]
      exact (setSf_self sec 0).symm

/-- C4: for a sector whose `dir` is set `proc_sfrac` returns 0 and leaves
exactly two segments, `sf[0] = [dir - hs, dir]` and `sf[1] = [dir, dir + he]`,
both solid, of the primary colour of the sector and of equal radius, with the
radial flag `sf[0].endr` at the shared boundary set; `hs` is `dir_arc_` if
`sspace < 0` and `min(dir_arc_, sspace/2)` otherwise, and `he` likewise from
`espace`. -/
theorem proc_sfrac_directional (cfg : config) (sec : sector) (d : ℚ) (hd : sec.dir = some d) :
    ∃ res : sector, proc_sfrac cfg sec = some (0, res) ∧ res.fused = 2 ∧
      (res.sf 0).end_ = some d ∧ (res.sf 1).start = some d ∧
      (res.sf 0).type = ARC_SOLID ∧ (res.sf 1).type = ARC_SOLID ∧
      (res.sf 0).col = sec.col0 ∧ (res.sf 1).col = sec.col0 ∧
      (res.sf 1).r = (res.sf 0).r ∧ (res.sf 0).endr = true ∧
      (∀ da s : ℚ, cfg.dir_arc_ = some da → sec.sspace = some s →
        (res.sf 0).start = some (d - (if s < 0 then da else min da (s / 2)))) ∧
      (∀ da e : ℚ, cfg.dir_arc_ = some da → sec.espace = some e →
        (res.sf 1).end_ = some (d + (if e < 0 then da else min da (e / 2)))) := by
  have hhalf : ∀ da s : ℚ, cfg.dir_arc_ = some da →
      dir_half cfg (some s) = some (if s < 0 then da else min da (s / 2)) := by
    intro da s hda
    unfold dir_half
    simp only [dlt, ddiv, hda, decide_eq_true_eq]
    by_cases h0 : s < 0
    · simp [h0]
    · by_cases h2 : s / 2 < da
      · simp [h0, h2, min_eq_right h2.le]
      · simp [h0, h2, min_eq_left (not_lt.mp h2)]
  refine ⟨directional cfg (init_radius cfg sec), ?_, ?_⟩
  · unfold proc_sfrac
    rw [init_radius_eq]
    simp [setSf, hd, isnan]
  · rw [init_radius_eq]
    refine ⟨rfl, ?_, ?_, rfl, rfl, rfl, rfl, rfl, rfl, ?_, ?_⟩
    · simp [directional, setSf, hd]
    · simp [directional, setSf, hd]
    · intro da s hda hs
      simp [directional, setSf, hd, hs, hhalf da s hda, dsub]
    · intro da e hda he
      simp [directional, setSf, hd, he, hhalf da e hda, dadd]

/-- C6: for a non-directional sector without raw segments (`fused = 0`, the
flags of segment 0 clear as `init_sector` leaves them) and start ≤ end,
`proc_sfrac` returns 0 with exactly one segment: it spans `[start, end]`, is
solid, has the primary colour of the sector and the radius `sec_radius_`
whatever the radius of the sector is, and both `startr` and `endr` are set if
`end - start < 360` and both are clear otherwise. -/
theorem proc_sfrac_plain (cfg : config) (sec : sector) (s e : ℚ)
    (hdir : sec.dir = none) (hf : sec.fused = 0)
    (hs : sec.start = some s) (he : sec.end_ = some e) (_hse : s ≤ e)
    (hsr : (sec.sf 0).startr = false) (her : (sec.sf 0).endr = false) :
    ∃ res : sector, proc_sfrac cfg sec = some (0, res) ∧ res.fused = 1 ∧
      (res.sf 0).start = some s ∧ (res.sf 0).end_ = some e ∧
      (res.sf 0).type = ARC_SOLID ∧ (res.sf 0).col = sec.col0 ∧
      (res.sf 0).r = cfg.sec_radius_ ∧
      (res.sf 0).startr = decide (e - s < 360) ∧ (res.sf 0).endr = decide (e - s < 360) := by
  refine ⟨plain_sector cfg (init_radius cfg sec), ?_, ?_⟩
  · unfold proc_sfrac
    rw [init_radius_eq]
    simp [setSf, hdir, hf, isnan]
  · rw [init_radius_eq]
    by_cases h : e - s < 360
    · simp [plain_sector, setSf, hf, hs, he, dsub, dlt, h]
    · simp [plain_sector, setSf, hf, hs, he, dsub, dlt, h, hsr, her]


/-! ### Frame lemmas -/

@[simp] theorem setSf_sf (sec : sector) (i j : Nat) (f : sector_frac) :
    (setSf sec i f).sf j = if j = i then f else sec.sf j := rfl
@[simp] theorem setSf_fused (sec : sector) (i : Nat) (f : sector_frac) :
    (setSf sec i f).fused = sec.fused := rfl
@[simp] theorem setSf_start (sec : sector) (i : Nat) (f : sector_frac) :
    (setSf sec i f).start = sec.start := rfl
@[simp] theorem setSf_end (sec : sector) (i : Nat) (f : sector_frac) :
    (setSf sec i f).end_ = sec.end_ := rfl
@[simp] theorem setSf_dir (sec : sector) (i : Nat) (f : sector_frac) :
    (setSf sec i f).dir = sec.dir := rfl
@[simp] theorem setSf_col0 (sec : sector) (i : Nat) (f : sector_frac) :
    (setSf sec i f).col0 = sec.col0 := rfl

theorem init_radius_sf (cfg : config) (sec : sector) (j : Nat) :
    (init_radius cfg sec).sf j =
      if j = 0 then { sec.sf 0 with r := ((init_radius cfg sec).sf 0).r } else sec.sf j := by
  conv_lhs => rw [init_radius_eq]
  rfl

@[simp] theorem init_radius_fused (cfg : config) (sec : sector) :
    (init_radius cfg sec).fused = sec.fused := by rw [init_radius_eq]; rfl
@[simp] theorem init_radius_start (cfg : config) (sec : sector) :
    (init_radius cfg sec).start = sec.start := by rw [init_radius_eq]; rfl
@[simp] theorem init_radius_end (cfg : config) (sec : sector) :
    (init_radius cfg sec).end_ = sec.end_ := by rw [init_radius_eq]; rfl
@[simp] theorem init_radius_dir (cfg : config) (sec : sector) :
    (init_radius cfg sec).dir = sec.dir := by rw [init_radius_eq]; rfl
@[simp] theorem init_radius_col0 (cfg : config) (sec : sector) :
    (init_radius cfg sec).col0 = sec.col0 := by rw [init_radius_eq]; rfl
@[simp] theorem init_radius_a (cfg : config) (sec : sector) (j : Nat) :
    ((init_radius cfg sec).sf j).a = (sec.sf j).a := by
  rw [init_radius_sf]; split_ifs with h <;> simp [h]
@[simp] theorem init_radius_type (cfg : config) (sec : sector) (j : Nat) :
    ((init_radius cfg sec).sf j).type = (sec.sf j).type := by
  rw [init_radius_sf]; split_ifs with h <;> simp [h]
@[simp] theorem init_radius_startr (cfg : config) (sec : sector) (j : Nat) :
    ((init_radius cfg sec).sf j).startr = (sec.sf j).startr := by
  rw [init_radius_sf]; split_ifs with h <;> simp [h]
@[simp] theorem init_radius_endr (cfg : config) (sec : sector) (j : Nat) :
    ((init_radius cfg sec).sf j).endr = (sec.sf j).endr := by
  rw [init_radius_sf]; split_ifs with h <;> simp [h]

/-- The part of `proc_sfrac` for a sector that is not directional and has raw
segments, after `init_radius`. -/
theorem proc_sfrac_raw (cfg : config) (sec : sector) (hdir : sec.dir = none)
    (hf : sec.fused ≠ 0) :
    proc_sfrac cfg sec =
      (let r1 := first_span (init_radius cfg sec)
       if r1.1 ≠ 0 then some r1
       else
         let s2 := first_segment r1.2
         let r3 := resolve_loop (s2.fused - 1) 1 s2
         if r3.1 ≠ 0 then some r3
         else
           match taper_loop (r3.2.fused + 2 * TAPER_SEGS) 0 r3.2 with
           | none => none
           | some r4 => if r4.1 ≠ 0 then some r4 else some (0, close_last r4.2)) := by
  unfold proc_sfrac
  simp [hdir, hf, isnan]


/-! ### The loop over the later segments -/

theorem resolve_step_fst (sec : sector) (i : Nat) :
    (resolve_step sec i).1 = if negspan (sec.sf i) = true ∧ sec.fused > i + 1 then -1 else 0 := by
  unfold resolve_step negspan
  by_cases h1 : isnan (sec.sf i).a = true
  · simp [h1]
  · by_cases h2 : dlt (sec.sf i).a (some 0) = true
    · by_cases h3 : sec.fused > i + 1
      · simp [h1, h2, h3]
      · simp [h1, h2, h3]
    · simp [h1, h2]

@[simp] theorem resolve_step_fused (sec : sector) (i : Nat) :
    (resolve_step sec i).2.fused = sec.fused := by
  unfold resolve_step
  simp only []
  split_ifs <;> rfl

@[simp] theorem resolve_step_start (sec : sector) (i : Nat) :
    (resolve_step sec i).2.start = sec.start := by
  unfold resolve_step
  simp only []
  split_ifs <;> rfl

@[simp] theorem resolve_step_end (sec : sector) (i : Nat) :
    (resolve_step sec i).2.end_ = sec.end_ := by
  unfold resolve_step
  simp only []
  split_ifs <;> rfl

/-- A step of the loop leaves the segments other than `i - 1` and `i` alone. -/
theorem resolve_step_sf_other (sec : sector) (i j : Nat) (h1 : j ≠ i) (h2 : j ≠ i - 1) :
    (resolve_step sec i).2.sf j = sec.sf j := by
  unfold resolve_step
  simp only []
  split_ifs <;> simp [h1, h2]

/-- A step of the loop changes at most the end of segment `i - 1`. -/
theorem resolve_step_sf_prev (sec : sector) (i : Nat) (h1 : 1 ≤ i) :
    (resolve_step sec i).2.sf (i - 1) =
      { sec.sf (i - 1) with end_ := ((resolve_step sec i).2.sf (i - 1)).end_ } := by
  have hne : i - 1 ≠ i := by omega
  unfold resolve_step
  simp only []
  split_ifs <;> simp [hne]


theorem resolve_step_type (sec : sector) (i : Nat) :
    ((resolve_step sec i).2.sf i).type =
      if (sec.sf i).type = ARC_UNDEF then (sec.sf (i - 1)).type else (sec.sf i).type := by
  unfold resolve_step
  simp only []
  split_ifs <;> simp_all

theorem resolve_step_startr (sec : sector) (i : Nat) :
    ((resolve_step sec i).2.sf i).startr = (sec.sf i).startr := by
  unfold resolve_step
  simp only []
  split_ifs <;> simp_all

/-- The step for a segment without a span: it takes the rest of the sector. -/
theorem resolve_step_nan (sec : sector) (i : Nat) (q : ℚ) (h1 : 1 ≤ i)
    (hp : (sec.sf (i - 1)).end_ = some q) (ha : (sec.sf i).a = none) :
    ((resolve_step sec i).2.sf i).start = some q ∧
    ((resolve_step sec i).2.sf i).end_ = sec.end_ ∧
    ((resolve_step sec i).2.sf (i - 1)).end_ = some q := by
  have hne : i - 1 ≠ i := by omega
  simp [resolve_step, ha, isnan, hp, hne]

/-- The step for a segment with a span `x ≥ 0`: the span is clamped to the rest
of the sector. -/
theorem resolve_step_pos (sec : sector) (i : Nat) (e q x : ℚ) (h1 : 1 ≤ i)
    (he : sec.end_ = some e)
    (hp : (sec.sf (i - 1)).end_ = some q) (ha : (sec.sf i).a = some x) (hx : 0 ≤ x) :
    ((resolve_step sec i).2.sf i).start = some q ∧
    ((resolve_step sec i).2.sf i).end_ = some (q + (if e < x + q then e - q else x)) ∧
    ((resolve_step sec i).2.sf (i - 1)).end_ = some q := by
  have hne : i - 1 ≠ i := by omega
  have hx' : ¬ x < 0 := not_lt.mpr hx
  by_cases hc : e < x + q
  · simp [resolve_step, ha, isnan, hp, hne, he, dlt, dgt, dadd, dsub, hx', hc]
  · simp [resolve_step, ha, isnan, hp, hne, he, dlt, dgt, dadd, dsub, hx', hc]

/-- The step for a last segment with a negative span `x`: it is measured back
from the end of the sector and the segment before it is cut there. -/
theorem resolve_step_neg (sec : sector) (i : Nat) (s e x : ℚ) (h1 : 1 ≤ i)
    (hs : sec.start = some s) (he : sec.end_ = some e)
    (ha : (sec.sf i).a = some x) (hx : x < 0) (hl : ¬ sec.fused > i + 1) :
    ((resolve_step sec i).2.sf i).start = some (e + max x (s - e)) ∧
    ((resolve_step sec i).2.sf i).end_ = some e ∧
    ((resolve_step sec i).2.sf (i - 1)).end_ = some (e + max x (s - e)) := by
  have hne : i - 1 ≠ i := by omega
  by_cases hc : x < s - e
  · simp [resolve_step, ha, isnan, hne, hs, he, dlt, dadd, dsub, hx, hc, hl,
      max_eq_right hc.le]
  · simp [resolve_step, ha, isnan, hne, hs, he, dlt, dadd, dsub, hx, hc, hl,
      max_eq_left (not_lt.mp hc)]


theorem resolve_loop_succ (n i : Nat) (sec : sector) :
    resolve_loop (n + 1) i sec =
      if (resolve_step sec i).1 = 0 then resolve_loop n (i + 1) (resolve_step sec i).2
      else resolve_step sec i := rfl

/-- The loop leaves `fused`, `start` and `end` of the sector alone. -/
theorem resolve_loop_frame (n : Nat) : ∀ (i : Nat) (sec : sector),
    (resolve_loop n i sec).2.fused = sec.fused ∧
    (resolve_loop n i sec).2.start = sec.start ∧
    (resolve_loop n i sec).2.end_ = sec.end_ := by
  induction n with
  | zero => intro i sec; exact ⟨rfl, rfl, rfl⟩
  | succ n ih =>
    intro i sec
    rw [resolve_loop_succ]
    split_ifs with h
    · obtain ⟨h1, h2, h3⟩ := ih (i + 1) (resolve_step sec i).2
      simp only [resolve_step_fused, resolve_step_start, resolve_step_end] at h1 h2 h3
      exact ⟨h1, h2, h3⟩
    · simp

/-- The loop over the indices `i .. i+n-1` leaves the segments from `i+n` on alone. -/
theorem resolve_loop_sf_later (n : Nat) : ∀ (i : Nat) (sec : sector) (j : Nat),
    i + n ≤ j → (resolve_loop n i sec).2.sf j = sec.sf j := by
  induction n with
  | zero => intro i sec j _; rfl
  | succ n ih =>
    intro i sec j hj
    rw [resolve_loop_succ]
    split_ifs with h
    · rw [ih (i + 1) _ j (by omega)]
      exact resolve_step_sf_other sec i j (by omega) (by omega)
    · exact resolve_step_sf_other sec i j (by omega) (by omega)

/-- The loop returns 0 or -1. -/
theorem resolve_loop_fst (n : Nat) : ∀ (i : Nat) (sec : sector),
    (resolve_loop n i sec).1 = 0 ∨ (resolve_loop n i sec).1 = -1 := by
  induction n with
  | zero => intro i sec; exact Or.inl rfl
  | succ n ih =>
    intro i sec
    rw [resolve_loop_succ]
    split_ifs with h
    · exact ih _ _
    · rw [resolve_step_fst] at h ⊢
      split_ifs at h ⊢ with hc
      · exact Or.inr rfl
      · exact absurd rfl h

/-- The loop returns 0 when no segment before the last one has a negative span. -/
theorem resolve_loop_ok (n : Nat) : ∀ (i : Nat) (sec : sector),
    (∀ j, i ≤ j → j < i + n → j + 1 < sec.fused → negspan (sec.sf j) = false) →
    (resolve_loop n i sec).1 = 0 := by
  induction n with
  | zero => intro i sec _; rfl
  | succ n ih =>
    intro i sec hall
    have h0 : (resolve_step sec i).1 = 0 := by
      rw [resolve_step_fst]
      split_ifs with hc
      · have := hall i le_rfl (by omega) hc.2
        rw [hc.1] at this
        exact absurd this (by decide)
      · rfl
    rw [resolve_loop_succ, if_pos h0]
    apply ih
    intro j h1 h2 h3
    rw [resolve_step_fused] at h3
    rw [resolve_step_sf_other sec i j (by omega) (by omega)]
    exact hall j (by omega) (by omega) h3

/-- The loop returns -1 when a segment before the last one has a negative span. -/
theorem resolve_loop_fail (n : Nat) : ∀ (i : Nat) (sec : sector) (j : Nat),
    i ≤ j → j < i + n → j + 1 < sec.fused → negspan (sec.sf j) = true →
    (resolve_loop n i sec).1 = -1 := by
  induction n with
  | zero => intro i sec j h1 h2; omega
  | succ n ih =>
    intro i sec j h1 h2 h3 h4
    rw [resolve_loop_succ]
    split_ifs with h
    · have hij : i ≠ j := by
        intro hij
        subst hij
        rw [resolve_step_fst, if_pos ⟨h4, h3⟩] at h
        exact absurd h (by decide)
      apply ih (i + 1) _ j (by omega) (by omega)
      · rw [resolve_step_fused]; exact h3
      · rw [resolve_step_sf_other sec i j (by omega) (by omega)]; exact h4
    · rw [resolve_step_fst] at h ⊢
      split_ifs at h ⊢ with hc
      · rfl
      · exact absurd rfl h

/-- The last iteration of the loop, split off. -/
theorem resolve_loop_last (n : Nat) : ∀ (i : Nat) (sec : sector),
    resolve_loop (n + 1) i sec =
      if (resolve_loop n i sec).1 = 0 then resolve_step (resolve_loop n i sec).2 (i + n)
      else resolve_loop n i sec := by
  induction n with
  | zero =>
    intro i sec
    rw [resolve_loop_succ]
    simp only [resolve_loop, if_true, Nat.add_zero]
    split_ifs with h
    · exact Prod.ext h.symm rfl
    · rfl
  | succ n ih =>
    intro i sec
    by_cases h : (resolve_step sec i).1 = 0
    · have e1 : resolve_loop (n + 1 + 1) i sec =
          resolve_loop (n + 1) (i + 1) (resolve_step sec i).2 := by
        rw [resolve_loop_succ, if_pos h]
      have e2 : resolve_loop (n + 1) i sec = resolve_loop n (i + 1) (resolve_step sec i).2 := by
        rw [resolve_loop_succ, if_pos h]
      rw [e1, e2, ih, show i + 1 + n = i + (n + 1) by omega]
    · have e1 : resolve_loop (n + 1 + 1) i sec = resolve_step sec i := by
        rw [resolve_loop_succ, if_neg h]
      have e2 : resolve_loop (n + 1) i sec = resolve_step sec i := by
        rw [resolve_loop_succ, if_neg h]
      rw [e1, e2, if_neg h]

/-! ### Segment 0 -/

theorem first_span_fst (sec : sector) :
    (first_span sec).1 = if negspan (sec.sf 0) = true ∧ sec.fused > 1 then -1 else 0 := by
  unfold first_span negspan
  by_cases h1 : isnan (sec.sf 0).a = true
  · simp [h1]
  · by_cases h2 : dlt (sec.sf 0).a (some 0) = true
    · by_cases h3 : sec.fused > 1
      · simp [h1, h2, h3]
      · simp [h1, h2, h3]
    · simp [h1, h2]

@[simp] theorem first_span_start (sec : sector) : (first_span sec).2.start = sec.start := by
  unfold first_span
  simp only []
  split_ifs <;> rfl

@[simp] theorem first_span_end (sec : sector) : (first_span sec).2.end_ = sec.end_ := by
  unfold first_span
  simp only []
  split_ifs <;> rfl

@[simp] theorem first_span_col0 (sec : sector) : (first_span sec).2.col0 = sec.col0 := by
  unfold first_span
  simp only []
  split_ifs <;> rfl

/-- With two or more raw segments `first_span` changes segment 0 only and
keeps the number of segments. -/
theorem first_span_many (sec : sector) (hk : 2 ≤ sec.fused) :
    (first_span sec).2.fused = sec.fused ∧
    ∀ j, 1 ≤ j → (first_span sec).2.sf j = sec.sf j := by
  have hk' : sec.fused > 1 := hk
  have hk0 : ∀ j, 1 ≤ j → j ≠ 0 := fun j hj => by omega
  unfold first_span
  simp only []
  split_ifs
  · exact ⟨rfl, fun j hj => by simp [hk0 j hj]⟩
  · exact ⟨rfl, fun j _ => rfl⟩
  · exact ⟨rfl, fun j _ => rfl⟩

@[simp] theorem first_segment_fused (sec : sector) : (first_segment sec).fused = sec.fused := rfl
@[simp] theorem first_segment_start (sec : sector) : (first_segment sec).start = sec.start := rfl
@[simp] theorem first_segment_end (sec : sector) : (first_segment sec).end_ = sec.end_ := rfl
theorem first_segment_sf_later (sec : sector) (j : Nat) (hj : 1 ≤ j) :
    (first_segment sec).sf j = sec.sf j := by
  have : j ≠ 0 := by omega
  simp [first_segment, this]

/-- C7: in a non-directional sector with two or more raw segments, a negative
span on a raw segment that is not the last one makes `proc_sfrac` return -1
(InvalidSegmentAngle). -/
theorem proc_sfrac_negative_not_last (cfg : config) (sec : sector) (j : Nat) (x : ℚ)
    (hdir : sec.dir = none) (hk : 2 ≤ sec.fused) (hj : j + 1 < sec.fused)
    (ha : (sec.sf j).a = some x) (hx : x < 0) :
    ∃ res : sector, proc_sfrac cfg sec = some (-1, res) := by
  have hneg : negspan ((init_radius cfg sec).sf j) = true := by
    simp [negspan, ha, isnan, dlt, hx]
  have hk0 : 2 ≤ (init_radius cfg sec).fused := by simpa using hk
  rw [proc_sfrac_raw cfg sec hdir (by omega)]
  simp only []
  by_cases h1 : (first_span (init_radius cfg sec)).1 = 0
  · have hj0 : 1 ≤ j := by
      by_contra hc
      have hj0 : j = 0 := by omega
      subst hj0
      rw [first_span_fst, if_pos ⟨hneg, hk0⟩] at h1
      exact absurd h1 (by decide)
    obtain ⟨hfu, hsf⟩ := first_span_many _ hk0
    have hfu' : (first_span (init_radius cfg sec)).2.fused = sec.fused := by simpa using hfu
    have h3 : (resolve_loop ((first_segment (first_span (init_radius cfg sec)).2).fused - 1) 1
        (first_segment (first_span (init_radius cfg sec)).2)).1 = -1 := by
      apply resolve_loop_fail _ 1 _ j hj0
      · simp only [first_segment_fused, hfu']; omega
      · simp only [first_segment_fused, hfu']; exact hj
      · rw [first_segment_sf_later _ j hj0, hsf j hj0]; exact hneg
    refine ⟨(resolve_loop ((first_segment (first_span (init_radius cfg sec)).2).fused - 1) 1
        (first_segment (first_span (init_radius cfg sec)).2)).2, ?_⟩
    rw [if_neg (by simpa using h1), if_pos (by rw [h3]; decide)]
    exact congrArg some (Prod.ext h3 rfl)
  · have h1' : (first_span (init_radius cfg sec)).1 = -1 := by
      rw [first_span_fst] at h1 ⊢
      split_ifs at h1 ⊢ with hc
      · rfl
      · exact absurd rfl h1
    refine ⟨(first_span (init_radius cfg sec)).2, ?_⟩
    rw [if_pos h1]
    exact congrArg some (Prod.ext h1' rfl)

/-! ### Sectors without tapering segments -/

theorem tapering_solid : tapering ARC_SOLID = false := by decide

theorem notaper_init_radius (cfg : config) (sec : sector) (h : notaper sec) :
    notaper (init_radius cfg sec) := by
  intro j hj
  rw [init_radius_type]
  exact h j (by simpa using hj)

theorem notaper_first_span (sec : sector) (hk : 1 ≤ sec.fused) (h : notaper sec) :
    notaper (first_span sec).2 := by
  unfold first_span
  by_cases h1 : isnan (sec.sf 0).a = true
  · simp only [h1, if_true]
    intro j hj
    have := h j hj
    by_cases h0 : j = 0
    · subst h0; simpa using this
    · simpa [h0] using this
  · by_cases h2 : dlt (sec.sf 0).a (some 0) = true
    · by_cases h3 : sec.fused > 1
      · simp only [h1, h2, h3, if_true, if_false, Bool.false_eq_true]
        exact h
      · simp only [h1, h2, h3, if_true, if_false, Bool.false_eq_true]
        intro j hj
        have hfu : sec.fused = 1 := by omega
        simp only [setSf_fused, hfu] at hj
        have hj' : j = 0 ∨ j = 1 := by omega
        rcases hj' with h0 | h0
        · subst h0; simp [tapering_solid]
        · subst h0
          simpa using h 0 (by omega)
    · simp only [h1, h2, if_false, Bool.false_eq_true]
      exact h

theorem notaper_first_segment (sec : sector) (h : notaper sec) :
    notaper (first_segment sec) := by
  intro j hj
  have := h j hj
  by_cases h0 : j = 0
  · subst h0
    simp only [first_segment, setSf_sf, if_true]
    split_ifs
    · exact tapering_solid
    · exact this
  · rw [first_segment_sf_later _ j (by omega)]; exact this

theorem notaper_resolve_step (sec : sector) (i : Nat) (h : notaper sec) :
    notaper (resolve_step sec i).2 := by
  intro j hj
  rw [resolve_step_fused] at hj
  by_cases hji : j = i
  · subst hji
    rw [resolve_step_type]
    split_ifs
    · exact h (j - 1) (by omega)
    · exact h j hj
  · by_cases hjp : j = i - 1
    · have h1 : 1 ≤ i := by omega
      rw [hjp, resolve_step_sf_prev sec i h1]
      exact h (i - 1) (by omega)
    · rw [resolve_step_sf_other sec i j hji hjp]
      exact h j hj

theorem notaper_resolve_loop (n : Nat) : ∀ (i : Nat) (sec : sector), notaper sec →
    notaper (resolve_loop n i sec).2 := by
  induction n with
  | zero => intro i sec h; exact h
  | succ n ih =>
    intro i sec h
    rw [resolve_loop_succ]
    split_ifs
    · exact ih _ _ (notaper_resolve_step sec i h)
    · exact notaper_resolve_step sec i h

/-- Without tapering segments the tapering loop changes nothing. -/
theorem taper_loop_notaper (fuel : Nat) : ∀ (i : Nat) (sec : sector), notaper sec →
    sec.fused - i < fuel → taper_loop fuel i sec = some (0, sec) := by
  induction fuel with
  | zero => intro i sec _ h; omega
  | succ fuel ih =>
    intro i sec h hfu
    unfold taper_loop
    split_ifs with h1 h2 h3
    · exact ih (i + 1) sec h (by omega)
    · exfalso
      have := h i h1
      simp only [tapering, Bool.or_eq_false_iff, beq_eq_false_iff_ne] at this
      exact h2 this
    · exfalso
      have := h i h1
      simp only [tapering, Bool.or_eq_false_iff, beq_eq_false_iff_ne] at this
      exact h2 this
    · rfl

/-! ### Contiguity of the resolved segments -/

theorem resolve_step_start_of_ne (sec : sector) (i j : Nat) (hj : j ≠ i) :
    ((resolve_step sec i).2.sf j).start = (sec.sf j).start := by
  by_cases hjp : j = i - 1
  · rw [hjp, resolve_step_sf_prev sec i (by omega)]
  · rw [resolve_step_sf_other sec i j hj hjp]

theorem chain_extend (s e : ℚ) (i : Nat) (sec : sector) (hc : Chain s e i sec) (h1 : 1 ≤ i)
    (q q2 : ℚ) (hp : ((resolve_step sec i).2.sf (i - 1)).end_ = some q)
    (hst : ((resolve_step sec i).2.sf i).start = some q)
    (hen : ((resolve_step sec i).2.sf i).end_ = some q2) (hq2 : q2 ≤ e) :
    Chain s e (i + 1) (resolve_step sec i).2 := by
  refine ⟨by rw [resolve_step_start]; exact hc.hstart, by rw [resolve_step_end]; exact hc.hend,
    ?_, ?_, ⟨q2, hen, hq2⟩⟩
  · rw [resolve_step_start_of_ne sec i 0 (by omega)]; exact hc.first
  · intro m hm
    by_cases hmi : m + 1 < i
    · obtain ⟨q', h1', h2'⟩ := hc.link m hmi
      refine ⟨q', ?_, ?_⟩
      · rw [resolve_step_sf_other sec i m (by omega) (by omega)]; exact h1'
      · rw [resolve_step_start_of_ne sec i (m + 1) (by omega)]; exact h2'
    · have hmi' : m = i - 1 := by omega
      have hmi2 : m + 1 = i := by omega
      rw [hmi2, hmi']
      exact ⟨q, hp, hst⟩

theorem chain_resolve_step (s e : ℚ) (i : Nat) (sec : sector) (hc : Chain s e i sec)
    (h1 : 1 ≤ i) (h0 : (resolve_step sec i).1 = 0) :
    Chain s e (i + 1) (resolve_step sec i).2 := by
  obtain ⟨q, hq, hqe⟩ := hc.last
  cases ha : (sec.sf i).a with
  | none =>
    obtain ⟨a1, a2, a3⟩ := resolve_step_nan sec i q h1 hq ha
    rw [hc.hend] at a2
    exact chain_extend s e i sec hc h1 q e a3 a1 a2 le_rfl
  | some x =>
    by_cases hx : x < 0
    · have hl : ¬ sec.fused > i + 1 := by
        intro hl
        rw [resolve_step_fst, if_pos ⟨by simp [negspan, ha, isnan, dlt, hx], hl⟩] at h0
        exact absurd h0 (by decide)
      obtain ⟨a1, a2, a3⟩ := resolve_step_neg sec i s e x h1 hc.hstart hc.hend ha hx hl
      exact chain_extend s e i sec hc h1 _ e a3 a1 a2 le_rfl
    · obtain ⟨a1, a2, a3⟩ := resolve_step_pos sec i e q x h1 hc.hend hq ha (not_lt.mp hx)
      refine chain_extend s e i sec hc h1 q _ a3 a1 a2 ?_
      split_ifs with hcl
      · linarith
      · linarith

theorem chain_resolve_loop (s e : ℚ) (n : Nat) : ∀ (i : Nat) (sec : sector),
    Chain s e i sec → 1 ≤ i → (resolve_loop n i sec).1 = 0 →
    Chain s e (i + n) (resolve_loop n i sec).2 := by
  induction n with
  | zero => intro i sec hc _ _; exact hc
  | succ n ih =>
    intro i sec hc h1 h0
    rw [resolve_loop_succ] at h0 ⊢
    by_cases hs0 : (resolve_step sec i).1 = 0
    · rw [if_pos hs0] at h0 ⊢
      have := ih (i + 1) _ (chain_resolve_step s e i sec hc h1 hs0) (by omega) h0
      rw [show i + (n + 1) = i + 1 + n by omega]
      exact this
    · rw [if_neg hs0] at h0
      exact absurd h0 hs0

/-- After `first_span` has succeeded the span of segment 0 is a number. -/
theorem first_span_a (sec : sector) (s e : ℚ) (hs : sec.start = some s) (he : sec.end_ = some e)
    (h0 : (first_span sec).1 = 0) : ∃ y, ((first_span sec).2.sf 0).a = some y := by
  unfold first_span at h0 ⊢
  cases ha : (sec.sf 0).a with
  | none => simp [ha, isnan, hs, he, dsub]
  | some x =>
    by_cases hx : x < 0
    · by_cases h3 : sec.fused > 1
      · simp [ha, isnan, dlt, hx, h3] at h0
      · by_cases hcl : x < s - e
        · simp [ha, isnan, dlt, hx, h3, hs, he, dsub, dadd, hcl]
        · simp [ha, isnan, dlt, hx, h3, hs, he, dsub, dadd, hcl]
    · simp [ha, isnan, dlt, hx]

theorem chain_first_segment (sec : sector) (s e y : ℚ) (hs : sec.start = some s)
    (he : sec.end_ = some e) (ha : (sec.sf 0).a = some y) :
    Chain s e 1 (first_segment sec) := by
  refine ⟨hs, he, by simp [first_segment, hs], fun m hm => by omega, ?_⟩
  by_cases hc : e - s < y
  · exact ⟨e, by simp [first_segment, hs, he, ha, dgt, dlt, dsub, dadd, hc], le_rfl⟩
  · exact ⟨s + y, by simp [first_segment, hs, he, ha, dgt, dlt, dsub, dadd, hc],
      by linarith⟩

@[simp] theorem close_last_fused (sec : sector) : (close_last sec).fused = sec.fused := rfl

theorem close_last_sf_other (sec : sector) (j : Nat) (hj : j ≠ sec.fused - 1) :
    (close_last sec).sf j = sec.sf j := by
  simp [close_last, hj]

theorem close_last_start (sec : sector) (j : Nat) :
    ((close_last sec).sf j).start = (sec.sf j).start := by
  by_cases hj : j = sec.fused - 1
  · subst hj; simp [close_last]
  · rw [close_last_sf_other sec j hj]

/-- Closing a chain that reaches the last segment gives the resolved list. -/
theorem chain_close_last (s e : ℚ) (sec : sector) (hc : Chain s e sec.fused sec) :
    (∀ i, i + 1 < (close_last sec).fused →
      ∃ q, ((close_last sec).sf i).end_ = some q ∧ ((close_last sec).sf (i + 1)).start = some q) ∧
    ((close_last sec).sf 0).start = some s ∧
    ((close_last sec).sf ((close_last sec).fused - 1)).end_ = some e := by
  refine ⟨?_, by rw [close_last_start]; exact hc.first, ?_⟩
  · intro i hi
    rw [close_last_fused] at hi
    obtain ⟨q, h1, h2⟩ := hc.link i hi
    exact ⟨q, by rw [close_last_sf_other sec i (by omega)]; exact h1,
      by rw [close_last_start]; exact h2⟩
  · obtain ⟨q, hq, hqe⟩ := hc.last
    by_cases hlt : q < e
    · simp [close_last, hq, hc.hend, dlt, hlt]
    · have : q = e := le_antisymm hqe (not_lt.mp hlt)
      simp [close_last, hq, hc.hend, dlt, this]

/-! ### The three ways through `proc_sfrac` -/

theorem first_span_fused_le (sec : sector) : sec.fused ≤ (first_span sec).2.fused := by
  unfold first_span
  by_cases h1 : isnan (sec.sf 0).a = true
  · simp [h1]
  · by_cases h2 : dlt (sec.sf 0).a (some 0) = true
    · by_cases h3 : sec.fused > 1
      · simp [h1, h2, h3]
      · simp [h1, h2, h3]
    · simp [h1, h2]

theorem directional_path_eq (cfg : config) (sec : sector) (d : ℚ) (hd : sec.dir = some d) :
    proc_sfrac cfg sec = some (0, directional cfg (init_radius cfg sec)) := by
  unfold proc_sfrac
  simp [hd, isnan]

theorem plain_path_eq (cfg : config) (sec : sector) (hd : sec.dir = none)
    (hf : sec.fused = 0) :
    proc_sfrac cfg sec = some (0, plain_sector cfg (init_radius cfg sec)) := by
  unfold proc_sfrac
  simp [hd, hf, isnan]

/-- The way of a sector with raw segments and without tapering through
`proc_sfrac`, when the two loops return 0. -/
theorem proc_sfrac_raw_notaper (cfg : config) (sec : sector) (hdir : sec.dir = none)
    (hf : sec.fused ≠ 0) (hnt : notaper sec)
    (h1 : (first_span (init_radius cfg sec)).1 = 0)
    (h3 : (resolve_loop ((first_segment (first_span (init_radius cfg sec)).2).fused - 1) 1
      (first_segment (first_span (init_radius cfg sec)).2)).1 = 0) :
    proc_sfrac cfg sec = some (0, close_last
      (resolve_loop ((first_segment (first_span (init_radius cfg sec)).2).fused - 1) 1
        (first_segment (first_span (init_radius cfg sec)).2)).2) := by
  have hnt3 := notaper_resolve_loop
    ((first_segment (first_span (init_radius cfg sec)).2).fused - 1) 1 _
    (notaper_first_segment _ (notaper_first_span _ (by simp; omega)
      (notaper_init_radius cfg sec hnt)))
  rw [proc_sfrac_raw cfg sec hdir hf]
  simp only []
  rw [if_neg (by simpa using h1), if_neg (by simpa using h3),
    taper_loop_notaper _ 0 _ hnt3 (by simp [TAPER_SEGS])]
  simp

/-- The return value of `proc_sfrac` for a sector with raw segments. -/
theorem proc_sfrac_raw_ret (cfg : config) (sec : sector) (hdir : sec.dir = none)
    (hf : sec.fused ≠ 0) (hret : (proc_sfrac cfg sec).map Prod.fst = some 0) :
    (first_span (init_radius cfg sec)).1 = 0 ∧
    (resolve_loop ((first_segment (first_span (init_radius cfg sec)).2).fused - 1) 1
      (first_segment (first_span (init_radius cfg sec)).2)).1 = 0 := by
  rw [proc_sfrac_raw cfg sec hdir hf] at hret
  simp only [] at hret
  by_cases h1 : (first_span (init_radius cfg sec)).1 = 0
  · refine ⟨h1, ?_⟩
    rw [if_neg (by simpa using h1)] at hret
    by_contra h3
    rw [if_pos h3] at hret
    simp at hret
    exact h3 hret
  · rw [if_pos h1] at hret
    simp at hret
    exact absurd hret h1

/-- The resolved list of a sector with raw segments and without tapering. -/
theorem proc_sfrac_raw_chain (cfg : config) (sec : sector) (s e : ℚ)
    (hs : sec.start = some s) (he : sec.end_ = some e) (hdir : sec.dir = none)
    (hf : sec.fused ≠ 0) (hnt : notaper sec)
    (hret : (proc_sfrac cfg sec).map Prod.fst = some 0) :
    ∃ mid : sector, proc_sfrac cfg sec = some (0, close_last mid) ∧ Chain s e mid.fused mid := by
  obtain ⟨h1, h3⟩ := proc_sfrac_raw_ret cfg sec hdir hf hret
  refine ⟨_, proc_sfrac_raw_notaper cfg sec hdir hf hnt h1 h3, ?_⟩
  obtain ⟨y, hy⟩ := first_span_a (init_radius cfg sec) s e (by simpa using hs)
    (by simpa using he) h1
  have hc1 := chain_first_segment (first_span (init_radius cfg sec)).2 s e y
    (by simpa using hs) (by simpa using he) hy
  have hfu : 1 ≤ (first_segment (first_span (init_radius cfg sec)).2).fused := by
    have := first_span_fused_le (init_radius cfg sec)
    simp only [init_radius_fused, first_segment_fused] at this ⊢
    omega
  have hc := chain_resolve_loop s e _ 1 _ hc1 le_rfl h3
  rw [(resolve_loop_frame _ 1 _).1]
  rw [show 1 + ((first_segment (first_span (init_radius cfg sec)).2).fused - 1) =
    (first_segment (first_span (init_radius cfg sec)).2).fused by omega] at hc
  exact hc

/-! ### A single raw segment with a negative span -/

theorem close_last_type (sec : sector) (j : Nat) :
    ((close_last sec).sf j).type = (sec.sf j).type := by
  by_cases hj : j = sec.fused - 1
  · subst hj; simp [close_last]
  · rw [close_last_sf_other sec j hj]

theorem close_last_end_last (sec : sector) (e q : ℚ) (he : sec.end_ = some e)
    (hq : (sec.sf (sec.fused - 1)).end_ = some q) (hqe : q ≤ e) :
    ((close_last sec).sf (sec.fused - 1)).end_ = some e := by
  by_cases hlt : q < e
  · simp [close_last, hq, he, dlt, hlt]
  · have : q = e := le_antisymm hqe (not_lt.mp hlt)
    simp [close_last, hq, he, dlt, this]

/-- What `first_span` does with a single raw segment of negative span `a`. -/
theorem first_span_neg (sec : sector) (s e a : ℚ) (hf : sec.fused = 1)
    (hs : sec.start = some s) (he : sec.end_ = some e)
    (ha : (sec.sf 0).a = some a) (hneg : a < 0) :
    (first_span sec).1 = 0 ∧ (first_span sec).2.fused = 2 ∧
    ((first_span sec).2.sf 0).a = some (max a (s - e) + e - s) ∧
    ((first_span sec).2.sf 0).type = ARC_SOLID ∧
    ((first_span sec).2.sf 1).a = some (max a (s - e)) ∧
    ((first_span sec).2.sf 1).type = (sec.sf 0).type := by
  unfold first_span
  by_cases hc : a < s - e
  · simp [ha, isnan, dlt, hneg, hf, hs, he, dsub, dadd, hc, max_eq_right hc.le]
  · simp [ha, isnan, dlt, hneg, hf, hs, he, dsub, dadd, hc, max_eq_left (not_lt.mp hc)]

/-- C8: a non-directional sector (start ≤ end) whose only raw segment has a
negative span `a` and a style `t` that is not tapering is resolved into exactly
two segments, `[start, end - m]` solid and `[end - m, end]` of style `t` (solid
when `t` is undefined), where `m = min (-a) (end - start)`; `proc_sfrac`
returns 0. -/
theorem proc_sfrac_negative_single (cfg : config) (sec : sector) (s e a : ℚ) (t : Nat)
    (hdir : sec.dir = none) (hf : sec.fused = 1)
    (hs : sec.start = some s) (he : sec.end_ = some e) (hse : s ≤ e)
    (ha : (sec.sf 0).a = some a) (hneg : a < 0)
    (ht : (sec.sf 0).type = t) (hnt : tapering t = false) :
    ∃ res : sector, proc_sfrac cfg sec = some (0, res) ∧ res.fused = 2 ∧
      (res.sf 0).start = some s ∧ (res.sf 0).end_ = some (e - min (-a) (e - s)) ∧
      (res.sf 0).type = ARC_SOLID ∧
      (res.sf 1).start = some (e - min (-a) (e - s)) ∧ (res.sf 1).end_ = some e ∧
      (res.sf 1).type = (if t = ARC_UNDEF then ARC_SOLID else t) := by
  subst ht
  have hnotaper : notaper sec := by
    intro j hj
    have : j = 0 := by omega
    subst this
    exact hnt
  obtain ⟨f1, f2, f3, f4, f5, f6⟩ := first_span_neg (init_radius cfg sec) s e a
    (by simpa using hf) (by simpa using hs) (by simpa using he) (by simpa using ha) hneg
  rw [init_radius_type] at f6
  -- the sector after `first_segment`
  have hm : e + max a (s - e) = e - min (-a) (e - s) := by
    rcases le_total a (s - e) with h | h
    · rw [max_eq_right h, min_eq_right (by linarith)]; ring
    · rw [max_eq_left h, min_eq_left (by linarith)]; ring
  have g0a : ((first_segment (first_span (init_radius cfg sec)).2).sf 0).end_ =
      some (e + max a (s - e)) := by
    have hcl : ¬ (e - s < max a (s - e) + e - s) := by
      have : max a (s - e) ≤ 0 := max_le hneg.le (by linarith)
      linarith
    simp only [first_segment, setSf_sf, if_true, first_span_start, first_span_end,
      init_radius_start, init_radius_end, hs, he, f3, dgt, dlt, dsub, dadd, hcl,
      decide_False, Bool.false_eq_true, if_false]
    congr 1; ring
  have g0t : ((first_segment (first_span (init_radius cfg sec)).2).sf 0).type = ARC_SOLID := by
    simp [first_segment, f4, ARC_SOLID, ARC_UNDEF]
  have g1 : (first_segment (first_span (init_radius cfg sec)).2).sf 1 =
      (first_span (init_radius cfg sec)).2.sf 1 := first_segment_sf_later _ 1 le_rfl
  have gfu : (first_segment (first_span (init_radius cfg sec)).2).fused = 2 := by
    rw [first_segment_fused, f2]
  have gs : (first_segment (first_span (init_radius cfg sec)).2).start = some s := by
    simpa using hs
  have ge : (first_segment (first_span (init_radius cfg sec)).2).end_ = some e := by
    simpa using he
  have gloop : resolve_loop ((first_segment (first_span (init_radius cfg sec)).2).fused - 1) 1
      (first_segment (first_span (init_radius cfg sec)).2) =
      (0, (resolve_step (first_segment (first_span (init_radius cfg sec)).2) 1).2) := by
    have h0 : (resolve_step (first_segment (first_span (init_radius cfg sec)).2) 1).1 = 0 := by
      rw [resolve_step_fst, if_neg (by rw [gfu]; omega)]
    rw [gfu, show 2 - 1 = 0 + 1 from rfl, resolve_loop_succ, if_pos h0]
    rfl
  have h3 : (resolve_loop ((first_segment (first_span (init_radius cfg sec)).2).fused - 1) 1
      (first_segment (first_span (init_radius cfg sec)).2)).1 = 0 := by rw [gloop]
  have hres := proc_sfrac_raw_notaper cfg sec hdir (by omega) hnotaper f1 h3
  rw [gloop] at hres
  -- the step for segment 1
  have hstep : ((resolve_step (first_segment (first_span (init_radius cfg sec)).2) 1).2.sf 1).start
        = some (e + max a (s - e)) ∧
      ((resolve_step (first_segment (first_span (init_radius cfg sec)).2) 1).2.sf 1).end_ = some e ∧
      ((resolve_step (first_segment (first_span (init_radius cfg sec)).2) 1).2.sf (1 - 1)).end_
        = some (e + max a (s - e)) := by
    by_cases hx : max a (s - e) < 0
    · have := resolve_step_neg (first_segment (first_span (init_radius cfg sec)).2) 1 s e
        (max a (s - e)) le_rfl gs ge (by rw [g1, f5]) hx (by rw [gfu]; omega)
      rwa [max_eq_left (le_max_right a (s - e))] at this
    · have hx0 : max a (s - e) = 0 :=
        le_antisymm (max_le hneg.le (by linarith)) (not_lt.mp hx)
      have := resolve_step_pos (first_segment (first_span (init_radius cfg sec)).2) 1 e
        (e + max a (s - e)) (max a (s - e)) le_rfl ge g0a (by rw [g1, f5]) (not_lt.mp hx)
      rw [hx0] at this ⊢
      simpa using this
  obtain ⟨k1, k2, k3⟩ := hstep
  have kfu : (resolve_step (first_segment (first_span (init_radius cfg sec)).2) 1).2.fused = 2 := by
    rw [resolve_step_fused, gfu]
  have kt0 : ((resolve_step (first_segment (first_span (init_radius cfg sec)).2) 1).2.sf 0).type
      = ARC_SOLID := by
    have := resolve_step_sf_prev (first_segment (first_span (init_radius cfg sec)).2) 1 le_rfl
    rw [show 1 - 1 = 0 from rfl] at this
    rw [this]
    exact g0t
  have kt1 : ((resolve_step (first_segment (first_span (init_radius cfg sec)).2) 1).2.sf 1).type
      = (if (sec.sf 0).type = ARC_UNDEF then ARC_SOLID else (sec.sf 0).type) := by
    rw [resolve_step_type, g1, f6, show 1 - 1 = 0 from rfl, g0t]
  have ks0 : ((resolve_step (first_segment (first_span (init_radius cfg sec)).2) 1).2.sf 0).start
      = some s := by
    rw [resolve_step_start_of_ne _ 1 0 (by omega)]
    simp [first_segment, hs]
  have ke : (resolve_step (first_segment (first_span (init_radius cfg sec)).2) 1).2.end_
      = some e := by rw [resolve_step_end]; exact ge
  rw [show (1 : Nat) - 1 = 0 from rfl] at k3
  generalize (resolve_step (first_segment (first_span (init_radius cfg sec)).2) 1).2 = S at *
  have hres' : proc_sfrac cfg sec = some (0, close_last S) := hres
  refine ⟨_, hres', kfu, ?_, ?_, ?_, ?_, ?_, ?_⟩
  · rw [close_last_start]; exact ks0
  · rw [close_last_sf_other _ 0 (by omega), ← hm]
    exact k3
  · rw [close_last_type]; exact kt0
  · rw [close_last_start, ← hm]; exact k1
  · have := close_last_end_last S e e ke (by rw [kfu]; exact k2) le_rfl
    rwa [kfu] at this
  · rw [close_last_type]; exact kt1

/-! ### A negative span on the last of several raw segments -/

/-- C9: in a non-directional sector (start ≤ end) with two or more raw
segments, none of a tapering style, of which only the last has a negative span
`-x` with `0 < x ≤ end - start`, `proc_sfrac` returns 0, the last resolved
segment is `[end - x, end]` and the segment before it ends at `end - x`. -/
theorem proc_sfrac_negative_last (cfg : config) (sec : sector) (s e x : ℚ)
    (hdir : sec.dir = none) (hk : 2 ≤ sec.fused)
    (hs : sec.start = some s) (he : sec.end_ = some e) (_hse : s ≤ e)
    (hnt : ∀ j, j < sec.fused → tapering (sec.sf j).type = false)
    (hpos : ∀ j, j < sec.fused - 1 → negspan (sec.sf j) = false)
    (hlast : (sec.sf (sec.fused - 1)).a = some (-x)) (hx0 : 0 < x) (hxe : x ≤ e - s) :
    ∃ res : sector, proc_sfrac cfg sec = some (0, res) ∧ res.fused = sec.fused ∧
      (res.sf (res.fused - 1)).start = some (e - x) ∧
      (res.sf (res.fused - 1)).end_ = some e ∧
      (res.sf (res.fused - 2)).end_ = some (e - x) := by
  have hk0 : 2 ≤ (init_radius cfg sec).fused := by simpa using hk
  obtain ⟨hfu, hsf⟩ := first_span_many (init_radius cfg sec) hk0
  rw [init_radius_fused] at hfu
  have h1 : (first_span (init_radius cfg sec)).1 = 0 := by
    rw [first_span_fst, if_neg]
    intro hc
    have := hpos 0 (by omega)
    simp only [negspan, init_radius_a] at this hc
    rw [hc.1] at this
    exact absurd this (by decide)
  have gfu : (first_segment (first_span (init_radius cfg sec)).2).fused = sec.fused := by
    rw [first_segment_fused, hfu]
  have graw : ∀ j, 1 ≤ j → (first_segment (first_span (init_radius cfg sec)).2).sf j
      = (init_radius cfg sec).sf j := by
    intro j hj
    rw [first_segment_sf_later _ j hj, hsf j hj]
  -- all iterations but the last one
  have hmid0 : (resolve_loop (sec.fused - 2) 1
      (first_segment (first_span (init_radius cfg sec)).2)).1 = 0 := by
    apply resolve_loop_ok
    intro j hj1 hj2 _
    rw [graw j hj1]
    have := hpos j (by omega)
    simpa [negspan] using this
  obtain ⟨mfu, mst, men⟩ := resolve_loop_frame (sec.fused - 2) 1
    (first_segment (first_span (init_radius cfg sec)).2)
  have mlast := resolve_loop_sf_later (sec.fused - 2) 1
    (first_segment (first_span (init_radius cfg sec)).2) (sec.fused - 1) (by omega)
  rw [graw _ (by omega)] at mlast
  rw [gfu] at mfu
  simp only [first_segment_start, first_segment_end, first_span_start, first_span_end,
    init_radius_start, init_radius_end] at mst men
  have hloop : resolve_loop ((first_segment (first_span (init_radius cfg sec)).2).fused - 1) 1
      (first_segment (first_span (init_radius cfg sec)).2) =
      resolve_step (resolve_loop (sec.fused - 2) 1
        (first_segment (first_span (init_radius cfg sec)).2)).2 (sec.fused - 1) := by
    rw [gfu, show sec.fused - 1 = (sec.fused - 2) + 1 by omega, resolve_loop_last,
      if_pos hmid0, show 1 + (sec.fused - 2) = sec.fused - 2 + 1 by omega]
  have hnotaper : notaper sec := hnt
  generalize (resolve_loop (sec.fused - 2) 1
    (first_segment (first_span (init_radius cfg sec)).2)).2 = M at *
  have ha : (M.sf (sec.fused - 1)).a = some (-x) := by
    rw [mlast, init_radius_a]; exact hlast
  have hstep0 : (resolve_step M (sec.fused - 1)).1 = 0 := by
    rw [resolve_step_fst, if_neg (by rw [mfu]; omega)]
  obtain ⟨k1, k2, k3⟩ := resolve_step_neg M (sec.fused - 1) s e (-x) (by omega)
    (by rw [mst]; exact hs) (by rw [men]; exact he) ha (by linarith) (by rw [mfu]; omega)
  rw [max_eq_left (by linarith), ← sub_eq_add_neg] at k1 k3
  have h3 : (resolve_loop ((first_segment (first_span (init_radius cfg sec)).2).fused - 1) 1
      (first_segment (first_span (init_radius cfg sec)).2)).1 = 0 := by rw [hloop]; exact hstep0
  have hres := proc_sfrac_raw_notaper cfg sec hdir (by omega) hnotaper h1 h3
  rw [hloop] at hres
  have kfu : (resolve_step M (sec.fused - 1)).2.fused = sec.fused := by
    rw [resolve_step_fused, mfu]
  have ke : (resolve_step M (sec.fused - 1)).2.end_ = some e := by
    rw [resolve_step_end, men]; exact he
  generalize (resolve_step M (sec.fused - 1)).2 = S at *
  refine ⟨_, hres, kfu, ?_, ?_, ?_⟩
  · rw [close_last_fused, kfu, close_last_start]; exact k1
  · have := close_last_end_last S e e ke (by rw [kfu]; exact k2) le_rfl
    rw [close_last_fused]
    exact this
  · rw [close_last_fused, kfu, close_last_sf_other _ _ (by omega),
      show sec.fused - 2 = sec.fused - 1 - 1 by omega]
    exact k3

/-! ### Tapering -/

/-- The inner loop of the tapering expansion leaves the sector and the segments
outside `i+1 .. i+m` alone. -/
theorem taper_fill_frame (base : sector) (i m : Nat) :
    ((List.range' 1 m).foldl (fun s j => taper_sub s i j) base).fused = base.fused ∧
    ((List.range' 1 m).foldl (fun s j => taper_sub s i j) base).start = base.start ∧
    ((List.range' 1 m).foldl (fun s j => taper_sub s i j) base).end_ = base.end_ ∧
    (∀ k, k ≤ i ∨ i + m < k →
      ((List.range' 1 m).foldl (fun s j => taper_sub s i j) base).sf k = base.sf k) := by
  induction m with
  | zero => exact ⟨rfl, rfl, rfl, fun k _ => rfl⟩
  | succ m ih =>
    obtain ⟨i1, i2, i3, i4⟩ := ih
    rw [List.range'_concat, List.foldl_append]
    simp only [List.foldl_cons, List.foldl_nil, Nat.one_mul]
    refine ⟨i1, i2, i3, ?_⟩
    intro k hk
    have hne : k ≠ i + (1 + m) := by omega
    simp only [taper_sub, setSf_sf, if_neg hne]
    exact i4 k (by omega)

/-- The sub-segments written by the inner loop of the tapering expansion, for
the start `st` and the width `w` of the sub-segments. -/
theorem taper_fill_spec (base : sector) (i : Nat) (st w : ℚ)
    (ha : (base.sf i).a = some w) (hen : (base.sf i).end_ = some (st + w)) (m : Nat) :
    ∀ j, 1 ≤ j → j ≤ m →
      ((List.range' 1 m).foldl (fun s j => taper_sub s i j) base).sf (i + j) =
        { base.sf i with
            start := some (st + j * w), end_ := some (st + (j + 1) * w),
            type := if (base.sf i).type = ARC_TAPER_UP then ARC_TAPER_1 + j
                    else ARC_TAPER_7 - j,
            startr := false } := by
  induction m with
  | zero => intro j h1 h2; omega
  | succ m ih =>
    have hSi := (taper_fill_frame base i m).2.2.2 i (Or.inl le_rfl)
    rw [List.range'_concat, List.foldl_append]
    simp only [List.foldl_cons, List.foldl_nil, Nat.one_mul]
    generalize (List.range' 1 m).foldl (fun s j => taper_sub s i j) base = S at *
    have hprev : (S.sf (i + (1 + m) - 1)).end_ = some (st + (m + 1) * w) := by
      rw [show i + (1 + m) - 1 = i + m by omega]
      by_cases hm : m = 0
      · subst hm
        rw [Nat.add_zero, hSi, hen]
        simp
      · rw [ih m (by omega) le_rfl]
    intro j h1 h2
    by_cases hj : j = m + 1
    · subst hj
      have he : i + (m + 1) = i + (1 + m) := by omega
      simp only [taper_sub, setSf_sf, he, if_true, hprev, hSi, ha, dadd]
      rw [show 1 + m = m + 1 by omega]
      congr 2
      · push_cast; ring
      · push_cast; ring
    · have hne : i + j ≠ i + (1 + m) := by omega
      simp only [taper_sub, setSf_sf, if_neg hne]
      exact ih j h1 (by omega)

@[simp] theorem taper_expand_fused (sec : sector) (i : Nat) :
    (taper_expand sec i).fused = sec.fused + (TAPER_SEGS - 1) := by
  unfold taper_expand
  simp only [setSf_fused]
  exact congrArg (· + (TAPER_SEGS - 1)) (taper_fill_frame _ i _).1

@[simp] theorem taper_expand_end (sec : sector) (i : Nat) :
    (taper_expand sec i).end_ = sec.end_ := by
  unfold taper_expand
  simp only [setSf_end]
  exact (taper_fill_frame _ i _).2.2.1

/-- The seven sub-segments made by `taper_expand` from segment `i`. -/
theorem taper_expand_sub (sec : sector) (i : Nat) (st A : ℚ)
    (hst : (sec.sf i).start = some st) (ha : (sec.sf i).a = some A) (j : Nat) (hj : j < 7) :
    ((taper_expand sec i).sf (i + j)).start = some (st + j * (A / 7)) ∧
    ((taper_expand sec i).sf (i + j)).end_ = some (st + (j + 1) * (A / 7)) ∧
    ((taper_expand sec i).sf (i + j)).a = some (A / 7) ∧
    ((taper_expand sec i).sf (i + j)).type =
      (if (sec.sf i).type = ARC_TAPER_UP then ARC_TAPER_1 + j else ARC_TAPER_7 - j) ∧
    ((taper_expand sec i).sf (i + j)).startr = (if j = 0 then (sec.sf i).startr else false) := by
  have hmv : ¬ (i + TAPER_SEGS ≤ i ∧ i < i + TAPER_SEGS + (TAPER_SEGS - 1)) := by
    simp [TAPER_SEGS]
  unfold taper_expand
  simp only [setSf_sf, if_true, if_neg hmv]
  generalize hb : setSf _ i _ = base
  have hbi : base.sf i = { sec.sf i with a := some (A / 7), end_ := some (st + A / 7) } := by
    rw [← hb]
    simp [ha, hst, ddiv, dadd, TAPER_SEGS]
  have hfill := taper_fill_spec base i st (A / 7) (by rw [hbi]) (by rw [hbi]) (TAPER_SEGS - 1)
  have hfr := (taper_fill_frame base i (TAPER_SEGS - 1)).2.2.2 i (Or.inl le_rfl)
  by_cases hj0 : j = 0
  · subst hj0
    simp only [Nat.add_zero, if_true, hfr, hbi]
    simp [hst]
  · have hne : i + j ≠ i := by omega
    simp only [if_neg hne, if_neg hj0]
    rw [hfill j (by omega) (by simp [TAPER_SEGS]; omega), hbi]
    simp

/-- The tapering loop changes nothing when no segment from `i` on is tapering. -/
theorem taper_loop_rest (fuel : Nat) : ∀ (i : Nat) (sec : sector),
    (∀ j, i ≤ j → j < sec.fused → tapering (sec.sf j).type = false) →
    sec.fused - i < fuel → taper_loop fuel i sec = some (0, sec) := by
  induction fuel with
  | zero => intro i sec _ h; omega
  | succ fuel ih =>
    intro i sec h hfu
    unfold taper_loop
    split_ifs with h1 h2 h3
    · exact ih (i + 1) sec (fun j hj => h j (by omega)) (by omega)
    · exfalso
      have := h i le_rfl h1
      simp only [tapering, Bool.or_eq_false_iff, beq_eq_false_iff_ne] at this
      exact h2 this
    · exfalso
      have := h i le_rfl h1
      simp only [tapering, Bool.or_eq_false_iff, beq_eq_false_iff_ne] at this
      exact h2 this
    · rfl

theorem close_last_a (sec : sector) (j : Nat) : ((close_last sec).sf j).a = (sec.sf j).a := by
  by_cases hj : j = sec.fused - 1
  · subst hj; simp [close_last]
  · rw [close_last_sf_other sec j hj]

theorem close_last_startr (sec : sector) (j : Nat) :
    ((close_last sec).sf j).startr = (sec.sf j).startr := by
  by_cases hj : j = sec.fused - 1
  · subst hj; simp [close_last]
  · rw [close_last_sf_other sec j hj]

/-! ### The spacing of the neighbours -/

@[simp] theorem setSec_same (sec : secarr) (k : Int) (s : sector) : setSec sec k s k = s := by
  simp [setSec]

theorem setSec_other (sec : secarr) (k j : Int) (s : sector) (h : j ≠ k) :
    setSec sec k s j = sec j := by
  simp [setSec, h]

@[simp] theorem init_radius_sspace (cfg : config) (sec : sector) :
    (init_radius cfg sec).sspace = sec.sspace := by rw [init_radius_eq]; rfl
@[simp] theorem init_radius_espace (cfg : config) (sec : sector) :
    (init_radius cfg sec).espace = sec.espace := by rw [init_radius_eq]; rfl
@[simp] theorem init_radius_col1 (cfg : config) (sec : sector) :
    (init_radius cfg sec).col1 = sec.col1 := by rw [init_radius_eq]; rfl
@[simp] theorem init_radius_used (cfg : config) (sec : sector) :
    (init_radius cfg sec).used = sec.used := by rw [init_radius_eq]; rfl

theorem dir_half_num (cfg : config) (da s : ℚ) (hda : cfg.dir_arc_ = some da) :
    dir_half cfg (some s) = some (if s < 0 then da else min da (s / 2)) := by
  unfold dir_half
  simp only [dlt, ddiv, hda, decide_eq_true_eq]
  by_cases h0 : s < 0
  · simp [h0]
  · by_cases h2 : s / 2 < da
    · simp [h0, h2, min_eq_right h2.le]
    · simp [h0, h2, min_eq_left (not_lt.mp h2)]

/-- C18 (amended): for a directional sector with a non-negative neighbour
spacing `s` on a side, the half-angle `h` that `proc_sfrac` uses on that side is
`min(dir_arc_, s/2)`: at most the default half-angle and at most half of the
spacing; the segment on the start side is `[dir - h, dir]` and the one on the
end side is `[dir, dir + h]`, with the difference and the sum as the code
computes them. -/
theorem directional_half_angle (cfg : config) (sec : sector) (d da : ℚ)
    (hd : sec.dir = some d) (hda : cfg.dir_arc_ = some da) :
    ∃ res : sector, proc_sfrac cfg sec = some (0, res) ∧
      (∀ s : ℚ, sec.sspace = some s → 0 ≤ s →
        ∃ h : ℚ, dir_half cfg sec.sspace = some h ∧ h = min da (s / 2) ∧ h ≤ da ∧ h ≤ s / 2 ∧
          (res.sf 0).start = dsub (some d) (some h) ∧ (res.sf 0).end_ = some d) ∧
      (∀ e : ℚ, sec.espace = some e → 0 ≤ e →
        ∃ h : ℚ, dir_half cfg sec.espace = some h ∧ h = min da (e / 2) ∧ h ≤ da ∧ h ≤ e / 2 ∧
          (res.sf 1).start = some d ∧ (res.sf 1).end_ = dadd (some d) (some h)) := by
  refine ⟨_, directional_path_eq cfg sec d hd, ?_, ?_⟩
  · intro s hs h0
    have hh : dir_half cfg sec.sspace = some (min da (s / 2)) := by
      rw [hs, dir_half_num cfg da s hda, if_neg (not_lt.mpr h0)]
    refine ⟨min da (s / 2), hh, rfl, min_le_left _ _, min_le_right _ _, ?_, ?_⟩
    · simp [directional, hd, hh]
    · simp [directional, hd]
  · intro e he h0
    have hh : dir_half cfg sec.espace = some (min da (e / 2)) := by
      rw [he, dir_half_num cfg da e hda, if_neg (not_lt.mpr h0)]
    refine ⟨min da (e / 2), hh, rfl, min_le_left _ _, min_le_right _ _, ?_, ?_⟩
    · simp [directional, hd]
    · simp [directional, hd, hh]

/-! ### The number of segments after a negative span -/

/-- C20 (amended): for a non-directional sector with `k ≥ 1` raw segments, none
with a tapering style, whose final raw segment (and no other) has a negative
span, `proc_sfrac` returns 0; the number of resolved segments is `k + 1 = 2`
when `k = 1` (the negative span adds a segment) and `k` when `k ≥ 2` (the
negative span cuts the segment before it and adds none). -/
theorem proc_sfrac_negative_count (cfg : config) (sec : sector)
    (hdir : sec.dir = none) (hk : 1 ≤ sec.fused)
    (hnt : ∀ j, j < sec.fused → tapering (sec.sf j).type = false)
    (hpos : ∀ j, j < sec.fused - 1 → negspan (sec.sf j) = false)
    (hlast : negspan (sec.sf (sec.fused - 1)) = true) :
    ∃ res : sector, proc_sfrac cfg sec = some (0, res) ∧
      res.fused = (if sec.fused = 1 then 2 else sec.fused) := by
  have hnotaper : notaper sec := hnt
  have h1 : (first_span (init_radius cfg sec)).1 = 0 := by
    rw [first_span_fst, if_neg]
    intro hc
    have := hpos 0 (by simp at hc; omega)
    simp only [negspan, init_radius_a] at this hc
    rw [hc.1] at this
    exact absurd this (by decide)
  -- the number of segments after `first_span`
  have hfu : (first_span (init_radius cfg sec)).2.fused
      = (if sec.fused = 1 then 2 else sec.fused) := by
    by_cases h1k : sec.fused = 1
    · rw [if_pos h1k]
      have hl : negspan ((init_radius cfg sec).sf 0) = true := by
        simp only [negspan, init_radius_a]
        rw [h1k] at hlast
        simpa [negspan] using hlast
      simp only [negspan, Bool.and_eq_true, Bool.not_eq_true', init_radius_a] at hl
      unfold first_span
      simp [hl.1, hl.2, h1k]
    · rw [if_neg h1k]
      have := (first_span_many (init_radius cfg sec) (by simp; omega)).1
      simpa using this
  have hsf : ∀ j, 1 ≤ j → j + 1 < (first_span (init_radius cfg sec)).2.fused →
      negspan ((first_span (init_radius cfg sec)).2.sf j) = false := by
    intro j hj1 hj2
    by_cases h1k : sec.fused = 1
    · rw [hfu, if_pos h1k] at hj2; omega
    · rw [hfu, if_neg h1k] at hj2
      rw [(first_span_many (init_radius cfg sec) (by simp; omega)).2 j hj1]
      have := hpos j (by omega)
      simpa [negspan] using this
  have h3 : (resolve_loop ((first_segment (first_span (init_radius cfg sec)).2).fused - 1) 1
      (first_segment (first_span (init_radius cfg sec)).2)).1 = 0 := by
    apply resolve_loop_ok
    intro j hj1 _ hj3
    rw [first_segment_sf_later _ j hj1]
    exact hsf j hj1 (by simpa using hj3)
  refine ⟨_, proc_sfrac_raw_notaper cfg sec hdir (by omega) hnotaper h1 h3, ?_⟩
  rw [close_last_fused, (resolve_loop_frame _ 1 _).1, first_segment_fused, hfu]

/-! ### The validation pass -/

theorem validate_slot_other (cfg : config) (st : gs_state) (i : Nat) (j : Int)
    (h : j ≠ (i : Int)) : (validate_slot cfg st i).1 j = st.1 j := by
  unfold validate_slot keep_sector
  simp only []
  split_ifs <;> simp [setSec, h]

/-- A slot that is not used is left as it is. -/
theorem validate_slot_unused (cfg : config) (st : gs_state) (i : Nat)
    (h : (st.1 i).used = false) : validate_slot cfg st i = st := by
  unfold validate_slot
  simp [h]

/-- The zero-width rule of lines 245-250 clears `used`. -/
theorem validate_slot_artifact (cfg : config) (st : gs_state) (i : Nat)
    (hu : (st.1 i).used = true)
    (h : i ≠ 0 ∧ deq (st.1 i).start (st.1 i).end_ = true ∧
      deq (st.1 i).start (st.1 0).dir = true) :
    ((validate_slot cfg st i).1 i).used = false := by
  unfold validate_slot
  simp [hu, h, setSec]

/-- The validation of a used slot that the zero-width rule does not remove
follows `validation_rule`. -/
theorem validate_slot_rule (cfg : config) (st : gs_state) (i : Nat)
    (hu : (st.1 i).used = true)
    (h : ¬ (i ≠ 0 ∧ deq (st.1 i).start (st.1 i).end_ = true ∧
      deq (st.1 i).start (st.1 0).dir = true)) :
    ((validate_slot cfg st i).1 i).used = (validation_rule cfg (st.1 i)).isSome ∧
    ∀ p, validation_rule cfg (st.1 i) = some p →
      ((validate_slot cfg st i).1 i).start = p.1 ∧ ((validate_slot cfg st i).1 i).end_ = p.2 := by
  unfold validate_slot validation_rule keep_sector
  simp only [hu, if_true, h, if_false]
  cases hdir : (st.1 i).dir <;> cases hst : (st.1 i).start <;> cases hen : (st.1 i).end_ <;>
    by_cases hcat : (st.1 i).cat = CAT_DIR <;>
    by_cases hun : cfg.untagged_circle_ = true <;>
    simp [isnan, hcat, hun, setSec, hu, NAN, dgt, dlt, dadd]
  all_goals try split_ifs
  all_goals simp_all
  all_goals exfalso; linarith

/-- The state of the validation loop before slot `m`: the slots from `m` on and
the slots outside the array are as at the start. -/
theorem validate_prefix_later (cfg : config) (sec : secarr) (m : Nat) (j : Int)
    (h : (m : Int) ≤ j ∨ j < 0) :
    ((List.range m).foldl (validate_slot cfg) (sec, 0)).1 j = sec j := by
  induction m with
  | zero => rfl
  | succ m ih =>
    rw [List.range_succ, List.foldl_append]
    simp only [List.foldl_cons, List.foldl_nil]
    rw [validate_slot_other cfg _ m j (by push_cast at h; omega)]
    exact ih (by push_cast at h; omega)

/-- A slot is not changed after its turn in the validation loop. -/
theorem validate_prefix_stable (cfg : config) (sec : secarr) (i : Nat) (k : Nat) :
    ((List.range (i + 1 + k)).foldl (validate_slot cfg) (sec, 0)).1 i =
    ((List.range (i + 1)).foldl (validate_slot cfg) (sec, 0)).1 i := by
  induction k with
  | zero => rfl
  | succ k ih =>
    rw [show i + 1 + (k + 1) = (i + 1 + k) + 1 by omega, List.range_succ, List.foldl_append]
    simp only [List.foldl_cons, List.foldl_nil]
    rw [validate_slot_other cfg _ (i + 1 + k) i (by push_cast; omega)]
    exact ih

/-- The slot `i` of the validated array is the result of the body of the loop
on a state whose slot `i` is the extracted sector and whose slot 0 is, for
`i ≠ 0`, the validated slot 0. -/
theorem validate_loop_slot (cfg : config) (sec : secarr) (i : Nat) (hi : i < MAX_SEC) :
    ∃ st : gs_state, (validate_loop cfg sec).1 i = (validate_slot cfg st i).1 i ∧
      st.1 i = sec i ∧ (i ≠ 0 → st.1 0 = (validate_loop cfg sec).1 0) := by
  have hfin : ∀ j : Nat, j < MAX_SEC → (validate_loop cfg sec).1 j
      = ((List.range (j + 1)).foldl (validate_slot cfg) (sec, 0)).1 j := by
    intro j hj
    have := validate_prefix_stable cfg sec j (MAX_SEC - (j + 1))
    rw [show j + 1 + (MAX_SEC - (j + 1)) = MAX_SEC by omega] at this
    exact this
  refine ⟨(List.range i).foldl (validate_slot cfg) (sec, 0), ?_, ?_, ?_⟩
  · rw [hfin i hi, List.range_succ, List.foldl_append]
    rfl
  · exact validate_prefix_later cfg sec i i (Or.inl le_rfl)
  · intro h0
    have hz := hfin 0 (by decide)
    obtain ⟨k, hk⟩ : ∃ k, i = 0 + 1 + k := ⟨i - 1, by omega⟩
    have hs := validate_prefix_stable cfg sec 0 k
    rw [← hk] at hs
    simp only [Nat.cast_zero] at hz hs
    rw [hz, hs]

/-- C14: for a used slot `i` of the sector array that the zero-width rule
(start = end = the orientation of slot 0) does not remove, the validation pass
decides as `validation_rule` says: the sector is dropped if exactly one of
dir-set and category = directional holds; otherwise, if both start and end are
unset, they become `dir` when the sector is directional, 0 and 360 when it is
not and the untagged-circle option is on, and the sector is dropped when the
option is off; otherwise, if exactly one of start and end is unset, the sector
is dropped; in every other case it stays used with its start and with its end
increased by 360 exactly when start > end. -/
theorem validate_loop_rule (cfg : config) (sec : secarr) (i : Nat) (hi : i < MAX_SEC)
    (hu : (sec i).used = true)
    (h : ¬ (i ≠ 0 ∧ deq (sec i).start (sec i).end_ = true ∧
      deq (sec i).start ((validate_loop cfg sec).1 0).dir = true)) :
    ((validate_loop cfg sec).1 i).used = (validation_rule cfg (sec i)).isSome ∧
    ∀ p, validation_rule cfg (sec i) = some p →
      ((validate_loop cfg sec).1 i).start = p.1 ∧ ((validate_loop cfg sec).1 i).end_ = p.2 := by
  obtain ⟨st, h1, h2, h3⟩ := validate_loop_slot cfg sec i hi
  have hu' : (st.1 i).used = true := by rw [h2]; exact hu
  have h' : ¬ (i ≠ 0 ∧ deq (st.1 i).start (st.1 i).end_ = true ∧
      deq (st.1 i).start (st.1 0).dir = true) := by
    intro hc
    apply h
    refine ⟨hc.1, ?_, ?_⟩
    · rw [← h2]; exact hc.2.1
    · rw [← h2, ← h3 hc.1]; exact hc.2.2
  have := validate_slot_rule cfg st i hu' h'
  rw [← h1, h2] at this
  exact this

/-- C13 (amended): every slot of the sector array that is still marked used
after the validation pass has a start and an end that are numbers, and
start ≤ end holds provided the start and the end the tags supplied, when both
are given, satisfy start ≤ end + 360 (as all bearings within 0..360 do): the
validator adds 360 to the end once when the raw start exceeds the raw end. -/
theorem validate_loop_ordered (cfg : config) (sec : secarr) (i : Nat) (hi : i < MAX_SEC)
    (hu : ((validate_loop cfg sec).1 i).used = true) :
    ∃ s e : ℚ, ((validate_loop cfg sec).1 i).start = some s ∧
      ((validate_loop cfg sec).1 i).end_ = some e ∧
      ((∀ s0 e0 : ℚ, (sec i).start = some s0 → (sec i).end_ = some e0 → s0 ≤ e0 + 360) →
        s ≤ e) := by
  obtain ⟨st, h1, h2, h3⟩ := validate_loop_slot cfg sec i hi
  rw [h1] at hu ⊢
  have hraw : (st.1 i).used = true := by
    by_contra hc
    rw [validate_slot_unused cfg st i (by simpa using hc)] at hu
    exact hc hu
  have hart : ¬ (i ≠ 0 ∧ deq (st.1 i).start (st.1 i).end_ = true ∧
      deq (st.1 i).start (st.1 0).dir = true) := by
    intro hc
    rw [validate_slot_artifact cfg st i hraw hc] at hu
    exact absurd hu (by decide)
  obtain ⟨r1, r2⟩ := validate_slot_rule cfg st i hraw hart
  rw [hu] at r1
  rw [← h2]
  obtain ⟨p, hp⟩ := Option.isSome_iff_exists.mp r1.symm
  obtain ⟨e1, e2⟩ := r2 p hp
  rw [e1, e2]
  unfold validation_rule at hp
  cases hdir : (st.1 i).dir <;> cases hst : (st.1 i).start <;> cases hen : (st.1 i).end_ <;>
    by_cases hcat : (st.1 i).cat = CAT_DIR <;>
    by_cases hun : cfg.untagged_circle_ = true <;>
    simp [isnan, hdir, hst, hen, hcat, hun, dgt, dlt, dadd] at hp
  all_goals subst hp
  all_goals first
    | exact ⟨0, 360, rfl, rfl, fun _ => by norm_num⟩
    | exact ⟨_, _, rfl, rfl, fun _ => le_rfl⟩
    | (split_ifs with hlt
       · exact ⟨_, _, rfl, rfl, fun h => h _ _ rfl rfl⟩
       · exact ⟨_, _, rfl, rfl, fun _ => not_lt.mp hlt⟩)

/-! ### The capacity of the segment array -/

/-- The tapering loop returns, with 0 or -2, and never takes the number of
segments above `MAX_SFRAC` unless it was above it before. -/
theorem taper_loop_total (fuel : Nat) : ∀ (i : Nat) (sec : sector),
    (sec.fused - i) + 6 * ((16 - sec.fused) / 6) < fuel →
    ∃ (r : Int) (res : sector), taper_loop fuel i sec = some (r, res) ∧ (r = 0 ∨ r = -2) ∧
      (sec.fused ≤ MAX_SFRAC → res.fused ≤ MAX_SFRAC) := by
  induction fuel with
  | zero => intro i sec h; omega
  | succ fuel ih =>
    intro i sec h
    unfold taper_loop
    by_cases h1 : i < sec.fused
    · rw [if_pos h1]
      by_cases h2 : (sec.sf i).type ≠ ARC_TAPER_UP ∧ (sec.sf i).type ≠ ARC_TAPER_DOWN
      · rw [if_pos h2]
        exact ih (i + 1) sec (by omega)
      · rw [if_neg h2]
        by_cases h3 : sec.fused > MAX_SFRAC - TAPER_SEGS + 1
        · rw [if_pos h3]
          exact ⟨-2, sec, rfl, Or.inr rfl, fun h => h⟩
        · rw [if_neg h3]
          have h3' : sec.fused ≤ 10 := by simpa [MAX_SFRAC, TAPER_SEGS] using h3
          obtain ⟨r, res, e1, e2, e3⟩ := ih (i + 1) (taper_expand sec i) (by
            rw [taper_expand_fused]
            simp only [TAPER_SEGS]
            omega)
          refine ⟨r, res, e1, e2, fun _ => e3 ?_⟩
          rw [taper_expand_fused]
          simp only [TAPER_SEGS, MAX_SFRAC]
          omega
    · rw [if_neg h1]
      exact ⟨0, sec, rfl, Or.inl rfl, fun h => h⟩

/-- With more than `MAX_SFRAC - TAPER_SEGS + 1` segments the tapering loop stops
with -2 at the first tapering segment and leaves the sector as it is. -/
theorem taper_loop_overflow (fuel : Nat) : ∀ (i : Nat) (sec : sector) (j : Nat),
    i ≤ j → j < sec.fused → tapering (sec.sf j).type = true →
    MAX_SFRAC < sec.fused + (TAPER_SEGS - 1) → sec.fused - i < fuel →
    taper_loop fuel i sec = some (-2, sec) := by
  induction fuel with
  | zero => intro i sec j _ _ _ _ h; omega
  | succ fuel ih =>
    intro i sec j hij hj ht hov hfu
    unfold taper_loop
    rw [if_pos (by omega)]
    by_cases h2 : (sec.sf i).type ≠ ARC_TAPER_UP ∧ (sec.sf i).type ≠ ARC_TAPER_DOWN
    · rw [if_pos h2]
      have hne : i ≠ j := by
        intro he
        subst he
        simp only [tapering, Bool.or_eq_true, beq_iff_eq] at ht
        rcases ht with h | h
        · exact h2.1 h
        · exact h2.2 h
      exact ih (i + 1) sec j (by omega) hj ht hov (by omega)
    · rw [if_neg h2, if_pos (by simp only [MAX_SFRAC, TAPER_SEGS] at hov ⊢; omega)]

theorem first_span_ret (sec : sector) : (first_span sec).1 = 0 ∨ (first_span sec).1 = -1 := by
  rw [first_span_fst]
  split_ifs
  · exact Or.inr rfl
  · exact Or.inl rfl

theorem first_span_fused_cap (sec : sector) (h : sec.fused ≤ MAX_SFRAC) :
    (first_span sec).2.fused ≤ MAX_SFRAC := by
  unfold first_span
  by_cases h1 : isnan (sec.sf 0).a = true
  · simpa [h1] using h
  · by_cases h2 : dlt (sec.sf 0).a (some 0) = true
    · by_cases h3 : sec.fused > 1
      · simpa [h1, h2, h3] using h
      · simp only [h1, h2, h3, if_true, if_false, Bool.false_eq_true, setSf_fused, MAX_SFRAC]
        omega
    · simpa [h1, h2] using h

/-- The function `proc_sfrac` returns for every sector, with 0, -1 or -2, and
with at most `MAX_SFRAC` segments if there were at most as many on entry. -/
theorem proc_sfrac_total (cfg : config) (sec : sector) :
    ∃ (r : Int) (res : sector), proc_sfrac cfg sec = some (r, res) ∧
      (r = 0 ∨ r = -1 ∨ r = -2) ∧ (sec.fused ≤ MAX_SFRAC → res.fused ≤ MAX_SFRAC) := by
  cases hd : sec.dir with
  | some d =>
    exact ⟨0, _, directional_path_eq cfg sec d hd, Or.inl rfl, fun _ => by
      show 2 ≤ MAX_SFRAC
      decide⟩
  | none =>
    by_cases hf : sec.fused = 0
    · refine ⟨0, _, plain_path_eq cfg sec hd hf, Or.inl rfl, fun _ => ?_⟩
      simp [plain_sector, hf, MAX_SFRAC]
    · rw [proc_sfrac_raw cfg sec hd hf]
      simp only []
      by_cases h1 : (first_span (init_radius cfg sec)).1 = 0
      · rw [if_neg (by simpa using h1)]
        by_cases h3 : (resolve_loop ((first_segment (first_span (init_radius cfg sec)).2).fused - 1)
            1 (first_segment (first_span (init_radius cfg sec)).2)).1 = 0
        · rw [if_neg (by simpa using h3)]
          obtain ⟨f1, _, _⟩ := resolve_loop_frame
            ((first_segment (first_span (init_radius cfg sec)).2).fused - 1) 1
            (first_segment (first_span (init_radius cfg sec)).2)
          obtain ⟨r, res, e1, e2, e3⟩ := taper_loop_total
            ((resolve_loop ((first_segment (first_span (init_radius cfg sec)).2).fused - 1) 1
              (first_segment (first_span (init_radius cfg sec)).2)).2.fused + 2 * TAPER_SEGS) 0
            (resolve_loop ((first_segment (first_span (init_radius cfg sec)).2).fused - 1) 1
              (first_segment (first_span (init_radius cfg sec)).2)).2
            (by simp only [TAPER_SEGS]; omega)
          rw [e1]
          have hcap : sec.fused ≤ MAX_SFRAC → res.fused ≤ MAX_SFRAC := by
            intro h
            apply e3
            rw [f1, first_segment_fused]
            exact first_span_fused_cap _ (by simpa using h)
          rcases e2 with e2 | e2
          · subst e2
            exact ⟨0, close_last res, by simp, Or.inl rfl, fun h => by
              rw [close_last_fused]; exact hcap h⟩
          · subst e2
            exact ⟨-2, res, by simp, Or.inr (Or.inr rfl), hcap⟩
        · rw [if_pos h3]
          refine ⟨_, _, rfl, ?_, fun h => ?_⟩
          · rcases resolve_loop_fst _ 1 (first_segment (first_span (init_radius cfg sec)).2)
              with h | h
            · exact absurd h h3
            · exact Or.inr (Or.inl h)
          · rw [(resolve_loop_frame _ 1 _).1, first_segment_fused]
            exact first_span_fused_cap _ (by simpa using h)
      · rw [if_pos h1]
        refine ⟨_, _, rfl, ?_, fun h => first_span_fused_cap _ (by simpa using h)⟩
        rcases first_span_ret (init_radius cfg sec) with h | h
        · exact absurd h h1
        · exact Or.inr (Or.inl h)

theorem resolve_step_type_keep (sec : sector) (i j : Nat)
    (h : (sec.sf j).type ≠ ARC_UNDEF) :
    ((resolve_step sec i).2.sf j).type = (sec.sf j).type := by
  by_cases hji : j = i
  · subst hji
    rw [resolve_step_type, if_neg h]
  · by_cases hjp : j = i - 1
    · rw [hjp, resolve_step_sf_prev sec i (by omega)]
    · rw [resolve_step_sf_other sec i j hji hjp]

theorem resolve_loop_type_keep (n : Nat) : ∀ (i : Nat) (sec : sector) (j : Nat),
    (sec.sf j).type ≠ ARC_UNDEF →
    ((resolve_loop n i sec).2.sf j).type = (sec.sf j).type := by
  induction n with
  | zero => intro i sec j _; rfl
  | succ n ih =>
    intro i sec j h
    have hs := resolve_step_type_keep sec i j h
    rw [resolve_loop_succ]
    split_ifs
    · rw [ih (i + 1) _ j (by rw [hs]; exact h), hs]
    · exact hs

theorem first_segment_type_keep (sec : sector) (j : Nat) (h : (sec.sf j).type ≠ ARC_UNDEF) :
    ((first_segment sec).sf j).type = (sec.sf j).type := by
  by_cases hj : j = 0
  · subst hj
    simp [first_segment, h]
  · rw [first_segment_sf_later sec j (by omega)]

theorem first_span_type_many (sec : sector) (hk : 2 ≤ sec.fused) (j : Nat) :
    ((first_span sec).2.sf j).type = (sec.sf j).type := by
  by_cases hj : j = 0
  · subst hj
    have hk' : sec.fused > 1 := hk
    unfold first_span
    by_cases h1 : isnan (sec.sf 0).a = true
    · simp [h1]
    · by_cases h2 : dlt (sec.sf 0).a (some 0) = true
      · simp [h1, h2, hk']
      · simp [h1, h2]
  · rw [(first_span_many sec hk).2 j (by omega)]

theorem tapering_ne_undef (t : Nat) (h : tapering t = true) : t ≠ ARC_UNDEF := by
  intro he
  subst he
  exact absurd h (by decide)

/-- The count `fused` through `proc_sfrac`, on the map `sf` of the model (which
has no last index): for a
sector with `fused ≤ MAX_SFRAC` on entry it returns 0, -1 or -2 with
`fused ≤ MAX_SFRAC`; the tapering loop, at a tapering segment, returns -2 and
leaves the sector as it is when `fused + (TAPER_SEGS - 1) > MAX_SFRAC`, and
expands the segment (to at most `MAX_SFRAC` segments) when
`fused + (TAPER_SEGS - 1) ≤ MAX_SFRAC`; and `proc_sfrac` as a whole returns -2,
with the number of segments it was given, for a non-directional sector without
negative spans before the last segment that has a tapering raw segment and
`fused + (TAPER_SEGS - 1) > MAX_SFRAC`. -/
theorem proc_sfrac_capacity (cfg : config) (sec : sector) (hcap : sec.fused ≤ MAX_SFRAC) :
    (∃ (r : Int) (res : sector), proc_sfrac cfg sec = some (r, res) ∧
      (r = 0 ∨ r = -1 ∨ r = -2) ∧ res.fused ≤ MAX_SFRAC) ∧
    (∀ (fuel i : Nat) (s : sector), i < s.fused → tapering (s.sf i).type = true →
      MAX_SFRAC < s.fused + (TAPER_SEGS - 1) → taper_loop (fuel + 1) i s = some (-2, s)) ∧
    (∀ (fuel i : Nat) (s : sector), i < s.fused → tapering (s.sf i).type = true →
      s.fused + (TAPER_SEGS - 1) ≤ MAX_SFRAC →
      taper_loop (fuel + 1) i s = taper_loop fuel (i + 1) (taper_expand s i) ∧
      (taper_expand s i).fused ≤ MAX_SFRAC) ∧
    (sec.dir = none → MAX_SFRAC < sec.fused + (TAPER_SEGS - 1) →
      (∀ j, j < sec.fused - 1 → negspan (sec.sf j) = false) →
      (∃ j, j < sec.fused ∧ tapering (sec.sf j).type = true) →
      ∃ res : sector, proc_sfrac cfg sec = some (-2, res) ∧ res.fused = sec.fused) := by
  refine ⟨?_, ?_, ?_, ?_⟩
  · obtain ⟨r, res, e1, e2, e3⟩ := proc_sfrac_total cfg sec
    exact ⟨r, res, e1, e2, e3 hcap⟩
  · intro fuel i s hi ht hov
    have hnot : ¬ ((s.sf i).type ≠ ARC_TAPER_UP ∧ (s.sf i).type ≠ ARC_TAPER_DOWN) := by
      simp only [tapering, Bool.or_eq_true, beq_iff_eq] at ht
      rintro ⟨h1, h2⟩
      rcases ht with h | h
      · exact h1 h
      · exact h2 h
    conv_lhs => unfold taper_loop
    rw [if_pos hi, if_neg hnot, if_pos (by simp only [MAX_SFRAC, TAPER_SEGS] at hov ⊢; omega)]
  · intro fuel i s hi ht hroom
    have hnot : ¬ ((s.sf i).type ≠ ARC_TAPER_UP ∧ (s.sf i).type ≠ ARC_TAPER_DOWN) := by
      simp only [tapering, Bool.or_eq_true, beq_iff_eq] at ht
      rintro ⟨h1, h2⟩
      rcases ht with h | h
      · exact h1 h
      · exact h2 h
    constructor
    · conv_lhs => unfold taper_loop
      rw [if_pos hi, if_neg hnot,
        if_neg (by simp only [MAX_SFRAC, TAPER_SEGS] at hroom ⊢; omega)]
    · rw [taper_expand_fused]; exact hroom
  · intro hdir hov hpos ⟨j, hj, ht⟩
    have hk : 2 ≤ sec.fused := by simp only [MAX_SFRAC, TAPER_SEGS] at hov; omega
    have hk0 : 2 ≤ (init_radius cfg sec).fused := by simpa using hk
    obtain ⟨hfu, hsf⟩ := first_span_many (init_radius cfg sec) hk0
    rw [init_radius_fused] at hfu
    have h1 : (first_span (init_radius cfg sec)).1 = 0 := by
      rw [first_span_fst, if_neg]
      intro hc
      have := hpos 0 (by omega)
      simp only [negspan, init_radius_a] at this hc
      rw [hc.1] at this
      exact absurd this (by decide)
    have gfu : (first_segment (first_span (init_radius cfg sec)).2).fused = sec.fused := by
      rw [first_segment_fused, hfu]
    have h3 : (resolve_loop ((first_segment (first_span (init_radius cfg sec)).2).fused - 1) 1
        (first_segment (first_span (init_radius cfg sec)).2)).1 = 0 := by
      apply resolve_loop_ok
      intro m hm1 hm2 _
      rw [first_segment_sf_later _ m hm1, hsf m hm1]
      have := hpos m (by rw [gfu] at hm2; omega)
      simpa [negspan] using this
    have htype : ((resolve_loop ((first_segment (first_span (init_radius cfg sec)).2).fused - 1) 1
        (first_segment (first_span (init_radius cfg sec)).2)).2.sf j).type = (sec.sf j).type := by
      have e1 : ((first_span (init_radius cfg sec)).2.sf j).type = (sec.sf j).type := by
        rw [first_span_type_many _ hk0, init_radius_type]
      have e2 : ((first_segment (first_span (init_radius cfg sec)).2).sf j).type
          = (sec.sf j).type := by
        rw [first_segment_type_keep _ j (by rw [e1]; exact tapering_ne_undef _ ht), e1]
      rw [resolve_loop_type_keep _ 1 _ j (by rw [e2]; exact tapering_ne_undef _ ht), e2]
    obtain ⟨f1, _, _⟩ := resolve_loop_frame
      ((first_segment (first_span (init_radius cfg sec)).2).fused - 1) 1
      (first_segment (first_span (init_radius cfg sec)).2)
    rw [proc_sfrac_raw cfg sec hdir (by omega)]
    simp only []
    rw [if_neg (by simpa using h1), if_neg (by simpa using h3)]
    generalize (resolve_loop ((first_segment (first_span (init_radius cfg sec)).2).fused - 1) 1
        (first_segment (first_span (init_radius cfg sec)).2)).2 = S at *
    rw [gfu] at f1
    rw [taper_loop_overflow _ 0 S j (Nat.zero_le _) (by rw [f1]; exact hj)
      (by rw [htype]; exact ht) (by rw [f1]; exact hov) (by simp only [TAPER_SEGS]; omega)]
    exact ⟨S, by simp, f1⟩

/-! ### The compaction loop -/

theorem used_count_mono (sec : secarr) (a b : Nat) (h : a ≤ b) :
    used_count sec a ≤ used_count sec b := by
  induction b with
  | zero =>
    have : a = 0 := by omega
    subst this
    exact le_rfl
  | succ b ih =>
    by_cases hab : a = b + 1
    · subst hab; exact le_rfl
    · have := ih (by omega)
      simp only [used_count]
      omega

theorem used_count_le (sec : secarr) (k : Nat) : used_count sec k ≤ k := by
  induction k with
  | zero => exact le_rfl
  | succ k ih =>
    simp only [used_count]
    split_ifs <;> omega

theorem used_count_used (sec : secarr) (k : Nat) (h : (sec (k : Int)).used = true) :
    used_count sec (k + 1) = used_count sec k + 1 := by
  simp [used_count, h]

theorem used_count_unused (sec : secarr) (k : Nat) (h : (sec (k : Int)).used = false) :
    used_count sec (k + 1) = used_count sec k := by
  simp [used_count, h]

theorem used_count_lt (sec : secarr) (a b : Nat) (h : a < b)
    (hu : (sec (a : Int)).used = true) : used_count sec a < used_count sec b := by
  have h1 := used_count_used sec a hu
  have h2 := used_count_mono sec (a + 1) b h
  omega

theorem used_count_congr (s1 s2 : secarr) (k : Nat)
    (h : ∀ j : Nat, j < k → s1 (j : Int) = s2 (j : Int)) :
    used_count s1 k = used_count s2 k := by
  induction k with
  | zero => rfl
  | succ k ih =>
    simp only [used_count]
    rw [ih (fun j hj => h j (by omega)), h k (by omega)]

theorem validate_slot_count (cfg : config) (st : gs_state) (i : Nat) :
    (validate_slot cfg st i).2
      = st.2 + (if ((validate_slot cfg st i).1 i).used = true then 1 else 0) := by
  unfold validate_slot keep_sector
  by_cases hu : (st.1 i).used = true
  · simp only [hu, if_true]
    split_ifs <;> simp_all [setSec]
  · simp [hu]

theorem validate_prefix_count (cfg : config) (sec : secarr) (m : Nat) :
    ((List.range m).foldl (validate_slot cfg) (sec, 0)).2
      = (used_count ((List.range m).foldl (validate_slot cfg) (sec, 0)).1 m : Int) := by
  induction m with
  | zero => rfl
  | succ m ih =>
    rw [List.range_succ, List.foldl_append]
    simp only [List.foldl_cons, List.foldl_nil]
    rw [validate_slot_count, ih]
    simp only [used_count]
    rw [used_count_congr (validate_slot cfg _ m).1
      ((List.range m).foldl (validate_slot cfg) (sec, 0)).1 m
      (fun j hj => validate_slot_other cfg _ m j (by omega))]
    split_ifs <;> simp

theorem validate_loop_count (cfg : config) (sec : secarr) :
    (validate_loop cfg sec).2 = (used_count (validate_loop cfg sec).1 MAX_SEC : Int) :=
  validate_prefix_count cfg sec MAX_SEC

theorem remove_slot_shift (sec : secarr) (i m : Nat) (h1 : i ≤ m) (h2 : m + 1 < MAX_SEC) :
    remove_slot sec i (m : Int) = sec ((m + 1 : Nat) : Int) := by
  unfold remove_slot
  have h2' : m + 1 < 32 := h2
  rw [if_pos ⟨by omega, by simp only [MAX_SEC]; omega⟩]
  push_cast
  rfl

theorem remove_slot_last (sec : secarr) (i : Nat) (h : i < MAX_SEC) :
    remove_slot sec i ((MAX_SEC - 1 : Nat) : Int) = init_sector := by
  unfold remove_slot
  have h' : i < 32 := h
  simp only [MAX_SEC]
  rw [if_neg (by omega), if_pos (by omega)]

theorem remove_slot_before (sec : secarr) (i m : Nat) (h : m < i) (hi : i < MAX_SEC) :
    remove_slot sec i (m : Int) = sec (m : Int) := by
  unfold remove_slot
  have h' : i < 32 := hi
  simp only [MAX_SEC]
  rw [if_neg (by omega), if_neg (by omega)]

/-- The invariant of the compaction loop: at position `i` after `d` removals,
the slots below `i` hold the used sectors among the first `i + d` slots of the
array `V` the loop started on, the slots from `i` on hold the rest of `V`, and
the last `d` slots are not used. -/
theorem compact_loop_run (V : secarr) : ∀ (fuel i d : Nat) (cur : secarr),
    i + d ≤ MAX_SEC → used_count V (i + d) = i →
    (∀ t : Nat, i + d + t < MAX_SEC → cur ((i + t : Nat) : Int) = V ((i + d + t : Nat) : Int)) →
    (∀ j : Nat, MAX_SEC - d ≤ j → j < MAX_SEC → (cur (j : Int)).used = false) →
    (∀ k : Nat, k < i + d → (V (k : Int)).used = true →
      cur ((used_count V k : Nat) : Int) = with_mean (V (k : Int))) →
    MAX_SEC - (i + d) < fuel →
    ∃ res : secarr, compact_loop fuel i (used_count V MAX_SEC : Int) cur = some res ∧
      (∀ k : Nat, k < MAX_SEC → (V (k : Int)).used = true →
        res ((used_count V k : Nat) : Int) = with_mean (V (k : Int))) ∧
      (∀ j : Nat, used_count V MAX_SEC ≤ j → j < MAX_SEC → (res (j : Int)).used = false) := by
  intro fuel
  induction fuel with
  | zero => intro i d cur _ _ _ _ _ hf; omega
  | succ fuel ih =>
    intro i d cur hid hcnt hrest htail hdone hf
    have hle : i ≤ used_count V MAX_SEC := by
      rw [← hcnt]; exact used_count_mono V _ _ hid
    unfold compact_loop
    by_cases hc : i < MAX_SEC ∧ (i : Int) < (used_count V MAX_SEC : Int)
    · rw [if_pos hc]
      have hin : i < used_count V MAX_SEC := by exact_mod_cast hc.2
      have hlt : i + d < MAX_SEC := by
        by_contra hge
        have : i + d = MAX_SEC := by omega
        rw [this] at hcnt
        omega
      have hcur : cur (i : Int) = V ((i + d : Nat) : Int) := by
        have := hrest 0 (by omega)
        simpa using this
      by_cases hu : (cur (i : Int)).used = true
      · rw [if_pos hu]
        have hVu : (V ((i + d : Nat) : Int)).used = true := by rw [← hcur]; exact hu
        have := ih (i + 1) d
          (setSec cur i { cur i with mean := ddiv (dadd (cur i).start (cur i).end_) 2 })
          (by omega)
          (by rw [show i + 1 + d = i + d + 1 by omega, used_count_used V _ hVu, hcnt])
          (by
            intro t ht
            rw [setSec_other _ _ _ _ (by push_cast; omega)]
            have := hrest (t + 1) (by omega)
            rw [show i + 1 + t = i + (t + 1) by omega,
              show i + 1 + d + t = i + d + (t + 1) by omega]
            exact this)
          (by
            intro j hj1 hj2
            rw [setSec_other _ _ _ _ (by omega)]
            exact htail j hj1 hj2)
          (by
            intro k hk hku
            by_cases hke : k = i + d
            · subst hke
              rw [hcnt, setSec_same, ← hcur]
              rfl
            · have hlt2 := used_count_lt V k (i + d) (by omega) hku
              rw [setSec_other _ _ _ _ (by omega)]
              exact hdone k (by omega) hku)
          (by omega)
        exact this
      · rw [if_neg hu]
        have hu' : (cur (i : Int)).used = false := by simpa using hu
        have hVu : (V ((i + d : Nat) : Int)).used = false := by rw [← hcur]; exact hu'
        have := ih i (d + 1) (remove_slot cur i)
          (by omega)
          (by rw [show i + (d + 1) = i + d + 1 by omega, used_count_unused V _ hVu, hcnt])
          (by
            intro t ht
            rw [remove_slot_shift cur i (i + t) (by omega) (by omega)]
            have := hrest (t + 1) (by omega)
            rw [show i + t + 1 = i + (t + 1) by omega,
              show i + (d + 1) + t = i + d + (t + 1) by omega]
            exact this)
          (by
            intro j hj1 hj2
            by_cases hj : j = MAX_SEC - 1
            · subst hj
              rw [remove_slot_last cur i hc.1]
              rfl
            · rw [remove_slot_shift cur i j (by omega) (by omega)]
              exact htail (j + 1) (by omega) (by omega))
          (by
            intro k hk hku
            have hke : k ≠ i + d := by
              intro he
              subst he
              rw [hVu] at hku
              exact absurd hku (by decide)
            have hlt2 := used_count_lt V k (i + d) (by omega) hku
            rw [remove_slot_before cur i _ (by omega) hc.1]
            exact hdone k (by omega) hku)
          (by omega)
        exact this
    · rw [if_neg hc]
      have hi32 : i ≤ MAX_SEC := by omega
      have hcap := used_count_le V MAX_SEC
      have hin : i = used_count V MAX_SEC := by
        by_contra hne
        apply hc
        exact ⟨by omega, by exact_mod_cast (by omega : i < used_count V MAX_SEC)⟩
      refine ⟨cur, rfl, ?_, ?_⟩
      · intro k hk hku
        apply hdone k _ hku
        by_contra hge
        have h1 := used_count_mono V (i + d) k (by omega)
        have h2 := used_count_lt V k MAX_SEC hk hku
        omega
      · intro j hj1 hj2
        by_cases hjt : MAX_SEC - d ≤ j
        · exact htail j hjt hj2
        · have hr := hrest (j - i) (by omega)
          rw [show i + (j - i) = j by omega] at hr
          rw [hr]
          by_contra hused
          have hused' : (V ((i + d + (j - i) : Nat) : Int)).used = true := by simpa using hused
          have h1 := used_count_mono V (i + d) (i + d + (j - i)) (by omega)
          have h2 := used_count_lt V (i + d + (j - i)) MAX_SEC (by omega) hused'
          omega

/-- C15: the compaction loop of the validator terminates on the validated array
and, with `n` the number of sectors that survived validation (the count of the
used slots), the result holds every surviving sector, with
mean = (start + end) / 2, at the slot given by the number of survivors before
it (so in increasing order of the original slot index, without gaps, in the
slots 0 .. n-1), every slot below `n` holds such a survivor, and no slot from
`n` to `MAX_SEC - 1` is marked used. -/
theorem compact_loop_spec (cfg : config) (sec : secarr) :
    ∃ res : secarr,
      compact_loop (2 * MAX_SEC + 1) 0 (validate_loop cfg sec).2 (validate_loop cfg sec).1
        = some res ∧
      (validate_loop cfg sec).2 = (used_count (validate_loop cfg sec).1 MAX_SEC : Int) ∧
      (∀ k : Nat, k < MAX_SEC → ((validate_loop cfg sec).1 (k : Int)).used = true →
        used_count (validate_loop cfg sec).1 k < used_count (validate_loop cfg sec).1 MAX_SEC ∧
        res ((used_count (validate_loop cfg sec).1 k : Nat) : Int)
          = with_mean ((validate_loop cfg sec).1 (k : Int))) ∧
      (∀ k1 k2 : Nat, k1 < k2 → ((validate_loop cfg sec).1 (k1 : Int)).used = true →
        used_count (validate_loop cfg sec).1 k1 < used_count (validate_loop cfg sec).1 k2) ∧
      (∀ j : Nat, j < used_count (validate_loop cfg sec).1 MAX_SEC →
        ∃ k : Nat, k < MAX_SEC ∧ ((validate_loop cfg sec).1 (k : Int)).used = true ∧
          used_count (validate_loop cfg sec).1 k = j ∧
          res (j : Int) = with_mean ((validate_loop cfg sec).1 (k : Int)) ∧
          (res (j : Int)).used = true) ∧
      (∀ j : Nat, used_count (validate_loop cfg sec).1 MAX_SEC ≤ j → j < MAX_SEC →
        (res (j : Int)).used = false) := by
  have hn := validate_loop_count cfg sec
  generalize (validate_loop cfg sec).1 = V at *
  obtain ⟨res, h1, h2, h3⟩ := compact_loop_run V (2 * MAX_SEC + 1) 0 0 V
    (by decide) rfl (fun t _ => by simp) (fun j h1 h2 => by omega)
    (fun k hk _ => by omega) (by decide)
  rw [hn]
  refine ⟨res, h1, rfl, ?_, ?_, ?_, h3⟩
  · intro k hk hu
    exact ⟨used_count_lt V k MAX_SEC hk hu, h2 k hk hu⟩
  · intro k1 k2 h12 hu
    exact used_count_lt V k1 k2 h12 hu
  · intro j hj
    have hex : ∀ m : Nat, j < used_count V m →
        ∃ k : Nat, k < m ∧ (V (k : Int)).used = true ∧ used_count V k = j := by
      intro m
      induction m with
      | zero => intro h; exact absurd h (by simp [used_count])
      | succ m ih =>
        intro h
        by_cases hu : (V (m : Int)).used = true
        · rw [used_count_used V m hu] at h
          by_cases hjm : j = used_count V m
          · exact ⟨m, by omega, hu, hjm.symm⟩
          · obtain ⟨k, hk1, hk2, hk3⟩ := ih (by omega)
            exact ⟨k, by omega, hk2, hk3⟩
        · rw [used_count_unused V m (by simpa using hu)] at h
          obtain ⟨k, hk1, hk2, hk3⟩ := ih h
          exact ⟨k, by omega, hk2, hk3⟩
    obtain ⟨k, hk1, hk2, hk3⟩ := hex MAX_SEC hj
    have hr := h2 k hk1 hk2
    rw [hk3] at hr
    refine ⟨k, hk1, hk2, hk3, hr, ?_⟩
    rw [hr]
    exact hk2

/-! ### A second call of `proc_sfrac` -/

theorem reopen_settled (T : sector) (i : Nat)
    (h : (T.sf i).end_ = dadd (T.sf i).start (T.sf i).a) : reopen T i = T := by
  unfold reopen
  rw [← h]
  exact setSf_self T i

theorem first_segment_reopen (T : sector) (s e a : ℚ) (hs : T.start = some s)
    (he : T.end_ = some e) (ha : (T.sf 0).a = some a) (hle : s + a ≤ e)
    (hst : (T.sf 0).start = some s) (hcol : (T.sf 0).col = T.col0)
    (hsr : (T.sf 0).startr = true) (hty : (T.sf 0).type ≠ ARC_UNDEF) :
    first_segment T = reopen T 0 := by
  have hng : ¬ e - s < a := by
    intro h; linarith
  unfold first_segment reopen
  rcases hf : T.sf 0 with ⟨r0, a0, st0, en0, c0, t0, sr0, er0⟩
  rw [hf] at ha hst hcol hsr hty
  simp only at ha hst hcol hsr hty
  subst ha hst hsr
  simp [hs, he, dgt, dlt, dsub, dadd, hng, hcol, hty]

theorem resolve_step_reopen (T : sector) (i : Nat) (e q a : ℚ)
    (he : T.end_ = some e) (hp : (T.sf (i - 1)).end_ = some q)
    (hst : (T.sf i).start = some q) (ha : (T.sf i).a = some a) (h0 : 0 ≤ a)
    (hle : q + a ≤ e) (hr : isnan (T.sf i).r = false) (hty : (T.sf i).type ≠ ARC_UNDEF)
    (hcol : (T.sf i).col = (T.sf (i - 1)).col) :
    resolve_step T i = (0, reopen T i) := by
  have hng : ¬ e < a + q := by
    intro h; linarith
  have hn0 : ¬ a < 0 := not_lt.mpr h0
  unfold resolve_step reopen
  rcases hf : T.sf i with ⟨r0, a0, st0, en0, c0, t0, sr0, er0⟩
  rw [hf] at ha hst hcol hr hty
  simp only at ha hst hcol hr hty
  subst ha hst
  have hr2 : r0 ≠ none := by
    intro h
    subst h
    exact absurd hr (by decide)
  simp [he, hp, dgt, dlt, dsub, dadd, hng, hn0, hcol, hty, hr2, isnan]

theorem reopen_fused (T : sector) (i : Nat) : (reopen T i).fused = T.fused := rfl

theorem reopen_end (T : sector) (i : Nat) : (reopen T i).end_ = T.end_ := rfl

theorem reopen_type (T : sector) (i j : Nat) : ((reopen T i).sf j).type = (T.sf j).type := by
  unfold reopen
  by_cases h : j = i
  · subst h; simp
  · simp [h]

theorem close_reopen (T : sector) (e st a : ℚ) (he : T.end_ = some e)
    (hen : (T.sf (T.fused - 1)).end_ = some e) (hst : (T.sf (T.fused - 1)).start = some st)
    (ha : (T.sf (T.fused - 1)).a = some a) (hle : st + a ≤ e)
    (her : (T.sf (T.fused - 1)).endr = true) :
    close_last (reopen T (T.fused - 1)) = T := by
  have hfix : { (reopen T (T.fused - 1)).sf (T.fused - 1) with
      end_ := (if dlt ((reopen T (T.fused - 1)).sf (T.fused - 1)).end_ T.end_ = true
        then T.end_ else ((reopen T (T.fused - 1)).sf (T.fused - 1)).end_),
      endr := true } = T.sf (T.fused - 1) := by
    rcases hf : T.sf (T.fused - 1) with ⟨r0, a0, st0, en0, c0, t0, sr0, er0⟩
    rw [hf] at ha hst hen her
    simp only at ha hst hen her
    subst ha hst hen her
    by_cases hlt : st + a < e
    · simp [reopen, hf, he, dadd, dlt, hlt]
    · have : st + a = e := le_antisymm hle (not_lt.mp hlt)
      simp [reopen, hf, he, dadd, dlt, this]
  unfold close_last
  simp only [reopen_fused, reopen_end]
  rw [hfix]
  cases T
  simp only [reopen, setSf, sector.mk.injEq, true_and, and_true]
  funext j
  split_ifs with h
  · rw [h]
  · rfl

theorem closed_step (s e : ℚ) (R : sector) (hc : Closed s e R) (i : Nat) (h1 : 1 ≤ i)
    (hi : i < R.fused) : resolve_step R i = (0, reopen R i) := by
  obtain ⟨pst, pa, _, _, _, _, hpe, _, _, _, hpc⟩ := hc.seg (i - 1) (by omega)
  obtain ⟨st, a, ha, h0, hst, hle, _, hr, hty, _, hcol⟩ := hc.seg i hi
  rw [if_neg (by omega)] at hpe
  have hl := hc.link (i - 1) (by omega)
  rw [show i - 1 + 1 = i by omega, hst, hpe] at hl
  have hq : st = pst + pa := Option.some.inj hl
  subst hq
  exact resolve_step_reopen R i e (pst + pa) a hc.hend hpe hst ha h0 hle hr hty
    (by rw [hcol, hpc])

theorem closed_reopen_inner (s e : ℚ) (R : sector) (hc : Closed s e R) (i : Nat)
    (hi : i + 1 < R.fused) : reopen R i = R := by
  obtain ⟨st, a, ha, _, hst, _, hen, _⟩ := hc.seg i (by omega)
  rw [if_neg (by omega)] at hen
  apply reopen_settled
  rw [hen, hst, ha]
  rfl

theorem resolve_loop_closed (s e : ℚ) (R : sector) (hc : Closed s e R) :
    ∀ (n i : Nat), 1 ≤ i → i + n + 1 = R.fused →
      resolve_loop (n + 1) i R = (0, reopen R (R.fused - 1)) := by
  intro n
  induction n with
  | zero =>
    intro i h1 hi
    rw [resolve_loop_succ, closed_step s e R hc i h1 (by omega)]
    rw [show R.fused - 1 = i by omega]
    rfl
  | succ n ih =>
    intro i h1 hi
    rw [resolve_loop_succ, closed_step s e R hc i h1 (by omega),
      closed_reopen_inner s e R hc i (by omega)]
    simp only [if_true]
    exact ih (i + 1) (by omega) (by omega)

theorem closed_notaper (s e : ℚ) (R : sector) (hc : Closed s e R) : notaper R := by
  intro j hj
  obtain ⟨_, _, _, _, _, _, _, _, _, ht, _⟩ := hc.seg j hj
  exact ht

/-- A second call of `proc_sfrac` on a resolved sector without tapering
changes nothing. -/
theorem proc_sfrac_closed (cfg : config) (ρ s e : ℚ) (R : sector)
    (hρ : cfg.sec_radius_ = some ρ) (hc : Closed s e R)
    (hr0 : ∃ r0, (R.sf 0).r = some r0 ∧ (r0 < 0 → r0 = ρ)) :
    proc_sfrac cfg R = some (0, R) := by
  obtain ⟨r0, hr, hneg⟩ := hr0
  obtain ⟨st0, a0, ha0, h00, hst0, hle0, hen0, _, hty0, _, hcol0⟩ := hc.seg 0 hc.hk
  have hs0 : st0 = s := by
    rw [hc.first] at hst0
    exact (Option.some.inj hst0).symm
  subst hs0
  have hinit : init_radius cfg R = R := by
    unfold init_radius
    by_cases hlt : r0 < 0
    · have : r0 = ρ := hneg hlt
      subst this
      simp only [hr, isnan, Option.isNone_some, Bool.false_eq_true, if_false, dlt, hlt,
        decide_True, if_true, hρ]
      rw [← hr]
      exact setSf_self R 0
    · simp [hr, isnan, dlt, hlt]
  have hspan : first_span R = (0, R) := by
    unfold first_span
    simp [ha0, isnan, dlt, not_lt.mpr h00]
  have hseg : first_segment R = reopen R 0 :=
    first_segment_reopen R st0 e a0 hc.hstart hc.hend ha0 hle0 hc.first hcol0 hc.startr hty0
  have hloop : resolve_loop (R.fused - 1) 1 (first_segment R) = (0, reopen R (R.fused - 1)) := by
    by_cases hk : R.fused = 1
    · rw [hseg, hk]
      rfl
    · rw [hseg, closed_reopen_inner st0 e R hc 0 (by have := hc.hk; omega)]
      have := resolve_loop_closed st0 e R hc (R.fused - 2) 1 le_rfl (by have := hc.hk; omega)
      rw [show R.fused - 2 + 1 = R.fused - 1 by have := hc.hk; omega] at this
      exact this
  have hmain := proc_sfrac_raw_notaper cfg R hc.hdir (by have := hc.hk; omega)
    (closed_notaper st0 e R hc)
    (by rw [hinit, hspan])
    (by rw [hinit, hspan]; simp only [first_segment_fused]; rw [hloop])
  rw [hmain, hinit, hspan]
  simp only [first_segment_fused]
  rw [hloop]
  obtain ⟨stl, al, hal, _, hstl, hlel, henl, _⟩ := hc.seg (R.fused - 1) (by have := hc.hk; omega)
  rw [if_pos (by have := hc.hk; omega)] at henl
  rw [close_reopen R e stl al hc.hend henl hstl hal hlel hc.endr]

/-! ### The first call leaves a resolved sector -/

theorem resolve_step_settle (T : sector) (i : Nat) (e pst pa : ℚ) (h1 : 1 ≤ i)
    (he : T.end_ = some e) (hp : Settled T.col0 e pst pa (T.sf (i - 1)))
    (hn : negspan (T.sf i) = false) (ht : tapering (T.sf i).type = false) :
    (resolve_step T i).1 = 0 ∧
    (∃ a, Settled T.col0 e (pst + pa) a ((resolve_step T i).2.sf i)) ∧
    ((resolve_step T i).2.sf i).start = (T.sf (i - 1)).end_ ∧
    (∀ j, j ≠ i → (resolve_step T i).2.sf j = T.sf j) ∧
    (resolve_step T i).2.col0 = T.col0 ∧ (resolve_step T i).2.dir = T.dir := by
  obtain ⟨_, _, _, hpe, hple, hpr, hpty, hptap, hpcol⟩ := hp
  have hne : i - 1 ≠ i := by omega
  have hrr : isnan (if isnan (T.sf i).r = true then (T.sf (i - 1)).r else (T.sf i).r) = false := by
    split_ifs with h
    · exact hpr
    · simpa using h
  have hty : (if (T.sf i).type = ARC_UNDEF then (T.sf (i - 1)).type else (T.sf i).type)
      ≠ ARC_UNDEF := by
    split_ifs with h
    · exact hpty
    · exact h
  have htap : tapering (if (T.sf i).type = ARC_UNDEF then (T.sf (i - 1)).type
      else (T.sf i).type) = false := by
    split_ifs with h
    · exact hptap
    · exact ht
  cases ha : (T.sf i).a with
  | none =>
    refine ⟨by simp [resolve_step, ha, isnan], ⟨e - (pst + pa), ?_⟩, ?_, ?_, ?_, ?_⟩
    · refine ⟨?_, by linarith, ?_, ?_, by linarith, ?_, ?_, ?_, ?_⟩
      · simp [resolve_step, ha, isnan, he, hpe, dsub]
      · simp [resolve_step, ha, isnan, hpe]
      · simp [resolve_step, ha, isnan, he]
      · simpa [resolve_step, ha, isnan] using hrr
      · simpa [resolve_step, ha, isnan] using hty
      · simpa [resolve_step, ha, isnan] using htap
      · simp [resolve_step, ha, isnan, hpcol]
    · simp [resolve_step, ha, isnan]
    · intro j hj
      simp [resolve_step, ha, isnan, hj]
    · simp [resolve_step, ha, isnan]
    · simp [resolve_step, ha, isnan]
  | some x =>
    have hx : ¬ x < 0 := by
      simpa [negspan, ha, isnan, dlt] using hn
    by_cases hc : e < x + (pst + pa)
    · refine ⟨by simp [resolve_step, ha, isnan, dlt, hx], ⟨e - (pst + pa), ?_⟩, ?_, ?_, ?_, ?_⟩
      · refine ⟨?_, by linarith, ?_, ?_, by linarith, ?_, ?_, ?_, ?_⟩
        · simp [resolve_step, ha, isnan, he, hpe, dsub, dlt, dgt, dadd, hx, hc]
        · simp [resolve_step, ha, isnan, hpe, dlt, hx]
        · simp [resolve_step, ha, isnan, he, hpe, dsub, dlt, dgt, dadd, hx, hc]
        · simpa [resolve_step, ha, isnan, dlt, hx] using hrr
        · simpa [resolve_step, ha, isnan, dlt, hx] using hty
        · simpa [resolve_step, ha, isnan, dlt, hx] using htap
        · simp [resolve_step, ha, isnan, hpcol, dlt, hx]
      · simp [resolve_step, ha, isnan, dlt, hx]
      · intro j hj
        simp [resolve_step, ha, isnan, hj, dlt, hx]
      · simp [resolve_step, ha, isnan, dlt, hx]
      · simp [resolve_step, ha, isnan, dlt, hx]
    · refine ⟨by simp [resolve_step, ha, isnan, dlt, hx], ⟨x, ?_⟩, ?_, ?_, ?_, ?_⟩
      · refine ⟨?_, by linarith, ?_, ?_, by linarith, ?_, ?_, ?_, ?_⟩
        · simp [resolve_step, ha, isnan, he, hpe, dsub, dlt, dgt, dadd, hx, hc]
        · simp [resolve_step, ha, isnan, hpe, dlt, hx]
        · simp [resolve_step, ha, isnan, he, hpe, dsub, dlt, dgt, dadd, hx, hc]
        · simpa [resolve_step, ha, isnan, dlt, hx] using hrr
        · simpa [resolve_step, ha, isnan, dlt, hx] using hty
        · simpa [resolve_step, ha, isnan, dlt, hx] using htap
        · simp [resolve_step, ha, isnan, hpcol, dlt, hx]
      · simp [resolve_step, ha, isnan, dlt, hx]
      · intro j hj
        simp [resolve_step, ha, isnan, hj, dlt, hx]
      · simp [resolve_step, ha, isnan, dlt, hx]
      · simp [resolve_step, ha, isnan, dlt, hx]

theorem resolve_step_col0 (T : sector) (i : Nat) : (resolve_step T i).2.col0 = T.col0 := by
  unfold resolve_step
  simp only []
  split_ifs <;> rfl

theorem resolve_step_dir (T : sector) (i : Nat) : (resolve_step T i).2.dir = T.dir := by
  unfold resolve_step
  simp only []
  split_ifs <;> rfl

theorem resolved_extend (s e : ℚ) (i : Nat) (T T2 : sector) (hres : Resolved s e i T)
    (hstart : T2.start = T.start) (hend : T2.end_ = T.end_) (pst pa : ℚ)
    (hset : ∃ a, Settled T.col0 e (pst + pa) a (T2.sf i))
    (hlink : (T2.sf i).start = (T.sf (i - 1)).end_)
    (hoth : ∀ j, j ≠ i → T2.sf j = T.sf j) (hcol : T2.col0 = T.col0) (h1 : 1 ≤ i) :
    Resolved s e (i + 1) T2 := by
  obtain ⟨a, hset⟩ := hset
  refine ⟨by rw [hstart]; exact hres.hstart, by rw [hend]; exact hres.hend, ?_, ?_, ?_, ?_⟩
  · rw [hoth 0 (by omega)]; exact hres.first
  · rw [hoth 0 (by omega)]; exact hres.startr
  · intro m hm
    by_cases hmi : m = i
    · subst hmi
      exact ⟨pst + pa, a, by rw [hcol]; exact hset⟩
    · rw [hoth m hmi, hcol]
      exact hres.seg m (by omega)
  · intro m hm
    by_cases hmi : m + 1 = i
    · subst hmi
      rw [hlink, hoth m (by omega)]
      rfl
    · rw [hoth (m + 1) hmi, hoth m (by omega)]
      exact hres.link m (by omega)

theorem resolve_loop_resolved (s e : ℚ) (n : Nat) : ∀ (i : Nat) (T : sector), 1 ≤ i →
    Resolved s e i T →
    (∀ m, i ≤ m → m < i + n → negspan (T.sf m) = false ∧ tapering (T.sf m).type = false) →
    (resolve_loop n i T).1 = 0 ∧ Resolved s e (i + n) (resolve_loop n i T).2 ∧
    ((resolve_loop n i T).2.sf 0).r = (T.sf 0).r ∧
    (resolve_loop n i T).2.col0 = T.col0 ∧ (resolve_loop n i T).2.dir = T.dir := by
  induction n with
  | zero =>
    intro i T _ hres _
    exact ⟨rfl, hres, rfl, rfl, rfl⟩
  | succ n ih =>
    intro i T h1 hres hraw
    obtain ⟨pst, pa, hp⟩ := hres.seg (i - 1) (by omega)
    obtain ⟨hn, ht⟩ := hraw i le_rfl (by omega)
    obtain ⟨r1, ⟨a, hset⟩, hlink, hoth, hcol, hdir⟩ :=
      resolve_step_settle T i e pst pa h1 hres.hend hp hn ht
    have hres2 : Resolved s e (i + 1) (resolve_step T i).2 :=
      resolved_extend s e i T (resolve_step T i).2 hres (resolve_step_start T i)
        (resolve_step_end T i) pst pa ⟨a, hset⟩ hlink hoth hcol h1
    have hraw2 : ∀ m, i + 1 ≤ m → m < i + 1 + n →
        negspan ((resolve_step T i).2.sf m) = false ∧
        tapering ((resolve_step T i).2.sf m).type = false := by
      intro m hm1 hm2
      rw [hoth m (by omega)]
      exact hraw m (by omega) (by omega)
    obtain ⟨q1, q2, q3, q4, q5⟩ := ih (i + 1) (resolve_step T i).2 (by omega) hres2 hraw2
    rw [resolve_loop_succ, if_pos r1]
    refine ⟨q1, ?_, ?_, ?_, ?_⟩
    · rw [show i + (n + 1) = i + 1 + n by omega]; exact q2
    · rw [q3, hoth 0 (by omega)]
    · rw [q4, hcol]
    · rw [q5, hdir]

theorem init_radius_r (cfg : config) (sec : sector) (ρ : ℚ) (hρ : cfg.sec_radius_ = some ρ) :
    ∃ r0, ((init_radius cfg sec).sf 0).r = some r0 ∧ (r0 < 0 → r0 = ρ) := by
  unfold init_radius
  cases h0 : (sec.sf 0).r with
  | none =>
    cases hr : sec.r with
    | none =>
      by_cases hlt : ρ < 0
      · exact ⟨ρ, by simp [h0, hr, isnan, hρ, dlt, hlt], fun _ => rfl⟩
      · exact ⟨ρ, by simp [h0, hr, isnan, hρ, dlt, hlt], fun _ => rfl⟩
    | some x =>
      by_cases hlt : x < 0
      · exact ⟨ρ, by simp [h0, hr, isnan, hρ, dlt, hlt], fun _ => rfl⟩
      · exact ⟨x, by simp [h0, hr, isnan, dlt, hlt], fun h => absurd h hlt⟩
  | some x =>
    by_cases hlt : x < 0
    · exact ⟨ρ, by simp [h0, isnan, hρ, dlt, hlt], fun _ => rfl⟩
    · exact ⟨x, by simp [h0, isnan, dlt, hlt], fun h => absurd h hlt⟩

theorem first_span_keep (T : sector) (s e : ℚ) (hs : T.start = some s) (he : T.end_ = some e)
    (hse : s ≤ e) (hn : negspan (T.sf 0) = false) :
    (first_span T).1 = 0 ∧ (∃ y, ((first_span T).2.sf 0).a = some y ∧ 0 ≤ y) ∧
    ((first_span T).2.sf 0).r = (T.sf 0).r ∧ ((first_span T).2.sf 0).type = (T.sf 0).type ∧
    (∀ j, 1 ≤ j → (first_span T).2.sf j = T.sf j) ∧
    (first_span T).2.fused = T.fused ∧ (first_span T).2.col0 = T.col0 ∧
    (first_span T).2.dir = T.dir := by
  have hj0 : ∀ j, 1 ≤ j → j ≠ 0 := fun j hj => by omega
  cases ha : (T.sf 0).a with
  | none =>
    refine ⟨by simp [first_span, ha, isnan], ⟨e - s, ?_, by linarith⟩, ?_, ?_, ?_, ?_, ?_, ?_⟩
    · simp [first_span, ha, isnan, hs, he, dsub]
    · simp [first_span, ha, isnan]
    · simp [first_span, ha, isnan]
    · intro j hj
      simp [first_span, ha, isnan, hj0 j hj]
    · simp [first_span, ha, isnan]
    · simp [first_span, ha, isnan]
    · simp [first_span, ha, isnan]
  | some x =>
    have hx : ¬ x < 0 := by
      simpa [negspan, ha, isnan, dlt] using hn
    refine ⟨by simp [first_span, ha, isnan, dlt, hx], ⟨x, ?_, not_lt.mp hx⟩, ?_, ?_, ?_, ?_, ?_, ?_⟩
    · simp [first_span, ha, isnan, dlt, hx]
    · simp [first_span, ha, isnan, dlt, hx]
    · simp [first_span, ha, isnan, dlt, hx]
    · intro j _
      simp [first_span, ha, isnan, dlt, hx]
    · simp [first_span, ha, isnan, dlt, hx]
    · simp [first_span, ha, isnan, dlt, hx]
    · simp [first_span, ha, isnan, dlt, hx]

theorem first_segment_resolved (T : sector) (s e y : ℚ) (hs : T.start = some s)
    (he : T.end_ = some e) (hse : s ≤ e) (ha : (T.sf 0).a = some y) (hy : 0 ≤ y)
    (hr : isnan (T.sf 0).r = false) (ht : tapering (T.sf 0).type = false) :
    Resolved s e 1 (first_segment T) := by
  refine ⟨hs, he, by simp [first_segment, hs], by simp [first_segment], ?_, fun m hm => by omega⟩
  intro m hm
  have hm0 : m = 0 := by omega
  subst hm0
  have htap : tapering (if (T.sf 0).type = ARC_UNDEF then ARC_SOLID else (T.sf 0).type)
      = false := by
    split_ifs
    · exact tapering_solid
    · exact ht
  have hty : (if (T.sf 0).type = ARC_UNDEF then ARC_SOLID else (T.sf 0).type) ≠ ARC_UNDEF := by
    split_ifs with h
    · decide
    · exact h
  by_cases hc : e - s < y
  · refine ⟨s, e - s, ?_, by linarith, ?_, ?_, by linarith, ?_, ?_, ?_, ?_⟩
    · simp [first_segment, hs, he, ha, dgt, dlt, dsub, hc]
    · simp [first_segment, hs]
    · simp [first_segment, hs, he, ha, dgt, dlt, dsub, dadd, hc]
    · simpa [first_segment] using hr
    · simpa [first_segment] using hty
    · simpa [first_segment] using htap
    · simp [first_segment]
  · refine ⟨s, y, ?_, hy, ?_, ?_, by linarith, ?_, ?_, ?_, ?_⟩
    · simp [first_segment, hs, he, ha, dgt, dlt, dsub, hc]
    · simp [first_segment, hs]
    · simp [first_segment, hs, he, ha, dgt, dlt, dsub, dadd, hc]
    · simpa [first_segment] using hr
    · simpa [first_segment] using hty
    · simpa [first_segment] using htap
    · simp [first_segment]

theorem close_last_r (sec : sector) (j : Nat) : ((close_last sec).sf j).r = (sec.sf j).r := by
  by_cases hj : j = sec.fused - 1
  · subst hj; simp [close_last]
  · rw [close_last_sf_other sec j hj]

theorem close_last_col (sec : sector) (j : Nat) :
    ((close_last sec).sf j).col = (sec.sf j).col := by
  by_cases hj : j = sec.fused - 1
  · subst hj; simp [close_last]
  · rw [close_last_sf_other sec j hj]

theorem closed_of_resolved (s e : ℚ) (T : sector) (hres : Resolved s e T.fused T)
    (hdir : T.dir = none) (hk : 1 ≤ T.fused) : Closed s e (close_last T) := by
  refine ⟨hres.hstart, hres.hend, hdir, hk, ?_, ?_, ?_, ?_, ?_⟩
  · rw [close_last_start]; exact hres.first
  · rw [close_last_startr]; exact hres.startr
  · intro m hm
    rw [close_last_fused] at hm
    obtain ⟨st, a, ha, h0, hst, hen, hle, hr, hty, htap, hcol⟩ := hres.seg m hm
    refine ⟨st, a, by rw [close_last_a]; exact ha, h0, by rw [close_last_start]; exact hst,
      hle, ?_, by rw [close_last_r]; exact hr, by rw [close_last_type]; exact hty,
      by rw [close_last_type]; exact htap, by rw [close_last_col]; exact hcol⟩
    rw [close_last_fused]
    by_cases hl : m + 1 = T.fused
    · rw [if_pos hl]
      have hm' : m = T.fused - 1 := by omega
      rw [hm'] at hen ⊢
      exact close_last_end_last T e (st + a) hres.hend hen hle
    · rw [if_neg hl, close_last_sf_other T m (by omega)]
      exact hen
  · intro m hm
    rw [close_last_fused] at hm
    rw [close_last_start, close_last_sf_other T m (by omega)]
    exact hres.link m hm
  · simp [close_last]

/-- The first call of `proc_sfrac` on a sector with raw segments, none of them
tapering or with a negative span, leaves a resolved sector. -/
theorem first_call_closed (cfg : config) (sec : sector) (ρ s e : ℚ)
    (hρ : cfg.sec_radius_ = some ρ) (hdir : sec.dir = none)
    (hs : sec.start = some s) (he : sec.end_ = some e) (hse : s ≤ e) (hk : 1 ≤ sec.fused)
    (hraw : ∀ j, j < sec.fused →
      tapering (sec.sf j).type = false ∧ negspan (sec.sf j) = false) :
    ∃ R : sector, proc_sfrac cfg sec = some (0, R) ∧ Closed s e R ∧
      (∃ r0, (R.sf 0).r = some r0 ∧ (r0 < 0 → r0 = ρ)) ∧ R.fused = sec.fused ∧
      R.col0 = sec.col0 ∧
      (R.sf 0).type = (if (sec.sf 0).type = ARC_UNDEF then ARC_SOLID else (sec.sf 0).type) ∧
      (R.sf 0).r = ((init_radius cfg sec).sf 0).r := by
  have hn0 : negspan ((init_radius cfg sec).sf 0) = false := by
    have := (hraw 0 hk).2
    simpa [negspan] using this
  obtain ⟨h1, ⟨y, hy, hy0⟩, hrk, htk, hlater, hfu, hcol, hdr⟩ :=
    first_span_keep (init_radius cfg sec) s e (by simpa using hs) (by simpa using he) hse hn0
  obtain ⟨r0, hr0, hneg⟩ := init_radius_r cfg sec ρ hρ
  have hres1 := first_segment_resolved (first_span (init_radius cfg sec)).2 s e y
    (by simpa using hs) (by simpa using he) hse hy hy0
    (by rw [hrk, hr0]; rfl)
    (by rw [htk, init_radius_type]; exact (hraw 0 hk).1)
  have hfu2 : (first_segment (first_span (init_radius cfg sec)).2).fused = sec.fused := by
    rw [first_segment_fused, hfu, init_radius_fused]
  obtain ⟨h3, hres3, hr3, hcol3, hdir3⟩ := resolve_loop_resolved s e
    ((first_segment (first_span (init_radius cfg sec)).2).fused - 1) 1
    (first_segment (first_span (init_radius cfg sec)).2) le_rfl hres1
    (by
      intro m hm1 hm2
      rw [first_segment_sf_later _ m hm1, hlater m hm1, init_radius_sf, if_neg (by omega)]
      have := hraw m (by omega)
      exact ⟨this.2, this.1⟩)
  have hmain := proc_sfrac_raw_notaper cfg sec hdir (by omega) (fun j hj => (hraw j hj).1) h1 h3
  obtain ⟨f3, _, _⟩ := resolve_loop_frame
    ((first_segment (first_span (init_radius cfg sec)).2).fused - 1) 1
    (first_segment (first_span (init_radius cfg sec)).2)
  have hty3 := resolve_loop_type_keep
    ((first_segment (first_span (init_radius cfg sec)).2).fused - 1) 1
    (first_segment (first_span (init_radius cfg sec)).2) 0
    (by
      obtain ⟨_, _, _, _, _, _, _, _, hty, _⟩ := hres1.seg 0 (by omega)
      exact hty)
  generalize (resolve_loop ((first_segment (first_span (init_radius cfg sec)).2).fused - 1) 1
    (first_segment (first_span (init_radius cfg sec)).2)).2 = S3 at *
  rw [hfu2] at f3
  rw [hfu2, show 1 + (sec.fused - 1) = S3.fused by omega] at hres3
  have hd3 : S3.dir = none := by
    rw [hdir3]
    show (first_span (init_radius cfg sec)).2.dir = none
    rw [hdr, init_radius_dir, hdir]
  refine ⟨close_last S3, hmain, closed_of_resolved s e S3 hres3 hd3 (by omega), ?_, ?_, ?_, ?_,
    ?_⟩
  · refine ⟨r0, ?_, hneg⟩
    rw [close_last_r, hr3]
    show ((first_segment (first_span (init_radius cfg sec)).2).sf 0).r = some r0
    simp only [first_segment, setSf_sf, if_true]
    rw [hrk, hr0]
  · rw [close_last_fused, f3]
  · show S3.col0 = sec.col0
    rw [hcol3]
    show (first_span (init_radius cfg sec)).2.col0 = sec.col0
    rw [hcol, init_radius_col0]
  · rw [close_last_type, hty3]
    simp only [first_segment, setSf_sf, if_true]
    rw [htk, init_radius_type]
  · rw [close_last_r, hr3]
    simp only [first_segment, setSf_sf, if_true]
    rw [hrk]

theorem init_radius_stable (cfg : config) (T : sector) (ρ r0 : ℚ)
    (hρ : cfg.sec_radius_ = some ρ) (hr : (T.sf 0).r = some r0) (hneg : r0 < 0 → r0 = ρ) :
    ((init_radius cfg T).sf 0).r = some r0 := by
  unfold init_radius
  by_cases hlt : r0 < 0
  · have := hneg hlt
    subst this
    simp [hr, isnan, dlt, hlt, hρ]
  · simp [hr, isnan, dlt, hlt]

theorem same_segment_refl (f : sector_frac) : same_segment f f :=
  ⟨rfl, rfl, rfl, rfl, rfl, rfl, rfl⟩

theorem directional_dir (cfg : config) (T : sector) : (directional cfg T).dir = T.dir := rfl
theorem directional_sspace (cfg : config) (T : sector) :
    (directional cfg T).sspace = T.sspace := rfl
theorem directional_espace (cfg : config) (T : sector) :
    (directional cfg T).espace = T.espace := rfl
theorem directional_col0 (cfg : config) (T : sector) : (directional cfg T).col0 = T.col0 := rfl
theorem directional_fused (cfg : config) (T : sector) : (directional cfg T).fused = 2 := rfl

theorem directional_sf0 (cfg : config) (T : sector) :
    (directional cfg T).sf 0 =
      { T.sf 0 with start := dsub T.dir (dir_half cfg T.sspace), end_ := T.dir,
                    col := T.col0, type := ARC_SOLID, endr := true } := rfl

theorem directional_sf1 (cfg : config) (T : sector) :
    (directional cfg T).sf 1 =
      { T.sf 1 with r := (T.sf 0).r, start := T.dir,
                    end_ := dadd T.dir (dir_half cfg T.espace),
                    col := T.col0, type := ARC_SOLID } := rfl

theorem directional_sf_other (cfg : config) (T : sector) (i : Nat) (h0 : i ≠ 0) (h1 : i ≠ 1) :
    (directional cfg T).sf i = T.sf i := by
  simp [directional, h0, h1]

theorem directional_again (cfg : config) (A : sector) (ρ r0 : ℚ)
    (hρ : cfg.sec_radius_ = some ρ) (hr0 : (A.sf 0).r = some r0) (hneg : r0 < 0 → r0 = ρ)
    (i : Nat) :
    same_segment ((directional cfg (init_radius cfg (directional cfg A))).sf i)
      ((directional cfg A).sf i) := by
  have hD0 : ((directional cfg A).sf 0).r = some r0 := by
    rw [directional_sf0]; exact hr0
  have hst := init_radius_stable cfg (directional cfg A) ρ r0 hρ hD0 hneg
  have hsf := init_radius_sf cfg (directional cfg A)
  have hdir : (init_radius cfg (directional cfg A)).dir = A.dir := by
    rw [init_radius_dir, directional_dir]
  have hss : (init_radius cfg (directional cfg A)).sspace = A.sspace := by
    rw [init_radius_sspace, directional_sspace]
  have hes : (init_radius cfg (directional cfg A)).espace = A.espace := by
    rw [init_radius_espace, directional_espace]
  have hc0 : (init_radius cfg (directional cfg A)).col0 = A.col0 := by
    rw [init_radius_col0, directional_col0]
  have hsr0 : ((init_radius cfg (directional cfg A)).sf 0).startr = (A.sf 0).startr := by
    rw [init_radius_startr, directional_sf0]
  have h1 : (init_radius cfg (directional cfg A)).sf 1 = (directional cfg A).sf 1 := by
    rw [hsf 1, if_neg (by decide)]
  generalize init_radius cfg (directional cfg A) = A2 at *
  by_cases hi0 : i = 0
  · subst hi0
    rw [directional_sf0, directional_sf0, hdir, hss, hc0]
    exact ⟨rfl, rfl, by rw [hst, hr0], rfl, rfl, hsr0, rfl⟩
  · by_cases hi1 : i = 1
    · subst hi1
      rw [directional_sf1 cfg A2, hdir, hes, hc0, h1, directional_sf1]
      exact ⟨rfl, rfl, by rw [hst, hr0], rfl, rfl, rfl, rfl⟩
    · rw [directional_sf_other cfg A2 i hi0 hi1, hsf i, if_neg hi0]
      exact same_segment_refl _

/-! ### A single raw segment with a negative span, called twice -/

theorem resolve_step_back (T : sector) (i : Nat) (s e pst pa x : ℚ) (h1 : 1 ≤ i)
    (hs : T.start = some s) (he : T.end_ = some e) (hl : ¬ T.fused > i + 1)
    (hp : Settled T.col0 e pst pa (T.sf (i - 1)))
    (ha : (T.sf i).a = some x) (hx : x < 0) (hcl : s - e ≤ x) (hcons : pst + pa = e + x)
    (ht : tapering (T.sf i).type = false) :
    (resolve_step T i).1 = 0 ∧
    (∃ a, Settled T.col0 e (pst + pa) a ((resolve_step T i).2.sf i)) ∧
    ((resolve_step T i).2.sf i).start = (T.sf (i - 1)).end_ ∧
    (∀ j, j ≠ i → (resolve_step T i).2.sf j = T.sf j) ∧
    (resolve_step T i).2.col0 = T.col0 ∧ (resolve_step T i).2.dir = T.dir := by
  obtain ⟨_, _, _, hpe, hple, hpr, hpty, hptap, hpcol⟩ := hp
  rw [hcons] at hpe ⊢
  have hne : i - 1 ≠ i := by omega
  have hc : ¬ x < s - e := not_lt.mpr hcl
  have hrr : isnan (if isnan (T.sf i).r = true then (T.sf (i - 1)).r else (T.sf i).r) = false := by
    split_ifs with h
    · exact hpr
    · simpa using h
  have hty : (if (T.sf i).type = ARC_UNDEF then (T.sf (i - 1)).type else (T.sf i).type)
      ≠ ARC_UNDEF := by
    split_ifs with h
    · exact hpty
    · exact h
  have htap : tapering (if (T.sf i).type = ARC_UNDEF then (T.sf (i - 1)).type
      else (T.sf i).type) = false := by
    split_ifs with h
    · exact hptap
    · exact ht
  have hprev : { T.sf (i - 1) with end_ := some (e + x) } = T.sf (i - 1) := by
    rw [← hpe]
  refine ⟨by simp [resolve_step, ha, isnan, dlt, hx, hl], ⟨-x, ?_⟩, ?_, ?_, ?_, ?_⟩
  · refine ⟨?_, by linarith, ?_, ?_, by linarith, ?_, ?_, ?_, ?_⟩
    · simp [resolve_step, ha, isnan, dlt, hx, hl, hs, he, dsub, dadd, dneg, hc]
    · simp [resolve_step, ha, isnan, dlt, hx, hl, hs, he, dsub, dadd, hc]
    · simp [resolve_step, ha, isnan, dlt, hx, hl, he]
    · simpa [resolve_step, ha, isnan, dlt, hx, hl] using hrr
    · simpa [resolve_step, ha, isnan, dlt, hx, hl] using hty
    · simpa [resolve_step, ha, isnan, dlt, hx, hl] using htap
    · simp [resolve_step, ha, isnan, dlt, hx, hl, hpcol]
  · simp [resolve_step, ha, isnan, dlt, hx, hl, hs, he, dsub, dadd, hc, hpe]
  · intro j hj
    by_cases hjp : j = i - 1
    · subst hjp
      simp [resolve_step, ha, isnan, dlt, hx, hl, hs, he, dsub, dadd, hc, hne, hprev]
    · simp [resolve_step, ha, isnan, dlt, hx, hl, hj, hjp]
  · simp [resolve_step, ha, isnan, dlt, hx, hl]
  · simp [resolve_step, ha, isnan, dlt, hx, hl]

theorem first_span_dir (T : sector) : (first_span T).2.dir = T.dir := by
  unfold first_span
  simp only []
  split_ifs <;> rfl

theorem first_span_r0 (T : sector) : ((first_span T).2.sf 0).r = (T.sf 0).r := by
  unfold first_span
  simp only []
  split_ifs <;> simp

/-- The first call of `proc_sfrac` on a sector whose single raw segment has a
negative span leaves a resolved sector. -/
theorem first_call_closed_neg (cfg : config) (sec : sector) (ρ s e a : ℚ)
    (hρ : cfg.sec_radius_ = some ρ) (hdir : sec.dir = none)
    (hs : sec.start = some s) (he : sec.end_ = some e) (hse : s ≤ e) (hf : sec.fused = 1)
    (ha : (sec.sf 0).a = some a) (hneg : a < 0) (hnt : tapering (sec.sf 0).type = false) :
    ∃ R : sector, proc_sfrac cfg sec = some (0, R) ∧ Closed s e R ∧
      (∃ r0, (R.sf 0).r = some r0 ∧ (r0 < 0 → r0 = ρ)) ∧ R.fused = 2 := by
  have hnotaper : notaper sec := by
    intro j hj
    have : j = 0 := by omega
    subst this
    exact hnt
  obtain ⟨f1, f2, f3, f4, f5, f6⟩ := first_span_neg (init_radius cfg sec) s e a
    (by simpa using hf) (by simpa using hs) (by simpa using he) (by simpa using ha) hneg
  rw [init_radius_type] at f6
  obtain ⟨r0, hr0, hrneg⟩ := init_radius_r cfg sec ρ hρ
  have hx0 : max a (s - e) ≤ 0 := max_le hneg.le (by linarith)
  have hxl : s - e ≤ max a (s - e) := le_max_right _ _
  have hs1 : (first_span (init_radius cfg sec)).2.start = some s := by simpa using hs
  have he1 : (first_span (init_radius cfg sec)).2.end_ = some e := by simpa using he
  have hres1 := first_segment_resolved (first_span (init_radius cfg sec)).2 s e
    (max a (s - e) + e - s) hs1 he1 hse f3 (by linarith)
    (by rw [first_span_r0, hr0]; rfl) (by rw [f4]; exact tapering_solid)
  have ga : ((first_segment (first_span (init_radius cfg sec)).2).sf 0).a
      = some (max a (s - e) + e - s) := by
    have hcl : ¬ (e - s < max a (s - e) + e - s) := by linarith
    simp [first_segment, hs, he, f3, dgt, dlt, dsub, hcl]
  have g1 : (first_segment (first_span (init_radius cfg sec)).2).sf 1 =
      (first_span (init_radius cfg sec)).2.sf 1 := first_segment_sf_later _ 1 le_rfl
  have gfu : (first_segment (first_span (init_radius cfg sec)).2).fused = 2 := by
    rw [first_segment_fused, f2]
  have gr : ((first_segment (first_span (init_radius cfg sec)).2).sf 0).r = some r0 := by
    simp only [first_segment, setSf_sf, if_true]
    rw [first_span_r0, hr0]
  have gdir : (first_segment (first_span (init_radius cfg sec)).2).dir = none := by
    show (first_span (init_radius cfg sec)).2.dir = none
    rw [first_span_dir, init_radius_dir, hdir]
  obtain ⟨pst, pa, hp⟩ := hres1.seg 0 (by omega)
  have hpst : s = pst := by
    obtain ⟨_, _, h, _⟩ := hp
    rw [hres1.first] at h
    exact Option.some.inj h
  have hpa : max a (s - e) + e - s = pa := by
    obtain ⟨h, _⟩ := hp
    rw [ga] at h
    exact Option.some.inj h
  subst hpst hpa
  have ht1 : tapering ((first_segment (first_span (init_radius cfg sec)).2).sf 1).type
      = false := by
    rw [g1, f6]; exact hnt
  have ha1 : ((first_segment (first_span (init_radius cfg sec)).2).sf 1).a
      = some (max a (s - e)) := by
    rw [g1, f5]
  have hstep : (resolve_step (first_segment (first_span (init_radius cfg sec)).2) 1).1 = 0 ∧
      (∃ a2, Settled (first_segment (first_span (init_radius cfg sec)).2).col0 e
        (s + (max a (s - e) + e - s)) a2
        ((resolve_step (first_segment (first_span (init_radius cfg sec)).2) 1).2.sf 1)) ∧
      ((resolve_step (first_segment (first_span (init_radius cfg sec)).2) 1).2.sf 1).start
        = ((first_segment (first_span (init_radius cfg sec)).2).sf (1 - 1)).end_ ∧
      (∀ j, j ≠ 1 → (resolve_step (first_segment (first_span (init_radius cfg sec)).2) 1).2.sf j
        = (first_segment (first_span (init_radius cfg sec)).2).sf j) ∧
      (resolve_step (first_segment (first_span (init_radius cfg sec)).2) 1).2.col0
        = (first_segment (first_span (init_radius cfg sec)).2).col0 ∧
      (resolve_step (first_segment (first_span (init_radius cfg sec)).2) 1).2.dir
        = (first_segment (first_span (init_radius cfg sec)).2).dir := by
    by_cases hx : max a (s - e) < 0
    · exact resolve_step_back _ 1 s e s (max a (s - e) + e - s) (max a (s - e))
        le_rfl hres1.hstart hres1.hend (by rw [gfu]; omega) hp ha1 hx hxl (by ring) ht1
    · exact resolve_step_settle _ 1 e s (max a (s - e) + e - s) le_rfl hres1.hend hp
        (by simp [negspan, ha1, isnan, dlt, hx]) ht1
  obtain ⟨r1, hset, hlink, hoth, hcol, hdr⟩ := hstep
  have hres2 := resolved_extend s e 1 _ _ hres1 (resolve_step_start _ 1)
    (resolve_step_end _ 1) s (max a (s - e) + e - s) hset hlink hoth hcol le_rfl
  have gloop : resolve_loop ((first_segment (first_span (init_radius cfg sec)).2).fused - 1) 1
      (first_segment (first_span (init_radius cfg sec)).2) =
      (0, (resolve_step (first_segment (first_span (init_radius cfg sec)).2) 1).2) := by
    rw [gfu, show 2 - 1 = 0 + 1 from rfl, resolve_loop_succ, if_pos r1]
    rfl
  have h3 : (resolve_loop ((first_segment (first_span (init_radius cfg sec)).2).fused - 1) 1
      (first_segment (first_span (init_radius cfg sec)).2)).1 = 0 := by rw [gloop]
  have hmain := proc_sfrac_raw_notaper cfg sec hdir (by omega) hnotaper f1 h3
  rw [gloop] at hmain
  have kfu : (resolve_step (first_segment (first_span (init_radius cfg sec)).2) 1).2.fused = 2 := by
    rw [resolve_step_fused, gfu]
  have kr := hoth 0 (by omega)
  generalize (resolve_step (first_segment (first_span (init_radius cfg sec)).2) 1).2 = S at *
  have hmain2 : proc_sfrac cfg sec = some (0, close_last S) := hmain
  rw [show 1 + 1 = S.fused by omega] at hres2
  refine ⟨close_last S, hmain2, closed_of_resolved s e S hres2 (by rw [hdr]; exact gdir)
    (by omega), ⟨r0, ?_, hrneg⟩, by rw [close_last_fused]; exact kfu⟩
  rw [close_last_r, kr]
  exact gr

theorem plain_sector_sf0 (cfg : config) (T : sector) (s e : ℚ) (hs : T.start = some s)
    (he : T.end_ = some e) (hw : e - s < 360) :
    (plain_sector cfg T).sf 0 =
      { T.sf 0 with r := cfg.sec_radius_, start := some s, end_ := some e, col := T.col0,
                    type := ARC_SOLID, startr := true, endr := true } := by
  simp [plain_sector, hs, he, dsub, dlt, hw]

theorem plain_sector_frame (cfg : config) (T : sector) :
    (plain_sector cfg T).fused = T.fused + 1 ∧ (plain_sector cfg T).dir = T.dir ∧
    (plain_sector cfg T).start = T.start ∧ (plain_sector cfg T).end_ = T.end_ ∧
    (plain_sector cfg T).col0 = T.col0 :=
  ⟨rfl, rfl, rfl, rfl, rfl⟩

/-! ### Coverage of the sector by the resolved segments -/

theorem resolve_step_startr_keep (sec : sector) (i j : Nat) :
    ((resolve_step sec i).2.sf j).startr = (sec.sf j).startr := by
  by_cases hji : j = i
  · subst hji
    exact resolve_step_startr sec j
  · by_cases hjp : j = i - 1
    · by_cases h1 : 1 ≤ i
      · rw [hjp, resolve_step_sf_prev sec i h1]
      · exact absurd hjp (by omega)
    · rw [resolve_step_sf_other sec i j hji hjp]

theorem resolve_loop_startr_keep (n : Nat) : ∀ (i : Nat) (sec : sector) (j : Nat),
    ((resolve_loop n i sec).2.sf j).startr = (sec.sf j).startr := by
  induction n with
  | zero => intro i sec j; rfl
  | succ n ih =>
    intro i sec j
    rw [resolve_loop_succ]
    split_ifs
    · rw [ih (i + 1) _ j, resolve_step_startr_keep]
    · exact resolve_step_startr_keep sec i j

/-! ### Keys and tags -/

theorem get_sectors_loop_append (cfg : config) (nmax : Int) (t1 t2 : hpx_tree) :
    ∀ st : gs_state, get_sectors_loop cfg nmax (t1 ++ t2) st
      = (get_sectors_loop cfg nmax t1 st).bind (get_sectors_loop cfg nmax t2) := by
  induction t1 with
  | nil => intro st; rfl
  | cons tag rest ih =>
    intro st
    simp only [List.cons_append, get_sectors_loop]
    cases h : get_sectors_tag cfg nmax tag tag st with
    | none => rfl
    | some st1 => exact ih st1

/-- A tag that leaves every state as it is can be left out of the tag list. -/
theorem get_sectors_skip (cfg : config) (nmax : Int) (tag : hpx_tag) (t1 t2 : hpx_tree)
    (sec : secarr) (h : ∀ st : gs_state, get_sectors_tag cfg nmax tag tag st = some st) :
    get_sectors cfg (t1 ++ tag :: t2) sec nmax = get_sectors cfg (t1 ++ t2) sec nmax := by
  unfold get_sectors
  rw [get_sectors_loop_append, get_sectors_loop_append]
  cases get_sectors_loop cfg nmax t1 (sec, 0) with
  | none => rfl
  | some st =>
    simp only [Option.bind, get_sectors_loop]
    rw [h st]

theorem get_sectors_tag_of (cfg : config) (nmax : Int) (key value : bstring) (st : gs_state) :
    get_sectors_tag cfg nmax (tag_of key value) (tag_of key value) st
      = get_sectors_key cfg nmax st key (some value) := by
  have h1 : bs_cmp "k".toList "k" = 0 := by decide
  have h2 : bs_cmp "v".toList "k" ≠ 0 := by decide
  have h3 : get_v (tag_of key value) = some value := by
    simp [get_v, tag_of, List.find?, bs_cmp]
  simp only [tag_of, get_sectors_tag, h1, h2, if_true, if_false]
  rw [show ([{ name := "k".toList, value := key }, { name := "v".toList, value := value }]
    : hpx_tag) = tag_of key value from rfl, h3]
  cases get_sectors_key cfg nmax st key (some value) <;> rfl

theorem bs_isnum_nil : bs_isnum [] = false := by decide

/-- A key `seamark:light:<b>` whose rest `b` starts with a number is none of
the keys of the whole light. -/
theorem get_sectors_key_numbered (cfg : config) (nmax : Int) (st : gs_state) (b : bstring)
    (v : Option bstring) (hnum : bs_isnum b = true) :
    get_sectors_key cfg nmax st (light_pre ++ b) v = numbered_tag cfg nmax st b v := by
  have hne : b ≠ [] := by
    intro h
    rw [h, bs_isnum_nil] at hnum
    exact absurd hnum (by decide)
  have key : ∀ full w : String, bs_isnum w.toList = false →
      full.toList = light_pre ++ w.toList → bs_cmp (light_pre ++ b) full ≠ 0 := by
    intro full w hw hs
    unfold bs_cmp
    rw [hs]
    have : light_pre ++ b ≠ light_pre ++ w.toList := by
      intro h
      have := List.append_cancel_left h
      rw [this, hw] at hnum
      exact absurd hnum (by decide)
    rw [if_neg this]
    decide
  have k1 := key "seamark:light:orientation" "orientation" (by decide) (by decide)
  have k2 := key "seamark:light:category" "category" (by decide) (by decide)
  have k3 := key "seamark:light:colour" "colour" (by decide) (by decide)
  have k4 := key "seamark:light:character" "character" (by decide) (by decide)
  have k5 := key "seamark:light:period" "period" (by decide) (by decide)
  have k6 := key "seamark:light:range" "range" (by decide) (by decide)
  have k7 := key "seamark:light:group" "group" (by decide) (by decide)
  have hl : (light_pre ++ b).length > 14 := by
    have : 0 < b.length := List.length_pos.mpr hne
    simp only [List.length_append, light_pre]
    have h14 : "seamark:light:".toList.length = 14 := by decide
    omega
  have ht : (light_pre ++ b).take 14 = "seamark:light:".toList :=
    List.take_left' (by decide)
  have hd : (light_pre ++ b).drop 14 = b := List.drop_left' (by decide)
  unfold get_sectors_key
  rw [if_neg k1, if_neg k2, if_neg k3, if_neg k4, if_neg k5, if_neg k6, if_neg k7,
    if_pos ⟨hl, ht⟩, hd]

theorem is_digit_ne (c x : Char) (hc : is_digit c = true) (hx : is_digit x = false) : c ≠ x := by
  intro h
  rw [h, hx] at hc
  exact absurd hc (by decide)

theorem skip_digits_append (ds : bstring) (x : Char) (rest : bstring)
    (hd : ∀ c ∈ ds, is_digit c = true) (hx : is_digit x = false) :
    skip_digits (ds ++ x :: rest) = x :: rest := by
  induction ds with
  | nil => simp [skip_digits, List.dropWhile, hx]
  | cons d t ih =>
    have h1 : is_digit d = true := hd d (List.mem_cons_self _ _)
    have h2 := ih (fun c hc => hd c (List.mem_cons_of_mem _ hc))
    simp only [skip_digits, List.cons_append, List.dropWhile, h1] at h2 ⊢
    exact h2

theorem skip_digits_all (ds : bstring) (hd : ∀ c ∈ ds, is_digit c = true) :
    skip_digits ds = [] := by
  induction ds with
  | nil => rfl
  | cons d t ih =>
    have h1 : is_digit d = true := hd d (List.mem_cons_self _ _)
    have h2 := ih (fun c hc => hd c (List.mem_cons_of_mem _ hc))
    simp only [skip_digits, List.dropWhile, h1] at h2 ⊢
    exact h2

theorem digits_nat_append (ds : bstring) (x : Char) (rest : bstring)
    (hd : ∀ c ∈ ds, is_digit c = true) (hx : is_digit x = false) :
    ∀ acc, digits_nat acc (ds ++ x :: rest) = digits_nat acc ds := by
  induction ds with
  | nil => intro acc; simp [digits_nat, hx]
  | cons d t ih =>
    intro acc
    have h1 : is_digit d = true := hd d (List.mem_cons_self _ _)
    simp only [List.cons_append, digits_nat, h1, if_true]
    exact ih (fun c hc => hd c (List.mem_cons_of_mem _ hc)) _

theorem digits_head (ds : bstring) (hd : digits ds) :
    ∃ d t, ds = d :: t ∧ is_digit d = true ∧ ∀ c ∈ t, is_digit c = true := by
  obtain ⟨hne, hall⟩ := hd
  cases ds with
  | nil => exact absurd rfl hne
  | cons d t =>
    exact ⟨d, t, rfl, hall d (List.mem_cons_self _ _),
      fun c hc => hall c (List.mem_cons_of_mem _ hc)⟩

/-- A number in front of a character that is neither a digit nor a point is
numeric for `bs_isnum`. -/
theorem bs_isnum_digits_then (ds : bstring) (x : Char) (rest : bstring) (hd : digits ds)
    (hx : is_digit x = false) (hp : x ≠ '.') : bs_isnum (ds ++ x :: rest) = true := by
  obtain ⟨d, t, rfl, h1, ht⟩ := digits_head ds hd
  have hm : d ≠ '-' := is_digit_ne d '-' h1 (by decide)
  have hsk := skip_digits_append (d :: t) x rest hd.2 hx
  unfold bs_isnum
  simp only [List.cons_append] at hsk ⊢
  simp only [peek, List.headD_cons, hm, false_and, if_false, hsk, List.length_cons,
    List.length_append, hp, ne_eq, not_false_eq_true, if_true]
  simp
  omega

theorem bs_isnum_digits (ds : bstring) (hd : digits ds) : bs_isnum ds = true := by
  obtain ⟨d, t, rfl, h1, ht⟩ := digits_head ds hd
  have hm : d ≠ '-' := is_digit_ne d '-' h1 (by decide)
  have hsk := skip_digits_all (d :: t) hd.2
  unfold bs_isnum
  simp only [peek, List.headD_cons, hm, false_and, if_false, hsk, List.length_cons,
    List.length_nil, if_true]
  simp

theorem bs_tol_digits (ds rest : bstring) (hd : digits ds) :
    bs_tol (ds ++ rest) = (digits_nat 0 (ds ++ rest) : Int) := by
  obtain ⟨d, t, rfl, h1, ht⟩ := digits_head ds hd
  have hm : d ≠ '-' := is_digit_ne d '-' h1 (by decide)
  unfold bs_tol
  simp only [List.cons_append]
  split
  · rename_i heq
    exact absurd (List.cons.inj heq).1 (by simpa using hm)
  · rfl

/-! ### The numbered colour tag -/

theorem numbered_tag_colour (cfg : config) (nmax : Int) (st : gs_state) (ds c : bstring)
    (hd : digits ds) (h1 : 1 ≤ (digits_nat 0 ds : Int)) (h2 : (digits_nat 0 ds : Int) < nmax) :
    numbered_tag cfg nmax st (ds ++ ":colour".toList) (some c)
      = some (numbered_colour st (digits_nat 0 ds : Int) c) := by
  have hx : is_digit ':' = false := by decide
  have hb : ds ++ ":colour".toList = ds ++ ':' :: "colour".toList := rfl
  have e1 : bs_isnum (ds ++ ':' :: "colour".toList) = true :=
    bs_isnum_digits_then ds ':' _ hd hx (by decide)
  have e2 : bs_tol (ds ++ ':' :: "colour".toList) = (digits_nat 0 ds : Int) := by
    rw [bs_tol_digits ds _ hd, digits_nat_append ds ':' _ hd.2 hx]
  have e3 : skip_digits (ds ++ ':' :: "colour".toList) = ':' :: "colour".toList :=
    skip_digits_append ds ':' _ hd.2 hx
  have e4 : ¬ ((digits_nat 0 ds : Int) ≤ 0 ∨ (digits_nat 0 ds : Int) ≥ nmax) := by omega
  unfold numbered_tag
  rw [hb]
  simp only [e1, e2, e3, e4, Bool.not_true, Bool.false_eq_true, if_false]
  have f1 : ¬ ((':' :: "colour".toList).length = 0 ∧ cfg.parse_rhint_ = true) := by
    intro h
    exact absurd h.1 (by decide)
  have f2 : ¬ (peek (':' :: "colour".toList) = ':' ∧
      (bs_advance (':' :: "colour".toList)).length = 0) := by
    intro h
    exact absurd h.2 (by decide)
  have f3 : peek (':' :: "colour".toList) = ':' := rfl
  have f4 : bs_advance (':' :: "colour".toList) = "colour".toList := rfl
  have f5 : bs_cmp "colour".toList "sector_start" ≠ 0 := by decide
  have f6 : bs_cmp "colour".toList "sector_end" ≠ 0 := by decide
  have f7 : bs_cmp "colour".toList "colour" = 0 := by decide
  rw [if_neg f1, if_neg f2]
  simp only [f3, if_true, f4]
  rw [if_neg f5, if_neg f6, if_pos f7]

theorem find_col_none (p : String → Bool) (h : ∀ s ∈ col_, p s = false) : find_col p = none := by
  have h0 := h "white" (by decide)
  have h1 := h "red" (by decide)
  have h2 := h "green" (by decide)
  have h3 := h "yellow" (by decide)
  have h4 := h "orange" (by decide)
  have h5 := h "blue" (by decide)
  have h6 := h "violet" (by decide)
  have h7 := h "amber" (by decide)
  simp [find_col, col_, List.findIdx?, h0, h1, h2, h3, h4, h5, h6, h7]

theorem find_col_unmatched (c : bstring) (hc : ∀ s ∈ col_, bs_ncmp c s s.length ≠ 0) :
    find_col (fun s => decide (bs_ncmp c s s.length = 0)) = none := by
  apply find_col_none
  intro s hs
  simpa using hc s hs

/-- C24: a colour tag of the sector number `k` (`seamark:light:<k>:colour`,
1 ≤ k < nmax) whose value starts with no palette name leaves the sector array
(both colour indices of sector `k` and every other field of every slot) and the
counter as they are, so that for every tag list, wherever the tag stands in
it, `get_sectors` gives the result that the other tags give without it. -/
theorem unknown_colour_ignored (cfg : config) (nmax : Int) (ds c : bstring)
    (hd : digits ds) (h1 : 1 ≤ (digits_nat 0 ds : Int)) (h2 : (digits_nat 0 ds : Int) < nmax)
    (hc : ∀ s ∈ col_, bs_ncmp c s s.length ≠ 0) :
    (∀ st : gs_state,
      get_sectors_tag cfg nmax (tag_of (light_pre ++ (ds ++ ":colour".toList)) c)
        (tag_of (light_pre ++ (ds ++ ":colour".toList)) c) st = some st) ∧
    (∀ (t1 t2 : hpx_tree) (sec : secarr),
      get_sectors cfg (t1 ++ tag_of (light_pre ++ (ds ++ ":colour".toList)) c :: t2) sec nmax
        = get_sectors cfg (t1 ++ t2) sec nmax) := by
  have hx : is_digit ':' = false := by decide
  have hstep : ∀ st : gs_state,
      get_sectors_tag cfg nmax (tag_of (light_pre ++ (ds ++ ":colour".toList)) c)
        (tag_of (light_pre ++ (ds ++ ":colour".toList)) c) st = some st := by
    intro st
    have hn : bs_isnum (ds ++ ":colour".toList) = true :=
      bs_isnum_digits_then ds ':' "colour".toList hd hx (by decide)
    rw [get_sectors_tag_of, get_sectors_key_numbered cfg nmax st _ _ hn,
      numbered_tag_colour cfg nmax st ds c hd h1 h2]
    unfold numbered_colour
    rw [find_col_unmatched c hc]
  exact ⟨hstep, fun t1 t2 sec => get_sectors_skip cfg nmax _ t1 t2 sec hstep⟩

theorem skip_to_append (ch : Char) (x rest : bstring) (hx : ch ∉ x) :
    skip_to ch (x ++ ch :: rest) = ch :: rest := by
  induction x with
  | nil => simp [skip_to, List.dropWhile]
  | cons d t ih =>
    have hd : d ≠ ch := fun h => hx (by rw [h]; exact List.mem_cons_self _ _)
    have ht := ih (fun h => hx (List.mem_cons_of_mem _ h))
    have hb : (d != ch) = true := by simpa using hd
    simp only [skip_to, List.cons_append, List.dropWhile, hb] at ht ⊢
    exact ht

/-- C25 (amended): for a colour tag of the sector number `k`
(`seamark:light:<k>:colour`, 1 ≤ k < nmax) whose value holds the two tokens
`t1;t2`: if the value starts with no palette name, the tag changes nothing; if
it starts with the palette name of index `l` and the second token starts with
no palette name, the primary colour index of sector `k` becomes `l` and
nothing else changes: the secondary colour index stays as it is, the sector is
not marked used by this tag and the counter is not increased. -/
theorem colour_pair_partial (cfg : config) (nmax : Int) (st : gs_state) (ds t1 t2 : bstring)
    (l : Nat) (hd : digits ds) (h1 : 1 ≤ (digits_nat 0 ds : Int))
    (h2 : (digits_nat 0 ds : Int) < nmax) (hsep : ';' ∉ t1) :
    ((∀ s ∈ col_, bs_ncmp (t1 ++ ';' :: t2) s s.length ≠ 0) →
      get_sectors_tag cfg nmax (tag_of (light_pre ++ (ds ++ ":colour".toList)) (t1 ++ ';' :: t2))
        (tag_of (light_pre ++ (ds ++ ":colour".toList)) (t1 ++ ';' :: t2)) st = some st) ∧
    (find_col (fun s => decide (bs_ncmp (t1 ++ ';' :: t2) s s.length = 0)) = some l →
      (∀ s ∈ col_, bs_ncmp t2 s s.length ≠ 0) →
      get_sectors_tag cfg nmax (tag_of (light_pre ++ (ds ++ ":colour".toList)) (t1 ++ ';' :: t2))
        (tag_of (light_pre ++ (ds ++ ":colour".toList)) (t1 ++ ';' :: t2)) st
        = some (setSec st.1 (digits_nat 0 ds : Int)
            { st.1 (digits_nat 0 ds : Int) with col0 := (l : Int) }, st.2)) := by
  have hx : is_digit ':' = false := by decide
  have hn : bs_isnum (ds ++ ":colour".toList) = true :=
    bs_isnum_digits_then ds ':' "colour".toList hd hx (by decide)
  rw [get_sectors_tag_of, get_sectors_key_numbered cfg nmax st _ _ hn,
    numbered_tag_colour cfg nmax st ds _ hd h1 h2]
  constructor
  · intro hc
    unfold numbered_colour
    rw [find_col_unmatched _ hc]
  · intro hl hc2
    unfold numbered_colour
    rw [hl]
    simp only [skip_to_append ';' t1 t2 hsep, bs_advance, List.tail_cons]
    by_cases he : (';' :: t2).length = 0 ∨ t2.length = 0
    · rw [if_pos he]
    · rw [if_neg he, find_col_unmatched _ hc2]

/-! ### The renderer hint -/

theorem digits_nat_colon (x rest : bstring) :
    ∀ acc, digits_nat acc (x ++ ':' :: rest) = digits_nat acc x := by
  induction x with
  | nil => intro acc; simp [digits_nat, show is_digit ':' = false by decide]
  | cons d t ih =>
    intro acc
    simp only [List.cons_append, digits_nat]
    split_ifs
    · exact ih _
    · rfl

theorem digits_frac_colon (x rest : bstring) :
    ∀ n, digits_frac n (x ++ ':' :: rest) = digits_frac n x := by
  induction x with
  | nil => intro n; simp [digits_frac, show is_digit ':' = false by decide]
  | cons d t ih =>
    intro n
    simp only [List.cons_append, digits_frac]
    split_ifs
    · exact congrArg _ (ih _)
    · rfl

theorem skip_digits_colon (x rest : bstring) :
    skip_digits (x ++ ':' :: rest) = skip_digits x ++ ':' :: rest := by
  induction x with
  | nil => simp [skip_digits, List.dropWhile, show is_digit ':' = false by decide]
  | cons d t ih =>
    simp only [skip_digits, List.cons_append, List.dropWhile] at ih ⊢
    cases hdg : is_digit d with
    | true => simpa using ih
    | false => simp

/-- The number read by `bs_tod` ends in front of a colon at the latest. -/
theorem bs_tod_colon (x rest : bstring) : bs_tod (x ++ ':' :: rest) = bs_tod x := by
  have key : ∀ y : bstring,
      (if (skip_digits (y ++ ':' :: rest)).head? = some '.'
        then (digits_nat 0 (y ++ ':' :: rest) : ℚ)
          + digits_frac 1 (skip_digits (y ++ ':' :: rest)).tail
        else (digits_nat 0 (y ++ ':' :: rest) : ℚ))
      = (if (skip_digits y).head? = some '.'
        then (digits_nat 0 y : ℚ) + digits_frac 1 (skip_digits y).tail
        else (digits_nat 0 y : ℚ)) := by
    intro y
    rw [skip_digits_colon, digits_nat_colon]
    cases hsk : skip_digits y with
    | nil => simp
    | cons c t =>
      simp only [List.cons_append, List.head?_cons, List.tail_cons]
      rw [digits_frac_colon]
  unfold bs_tod
  cases x with
  | nil =>
    have := key []
    simp only [List.nil_append] at this
    simp only [List.nil_append, List.head?_cons, List.head?_nil, Option.some.injEq]
    simp only [show (':' : Char) ≠ '-' by decide, decide_False, Bool.false_eq_true, if_false]
    simp only [show decide ((none : Option Char) = some '-') = false by rfl,
      Bool.false_eq_true, if_false]
    rw [this]
  | cons c t =>
    simp only [List.cons_append, List.head?_cons, List.tail_cons]
    by_cases hc : c = '-'
    · subst hc
      simp only [decide_True, if_true]
      rw [key t]
    · have hcd : decide (some c = some '-') = false := by simpa using hc
      simp only [hcd, Bool.false_eq_true, if_false]
      rw [← List.cons_append, key (c :: t)]

theorem palette_name (l : Nat) (name : String) (h : col_[l]? = some name) :
    (∀ rest : bstring,
      find_col (fun n => n.toList.isPrefixOf (name.toList ++ ':' :: rest)) = some l) ∧
    (∀ rest : bstring, skip_to ':' (name.toList ++ ':' :: rest) = ':' :: rest) := by
  match l, h with
  | 0, h => cases h; exact ⟨fun _ => rfl, fun _ => rfl⟩
  | 1, h => cases h; exact ⟨fun _ => rfl, fun _ => rfl⟩
  | 2, h => cases h; exact ⟨fun _ => rfl, fun _ => rfl⟩
  | 3, h => cases h; exact ⟨fun _ => rfl, fun _ => rfl⟩
  | 4, h => cases h; exact ⟨fun _ => rfl, fun _ => rfl⟩
  | 5, h => cases h; exact ⟨fun _ => rfl, fun _ => rfl⟩
  | 6, h => cases h; exact ⟨fun _ => rfl, fun _ => rfl⟩
  | 7, h => cases h; exact ⟨fun _ => rfl, fun _ => rfl⟩
  | n + 8, h => exact absurd h (by simp [col_])

/-- The renderer hint with the value `name:s:e:r`. -/
theorem rhint_value (st : gs_state) (k : Int) (l : Nat) (name : String) (s e r : bstring)
    (hname : col_[l]? = some name) (hs : ':' ∉ s) (he : ':' ∉ e) (hr : r ≠ []) :
    rhint st k (some (name.toList ++ ':' :: (s ++ ':' :: (e ++ ':' :: r)))) =
      (setSec (mark_used (setSec st.1 k { st.1 k with col0 := (l : Int) }, st.2) k).1 k
        { (mark_used (setSec st.1 k { st.1 k with col0 := (l : Int) }, st.2) k).1 k with
          start := bs_tod s, end_ := bs_tod e, r := ddiv (bs_tod r) 278 },
       (mark_used (setSec st.1 k { st.1 k with col0 := (l : Int) }, st.2) k).2) := by
  obtain ⟨p1, p2⟩ := palette_name l name hname
  have hrl : r.length ≠ 0 := by
    intro h
    exact hr (List.length_eq_zero.mp h)
  unfold rhint
  simp only [p1, p2, bs_advance, List.tail_cons, skip_to_append ':' s _ hs,
    skip_to_append ':' e _ he, bs_tod_colon, List.length_cons, List.length_append]
  rw [if_neg (by omega), if_neg (by omega), if_neg (by omega)]
  generalize mark_used (setSec st.1 k { st.1 k with col0 := (l : Int) }, st.2) k = M
  refine Prod.ext ?_ rfl
  funext i
  by_cases h : i = k
  · simp [setSec, h]
  · simp [setSec, h]

theorem numbered_tag_bare (cfg : config) (nmax : Int) (st : gs_state) (ds : bstring)
    (v : Option bstring) (hd : digits ds) (h1 : 1 ≤ (digits_nat 0 ds : Int))
    (h2 : (digits_nat 0 ds : Int) < nmax) :
    numbered_tag cfg nmax st ds v
      = if cfg.parse_rhint_ = true then some (rhint st (digits_nat 0 ds : Int) v)
        else some st := by
  have e1 : bs_isnum ds = true := bs_isnum_digits ds hd
  have e2 : bs_tol ds = (digits_nat 0 ds : Int) := by
    have := bs_tol_digits ds [] hd
    simpa using this
  have e3 : skip_digits ds = [] := skip_digits_all ds hd.2
  have e4 : ¬ ((digits_nat 0 ds : Int) ≤ 0 ∨ (digits_nat 0 ds : Int) ≥ nmax) := by omega
  unfold numbered_tag
  simp only [e1, e2, e3, e4, Bool.not_true, Bool.false_eq_true, if_false, List.length_nil,
    true_and]
  by_cases hp : cfg.parse_rhint_ = true
  · rw [if_pos hp, if_pos hp]
  · rw [if_neg hp, if_neg hp]
    have f2 : ¬ (peek ([] : bstring) = ':' ∧ (bs_advance ([] : bstring)).length = 0) := by
      intro h
      exact absurd h.1 (by decide)
    have f3 : peek ([] : bstring) ≠ ':' := by decide
    have g1 : bs_cmp ([] : bstring) "sector_start" ≠ 0 := by decide
    have g2 : bs_cmp ([] : bstring) "sector_end" ≠ 0 := by decide
    have g3 : bs_cmp ([] : bstring) "colour" ≠ 0 := by decide
    have g4 : bs_cmp ([] : bstring) "radius" ≠ 0 := by decide
    have g5 : bs_cmp ([] : bstring) "orientation" ≠ 0 := by decide
    have g6 : bs_cmp ([] : bstring) "category" ≠ 0 := by decide
    rw [if_neg f2]
    simp only [f3, if_false]
    rw [if_neg g1, if_neg g2, if_neg g3, if_neg g4, if_neg g5, if_neg g6]

/-- C26: for a tag with the key `seamark:light:<k>` (1 ≤ k < nmax, nothing
behind the digits) and the value `<name>:<s>:<e>:<r>`, where `<name>` is the
palette name of index `l`, `<s>` and `<e>` hold no colon and `<r>` is not
empty: with renderer-hint parsing enabled `get_sectors` sets the primary colour
of sector `k` to `l`, start and end to the numbers `<s>` and `<e>` and the
radius to the number `<r>` divided by 278, and marks the sector used (with
nr = k and the counter increased by one if it was not used before), leaving
the other slots alone; with renderer-hint parsing disabled the tag changes
neither the sector array nor the counter. -/
theorem renderer_hint (cfg : config) (nmax : Int) (st : gs_state) (ds : bstring) (l : Nat)
    (name : String) (s e r : bstring) (hd : digits ds) (h1 : 1 ≤ (digits_nat 0 ds : Int))
    (h2 : (digits_nat 0 ds : Int) < nmax) (hname : col_[l]? = some name)
    (hs : ':' ∉ s) (he : ':' ∉ e) (hr : r ≠ []) :
    (cfg.parse_rhint_ = true →
      ∃ res : gs_state,
        get_sectors_tag cfg nmax
          (tag_of (light_pre ++ ds) (name.toList ++ ':' :: (s ++ ':' :: (e ++ ':' :: r))))
          (tag_of (light_pre ++ ds) (name.toList ++ ':' :: (s ++ ':' :: (e ++ ':' :: r)))) st
          = some res ∧
        (res.1 (digits_nat 0 ds : Int)).col0 = (l : Int) ∧
        (res.1 (digits_nat 0 ds : Int)).start = bs_tod s ∧
        (res.1 (digits_nat 0 ds : Int)).end_ = bs_tod e ∧
        (res.1 (digits_nat 0 ds : Int)).r = ddiv (bs_tod r) 278 ∧
        (res.1 (digits_nat 0 ds : Int)).used = true ∧
        ((st.1 (digits_nat 0 ds : Int)).used = false →
          (res.1 (digits_nat 0 ds : Int)).nr = (digits_nat 0 ds : Int) ∧ res.2 = st.2 + 1) ∧
        ((st.1 (digits_nat 0 ds : Int)).used = true →
          (res.1 (digits_nat 0 ds : Int)).nr = (st.1 (digits_nat 0 ds : Int)).nr ∧
          res.2 = st.2) ∧
        ∀ j : Int, j ≠ (digits_nat 0 ds : Int) → res.1 j = st.1 j) ∧
    (cfg.parse_rhint_ = false →
      get_sectors_tag cfg nmax
        (tag_of (light_pre ++ ds) (name.toList ++ ':' :: (s ++ ':' :: (e ++ ':' :: r))))
        (tag_of (light_pre ++ ds) (name.toList ++ ':' :: (s ++ ':' :: (e ++ ':' :: r)))) st
        = some st) := by
  rw [get_sectors_tag_of, get_sectors_key_numbered cfg nmax st ds _ (bs_isnum_digits ds hd),
    numbered_tag_bare cfg nmax st ds _ hd h1 h2]
  constructor
  · intro hp
    rw [if_pos hp, rhint_value st _ l name s e r hname hs he hr]
    refine ⟨_, rfl, ?_⟩
    by_cases hu : (st.1 (digits_nat 0 ds : Int)).used = true
    · simp [mark_used, setSec, hu]
      intro j hj
      simp [hj]
    · have hu2 : (st.1 (digits_nat 0 ds : Int)).used = false := by simpa using hu
      simp [mark_used, setSec, hu2]
      intro j hj
      simp [hj]
  · intro hp
    rw [if_neg (by simp [hp])]

/-! ### The counter of `get_sectors` -/

theorem find_sep_colon (x rest : bstring) (hx : ∀ c ∈ x, c ≠ ':' ∧ c ≠ ';') (hr : rest ≠ []) :
    find_sep (x ++ ':' :: rest) = (false, rest) := by
  have hdw : (x ++ ':' :: rest).dropWhile (fun c => c != ':' && c != ';') = ':' :: rest := by
    induction x with
    | nil => simp [List.dropWhile]
    | cons d t ih =>
      have hd := hx d (List.mem_cons_self _ _)
      have hb : (d != ':' && d != ';') = true := by simp [hd.1, hd.2]
      have ht := ih (fun c hc => hx c (List.mem_cons_of_mem _ hc))
      simp only [List.cons_append, List.dropWhile, hb]
      exact ht
  have hrl : rest.length ≠ 0 := fun h => hr (List.length_eq_zero.mp h)
  unfold find_sep
  simp only [hdw, bs_advance, List.tail_cons, peek, List.headD_cons, List.length_cons]
  rw [if_neg (by omega), if_neg (by decide), if_neg hrl]

theorem skip_to_none (ch : Char) (x : bstring) (hx : ∀ c ∈ x, c ≠ ch) : skip_to ch x = [] := by
  induction x with
  | nil => rfl
  | cons d t ih =>
    have hb : (d != ch) = true := by simpa using hx d (List.mem_cons_self _ _)
    have ht := ih (fun c hc => hx c (List.mem_cons_of_mem _ hc))
    simp only [skip_to, List.dropWhile, hb] at ht ⊢
    exact ht

theorem bs_isnum_letter (c0 : Char) (x : bstring) (h1 : c0 ≠ '-') (h2 : is_digit c0 = false)
    (h3 : c0 ≠ '.') : bs_isnum (c0 :: x) = false := by
  unfold bs_isnum
  simp [peek, h1, skip_digits, List.dropWhile, h2, h3]

theorem arc_name (l : Nat) (name : String) (h : atype_[l]? = some name) :
    (∀ rest : bstring, arc_type_of (name.toList ++ ':' :: rest) = l) ∧
    arc_type_of name.toList = l ∧
    (∀ rest : bstring, bs_isnum (name.toList ++ ':' :: rest) = false) ∧
    (∀ c ∈ name.toList, c ≠ ':' ∧ c ≠ ';') ∧ name.toList ≠ [] := by
  have key : ∀ (c0 : Char) (t : bstring), name.toList = c0 :: t → c0 ≠ '-' →
      is_digit c0 = false → c0 ≠ '.' →
      ∀ rest : bstring, bs_isnum (name.toList ++ ':' :: rest) = false := by
    intro c0 t e h1 h2 h3 rest
    rw [e]
    exact bs_isnum_letter c0 _ h1 h2 h3
  match l, h with
  | 0, h =>
    cases h
    exact ⟨fun _ => rfl, rfl, key 'u' _ rfl (by decide) (by decide) (by decide), by decide,
      by decide⟩
  | 1, h =>
    cases h
    exact ⟨fun _ => rfl, rfl, key 's' _ rfl (by decide) (by decide) (by decide), by decide,
      by decide⟩
  | 2, h =>
    cases h
    exact ⟨fun _ => rfl, rfl, key 's' _ rfl (by decide) (by decide) (by decide), by decide,
      by decide⟩
  | 3, h =>
    cases h
    exact ⟨fun _ => rfl, rfl, key 'd' _ rfl (by decide) (by decide) (by decide), by decide,
      by decide⟩
  | 4, h =>
    cases h
    exact ⟨fun _ => rfl, rfl, key 't' _ rfl (by decide) (by decide) (by decide), by decide,
      by decide⟩
  | 5, h =>
    cases h
    exact ⟨fun _ => rfl, rfl, key 't' _ rfl (by decide) (by decide) (by decide), by decide,
      by decide⟩
  | 6, h =>
    cases h
    exact ⟨fun _ => rfl, rfl, key 't' _ rfl (by decide) (by decide) (by decide), by decide,
      by decide⟩
  | 7, h =>
    cases h
    exact ⟨fun _ => rfl, rfl, key 't' _ rfl (by decide) (by decide) (by decide), by decide,
      by decide⟩
  | 8, h =>
    cases h
    exact ⟨fun _ => rfl, rfl, key 't' _ rfl (by decide) (by decide) (by decide), by decide,
      by decide⟩
  | 9, h =>
    cases h
    exact ⟨fun _ => rfl, rfl, key 't' _ rfl (by decide) (by decide) (by decide), by decide,
      by decide⟩
  | 10, h =>
    cases h
    exact ⟨fun _ => rfl, rfl, key 't' _ rfl (by decide) (by decide) (by decide), by decide,
      by decide⟩
  | 11, h =>
    cases h
    exact ⟨fun _ => rfl, rfl, key 't' _ rfl (by decide) (by decide) (by decide), by decide,
      by decide⟩
  | 12, h =>
    cases h
    exact ⟨fun _ => rfl, rfl, key 't' _ rfl (by decide) (by decide) (by decide), by decide,
      by decide⟩
  | n + 13, h => exact absurd h (by simp [atype_])

theorem radius_loop_end (fuel : Nat) (s : sector) (c : bstring) (hf : s.fused ≠ 0)
    (hc : ∀ x ∈ c, x ≠ ';') : radius_loop (fuel + 1) s c = some s := by
  unfold radius_loop
  by_cases h0 : c.length = 0
  · rw [if_pos h0]
  · have hsk := skip_to_none ';' c hc
    rw [if_neg h0]
    simp only [hf, ne_eq, not_false_eq_true, if_true, hsk, List.length_nil, true_or, and_self]

/-- On a sector without raw segments, a radius group whose span `a` is a number
for `bs_isnum` also when the style name follows it gives the same sector in both
orders, radius:span:style and radius:style:span: one raw segment with that
radius, span and style. -/
theorem radius_orders_agree (s0 : sector) (r a : bstring) (l : Nat) (name : String)
    (fuel : Nat) (hfu : s0.fused = 0) (hname : atype_[l]? = some name) (hr : r ≠ [])
    (hrs : ∀ c ∈ r, c ≠ ':' ∧ c ≠ ';') (has : ∀ c ∈ a, c ≠ ':' ∧ c ≠ ';')
    (hnum : bs_isnum a = true) (hnum2 : bs_isnum (a ++ ':' :: name.toList) = true) :
    radius_loop (fuel + 2) s0 (r ++ ':' :: (a ++ ':' :: name.toList))
      = some { setSf s0 0 { s0.sf 0 with r := bs_tod r, a := bs_tod a, type := l }
          with fused := 1 } ∧
    radius_loop (fuel + 2) s0 (r ++ ':' :: (name.toList ++ ':' :: a))
      = some { setSf s0 0 { s0.sf 0 with r := bs_tod r, a := bs_tod a, type := l }
          with fused := 1 } := by
  obtain ⟨n1, n2, n3, n4, n5⟩ := arc_name l name hname
  have ha : a ≠ [] := by
    intro h
    rw [h] at hnum
    exact absurd hnum (by decide)
  obtain ⟨d, t, rfl⟩ := List.exists_cons_of_ne_nil hr
  have hd := hrs d (List.mem_cons_self _ _)
  constructor
  · have p1 : find_sep (d :: t ++ ':' :: (a ++ ':' :: name.toList))
        = (false, a ++ ':' :: name.toList) := find_sep_colon _ _ hrs (by simp)
    have p2 : find_sep (a ++ ':' :: name.toList) = (false, name.toList) :=
      find_sep_colon _ _ has n5
    have t1 : bs_tod (d :: t ++ ':' :: (a ++ ':' :: name.toList)) = bs_tod (d :: t) :=
      bs_tod_colon _ _
    have hpk : ¬ peek (d :: t ++ ':' :: (a ++ ':' :: name.toList)) = ':' := by
      simpa [peek] using hd.1
    have hlen : ¬ List.length (d :: t ++ ':' :: (a ++ ':' :: name.toList)) = 0 := by simp
    have t2 : bs_tod (a ++ ':' :: name.toList) = bs_tod a := bs_tod_colon _ _
    rw [radius_loop]
    simp only [hfu, ne_eq, not_true_eq_false, if_false, false_and, p1, p2, t1, t2, hnum2,
      if_true, n2, hpk, hlen, not_false_eq_true, setSf_fused, Bool.false_eq_true]
    rw [radius_loop_end fuel _ _ (by simp) (fun x hx => (n4 x hx).2)]
    congr 1
    cases s0
    simp only [setSf, sector.mk.injEq, true_and] at hfu ⊢
    subst hfu
    simp only [if_true, zero_add, true_and]
    refine ⟨?_, trivial⟩
    funext i
    by_cases hi : i = 0 <;> simp [hi]
  · have p1 : find_sep (d :: t ++ ':' :: (name.toList ++ ':' :: a))
        = (false, name.toList ++ ':' :: a) := find_sep_colon _ _ hrs (by simp)
    have p2 : find_sep (name.toList ++ ':' :: a) = (false, a) :=
      find_sep_colon _ _ n4 ha
    have t1 : bs_tod (d :: t ++ ':' :: (name.toList ++ ':' :: a)) = bs_tod (d :: t) :=
      bs_tod_colon _ _
    have hpk : ¬ peek (d :: t ++ ':' :: (name.toList ++ ':' :: a)) = ':' := by
      simpa [peek] using hd.1
    have hlen : ¬ List.length (d :: t ++ ':' :: (name.toList ++ ':' :: a)) = 0 := by simp
    rw [radius_loop]
    simp only [hfu, ne_eq, not_true_eq_false, if_false, false_and, p1, p2, t1, hnum, n3 a,
      if_true, n1 a, hpk, hlen, not_false_eq_true, setSf_fused, Bool.false_eq_true]
    rw [radius_loop_end fuel _ _ (by simp) (fun x hx => (has x hx).2)]
    congr 1
    cases s0
    simp only [setSf, sector.mk.injEq, true_and] at hfu ⊢
    subst hfu
    simp only [if_true, zero_add, true_and]
    refine ⟨?_, trivial⟩
    funext i
    by_cases hi : i = 0 <;> simp [hi]

/-! ### The radial flags through `proc_sfrac` -/

theorem init_radius_flags (cfg : config) (sec : sector) (j : Nat) :
    ((init_radius cfg sec).sf j).startr = (sec.sf j).startr ∧
    ((init_radius cfg sec).sf j).endr = (sec.sf j).endr := by
  rw [init_radius_sf]
  by_cases h : j = 0
  · subst h
    exact ⟨rfl, rfl⟩
  · rw [if_neg h]
    exact ⟨rfl, rfl⟩

theorem first_span_flags (sec : sector) (j : Nat) :
    ((first_span sec).2.sf j).startr = (sec.sf j).startr ∧
    ((first_span sec).2.sf j).endr = (sec.sf j).endr := by
  unfold first_span
  by_cases h1 : isnan (sec.sf 0).a = true
  · by_cases hj : j = 0
    · subst hj
      simp [h1]
    · simp [h1, hj]
  · by_cases h2 : dlt (sec.sf 0).a (some 0) = true
    · by_cases h3 : sec.fused > 1
      · simp [h1, h2, h3]
      · by_cases hj : j = 0
        · subst hj
          simp [h1, h2, h3, setSf]
        · by_cases hj1 : j = 1
          · subst hj1
            simp [h1, h2, h3, setSf]
          · simp [h1, h2, h3, setSf, hj, hj1]
    · simp [h1, h2]

theorem first_segment_flags (sec : sector) (h : flags_clear sec) :
    flags_first (first_segment sec) := by
  intro k
  unfold first_segment
  by_cases hk : k = 0
  · subst hk
    simp [(h 0).2]
  · simp [hk, (h k).1, (h k).2]

theorem resolve_step_endr_keep (sec : sector) (i j : Nat) :
    ((resolve_step sec i).2.sf j).endr = (sec.sf j).endr := by
  by_cases hji : j = i
  · subst hji
    unfold resolve_step
    simp only []
    split_ifs <;> simp_all
  · by_cases hjp : j = i - 1
    · by_cases h1 : 1 ≤ i
      · rw [hjp, resolve_step_sf_prev sec i h1]
      · exact absurd hjp (by omega)
    · rw [resolve_step_sf_other sec i j hji hjp]

theorem resolve_loop_endr_keep (n : Nat) : ∀ (i : Nat) (sec : sector) (j : Nat),
    ((resolve_loop n i sec).2.sf j).endr = (sec.sf j).endr := by
  induction n with
  | zero => intro i sec j; rfl
  | succ n ih =>
    intro i sec j
    rw [resolve_loop_succ]
    split_ifs
    · rw [ih (i + 1) _ j, resolve_step_endr_keep]
    · exact resolve_step_endr_keep sec i j

theorem resolve_loop_flags (n i : Nat) (sec : sector) (h : flags_first sec) :
    flags_first (resolve_loop n i sec).2 := by
  intro k
  rw [resolve_loop_startr_keep, resolve_loop_endr_keep]
  exact h k

theorem taper_sub_flags (sec : sector) (i j : Nat) (h : flags_first sec) :
    flags_first (taper_sub sec i j) := by
  intro k
  unfold taper_sub
  by_cases hk : k = i + j
  · subst hk
    simp [(h i).2]
  · simp only [setSf_sf, if_neg hk]
    exact h k

theorem taper_fill_flags (i m : Nat) : ∀ (a : Nat) (base : sector), flags_first base →
    flags_first ((List.range' a m).foldl (fun s j => taper_sub s i j) base) := by
  induction m with
  | zero => intro a base h; exact h
  | succ m ih =>
    intro a base h
    rw [List.range'_succ, List.foldl_cons]
    exact ih _ _ (taper_sub_flags base i a h)

theorem flags_first_setSf (s : sector) (i : Nat) (f : sector_frac) (h : flags_first s)
    (h1 : i ≠ 0 → f.startr = false) (h2 : f.endr = false) : flags_first (setSf s i f) := by
  intro k
  by_cases hk : k = i
  · subst hk
    simp only [setSf_sf, if_true]
    exact ⟨h1, h2⟩
  · simp only [setSf_sf, if_neg hk]
    exact h k

theorem flags_first_sf (s t : sector) (e : t.sf = s.sf) (h : flags_first s) : flags_first t := by
  intro k
  rw [e]
  exact h k

theorem taper_expand_flags (sec : sector) (i : Nat) (h : flags_first sec) :
    flags_first (taper_expand sec i) := by
  have h1 : flags_first
      { sec with sf := fun k =>
          if i + TAPER_SEGS ≤ k ∧ k < i + TAPER_SEGS + (TAPER_SEGS - 1)
          then sec.sf (k - (TAPER_SEGS - 1)) else sec.sf k } := by
    intro k
    by_cases hk : i + TAPER_SEGS ≤ k ∧ k < i + TAPER_SEGS + (TAPER_SEGS - 1)
    · simp only [if_pos hk]
      refine ⟨fun _ => (h _).1 ?_, (h _).2⟩
      have := hk.1
      simp only [TAPER_SEGS] at this ⊢
      omega
    · simp only [if_neg hk]
      exact h k
  have key : ∀ (s : sector) (t : Nat), flags_first s →
      flags_first (setSf s i { s.sf i with type := t }) :=
    fun s t hs => flags_first_setSf s i _ hs (fun hi => (hs i).1 hi) (hs i).2
  have key2 : ∀ (s : sector) (a e : double), flags_first s →
      flags_first (setSf s i { s.sf i with a := a, end_ := e }) :=
    fun s a e hs => flags_first_setSf s i _ hs (fun hi => (hs i).1 hi) (hs i).2
  unfold taper_expand
  simp only []
  refine flags_first_sf _ _ rfl ?_
  refine key _ _ ?_
  refine taper_fill_flags i _ 1 _ ?_
  exact key2 _ _ _ h1

theorem taper_loop_flags (fuel : Nat) : ∀ (i : Nat) (sec : sector) (r : Int) (res : sector),
    flags_first sec → taper_loop fuel i sec = some (r, res) → flags_first res := by
  induction fuel with
  | zero => intro i sec r res _ h; exact absurd h (by simp [taper_loop])
  | succ fuel ih =>
    intro i sec r res hf h
    unfold taper_loop at h
    by_cases h1 : i < sec.fused
    · rw [if_pos h1] at h
      by_cases h2 : (sec.sf i).type ≠ ARC_TAPER_UP ∧ (sec.sf i).type ≠ ARC_TAPER_DOWN
      · rw [if_pos h2] at h
        exact ih _ _ _ _ hf h
      · rw [if_neg h2] at h
        by_cases h3 : sec.fused > MAX_SFRAC - TAPER_SEGS + 1
        · rw [if_pos h3] at h
          cases h
          exact hf
        · rw [if_neg h3] at h
          exact ih _ _ _ _ (taper_expand_flags sec i hf) h
    · rw [if_neg h1] at h
      cases h
      exact hf

theorem flags_first_ends (sec : sector) (h : flags_first sec) : flags_ends sec :=
  fun k => ⟨(h k).1, fun _ => (h k).2⟩

theorem close_last_flags (sec : sector) (h : flags_first sec) : flags_ends (close_last sec) := by
  intro k
  unfold close_last
  by_cases hk : k = sec.fused - 1
  · subst hk
    simp only [setSf_sf, if_true, setSf_fused]
    exact ⟨(h _).1, fun hne => absurd rfl hne⟩
  · simp only [setSf_sf, if_neg hk, setSf_fused]
    exact ⟨(h k).1, fun _ => (h k).2⟩

theorem plain_sector_flags (cfg : config) (sec : sector) (h : flags_clear sec)
    (hf : sec.fused = 0) : flags_ends (plain_sector cfg sec) := by
  intro k
  unfold plain_sector
  by_cases hk : k = 0
  · subst hk
    simp [hf]
  · simp [hk, hf, (h k).1, (h k).2]

/-- The radial flags that `proc_sfrac` leaves on a sector without a direction
whose segments had none: at most `startr` of segment 0 and `endr` of the last
segment, whatever it returns. -/
theorem proc_sfrac_flags (cfg : config) (sec : sector) (r : Int) (res : sector)
    (hdir : sec.dir = none) (h : flags_clear sec) (hp : proc_sfrac cfg sec = some (r, res)) :
    flags_ends res := by
  have h0 : flags_clear (init_radius cfg sec) := fun k => by
    rw [(init_radius_flags cfg sec k).1, (init_radius_flags cfg sec k).2]
    exact h k
  by_cases hf : sec.fused = 0
  · rw [plain_path_eq cfg sec hdir hf] at hp
    cases hp
    exact plain_sector_flags cfg _ h0 (by simpa using hf)
  · rw [proc_sfrac_raw cfg sec hdir hf] at hp
    simp only [] at hp
    have h1 : flags_clear (first_span (init_radius cfg sec)).2 := fun k => by
      rw [(first_span_flags _ k).1, (first_span_flags _ k).2]
      exact h0 k
    generalize first_span (init_radius cfg sec) = r1 at hp h1
    by_cases e1 : r1.1 ≠ 0
    · rw [if_pos e1] at hp
      cases hp
      exact fun k => ⟨fun _ => (h1 k).1, fun _ => (h1 k).2⟩
    · rw [if_neg e1] at hp
      have h2 := first_segment_flags r1.2 h1
      generalize first_segment r1.2 = s2 at hp h2
      have h3 := resolve_loop_flags (s2.fused - 1) 1 s2 h2
      generalize resolve_loop (s2.fused - 1) 1 s2 = r3 at hp h3
      by_cases e3 : r3.1 ≠ 0
      · rw [if_pos e3] at hp
        cases hp
        exact flags_first_ends _ h3
      · rw [if_neg e3] at hp
        cases ht : taper_loop (r3.2.fused + 2 * TAPER_SEGS) 0 r3.2 with
        | none => rw [ht] at hp; exact absurd hp (by simp)
        | some r4 =>
          rw [ht] at hp
          have h4 := taper_loop_flags _ 0 r3.2 r4.1 r4.2 h3 ht
          simp only [] at hp
          by_cases e4 : r4.1 ≠ 0
          · rw [if_pos e4] at hp
            cases hp
            exact flags_first_ends _ h4
          · rw [if_neg e4] at hp
            cases hp
            exact close_last_flags _ h4

/-! ### The second colour and the number of segments through `proc_sfrac` -/

theorem first_span_col1 (sec : sector) : (first_span sec).2.col1 = sec.col1 := by
  unfold first_span
  by_cases h1 : isnan (sec.sf 0).a = true
  · simp [h1, setSf]
  · by_cases h2 : dlt (sec.sf 0).a (some 0) = true
    · by_cases h3 : sec.fused > 1
      · simp [h1, h2, h3]
      · simp [h1, h2, h3, setSf]
    · simp [h1, h2]

theorem resolve_step_col1 (sec : sector) (i : Nat) : (resolve_step sec i).2.col1 = sec.col1 := by
  unfold resolve_step
  simp only []
  split_ifs <;> rfl

theorem resolve_loop_col1 (n : Nat) : ∀ (i : Nat) (sec : sector),
    (resolve_loop n i sec).2.col1 = sec.col1 := by
  induction n with
  | zero => intro i sec; rfl
  | succ n ih =>
    intro i sec
    rw [resolve_loop_succ]
    split_ifs
    · rw [ih (i + 1) _, resolve_step_col1]
    · exact resolve_step_col1 sec i

theorem taper_fill_col1 (i m : Nat) : ∀ (a : Nat) (base : sector),
    ((List.range' a m).foldl (fun s j => taper_sub s i j) base).col1 = base.col1 := by
  induction m with
  | zero => intro a base; rfl
  | succ m ih =>
    intro a base
    rw [List.range'_succ, List.foldl_cons, ih]
    rfl

theorem taper_expand_col1 (sec : sector) (i : Nat) : (taper_expand sec i).col1 = sec.col1 := by
  unfold taper_expand
  simp only [setSf, taper_fill_col1]

theorem taper_loop_col1 (fuel : Nat) : ∀ (i : Nat) (sec : sector) (r : Int) (res : sector),
    taper_loop fuel i sec = some (r, res) → res.col1 = sec.col1 ∧ sec.fused ≤ res.fused := by
  induction fuel with
  | zero => intro i sec r res h; exact absurd h (by simp [taper_loop])
  | succ fuel ih =>
    intro i sec r res h
    unfold taper_loop at h
    by_cases h1 : i < sec.fused
    · rw [if_pos h1] at h
      by_cases h2 : (sec.sf i).type ≠ ARC_TAPER_UP ∧ (sec.sf i).type ≠ ARC_TAPER_DOWN
      · rw [if_pos h2] at h
        exact ih _ _ _ _ h
      · rw [if_neg h2] at h
        by_cases h3 : sec.fused > MAX_SFRAC - TAPER_SEGS + 1
        · rw [if_pos h3] at h
          cases h
          exact ⟨rfl, le_rfl⟩
        · rw [if_neg h3] at h
          have := ih _ _ _ _ h
          rw [taper_expand_col1, taper_expand_fused] at this
          exact ⟨this.1, by omega⟩
    · rw [if_neg h1] at h
      cases h
      exact ⟨rfl, le_rfl⟩

/-- What `proc_sfrac` leaves is a sector with at least one segment and the
second colour it had. -/
theorem proc_sfrac_col1 (cfg : config) (sec : sector) (r : Int) (res : sector)
    (hp : proc_sfrac cfg sec = some (r, res)) : res.col1 = sec.col1 ∧ 1 ≤ res.fused := by
  cases hd : sec.dir with
  | some d =>
    rw [directional_path_eq cfg sec d hd] at hp
    cases hp
    exact ⟨by simp [directional, setSf], by simp [directional]⟩
  | none =>
    by_cases hf : sec.fused = 0
    · rw [plain_path_eq cfg sec hd hf] at hp
      cases hp
      exact ⟨by simp [plain_sector, setSf], by simp [plain_sector]⟩
    · rw [proc_sfrac_raw cfg sec hd hf] at hp
      simp only [] at hp
      have c1 : (first_span (init_radius cfg sec)).2.col1 = sec.col1 := by
        rw [first_span_col1, init_radius_col1]
      have f1 : 1 ≤ (first_span (init_radius cfg sec)).2.fused := by
        have := first_span_fused_le (init_radius cfg sec)
        rw [init_radius_fused] at this
        omega
      generalize first_span (init_radius cfg sec) = r1 at hp c1 f1
      by_cases e1 : r1.1 ≠ 0
      · rw [if_pos e1] at hp
        cases hp
        exact ⟨c1, f1⟩
      · rw [if_neg e1] at hp
        have c2 : (first_segment r1.2).col1 = sec.col1 := c1
        have f2 : 1 ≤ (first_segment r1.2).fused := by
          rw [first_segment_fused]
          exact f1
        generalize first_segment r1.2 = s2 at hp c2 f2
        have c3 : (resolve_loop (s2.fused - 1) 1 s2).2.col1 = sec.col1 := by
          rw [resolve_loop_col1, c2]
        have f3 : 1 ≤ (resolve_loop (s2.fused - 1) 1 s2).2.fused := by
          rw [(resolve_loop_frame _ _ _).1]
          exact f2
        generalize resolve_loop (s2.fused - 1) 1 s2 = r3 at hp c3 f3
        by_cases e3 : r3.1 ≠ 0
        · rw [if_pos e3] at hp
          cases hp
          exact ⟨c3, f3⟩
        · rw [if_neg e3] at hp
          cases ht : taper_loop (r3.2.fused + 2 * TAPER_SEGS) 0 r3.2 with
          | none => rw [ht] at hp; exact absurd hp (by simp)
          | some r4 =>
            obtain ⟨rr, rs⟩ := r4
            rw [ht] at hp
            have h4 := taper_loop_col1 _ 0 r3.2 rr rs ht
            simp only [] at hp
            by_cases e4 : rr ≠ 0
            · rw [if_pos e4] at hp
              cases hp
              exact ⟨h4.1.trans c3, by omega⟩
            · rw [if_neg e4] at hp
              cases hp
              refine ⟨?_, ?_⟩
              · show rs.col1 = sec.col1
                exact h4.1.trans c3
              · rw [close_last_fused]
                omega

/-! ### The repeats for a sector with a second colour -/

theorem alt_pass_frame (sec : sector) (d : ℚ) (k : Nat) :
    (alt_pass sec d).fused = sec.fused ∧
    ((alt_pass sec d).sf k).startr = (sec.sf k).startr ∧
    ((alt_pass sec d).sf k).endr = (sec.sf k).endr ∧
    ((alt_pass sec d).sf k).type = (sec.sf k).type := by
  unfold alt_pass
  by_cases h : k < sec.fused
  · simp [h]
  · simp [h]

theorem alt_passes_frame : ∀ (ds : List ℚ) (sec : sector),
    (alt_passes ds sec).2.length = ds.length ∧
    ∀ s ∈ (alt_passes ds sec).2, s.fused = sec.fused ∧
      ∀ k, (s.sf k).startr = (sec.sf k).startr ∧ (s.sf k).endr = (sec.sf k).endr ∧
        (s.sf k).type = (sec.sf k).type := by
  intro ds
  induction ds with
  | nil => intro sec; exact ⟨rfl, fun s hs => absurd hs (List.not_mem_nil s)⟩
  | cons d ds ih =>
    intro sec
    obtain ⟨i1, i2⟩ := ih (alt_pass sec d)
    refine ⟨by simp [alt_passes, i1], ?_⟩
    intro s hs
    simp only [alt_passes, List.mem_cons] at hs
    rcases hs with hs | hs
    · subst hs
      exact ⟨(alt_pass_frame sec d 0).1, fun k => (alt_pass_frame sec d k).2⟩
    · obtain ⟨j1, j2⟩ := i2 s hs
      refine ⟨j1.trans (alt_pass_frame sec d 0).1, fun k => ?_⟩
      obtain ⟨a1, a2, a3⟩ := j2 k
      obtain ⟨_, b1, b2, b3⟩ := alt_pass_frame sec d k
      exact ⟨a1.trans b1, a2.trans b2, a3.trans b3⟩

theorem mem_sector_calc2 (sec : sector) (w : way) :
    w ∈ sector_calc2 sec ↔ ∃ i, i < sec.fused ∧ w ∈ segment_ways sec i := by
  unfold sector_calc2
  simp only [List.mem_flatten, List.mem_map, List.mem_range]
  constructor
  · rintro ⟨l, ⟨i, hi, rfl⟩, hw⟩
    exact ⟨i, hi, hw⟩
  · rintro ⟨i, hi, hw⟩
    exact ⟨_, ⟨i, hi, rfl⟩, hw⟩

theorem mem_ite_single (c : Prop) [Decidable c] (w x : way) :
    w ∈ (if c then [x] else []) ↔ c ∧ w = x := by
  by_cases h : c <;> simp [h]

theorem mem_ite_empty (c : Prop) [Decidable c] (w x : way) :
    w ∈ (if c then [] else [x]) ↔ ¬ c ∧ w = x := by
  by_cases h : c <;> simp [h]

theorem start_radial_mem (sec : sector) (i j : Nat) :
    way.start_radial j ∈ segment_ways sec i ↔
      j = i ∧ (sec.sf i).startr = true ∧
        ¬ (deq (sec.sf i).start (some 0) = true ∧ deq (sec.sf i).end_ (some 360) = true) := by
  unfold segment_ways
  simp only [List.mem_append, mem_ite_single, mem_ite_empty, way.start_radial.injEq,
    reduceCtorEq, and_false, or_false, false_or]
  tauto

theorem end_radial_mem (sec : sector) (i j : Nat) :
    way.end_radial j ∈ segment_ways sec i ↔
      j = i ∧ (sec.sf i).endr = true ∧
        ¬ (deq (sec.sf i).start (some 0) = true ∧ deq (sec.sf i).end_ (some 360) = true) := by
  unfold segment_ways
  simp only [List.mem_append, mem_ite_single, mem_ite_empty, way.end_radial.injEq,
    reduceCtorEq, and_false, or_false, false_or]
  tauto

theorem arc_mem (sec : sector) (i j : Nat) :
    way.arc j ∈ segment_ways sec i ↔
      j = i ∧ (sec.sf i).type ≠ ARC_SUPPRESS ∧ deq (sec.sf i).r (some 0) = false := by
  unfold segment_ways
  simp only [List.mem_append, mem_ite_single, mem_ite_empty, way.arc.injEq,
    reduceCtorEq, and_false, or_false, false_or, not_or, Bool.not_eq_true]
  tauto

theorem clear_ends_flags (s : sector) (k : Nat) :
    ((clear_ends s).sf k).startr = (if k = 0 then false else (s.sf k).startr) ∧
    ((clear_ends s).sf k).endr = (if k = s.fused - 1 then false else (s.sf k).endr) := by
  unfold clear_ends
  by_cases h0 : k = 0
  · subst h0
    by_cases h1 : 0 = s.fused - 1
    · simp [setSf, ← h1]
    · simp [setSf, h1]
  · by_cases h1 : k = s.fused - 1
    · simp [setSf, h0, ← h1]
    · simp [setSf, h0, h1]

theorem render_sector_two (cfg : config) (sec : sector) (r : Int) (res : sector)
    (hu : sec.used = true) (hg : cfg.gen_sec_ = true) (hp : proc_sfrac cfg sec = some (r, res))
    (hr : r ≠ -1) (hc : res.col1 ≠ -1) :
    render_sector cfg sec
      = some ((alt_passes altr_ (clear_ends res)).1, res :: (alt_passes altr_ (clear_ends res)).2) := by
  unfold render_sector
  rw [if_pos ⟨hu, hg⟩, hp]
  simp only []
  rw [if_neg hr, if_pos hc]
  rfl

/-- What line 345 of `smfilter.c` leaves of the radial flags: for a used sector
whose segments come without radial flags (as `get_sectors` leaves them) and
which has a second colour, `proc_sfrac` returns and leaves at least one
segment, and unless it returns -1 `main` calls `sector_calc2` on the resolved
sector and then four more times; in each of these four repeats every segment
has `startr = 0`, and `endr` is still set on segment 0 of a directional sector
and on no other segment. -/
theorem repeats_radial_flags (cfg : config) (sec : sector) (hu : sec.used = true)
    (hg : cfg.gen_sec_ = true) (hfl : flags_clear sec) (hc : sec.col1 ≠ -1) :
    ∃ (r : Int) (res : sector), proc_sfrac cfg sec = some (r, res) ∧ 1 ≤ res.fused ∧
      (r ≠ -1 → ∃ (left : sector) (reps : List sector),
        render_sector cfg sec = some (left, res :: reps) ∧ reps.length = 4 ∧
        ∀ s ∈ reps,
          (∀ k, (s.sf k).startr = false ∧
            ((s.sf k).endr = true ↔ k = 0 ∧ isnan sec.dir = false)) ∧
          (∀ i, way.start_radial i ∉ sector_calc2 s) ∧
          (isnan sec.dir = true → ∀ i, way.end_radial i ∉ sector_calc2 s)) := by
  obtain ⟨r, res, hp, _, _⟩ := proc_sfrac_total cfg sec
  obtain ⟨hc1, hf1⟩ := proc_sfrac_col1 cfg sec r res hp
  refine ⟨r, res, hp, hf1, fun hr => ?_⟩
  have hrs := render_sector_two cfg sec r res hu hg hp hr (by rw [hc1]; exact hc)
  obtain ⟨hl, hfr⟩ := alt_passes_frame altr_ (clear_ends res)
  refine ⟨_, _, hrs, hl, ?_⟩
  have hflags : ∀ k, ((clear_ends res).sf k).startr = false ∧
      (((clear_ends res).sf k).endr = true ↔ k = 0 ∧ isnan sec.dir = false) := by
    intro k
    obtain ⟨c1, c2⟩ := clear_ends_flags res k
    cases hd : sec.dir with
    | some d =>
      rw [directional_path_eq cfg sec d hd] at hp
      cases hp
      have i0 := init_radius_flags cfg sec 0
      have i1 := init_radius_flags cfg sec 1
      have ik := init_radius_flags cfg sec k
      rw [c1, c2]
      by_cases h0 : k = 0
      · subst h0
        simp [directional, setSf, isnan, hd]
      · by_cases h1 : k = 1
        · subst h1
          simp [directional, setSf, isnan, hd, i1.1, i1.2, (hfl 1).1, (hfl 1).2]
        · simp [directional, setSf, isnan, hd, h0, h1, ik.1, ik.2, (hfl k).1, (hfl k).2]
    | none =>
      have he := proc_sfrac_flags cfg sec r res hd hfl hp
      rw [c1, c2]
      refine ⟨?_, ?_⟩
      · by_cases h0 : k = 0
        · rw [if_pos h0]
        · rw [if_neg h0]
          exact (he k).1 h0
      · by_cases h1 : k = res.fused - 1
        · rw [if_pos h1]
          simp [isnan, hd]
        · rw [if_neg h1, (he k).2 h1]
          simp [isnan, hd]
  intro s hs
  obtain ⟨_, hk⟩ := hfr s hs
  have hsf : ∀ k, (s.sf k).startr = false ∧
      ((s.sf k).endr = true ↔ k = 0 ∧ isnan sec.dir = false) := by
    intro k
    obtain ⟨a1, a2, _⟩ := hk k
    rw [a1, a2]
    exact hflags k
  refine ⟨hsf, ?_, ?_⟩
  · intro i hi
    obtain ⟨j, _, hj⟩ := (mem_sector_calc2 s _).mp hi
    have := ((start_radial_mem s j i).mp hj).2.1
    rw [(hsf j).1] at this
    exact absurd this (by decide)
  · intro hdir i hi
    obtain ⟨j, _, hj⟩ := (mem_sector_calc2 s _).mp hi
    have := ((end_radial_mem s j i).mp hj).2.1
    have h2 := ((hsf j).2.mp this).2
    rw [hdir] at h2
    exact absurd h2 (by decide)

/-! ### The arcs in the repeats -/

/-- In every call, `sector_calc2` writes the arc of a segment only if its
style is not suppress and its radius is not 0. -/
theorem arc_needs_radius (s : sector) (i : Nat) (h : way.arc i ∈ sector_calc2 s) :
    i < s.fused ∧ (s.sf i).type ≠ ARC_SUPPRESS ∧ deq (s.sf i).r (some 0) = false := by
  obtain ⟨j, hj, hw⟩ := (mem_sector_calc2 s _).mp h
  obtain ⟨e, h1, h2⟩ := (arc_mem s j i).mp hw
  subst e
  exact ⟨hj, h1, h2⟩

/-- A segment with the style suppress has no arc in any of the repeats. -/
theorem suppress_no_arc (ds : List ℚ) (sec : sector) (k : Nat)
    (h : (sec.sf k).type = ARC_SUPPRESS) :
    ∀ s ∈ (alt_passes ds sec).2, way.arc k ∉ sector_calc2 s := by
  intro s hs hw
  obtain ⟨_, hk⟩ := (alt_passes_frame ds sec).2 s hs
  have := (arc_needs_radius s k hw).2.1
  rw [(hk k).2.2, h] at this
  exact this rfl

theorem alt_pass_radius (sec : sector) (d x : ℚ) (k : Nat) (hk : k < sec.fused)
    (hx : (sec.sf k).r = some x) : ((alt_pass sec d).sf k).r = some (x - d) := by
  unfold alt_pass
  simp [hk, hx, dsub]

/-- A segment with a radius `x ≤ 0` and a style other than suppress has an arc
in every repeat with positive offsets: the radius is below 0 from the first
repeat on. -/
theorem nonpositive_radius_arc : ∀ (ds : List ℚ) (sec : sector) (k : Nat) (x : ℚ),
    (∀ d ∈ ds, 0 < d) → k < sec.fused → (sec.sf k).r = some x → x ≤ 0 →
    (sec.sf k).type ≠ ARC_SUPPRESS →
    ∀ s ∈ (alt_passes ds sec).2, way.arc k ∈ sector_calc2 s := by
  intro ds
  induction ds with
  | nil => intro sec k x _ _ _ _ _ s hs; exact absurd hs (List.not_mem_nil s)
  | cons d ds ih =>
    intro sec k x hd hk hx hx0 ht s hs
    have hdp : 0 < d := hd d (List.mem_cons_self _ _)
    obtain ⟨f1, _, _, f4⟩ := alt_pass_frame sec d k
    have hr := alt_pass_radius sec d x k hk hx
    simp only [alt_passes, List.mem_cons] at hs
    rcases hs with hs | hs
    · subst hs
      refine (mem_sector_calc2 _ _).mpr ⟨k, by rw [f1]; exact hk, ?_⟩
      refine (arc_mem _ k k).mpr ⟨rfl, by rw [f4]; exact ht, ?_⟩
      rw [hr]
      have hne : x - d ≠ 0 := by linarith
      simp [deq, hne]
    · exact ih (alt_pass sec d) k (x - d) (fun e he => hd e (List.mem_cons_of_mem _ he))
        (by rw [f1]; exact hk) hr (by linarith) (by rw [f4]; exact ht) s hs

theorem clear_ends_frame (s : sector) (k : Nat) :
    (clear_ends s).fused = s.fused ∧ ((clear_ends s).sf k).r = (s.sf k).r ∧
    ((clear_ends s).sf k).type = (s.sf k).type := by
  unfold clear_ends
  by_cases h0 : k = 0
  · subst h0
    by_cases h1 : 0 = s.fused - 1
    · simp [setSf, ← h1]
    · simp [setSf, h1]
  · by_cases h1 : k = s.fused - 1
    · simp [setSf, h0, ← h1]
    · simp [setSf, h0, h1]

/-- A resolved segment with the radius 0 and a style other than suppress, in a
sector with a second colour: the first call of `sector_calc2` writes no arc for
it, and each of the four repeats writes one. -/
theorem zero_radius_arc_repeated (cfg : config) (sec : sector) (r : Int) (res : sector)
    (k : Nat) (hu : sec.used = true) (hg : cfg.gen_sec_ = true)
    (hp : proc_sfrac cfg sec = some (r, res)) (hr : r ≠ -1) (hc : res.col1 ≠ -1)
    (hk : k < res.fused) (h0 : (res.sf k).r = some 0) (ht : (res.sf k).type ≠ ARC_SUPPRESS) :
    ∃ (left : sector) (reps : List sector),
      render_sector cfg sec = some (left, res :: reps) ∧ reps.length = 4 ∧
      way.arc k ∉ sector_calc2 res ∧ ∀ s ∈ reps, way.arc k ∈ sector_calc2 s := by
  obtain ⟨c1, c2, c3⟩ := clear_ends_frame res k
  refine ⟨_, _, render_sector_two cfg sec r res hu hg hp hr hc,
    (alt_passes_frame altr_ (clear_ends res)).1, ?_, ?_⟩
  · intro hw
    have := (arc_needs_radius res k hw).2.2
    rw [h0] at this
    exact absurd this (by decide!)
  · exact nonpositive_radius_arc altr_ (clear_ends res) k 0
      (by
        intro d hd
        simp only [altr_, List.mem_cons, List.mem_singleton, List.not_mem_nil, or_false] at hd
        rcases hd with h | h | h | h <;> rw [h] <;> norm_num)
      (by rw [c1]; exact hk) (by rw [c2]; exact h0) le_rfl (by rw [c3]; exact ht)

/-! ### The radial flags through `get_sectors` and the validator -/

theorem flags_clear_setSf (s : sector) (i : Nat) (f : sector_frac) (h : flags_clear s)
    (h1 : f.startr = false) (h2 : f.endr = false) : flags_clear (setSf s i f) := by
  intro k
  by_cases hk : k = i
  · subst hk
    simp only [setSf_sf, if_true]
    exact ⟨h1, h2⟩
  · simp only [setSf_sf, if_neg hk]
    exact h k

theorem radius_loop_flags : ∀ (fuel : Nat) (s : sector) (c : bstring) (s2 : sector),
    flags_clear s → radius_loop fuel s c = some s2 → flags_clear s2 := by
  intro fuel
  induction fuel with
  | zero => intro s c s2 _ h; exact absurd h (by simp [radius_loop])
  | succ fuel ih =>
    intro s c s2 hs h
    have hnext : ∀ (s1 : sector) (c2 : bstring), flags_clear s1 →
        radius_loop fuel { s1 with fused := s1.fused + 1 } c2 = some s2 → flags_clear s2 :=
      fun s1 c2 h1 e => ih { s1 with fused := s1.fused + 1 } c2 s2 h1 e
    have hr : ∀ (t : sector) (x : double), flags_clear t →
        flags_clear (setSf t t.fused { t.sf t.fused with r := x }) :=
      fun t x ht => flags_clear_setSf t _ _ ht (ht _).1 (ht _).2
    have ha : ∀ (t : sector) (x : double), flags_clear t →
        flags_clear (setSf t t.fused { t.sf t.fused with a := x }) :=
      fun t x ht => flags_clear_setSf t _ _ ht (ht _).1 (ht _).2
    have hty : ∀ (t : sector) (x : Nat), flags_clear t →
        flags_clear (setSf t t.fused { t.sf t.fused with type := x }) :=
      fun t x ht => flags_clear_setSf t _ _ ht (ht _).1 (ht _).2
    unfold radius_loop at h
    by_cases h0 : c.length = 0
    · rw [if_pos h0] at h
      cases h
      exact hs
    · rw [if_neg h0] at h
      simp only [] at h
      by_cases hstop : s.fused ≠ 0 ∧
          ((if s.fused ≠ 0 then skip_to ';' c else c).length = 0 ∨
            (bs_advance (if s.fused ≠ 0 then skip_to ';' c else c)).length = 0)
      · rw [if_pos hstop] at h
        cases h
        exact hs
      · rw [if_neg hstop] at h
        generalize (if s.fused ≠ 0 then bs_advance (if s.fused ≠ 0 then skip_to ';' c else c)
            else (if s.fused ≠ 0 then skip_to ';' c else c)) = c1 at h
        have hs1 : flags_clear (if peek c1 ≠ ':' then
            setSf s s.fused { s.sf s.fused with r := bs_tod c1 } else s) := by
          split_ifs
          · exact hr s _ hs
          · exact hs
        generalize (if peek c1 ≠ ':' then setSf s s.fused { s.sf s.fused with r := bs_tod c1 }
            else s) = s1 at hs1 h
        by_cases q1 : (find_sep c1).1 = true
        · rw [if_pos q1] at h
          exact hnext s1 _ hs1 h
        · rw [if_neg q1] at h
          by_cases q2 : bs_isnum (find_sep c1).2 = true
          · rw [if_pos q2] at h
            by_cases q3 : (find_sep (find_sep c1).2).1 = true
            · rw [if_pos q3] at h
              exact hnext _ _ (ha s1 _ hs1) h
            · rw [if_neg q3] at h
              exact hnext _ _ (hty _ _ (ha s1 _ hs1)) h
          · rw [if_neg q2] at h
            by_cases q3 : (find_sep (find_sep c1).2).1 = true
            · rw [if_pos q3] at h
              exact hnext _ _ (hty s1 _ hs1) h
            · rw [if_neg q3] at h
              by_cases q4 : bs_isnum (find_sep (find_sep c1).2).2 = true
              · rw [if_pos q4] at h
                exact hnext _ _ (ha _ _ (hty s1 _ hs1)) h
              · rw [if_neg q4] at h
                exact hnext _ _ (hty s1 _ hs1) h

theorem clear_setSec (A : secarr) (k : Int) (s : sector) (h : clear_array A)
    (hs : flags_clear s) : clear_array (setSec A k s) := by
  intro i
  unfold setSec
  by_cases hi : i = k
  · rw [if_pos hi]
    exact hs
  · rw [if_neg hi]
    exact h i

theorem clear_mark (A : secarr) (m k : Int) (h : clear_array A) :
    clear_array (mark_used (A, m) k).1 := by
  unfold mark_used
  by_cases hu : (A k).used = true
  · rw [if_pos hu]
    exact h
  · rw [if_neg hu]
    exact clear_setSec A k _ h (h k)

theorem clear_numbered_colour (st : gs_state) (k : Int) (c : bstring) (h : clear_array st.1) :
    clear_array (numbered_colour st k c).1 := by
  unfold numbered_colour
  cases find_col (fun s => decide (bs_ncmp c s s.length = 0)) with
  | none => exact h
  | some l =>
    have h1 : clear_array (setSec st.1 k { st.1 k with col0 := (l : Int) }) :=
      clear_setSec st.1 k _ h (h k)
    simp only []
    by_cases c1 : (skip_to ';' c).length = 0 ∨ (bs_advance (skip_to ';' c)).length = 0
    · rw [if_pos c1]
      exact h1
    · rw [if_neg c1]
      cases find_col (fun s => decide (bs_ncmp (bs_advance (skip_to ';' c)) s s.length = 0)) with
      | none => exact h1
      | some l2 =>
        refine clear_mark _ _ k ?_
        exact clear_setSec _ k _ h1 (h1 k)

theorem clear_rhint (st : gs_state) (k : Int) (v : Option bstring) (h : clear_array st.1) :
    clear_array (rhint st k v).1 := by
  unfold rhint
  cases v with
  | none => exact h
  | some c =>
    simp only []
    have h1 : clear_array (mark_used
        ((match find_col (fun s => s.toList.isPrefixOf c) with
          | some l => setSec st.1 k { st.1 k with col0 := (l : Int) }
          | none => st.1), st.2) k).1 := by
      apply clear_mark
      cases find_col (fun s => s.toList.isPrefixOf c) with
      | none => exact h
      | some l => exact clear_setSec st.1 k _ h (h k)
    generalize mark_used
        ((match find_col (fun s => s.toList.isPrefixOf c) with
          | some l => setSec st.1 k { st.1 k with col0 := (l : Int) }
          | none => st.1), st.2) k = st1 at h1 ⊢
    obtain ⟨sec1, m1⟩ := st1
    simp only []
    by_cases c1 : (skip_to ':' c).length = 0 ∨ (bs_advance (skip_to ':' c)).length = 0
    · rw [if_pos c1]
      exact h1
    · rw [if_neg c1]
      have h2 : clear_array (setSec sec1 k
          { sec1 k with start := bs_tod (bs_advance (skip_to ':' c)) }) :=
        clear_setSec sec1 k _ h1 (h1 k)
      generalize bs_advance (skip_to ':' c) = c2 at h2 ⊢
      by_cases c3 : (skip_to ':' c2).length = 0 ∨ (bs_advance (skip_to ':' c2)).length = 0
      · rw [if_pos c3]
        exact h2
      · rw [if_neg c3]
        generalize setSec sec1 k { sec1 k with start := bs_tod c2 } = sec2 at h2 ⊢
        have h3 : clear_array (setSec sec2 k
            { sec2 k with end_ := bs_tod (bs_advance (skip_to ':' c2)) }) :=
          clear_setSec sec2 k _ h2 (h2 k)
        generalize bs_advance (skip_to ':' c2) = c4 at h3 ⊢
        by_cases c5 : (skip_to ':' c4).length = 0 ∨ (bs_advance (skip_to ':' c4)).length = 0
        · rw [if_pos c5]
          exact h3
        · rw [if_neg c5]
          exact clear_setSec _ k _ h3 (h3 k)

theorem clear_numbered_tag (cfg : config) (nmax : Int) (st : gs_state) (b : bstring)
    (v : Option bstring) (st2 : gs_state) (h : clear_array st.1)
    (e : numbered_tag cfg nmax st b v = some st2) : clear_array st2.1 := by
  obtain ⟨sec, m⟩ := st
  have hsame : ∀ x : gs_state, some (sec, m) = some x → clear_array x.1 := by
    intro x hx
    cases hx
    exact h
  unfold numbered_tag at e
  by_cases c1 : (!bs_isnum b) = true
  · rw [if_pos c1] at e
    exact hsame _ e
  · rw [if_neg c1] at e
    simp only [] at e
    by_cases c2 : bs_tol b ≤ 0 ∨ bs_tol b ≥ nmax
    · rw [if_pos c2] at e
      exact hsame _ e
    · rw [if_neg c2] at e
      generalize bs_tol b = k at e
      by_cases c3 : (skip_digits b).length = 0 ∧ cfg.parse_rhint_ = true
      · rw [if_pos c3] at e
        cases e
        exact clear_rhint _ k v h
      · rw [if_neg c3] at e
        by_cases c4 : peek (skip_digits b) = ':' ∧ (bs_advance (skip_digits b)).length = 0
        · rw [if_pos c4] at e
          exact hsame _ e
        · rw [if_neg c4] at e
          generalize (if peek (skip_digits b) = ':' then bs_advance (skip_digits b)
            else skip_digits b) = b2 at e
          have hset : ∀ (s : sector) (x : gs_state),
              some (mark_used (setSec sec k s, m) k) = some x → flags_clear s →
              clear_array x.1 := by
            intro s x hx hs
            cases hx
            exact clear_mark _ _ k (clear_setSec sec k s h hs)
          have hk : flags_clear (sec k) := h k
          by_cases d1 : bs_cmp b2 "sector_start" = 0
          · rw [if_pos d1] at e
            cases v with
            | none => exact hsame _ e
            | some c => exact hset _ _ e hk
          rw [if_neg d1] at e
          by_cases d2 : bs_cmp b2 "sector_end" = 0
          · rw [if_pos d2] at e
            cases v with
            | none => exact hsame _ e
            | some c => exact hset _ _ e hk
          rw [if_neg d2] at e
          by_cases d3 : bs_cmp b2 "colour" = 0
          · rw [if_pos d3] at e
            cases v with
            | none => exact hsame _ e
            | some c =>
              cases e
              exact clear_numbered_colour _ k c h
          rw [if_neg d3] at e
          by_cases d4 : bs_cmp b2 "radius" = 0
          · rw [if_pos d4] at e
            cases v with
            | none => exact hsame _ e
            | some c =>
              simp only [] at e
              by_cases hc : c.length = 0
              · rw [if_pos hc] at e
                exact hsame _ e
              · rw [if_neg hc] at e
                cases hr : radius_loop (c.length + 1) (sec k) c with
                | none => rw [hr] at e; exact absurd e (by simp)
                | some s =>
                  rw [hr] at e
                  exact hset s _ e (radius_loop_flags _ _ _ s hk hr)
          rw [if_neg d4] at e
          by_cases d5 : bs_cmp b2 "orientation" = 0
          · rw [if_pos d5] at e
            cases v with
            | none => exact hsame _ e
            | some c => exact hset _ _ e hk
          rw [if_neg d5] at e
          by_cases d6 : bs_cmp b2 "category" = 0
          · rw [if_pos d6] at e
            cases v with
            | none => exact hsame _ e
            | some c =>
              simp only [] at e
              by_cases hc : bs_cmp c "directional" ≠ 0
              · rw [if_pos hc] at e
                exact hsame _ e
              · rw [if_neg hc] at e
                exact hset _ _ e hk
          rw [if_neg d6] at e
          exact hsame _ e

theorem clear_key (cfg : config) (nmax : Int) (st : gs_state) (key : bstring)
    (v : Option bstring) (st2 : gs_state) (h : clear_array st.1)
    (e : get_sectors_key cfg nmax st key v = some st2) : clear_array st2.1 := by
  obtain ⟨sec, m⟩ := st
  have hsame : ∀ x : gs_state, some (sec, m) = some x → clear_array x.1 := by
    intro x hx
    cases hx
    exact h
  have hset : ∀ (s : sector) (x : gs_state),
      some (mark_used (setSec sec 0 s, m) 0) = some x → flags_clear s → clear_array x.1 := by
    intro s x hx hs
    cases hx
    exact clear_mark _ _ 0 (clear_setSec sec 0 s h hs)
  have hupd : ∀ (s : sector) (x : gs_state),
      some (setSec sec 0 s, m) = some x → flags_clear s → clear_array x.1 := by
    intro s x hx hs
    cases hx
    exact clear_setSec sec 0 s h hs
  have hk : flags_clear (sec 0) := h 0
  unfold get_sectors_key at e
  by_cases d1 : bs_cmp key "seamark:light:orientation" = 0
  · rw [if_pos d1] at e
    cases v with
    | none => exact hsame _ e
    | some c => exact hset _ _ e hk
  rw [if_neg d1] at e
  by_cases d2 : bs_cmp key "seamark:light:category" = 0
  · rw [if_pos d2] at e
    cases v with
    | none => exact hsame _ e
    | some c =>
      simp only [] at e
      by_cases hc : bs_cmp c "directional" = 0
      · rw [if_pos hc] at e
        exact hset _ _ e hk
      · rw [if_neg hc] at e
        exact hsame _ e
  rw [if_neg d2] at e
  by_cases d3 : bs_cmp key "seamark:light:colour" = 0
  · rw [if_pos d3] at e
    cases v with
    | none => exact hsame _ e
    | some c =>
      simp only [] at e
      cases hf : find_col (fun s => decide (bs_cmp c s = 0)) with
      | none => rw [hf] at e; exact hsame _ e
      | some l => rw [hf] at e; exact hupd _ _ e hk
  rw [if_neg d3] at e
  by_cases d4 : bs_cmp key "seamark:light:character" = 0
  · rw [if_pos d4] at e
    cases v with
    | none => exact hsame _ e
    | some c => exact hupd _ _ e hk
  rw [if_neg d4] at e
  by_cases d5 : bs_cmp key "seamark:light:period" = 0
  · rw [if_pos d5] at e
    cases v with
    | none => exact hsame _ e
    | some c => exact hupd _ _ e hk
  rw [if_neg d5] at e
  by_cases d6 : bs_cmp key "seamark:light:range" = 0
  · rw [if_pos d6] at e
    cases v with
    | none => exact hsame _ e
    | some c => exact hupd _ _ e hk
  rw [if_neg d6] at e
  by_cases d7 : bs_cmp key "seamark:light:group" = 0
  · rw [if_pos d7] at e
    cases v with
    | none => exact hsame _ e
    | some c => exact hupd _ _ e hk
  rw [if_neg d7] at e
  by_cases d8 : key.length > 14 ∧ key.take 14 = "seamark:light:".toList
  · rw [if_pos d8] at e
    exact clear_numbered_tag cfg nmax (sec, m) _ v st2 h e
  · rw [if_neg d8] at e
    exact hsame _ e

theorem clear_tag (cfg : config) (nmax : Int) (tag : hpx_tag) :
    ∀ (attrs : List hpx_attr) (st st2 : gs_state), clear_array st.1 →
    get_sectors_tag cfg nmax tag attrs st = some st2 → clear_array st2.1 := by
  intro attrs
  induction attrs with
  | nil =>
    intro st st2 h e
    cases e
    exact h
  | cons a rest ih =>
    intro st st2 h e
    unfold get_sectors_tag at e
    by_cases hk : bs_cmp a.name "k" = 0
    · rw [if_pos hk] at e
      cases hq : get_sectors_key cfg nmax st a.value (get_v tag) with
      | none => rw [hq] at e; exact absurd e (by simp)
      | some st1 =>
        rw [hq] at e
        exact ih st1 st2 (clear_key cfg nmax st _ _ st1 h hq) e
    · rw [if_neg hk] at e
      exact ih st st2 h e

theorem clear_loop (cfg : config) (nmax : Int) :
    ∀ (t : hpx_tree) (st st2 : gs_state), clear_array st.1 →
    get_sectors_loop cfg nmax t st = some st2 → clear_array st2.1 := by
  intro t
  induction t with
  | nil =>
    intro st st2 h e
    cases e
    exact h
  | cons tag rest ih =>
    intro st st2 h e
    unfold get_sectors_loop at e
    cases hq : get_sectors_tag cfg nmax tag tag st with
    | none => rw [hq] at e; exact absurd e (by simp)
    | some st1 =>
      rw [hq] at e
      exact ih st1 st2 (clear_tag cfg nmax tag tag st st1 h hq) e

/-- The segments of the sectors that `get_sectors` leaves on a freshly
initialised array have no radial flag. -/
theorem get_sectors_flags (cfg : config) (t : hpx_tree) (nmax : Int) (st : gs_state)
    (e : get_sectors cfg t init_sectors nmax = some st) : clear_array st.1 :=
  clear_loop cfg nmax t (init_sectors, 0) st (fun _ _ => ⟨rfl, rfl⟩) e

theorem clear_keep (st : gs_state) (i : Int) (s : sector) (h : clear_array st.1)
    (hs : flags_clear s) : clear_array (keep_sector st i s).1 := by
  unfold keep_sector
  refine clear_setSec st.1 i _ h ?_
  split_ifs
  · exact hs
  · exact hs

theorem clear_validate_slot (cfg : config) (st : gs_state) (i : Nat) (h : clear_array st.1) :
    clear_array (validate_slot cfg st i).1 := by
  have hk : flags_clear (st.1 (i : Int)) := h _
  have hset : ∀ s : sector, flags_clear s → clear_array (setSec st.1 (i : Int) s) :=
    fun s hs => clear_setSec st.1 _ s h hs
  unfold validate_slot
  simp only []
  by_cases c0 : (st.1 (i : Int)).used = true
  · rw [if_pos c0]
    by_cases c1 : i ≠ 0 ∧ deq (st.1 (i : Int)).start (st.1 (i : Int)).end_ = true ∧
        deq (st.1 (i : Int)).start (st.1 0).dir = true
    · rw [if_pos c1]
      exact hset _ hk
    · rw [if_neg c1]
      by_cases c2 : (!isnan (st.1 (i : Int)).dir ∧ (st.1 (i : Int)).cat ≠ CAT_DIR) ∨
          (isnan (st.1 (i : Int)).dir ∧ (st.1 (i : Int)).cat = CAT_DIR)
      · rw [if_pos c2]
        exact hset _ hk
      · rw [if_neg c2]
        by_cases c3 : isnan (st.1 (i : Int)).start ∧ isnan (st.1 (i : Int)).end_
        · rw [if_pos c3]
          by_cases c4 : (st.1 (i : Int)).cat = CAT_DIR
          · rw [if_pos c4]
            exact clear_keep st _ _ h hk
          · rw [if_neg c4]
            by_cases c5 : cfg.untagged_circle_ = true
            · rw [if_pos c5]
              exact clear_keep st _ _ h hk
            · rw [if_neg c5]
              exact hset _ hk
        · rw [if_neg c3]
          by_cases c6 : isnan (st.1 (i : Int)).start ∨ isnan (st.1 (i : Int)).end_
          · rw [if_pos c6]
            exact hset _ hk
          · rw [if_neg c6]
            exact clear_keep st _ _ h hk
  · rw [if_neg c0]
    exact h

theorem clear_validate_fold (cfg : config) : ∀ (l : List Nat) (st : gs_state),
    clear_array st.1 → clear_array (l.foldl (validate_slot cfg) st).1 := by
  intro l
  induction l with
  | nil => intro st h; exact h
  | cons i l ih =>
    intro st h
    rw [List.foldl_cons]
    exact ih _ (clear_validate_slot cfg st i h)

theorem clear_remove_slot (A : secarr) (i : Nat) (h : clear_array A) :
    clear_array (remove_slot A i) := by
  intro m
  unfold remove_slot
  split_ifs
  · exact h _
  · exact fun _ => ⟨rfl, rfl⟩
  · exact h _

theorem clear_compact (fuel : Nat) : ∀ (i : Nat) (n : Int) (A B : secarr),
    clear_array A → compact_loop fuel i n A = some B → clear_array B := by
  induction fuel with
  | zero => intro i n A B _ e; exact absurd e (by simp [compact_loop])
  | succ fuel ih =>
    intro i n A B h e
    unfold compact_loop at e
    by_cases c1 : i < MAX_SEC ∧ (i : Int) < n
    · rw [if_pos c1] at e
      by_cases c2 : (A i).used = true
      · rw [if_pos c2] at e
        refine ih _ _ _ B ?_ e
        exact clear_setSec A _ _ h (h _)
      · rw [if_neg c2] at e
        refine ih _ _ _ B ?_ e
        exact clear_remove_slot A i h
    · rw [if_neg c1] at e
      cases e
      exact h

theorem clear_sort_pass : ∀ (c i : Nat) (A : secarr), clear_array A →
    clear_array (sort_pass c i A) := by
  intro c
  induction c with
  | zero => intro i A h; exact h
  | succ c ih =>
    intro i A h
    unfold sort_pass
    refine ih _ _ ?_
    split_ifs
    · exact clear_setSec _ _ _ (clear_setSec A _ _ h (h _)) (h _)
    · exact h

theorem clear_sort_passes : ∀ (c j : Nat) (n : Int) (A : secarr), clear_array A →
    clear_array (sort_passes c j n A) := by
  intro c
  induction c with
  | zero => intro j n A h; exact h
  | succ c ih =>
    intro j n A h
    unfold sort_passes
    exact ih _ _ _ (clear_sort_pass _ _ A h)

theorem clear_spacing_loop : ∀ (c i : Nat) (A : secarr), clear_array A →
    clear_array (spacing_loop c i A) := by
  intro c
  induction c with
  | zero => intro i A h; exact h
  | succ c ih =>
    intro i A h
    unfold spacing_loop
    have h1 := clear_setSec A ((i : Int) + 1)
      { A ((i : Int) + 1) with sspace := dsub (A ((i : Int) + 1)).start (A i).end_ } h (h _)
    exact ih _ _ (clear_setSec _ _ _ h1 (h1 _))

theorem clear_spacing (A : secarr) (n : Int) (h : clear_array A) :
    clear_array (neighbour_spacing A n) := by
  unfold neighbour_spacing
  have h1 := clear_setSec A 0 { A 0 with sspace := dsub (A 0).start (A (n - 1)).end_ } h (h _)
  exact clear_spacing_loop _ _ _ (clear_setSec _ _ _ h1 (h1 _))

theorem clear_validate (cfg : config) (A : secarr) (n : Int) (B : secarr) (h : clear_array A)
    (e : validate_sectors cfg A = some (n, B)) : clear_array B := by
  unfold validate_sectors at e
  simp only [] at e
  have hv : clear_array (validate_loop cfg A).1 := clear_validate_fold cfg _ (A, 0) h
  cases hc : compact_loop (2 * MAX_SEC + 1) 0 (validate_loop cfg A).2 (validate_loop cfg A).1 with
  | none => rw [hc] at e; exact absurd e (by simp)
  | some C =>
    rw [hc] at e
    have h2 := clear_compact _ _ _ _ C hv hc
    cases e
    exact clear_spacing _ _ (clear_sort_passes _ _ _ C h2)

/-- The segments of the sectors of a node, extracted from its tags and
validated, have no radial flag before `proc_sfrac` is called. -/
theorem node_sectors_flags (cfg : config) (t : hpx_tree) (i : Int) :
    flags_clear (sector_of (node_sectors cfg t) i) := by
  unfold sector_of
  cases hn : node_sectors cfg t with
  | none => exact fun _ => ⟨rfl, rfl⟩
  | some x =>
    obtain ⟨n, B⟩ := x
    unfold node_sectors at hn
    cases hg : get_sectors cfg t init_sectors MAX_SEC with
    | none => rw [hg] at hn; exact absurd hn (by simp)
    | some st =>
      rw [hg] at hn
      have h1 := get_sectors_flags cfg t _ st hg
      simp only [] at hn
      by_cases c : st.2 ≠ 0
      · rw [if_pos c] at hn
        exact clear_validate cfg st.1 n B h1 hn i
      · rw [if_neg c] at hn
        cases hn
        exact h1 i

/-! ### The segments moved by the tapering expansion -/

/-- The `memmove` of line 758 in the expansion of segment `i`: the six segments
`i + 7 .. i + 12` get what the segments `i + 1 .. i + 6` held, whatever the
number of segments of the sector is. -/
theorem taper_expand_moved (sec : sector) (i k : Nat) (h1 : i + TAPER_SEGS ≤ k)
    (h2 : k < i + TAPER_SEGS + (TAPER_SEGS - 1)) :
    (taper_expand sec i).sf k = sec.sf (k - (TAPER_SEGS - 1)) := by
  have hki : k ≠ i := by simp only [TAPER_SEGS] at h1; omega
  unfold taper_expand
  simp only [setSf_sf, if_neg hki]
  rw [(taper_fill_frame _ i (TAPER_SEGS - 1)).2.2.2 k
    (Or.inr (by simp only [TAPER_SEGS] at h1 ⊢; omega))]
  simp only [setSf_sf, if_neg hki]
  rw [if_pos ⟨h1, h2⟩]

/-! ### The functions with rounding, for exact arithmetic -/

theorem radd_id (x y : double) : radd id x y = dadd x y := by
  cases x <;> cases y <;> rfl

theorem rsub_id (x y : double) : rsub id x y = dsub x y := by
  cases x <;> cases y <;> rfl

theorem rdiv_id (x : double) (c : ℚ) : rdiv id x c = ddiv x c := by
  cases x <;> rfl

theorem plain_sector_r_id (cfg : config) (sec : sector) :
    plain_sector_r id cfg sec = plain_sector cfg sec := by
  unfold plain_sector_r plain_sector
  simp only [rsub_id]

theorem dir_half_r_id (cfg : config) (space : double) :
    dir_half_r id cfg space = dir_half cfg space := by
  unfold dir_half_r dir_half
  simp only [rdiv_id]

theorem directional_r_id (cfg : config) (sec : sector) :
    directional_r id cfg sec = directional cfg sec := by
  unfold directional_r directional
  simp only [rsub_id, radd_id, dir_half_r_id]

theorem first_span_r_id (sec : sector) : first_span_r id sec = first_span sec := by
  unfold first_span_r first_span
  simp only [rsub_id, radd_id]

theorem first_segment_r_id (sec : sector) : first_segment_r id sec = first_segment sec := by
  unfold first_segment_r first_segment
  simp only [rsub_id, radd_id]

theorem resolve_step_r_id (sec : sector) (i : Nat) :
    resolve_step_r id sec i = resolve_step sec i := by
  unfold resolve_step_r resolve_step
  simp only [rsub_id, radd_id]

theorem resolve_loop_r_id (n : Nat) : ∀ (i : Nat) (sec : sector),
    resolve_loop_r id n i sec = resolve_loop n i sec := by
  induction n with
  | zero => intro i sec; rfl
  | succ n ih =>
    intro i sec
    unfold resolve_loop_r resolve_loop
    simp only [resolve_step_r_id, ih]

theorem taper_sub_r_id (sec : sector) (i j : Nat) : taper_sub_r id sec i j = taper_sub sec i j := by
  unfold taper_sub_r taper_sub
  simp only [radd_id]

theorem taper_expand_r_id (sec : sector) (i : Nat) :
    taper_expand_r id sec i = taper_expand sec i := by
  unfold taper_expand_r taper_expand
  simp only [rdiv_id, radd_id, taper_sub_r_id]

theorem taper_loop_r_id (fuel : Nat) : ∀ (i : Nat) (sec : sector),
    taper_loop_r id fuel i sec = taper_loop fuel i sec := by
  induction fuel with
  | zero => intro i sec; rfl
  | succ fuel ih =>
    intro i sec
    unfold taper_loop_r taper_loop
    simp only [taper_expand_r_id, ih]

/-- With exact arithmetic (`rnd = id`) the function with rounding is
`proc_sfrac`. -/
theorem proc_sfrac_r_id (cfg : config) (sec : sector) :
    proc_sfrac_r id cfg sec = proc_sfrac cfg sec := by
  unfold proc_sfrac_r proc_sfrac
  simp only [plain_sector_r_id, directional_r_id, first_span_r_id, first_segment_r_id,
    resolve_loop_r_id, taper_loop_r_id]

/-! ### A second call of `proc_sfrac`, with rounding -/

theorem directional_r_path (rnd : ℚ → ℚ) (cfg : config) (sec : sector) (d : ℚ)
    (hd : sec.dir = some d) :
    proc_sfrac_r rnd cfg sec = some (0, directional_r rnd cfg (init_radius cfg sec)) := by
  unfold proc_sfrac_r
  simp [hd, isnan]

theorem plain_r_path (rnd : ℚ → ℚ) (cfg : config) (sec : sector) (hd : sec.dir = none)
    (hf : sec.fused = 0) :
    proc_sfrac_r rnd cfg sec = some (0, plain_sector_r rnd cfg (init_radius cfg sec)) := by
  unfold proc_sfrac_r
  simp [hd, hf, isnan]

theorem proc_sfrac_r_raw (rnd : ℚ → ℚ) (cfg : config) (sec : sector) (hdir : sec.dir = none)
    (hf : sec.fused ≠ 0) :
    proc_sfrac_r rnd cfg sec =
      (let r1 := first_span_r rnd (init_radius cfg sec)
       if r1.1 ≠ 0 then some r1
       else
         let s2 := first_segment_r rnd r1.2
         let r3 := resolve_loop_r rnd (s2.fused - 1) 1 s2
         if r3.1 ≠ 0 then some r3
         else
           match taper_loop_r rnd (r3.2.fused + 2 * TAPER_SEGS) 0 r3.2 with
           | none => none
           | some r4 => if r4.1 ≠ 0 then some r4 else some (0, close_last r4.2)) := by
  unfold proc_sfrac_r
  simp [hdir, hf, isnan]

theorem directional_r_sf0 (rnd : ℚ → ℚ) (cfg : config) (T : sector) :
    (directional_r rnd cfg T).sf 0 =
      { T.sf 0 with start := rsub rnd T.dir (dir_half_r rnd cfg T.sspace), end_ := T.dir,
                    col := T.col0, type := ARC_SOLID, endr := true } := rfl

theorem directional_r_sf1 (rnd : ℚ → ℚ) (cfg : config) (T : sector) :
    (directional_r rnd cfg T).sf 1 =
      { T.sf 1 with r := (T.sf 0).r, start := T.dir,
                    end_ := radd rnd T.dir (dir_half_r rnd cfg T.espace),
                    col := T.col0, type := ARC_SOLID } := rfl

theorem directional_r_sf_other (rnd : ℚ → ℚ) (cfg : config) (T : sector) (i : Nat)
    (h0 : i ≠ 0) (h1 : i ≠ 1) : (directional_r rnd cfg T).sf i = T.sf i := by
  simp [directional_r, h0, h1]

theorem directional_r_again (rnd : ℚ → ℚ) (cfg : config) (A : sector) (ρ r0 : ℚ)
    (hρ : cfg.sec_radius_ = some ρ) (hr0 : (A.sf 0).r = some r0) (hneg : r0 < 0 → r0 = ρ)
    (i : Nat) :
    same_segment ((directional_r rnd cfg (init_radius cfg (directional_r rnd cfg A))).sf i)
      ((directional_r rnd cfg A).sf i) := by
  have hD0 : ((directional_r rnd cfg A).sf 0).r = some r0 := by
    rw [directional_r_sf0]; exact hr0
  have hst := init_radius_stable cfg (directional_r rnd cfg A) ρ r0 hρ hD0 hneg
  have hsf := init_radius_sf cfg (directional_r rnd cfg A)
  have hdir : (init_radius cfg (directional_r rnd cfg A)).dir = A.dir := by
    rw [init_radius_dir]; rfl
  have hss : (init_radius cfg (directional_r rnd cfg A)).sspace = A.sspace := by
    rw [init_radius_sspace]; rfl
  have hes : (init_radius cfg (directional_r rnd cfg A)).espace = A.espace := by
    rw [init_radius_espace]; rfl
  have hc0 : (init_radius cfg (directional_r rnd cfg A)).col0 = A.col0 := by
    rw [init_radius_col0]; rfl
  have hsr0 : ((init_radius cfg (directional_r rnd cfg A)).sf 0).startr = (A.sf 0).startr := by
    rw [init_radius_startr, directional_r_sf0]
  have h1 : (init_radius cfg (directional_r rnd cfg A)).sf 1 = (directional_r rnd cfg A).sf 1 := by
    rw [hsf 1, if_neg (by decide)]
  generalize init_radius cfg (directional_r rnd cfg A) = A2 at *
  by_cases hi0 : i = 0
  · subst hi0
    rw [directional_r_sf0, directional_r_sf0, hdir, hss, hc0]
    exact ⟨rfl, rfl, by rw [hst, hr0], rfl, rfl, hsr0, rfl⟩
  · by_cases hi1 : i = 1
    · subst hi1
      rw [directional_r_sf1 rnd cfg A2, hdir, hes, hc0, h1, directional_r_sf1]
      exact ⟨rfl, rfl, by rw [hst, hr0], rfl, rfl, rfl, rfl⟩
    · rw [directional_r_sf_other rnd cfg A2 i hi0 hi1, hsf i, if_neg hi0]
      exact same_segment_refl _

/-- The tapering loop on a sector with one segment that is not tapering. -/
theorem taper_loop_r_one (rnd : ℚ → ℚ) (fuel : Nat) (s : sector) (hf : s.fused = 1)
    (ht : tapering (s.sf 0).type = false) : taper_loop_r rnd (fuel + 2) 0 s = some (0, s) := by
  have hn : (s.sf 0).type ≠ ARC_TAPER_UP ∧ (s.sf 0).type ≠ ARC_TAPER_DOWN := by
    simp only [tapering, Bool.or_eq_false_iff, beq_eq_false_iff_ne] at ht
    exact ht
  unfold taper_loop_r
  rw [if_pos (by omega), if_pos hn]
  unfold taper_loop_r
  rw [if_neg (by omega)]

/-! ### The functions of `proc_sfrac` with rounding: what they leave alone -/

theorem resolve_step_r_fst (rnd : ℚ → ℚ) (sec : sector) (i : Nat) :
    (resolve_step_r rnd sec i).1 = if negspan (sec.sf i) = true ∧ sec.fused > i + 1 then -1 else 0 := by
  unfold resolve_step_r negspan
  by_cases h1 : isnan (sec.sf i).a = true
  · simp [h1]
  · by_cases h2 : dlt (sec.sf i).a (some 0) = true
    · by_cases h3 : sec.fused > i + 1
      · simp [h1, h2, h3]
      · simp [h1, h2, h3]
    · simp [h1, h2]

@[simp] theorem resolve_step_r_fused (rnd : ℚ → ℚ) (sec : sector) (i : Nat) :
    (resolve_step_r rnd sec i).2.fused = sec.fused := by
  unfold resolve_step_r
  simp only []
  split_ifs <;> rfl

@[simp] theorem resolve_step_r_start (rnd : ℚ → ℚ) (sec : sector) (i : Nat) :
    (resolve_step_r rnd sec i).2.start = sec.start := by
  unfold resolve_step_r
  simp only []
  split_ifs <;> rfl

@[simp] theorem resolve_step_r_end (rnd : ℚ → ℚ) (sec : sector) (i : Nat) :
    (resolve_step_r rnd sec i).2.end_ = sec.end_ := by
  unfold resolve_step_r
  simp only []
  split_ifs <;> rfl

theorem resolve_step_r_sf_other (rnd : ℚ → ℚ) (sec : sector) (i j : Nat) (h1 : j ≠ i) (h2 : j ≠ i - 1) :
    (resolve_step_r rnd sec i).2.sf j = sec.sf j := by
  unfold resolve_step_r
  simp only []
  split_ifs <;> simp [h1, h2]

theorem resolve_step_r_sf_prev (rnd : ℚ → ℚ) (sec : sector) (i : Nat) (h1 : 1 ≤ i) :
    (resolve_step_r rnd sec i).2.sf (i - 1) =
      { sec.sf (i - 1) with end_ := ((resolve_step_r rnd sec i).2.sf (i - 1)).end_ } := by
  have hne : i - 1 ≠ i := by omega
  unfold resolve_step_r
  simp only []
  split_ifs <;> simp [hne]

theorem resolve_step_r_type (rnd : ℚ → ℚ) (sec : sector) (i : Nat) :
    ((resolve_step_r rnd sec i).2.sf i).type =
      if (sec.sf i).type = ARC_UNDEF then (sec.sf (i - 1)).type else (sec.sf i).type := by
  unfold resolve_step_r
  simp only []
  split_ifs <;> simp_all

theorem resolve_loop_r_succ (rnd : ℚ → ℚ) (n i : Nat) (sec : sector) :
    resolve_loop_r rnd (n + 1) i sec =
      if (resolve_step_r rnd sec i).1 = 0 then resolve_loop_r rnd n (i + 1) (resolve_step_r rnd sec i).2
      else resolve_step_r rnd sec i := rfl

theorem resolve_loop_r_frame (rnd : ℚ → ℚ) (n : Nat) : ∀ (i : Nat) (sec : sector),
    (resolve_loop_r rnd n i sec).2.fused = sec.fused ∧
    (resolve_loop_r rnd n i sec).2.start = sec.start ∧
    (resolve_loop_r rnd n i sec).2.end_ = sec.end_ := by
  induction n with
  | zero => intro i sec; exact ⟨rfl, rfl, rfl⟩
  | succ n ih =>
    intro i sec
    rw [resolve_loop_r_succ rnd]
    split_ifs with h
    · obtain ⟨h1, h2, h3⟩ := ih (i + 1) (resolve_step_r rnd sec i).2
      simp only [resolve_step_r_fused rnd, resolve_step_r_start rnd, resolve_step_r_end rnd] at h1 h2 h3
      exact ⟨h1, h2, h3⟩
    · simp

theorem resolve_loop_r_fst (rnd : ℚ → ℚ) (n : Nat) : ∀ (i : Nat) (sec : sector),
    (resolve_loop_r rnd n i sec).1 = 0 ∨ (resolve_loop_r rnd n i sec).1 = -1 := by
  induction n with
  | zero => intro i sec; exact Or.inl rfl
  | succ n ih =>
    intro i sec
    rw [resolve_loop_r_succ rnd]
    split_ifs with h
    · exact ih _ _
    · rw [resolve_step_r_fst rnd] at h ⊢
      split_ifs at h ⊢ with hc
      · exact Or.inr rfl
      · exact absurd rfl h

theorem resolve_loop_r_ok (rnd : ℚ → ℚ) (n : Nat) : ∀ (i : Nat) (sec : sector),
    (∀ j, i ≤ j → j < i + n → j + 1 < sec.fused → negspan (sec.sf j) = false) →
    (resolve_loop_r rnd n i sec).1 = 0 := by
  induction n with
  | zero => intro i sec _; rfl
  | succ n ih =>
    intro i sec hall
    have h0 : (resolve_step_r rnd sec i).1 = 0 := by
      rw [resolve_step_r_fst rnd]
      split_ifs with hc
      · have := hall i le_rfl (by omega) hc.2
        rw [hc.1] at this
        exact absurd this (by decide)
      · rfl
    rw [resolve_loop_r_succ rnd, if_pos h0]
    apply ih
    intro j h1 h2 h3
    rw [resolve_step_r_fused rnd] at h3
    rw [resolve_step_r_sf_other rnd sec i j (by omega) (by omega)]
    exact hall j (by omega) (by omega) h3

theorem resolve_loop_r_last (rnd : ℚ → ℚ) (n : Nat) : ∀ (i : Nat) (sec : sector),
    resolve_loop_r rnd (n + 1) i sec =
      if (resolve_loop_r rnd n i sec).1 = 0 then resolve_step_r rnd (resolve_loop_r rnd n i sec).2 (i + n)
      else resolve_loop_r rnd n i sec := by
  induction n with
  | zero =>
    intro i sec
    rw [resolve_loop_r_succ rnd]
    simp only [resolve_loop_r, if_true, Nat.add_zero]
    split_ifs with h
    · exact Prod.ext h.symm rfl
    · rfl
  | succ n ih =>
    intro i sec
    by_cases h : (resolve_step_r rnd sec i).1 = 0
    · have e1 : resolve_loop_r rnd (n + 1 + 1) i sec =
          resolve_loop_r rnd (n + 1) (i + 1) (resolve_step_r rnd sec i).2 := by
        rw [resolve_loop_r_succ rnd, if_pos h]
      have e2 : resolve_loop_r rnd (n + 1) i sec = resolve_loop_r rnd n (i + 1) (resolve_step_r rnd sec i).2 := by
        rw [resolve_loop_r_succ rnd, if_pos h]
      rw [e1, e2, ih, show i + 1 + n = i + (n + 1) by omega]
    · have e1 : resolve_loop_r rnd (n + 1 + 1) i sec = resolve_step_r rnd sec i := by
        rw [resolve_loop_r_succ rnd, if_neg h]
      have e2 : resolve_loop_r rnd (n + 1) i sec = resolve_step_r rnd sec i := by
        rw [resolve_loop_r_succ rnd, if_neg h]
      rw [e1, e2, if_neg h]

theorem first_span_r_fst (rnd : ℚ → ℚ) (sec : sector) :
    (first_span_r rnd sec).1 = if negspan (sec.sf 0) = true ∧ sec.fused > 1 then -1 else 0 := by
  unfold first_span_r negspan
  by_cases h1 : isnan (sec.sf 0).a = true
  · simp [h1]
  · by_cases h2 : dlt (sec.sf 0).a (some 0) = true
    · by_cases h3 : sec.fused > 1
      · simp [h1, h2, h3]
      · simp [h1, h2, h3]
    · simp [h1, h2]

@[simp] theorem first_span_r_start (rnd : ℚ → ℚ) (sec : sector) : (first_span_r rnd sec).2.start = sec.start := by
  unfold first_span_r
  simp only []
  split_ifs <;> rfl

@[simp] theorem first_span_r_end (rnd : ℚ → ℚ) (sec : sector) : (first_span_r rnd sec).2.end_ = sec.end_ := by
  unfold first_span_r
  simp only []
  split_ifs <;> rfl

@[simp] theorem first_span_r_col0 (rnd : ℚ → ℚ) (sec : sector) : (first_span_r rnd sec).2.col0 = sec.col0 := by
  unfold first_span_r
  simp only []
  split_ifs <;> rfl

@[simp] theorem first_segment_r_fused (rnd : ℚ → ℚ) (sec : sector) : (first_segment_r rnd sec).fused = sec.fused := rfl

@[simp] theorem first_segment_r_start (rnd : ℚ → ℚ) (sec : sector) : (first_segment_r rnd sec).start = sec.start := rfl

@[simp] theorem first_segment_r_end (rnd : ℚ → ℚ) (sec : sector) : (first_segment_r rnd sec).end_ = sec.end_ := rfl

theorem first_segment_r_sf_later (rnd : ℚ → ℚ) (sec : sector) (j : Nat) (hj : 1 ≤ j) :
    (first_segment_r rnd sec).sf j = sec.sf j := by
  have : j ≠ 0 := by omega
  simp [first_segment_r, this]

theorem notaper_first_span_r (rnd : ℚ → ℚ) (sec : sector) (hk : 1 ≤ sec.fused) (h : notaper sec) :
    notaper (first_span_r rnd sec).2 := by
  unfold first_span_r
  by_cases h1 : isnan (sec.sf 0).a = true
  · simp only [h1, if_true]
    intro j hj
    have := h j hj
    by_cases h0 : j = 0
    · subst h0; simpa using this
    · simpa [h0] using this
  · by_cases h2 : dlt (sec.sf 0).a (some 0) = true
    · by_cases h3 : sec.fused > 1
      · simp only [h1, h2, h3, if_true, if_false, Bool.false_eq_true]
        exact h
      · simp only [h1, h2, h3, if_true, if_false, Bool.false_eq_true]
        intro j hj
        have hfu : sec.fused = 1 := by omega
        simp only [setSf_fused, hfu] at hj
        have hj' : j = 0 ∨ j = 1 := by omega
        rcases hj' with h0 | h0
        · subst h0; simp [tapering_solid]
        · subst h0
          simpa using h 0 (by omega)
    · simp only [h1, h2, if_false, Bool.false_eq_true]
      exact h

theorem notaper_first_segment_r (rnd : ℚ → ℚ) (sec : sector) (h : notaper sec) :
    notaper (first_segment_r rnd sec) := by
  intro j hj
  have := h j hj
  by_cases h0 : j = 0
  · subst h0
    simp only [first_segment_r, setSf_sf, if_true]
    split_ifs
    · exact tapering_solid
    · exact this
  · rw [first_segment_r_sf_later rnd _ j (by omega)]; exact this

theorem notaper_resolve_step_r (rnd : ℚ → ℚ) (sec : sector) (i : Nat) (h : notaper sec) :
    notaper (resolve_step_r rnd sec i).2 := by
  intro j hj
  rw [resolve_step_r_fused rnd] at hj
  by_cases hji : j = i
  · subst hji
    rw [resolve_step_r_type rnd]
    split_ifs
    · exact h (j - 1) (by omega)
    · exact h j hj
  · by_cases hjp : j = i - 1
    · have h1 : 1 ≤ i := by omega
      rw [hjp, resolve_step_r_sf_prev rnd sec i h1]
      exact h (i - 1) (by omega)
    · rw [resolve_step_r_sf_other rnd sec i j hji hjp]
      exact h j hj

theorem notaper_resolve_loop_r (rnd : ℚ → ℚ) (n : Nat) : ∀ (i : Nat) (sec : sector), notaper sec →
    notaper (resolve_loop_r rnd n i sec).2 := by
  induction n with
  | zero => intro i sec h; exact h
  | succ n ih =>
    intro i sec h
    rw [resolve_loop_r_succ rnd]
    split_ifs
    · exact ih _ _ (notaper_resolve_step_r rnd sec i h)
    · exact notaper_resolve_step_r rnd sec i h

theorem taper_loop_r_notaper (rnd : ℚ → ℚ) (fuel : Nat) : ∀ (i : Nat) (sec : sector), notaper sec →
    sec.fused - i < fuel → taper_loop_r rnd fuel i sec = some (0, sec) := by
  induction fuel with
  | zero => intro i sec _ h; omega
  | succ fuel ih =>
    intro i sec h hfu
    unfold taper_loop_r
    split_ifs with h1 h2 h3
    · exact ih (i + 1) sec h (by omega)
    · exfalso
      have := h i h1
      simp only [tapering, Bool.or_eq_false_iff, beq_eq_false_iff_ne] at this
      exact h2 this
    · exfalso
      have := h i h1
      simp only [tapering, Bool.or_eq_false_iff, beq_eq_false_iff_ne] at this
      exact h2 this
    · rfl

theorem taper_fill_frame_r (rnd : ℚ → ℚ) (base : sector) (i m : Nat) :
    ((List.range' 1 m).foldl (fun s j => taper_sub_r rnd s i j) base).fused = base.fused ∧
    ((List.range' 1 m).foldl (fun s j => taper_sub_r rnd s i j) base).start = base.start ∧
    ((List.range' 1 m).foldl (fun s j => taper_sub_r rnd s i j) base).end_ = base.end_ ∧
    (∀ k, k ≤ i ∨ i + m < k →
      ((List.range' 1 m).foldl (fun s j => taper_sub_r rnd s i j) base).sf k = base.sf k) := by
  induction m with
  | zero => exact ⟨rfl, rfl, rfl, fun k _ => rfl⟩
  | succ m ih =>
    obtain ⟨i1, i2, i3, i4⟩ := ih
    rw [List.range'_concat, List.foldl_append]
    simp only [List.foldl_cons, List.foldl_nil, Nat.one_mul]
    refine ⟨i1, i2, i3, ?_⟩
    intro k hk
    have hne : k ≠ i + (1 + m) := by omega
    simp only [taper_sub_r, setSf_sf, if_neg hne]
    exact i4 k (by omega)

@[simp] theorem taper_expand_r_fused (rnd : ℚ → ℚ) (sec : sector) (i : Nat) :
    (taper_expand_r rnd sec i).fused = sec.fused + (TAPER_SEGS - 1) := by
  unfold taper_expand_r
  simp only [setSf_fused]
  exact congrArg (· + (TAPER_SEGS - 1)) (taper_fill_frame_r rnd _ i _).1

@[simp] theorem taper_expand_r_end (rnd : ℚ → ℚ) (sec : sector) (i : Nat) :
    (taper_expand_r rnd sec i).end_ = sec.end_ := by
  unfold taper_expand_r
  simp only [setSf_end]
  exact (taper_fill_frame_r rnd _ i _).2.2.1

theorem taper_loop_r_rest (rnd : ℚ → ℚ) (fuel : Nat) : ∀ (i : Nat) (sec : sector),
    (∀ j, i ≤ j → j < sec.fused → tapering (sec.sf j).type = false) →
    sec.fused - i < fuel → taper_loop_r rnd fuel i sec = some (0, sec) := by
  induction fuel with
  | zero => intro i sec _ h; omega
  | succ fuel ih =>
    intro i sec h hfu
    unfold taper_loop_r
    split_ifs with h1 h2 h3
    · exact ih (i + 1) sec (fun j hj => h j (by omega)) (by omega)
    · exfalso
      have := h i le_rfl h1
      simp only [tapering, Bool.or_eq_false_iff, beq_eq_false_iff_ne] at this
      exact h2 this
    · exfalso
      have := h i le_rfl h1
      simp only [tapering, Bool.or_eq_false_iff, beq_eq_false_iff_ne] at this
      exact h2 this
    · rfl


/-! ### The chain of the resolved segments, with rounding -/

theorem isnan_some (q : ℚ) : isnan (some q) = false := rfl

theorem isnan_false_iff (x : double) : isnan x = false ↔ ∃ q, x = some q := by
  cases x with
  | none => simp [isnan]
  | some q => simp [isnan]

theorem radd_num (rnd : ℚ → ℚ) (x y : double) (hx : isnan x = false) (hy : isnan y = false) :
    isnan (radd rnd x y) = false := by
  obtain ⟨a, rfl⟩ := (isnan_false_iff x).1 hx
  obtain ⟨b, rfl⟩ := (isnan_false_iff y).1 hy
  rfl

theorem rsub_num (rnd : ℚ → ℚ) (x y : double) (hx : isnan x = false) (hy : isnan y = false) :
    isnan (rsub rnd x y) = false := by
  obtain ⟨a, rfl⟩ := (isnan_false_iff x).1 hx
  obtain ⟨b, rfl⟩ := (isnan_false_iff y).1 hy
  rfl

/-- After `first_span` has succeeded the span of segment 0 is a number. -/
theorem first_span_r_a (rnd : ℚ → ℚ) (sec : sector) (hs : isnan sec.start = false)
    (he : isnan sec.end_ = false) (h0 : (first_span_r rnd sec).1 = 0) :
    isnan ((first_span_r rnd sec).2.sf 0).a = false := by
  unfold first_span_r at h0 ⊢
  simp only [] at h0 ⊢
  by_cases c1 : isnan (sec.sf 0).a = true
  · simp only [c1, if_true, setSf_sf]
    exact rsub_num rnd _ _ he hs
  · have c1' : isnan (sec.sf 0).a = false := by simpa using c1
    by_cases c2 : dlt (sec.sf 0).a (some 0) = true
    · by_cases c3 : sec.fused > 1
      · simp [c1, c2, c3] at h0
      · have ha : isnan (if dlt (sec.sf 0).a (rsub rnd sec.start sec.end_) = true
            then rsub rnd sec.start sec.end_ else (sec.sf 0).a) = false := by
          split_ifs
          · exact rsub_num rnd _ _ hs he
          · exact c1'
        simp only [c1, c2, c3, if_true, if_false, Bool.false_eq_true, setSf_sf,
          if_neg (show (0 : Nat) ≠ 1 by decide)]
        exact rsub_num rnd _ _ (radd_num rnd _ _ ha he) hs
    · simp only [c1, c2, if_false, Bool.false_eq_true]

theorem proc_sfrac_r_raw_notaper (rnd : ℚ → ℚ) (cfg : config) (sec : sector) (hdir : sec.dir = none)
    (hf : sec.fused ≠ 0) (hnt : notaper sec)
    (h1 : (first_span_r rnd (init_radius cfg sec)).1 = 0)
    (h3 : (resolve_loop_r rnd ((first_segment_r rnd (first_span_r rnd (init_radius cfg sec)).2).fused - 1) 1
      (first_segment_r rnd (first_span_r rnd (init_radius cfg sec)).2)).1 = 0) :
    proc_sfrac_r rnd cfg sec = some (0, close_last
      (resolve_loop_r rnd ((first_segment_r rnd (first_span_r rnd (init_radius cfg sec)).2).fused - 1) 1
        (first_segment_r rnd (first_span_r rnd (init_radius cfg sec)).2)).2) := by
  have hnt3 := notaper_resolve_loop_r rnd
    ((first_segment_r rnd (first_span_r rnd (init_radius cfg sec)).2).fused - 1) 1 _
    (notaper_first_segment_r rnd _ (notaper_first_span_r rnd _ (by simp; omega)
      (notaper_init_radius cfg sec hnt)))
  rw [proc_sfrac_r_raw rnd cfg sec hdir hf]
  simp only []
  rw [if_neg (by simpa using h1), if_neg (by simpa using h3),
    taper_loop_r_notaper rnd _ 0 _ hnt3 (by simp [TAPER_SEGS])]
  simp

/-- The sub-segments written by the inner loop of the tapering expansion: each
is a copy of segment `i` that starts at the end of the one before it and ends
at its start plus the span, with its own style and without `startr`. -/
theorem taper_fill_r_spec (rnd : ℚ → ℚ) (base : sector) (i : Nat) (m : Nat) :
    ∀ j, 1 ≤ j → j ≤ m →
      ((List.range' 1 m).foldl (fun s j => taper_sub_r rnd s i j) base).sf (i + j) =
        { base.sf i with
            start := (((List.range' 1 m).foldl (fun s j => taper_sub_r rnd s i j) base).sf
              (i + j - 1)).end_,
            end_ := radd rnd (((List.range' 1 m).foldl (fun s j => taper_sub_r rnd s i j) base).sf
              (i + j - 1)).end_ (base.sf i).a,
            type := if (base.sf i).type = ARC_TAPER_UP then ARC_TAPER_1 + j
                    else ARC_TAPER_7 - j,
            startr := false } := by
  induction m with
  | zero => intro j h1 h2; omega
  | succ m ih =>
    have hSi := (taper_fill_frame_r rnd base i m).2.2.2 i (Or.inl le_rfl)
    rw [List.range'_concat, List.foldl_append]
    simp only [List.foldl_cons, List.foldl_nil, Nat.one_mul]
    generalize (List.range' 1 m).foldl (fun s j => taper_sub_r rnd s i j) base = S at *
    intro j h1 h2
    have hne1 : i + j - 1 ≠ i + (1 + m) := by omega
    by_cases hj : j = m + 1
    · subst hj
      have he : i + (m + 1) = i + (1 + m) := by omega
      have hne2 : i + (m + 1) - 1 ≠ i + (m + 1) := by omega
      simp only [taper_sub_r, setSf_sf, he, if_true, hSi]
      rw [show 1 + m = m + 1 by omega, if_neg hne2]
    · have hne : i + j ≠ i + (1 + m) := by omega
      simp only [taper_sub_r, setSf_sf, if_neg hne, if_neg hne1]
      exact ih j h1 (by omega)

/-- The first of the seven sub-segments made by `taper_expand` from segment `i`. -/
theorem taper_expand_r_head (rnd : ℚ → ℚ) (sec : sector) (i : Nat) :
    (taper_expand_r rnd sec i).sf i =
      { sec.sf i with
          a := rdiv rnd (sec.sf i).a TAPER_SEGS,
          end_ := radd rnd (sec.sf i).start (rdiv rnd (sec.sf i).a TAPER_SEGS),
          type := if (sec.sf i).type = ARC_TAPER_UP then ARC_TAPER_1 else ARC_TAPER_7 } := by
  have hmv : ¬ (i + TAPER_SEGS ≤ i ∧ i < i + TAPER_SEGS + (TAPER_SEGS - 1)) := by
    simp [TAPER_SEGS]
  unfold taper_expand_r
  simp only [setSf_sf, if_true, if_neg hmv]
  rw [(taper_fill_frame_r rnd _ i (TAPER_SEGS - 1)).2.2.2 i (Or.inl le_rfl)]
  simp only [setSf_sf, if_true]

/-- The later six of the seven sub-segments made by `taper_expand` from
segment `i`. -/
theorem taper_expand_r_sub (rnd : ℚ → ℚ) (sec : sector) (i j : Nat) (h1 : 1 ≤ j) (h7 : j < 7) :
    (taper_expand_r rnd sec i).sf (i + j) =
      { sec.sf i with
          a := rdiv rnd (sec.sf i).a TAPER_SEGS,
          start := ((taper_expand_r rnd sec i).sf (i + j - 1)).end_,
          end_ := radd rnd ((taper_expand_r rnd sec i).sf (i + j - 1)).end_
            (rdiv rnd (sec.sf i).a TAPER_SEGS),
          type := if (sec.sf i).type = ARC_TAPER_UP then ARC_TAPER_1 + j else ARC_TAPER_7 - j,
          startr := false } := by
  have hmv : ¬ (i + TAPER_SEGS ≤ i ∧ i < i + TAPER_SEGS + (TAPER_SEGS - 1)) := by
    simp [TAPER_SEGS]
  have hne : i + j ≠ i := by omega
  unfold taper_expand_r
  simp only [setSf_sf, if_neg hne, if_true, if_neg hmv]
  generalize hb : setSf _ i _ = base
  have hbi : base.sf i =
      { sec.sf i with a := rdiv rnd (sec.sf i).a TAPER_SEGS,
                      end_ := radd rnd (sec.sf i).start (rdiv rnd (sec.sf i).a TAPER_SEGS) } := by
    rw [← hb]
    simp only [setSf_sf, if_true]
  have hfill := taper_fill_r_spec rnd base i (TAPER_SEGS - 1) j h1 (by simp [TAPER_SEGS]; omega)
  rw [hfill, hbi]
  by_cases hj1 : j = 1
  · subst hj1
    simp only [Nat.add_sub_cancel, if_true]
  · have hne2 : i + j - 1 ≠ i := by omega
    simp only [if_neg hne2]
/-- The tapering loop passes over segments that are not tapering. -/
theorem taper_loop_r_skip (rnd : ℚ → ℚ) (n : Nat) : ∀ (fuel i : Nat) (sec : sector),
    (∀ j, i ≤ j → j < i + n → tapering (sec.sf j).type = false) → i + n ≤ sec.fused →
    taper_loop_r rnd (fuel + n) i sec = taper_loop_r rnd fuel (i + n) sec := by
  induction n with
  | zero => intro fuel i sec _ _; rfl
  | succ n ih =>
    intro fuel i sec h hk
    have hi := h i le_rfl (by omega)
    simp only [tapering, Bool.or_eq_false_iff, beq_eq_false_iff_ne] at hi
    rw [show fuel + (n + 1) = (fuel + n) + 1 by omega]
    conv_lhs => unfold taper_loop_r
    rw [if_pos (by omega), if_pos hi, ih fuel (i + 1) sec (fun j h1 h2 => h j (by omega) (by omega))
      (by omega), show i + 1 + n = i + (n + 1) by omega]

/-- The tapering loop on a sector whose only tapering segment is the last one:
it expands that segment when at most `MAX_SFRAC - TAPER_SEGS + 1` segments are
in use. -/
theorem taper_loop_r_last (rnd : ℚ → ℚ) (sec : sector) (hf : 1 ≤ sec.fused)
    (hcap : sec.fused ≤ MAX_SFRAC - TAPER_SEGS + 1) (hfront : notaper_front sec)
    (ht : tapering (sec.sf (sec.fused - 1)).type = true) :
    taper_loop_r rnd (sec.fused + 2 * TAPER_SEGS) 0 sec
      = some (0, taper_expand_r rnd sec (sec.fused - 1)) := by
  have hskip := taper_loop_r_skip rnd (sec.fused - 1) (2 * TAPER_SEGS + 1) 0 sec
    (fun j _ h2 => hfront j (by omega)) (by omega)
  rw [show 2 * TAPER_SEGS + 1 + (sec.fused - 1) = sec.fused + 2 * TAPER_SEGS by omega,
    Nat.zero_add] at hskip
  rw [hskip]
  have hnot : ¬ ((sec.sf (sec.fused - 1)).type ≠ ARC_TAPER_UP ∧
      (sec.sf (sec.fused - 1)).type ≠ ARC_TAPER_DOWN) := by
    intro hc
    have : tapering (sec.sf (sec.fused - 1)).type = false := by
      simp only [tapering, Bool.or_eq_false_iff, beq_eq_false_iff_ne]
      exact hc
    rw [this] at ht
    exact absurd ht (by decide)
  have htap : (sec.sf (sec.fused - 1)).type = ARC_TAPER_UP ∨
      (sec.sf (sec.fused - 1)).type = ARC_TAPER_DOWN := by
    by_contra hc
    push_neg at hc
    exact hnot hc
  conv_lhs => unfold taper_loop_r
  rw [if_pos (by omega), if_neg hnot, if_neg (by omega)]
  apply taper_loop_r_rest
  · intro j hj1 hj2
    rw [taper_expand_r_fused] at hj2
    have hj7 : j - (sec.fused - 1) < 7 := by simp only [TAPER_SEGS] at hj2; omega
    have hj0 : 1 ≤ j - (sec.fused - 1) := by omega
    have hjj : j = sec.fused - 1 + (j - (sec.fused - 1)) := by omega
    rw [hjj, taper_expand_r_sub rnd sec (sec.fused - 1) _ hj0 hj7]
    generalize j - (sec.fused - 1) = d at hj0 hj7
    rcases htap with h | h <;> simp only [h] <;> interval_cases d <;> decide
  · rw [taper_expand_r_fused]
    simp only [TAPER_SEGS]
    omega
/-- The way of a sector with raw segments through `proc_sfrac`, when the two
loops return 0 and the tapering loop leaves `T`. -/
theorem proc_sfrac_r_raw_of (rnd : ℚ → ℚ) (cfg : config) (sec : sector) (hdir : sec.dir = none)
    (hf : sec.fused ≠ 0) (T : sector)
    (h1 : (first_span_r rnd (init_radius cfg sec)).1 = 0)
    (h3 : (resolve_loop_r rnd ((first_segment_r rnd (first_span_r rnd (init_radius cfg sec)).2).fused - 1) 1
      (first_segment_r rnd (first_span_r rnd (init_radius cfg sec)).2)).1 = 0)
    (htl : taper_loop_r rnd
      ((resolve_loop_r rnd ((first_segment_r rnd (first_span_r rnd (init_radius cfg sec)).2).fused - 1) 1
        (first_segment_r rnd (first_span_r rnd (init_radius cfg sec)).2)).2.fused + 2 * TAPER_SEGS) 0
      (resolve_loop_r rnd ((first_segment_r rnd (first_span_r rnd (init_radius cfg sec)).2).fused - 1) 1
        (first_segment_r rnd (first_span_r rnd (init_radius cfg sec)).2)).2 = some (0, T)) :
    proc_sfrac_r rnd cfg sec = some (0, close_last T) := by
  rw [proc_sfrac_r_raw rnd cfg sec hdir hf]
  simp only []
  rw [if_neg (by simpa using h1), if_neg (by simpa using h3), htl]
  simp

/-- C10 (amended): a non-directional sector with start < end whose single raw
segment has the style taper-up or taper-down and a span `a` that is
unspecified (then `a` is `end - start` as computed) or satisfies
`0 < a ≤ end - start` is resolved into exactly 7 segments and `proc_sfrac`
returns 0, whatever the rounding of the sums, differences and quotients; the
span fields are all `a / 7` as computed (line 759); segment 0 starts at the
start of the sector, every later segment starts at the end of the one before
it, and every segment ends at its start plus that span as computed (lines 760
and 766), the last one at the end of the sector when that sum is below it
(lines 776-777); the styles are taper_1 .. taper_7 in this order for taper-up
and taper_7 .. taper_1 for taper-down; `startr` is set on the first
sub-segment only. -/
theorem proc_sfrac_r_taper_single (rnd : ℚ → ℚ) (cfg : config) (sec : sector) (s e a : ℚ)
    (up : Bool) (hdir : sec.dir = none) (hf : sec.fused = 1)
    (hs : sec.start = some s) (he : sec.end_ = some e) (_hse : s < e)
    (ht : (sec.sf 0).type = if up = true then ARC_TAPER_UP else ARC_TAPER_DOWN)
    (ha : ((sec.sf 0).a = none ∧ a = rnd (e - s)) ∨
      ((sec.sf 0).a = some a ∧ 0 < a ∧ a ≤ rnd (e - s))) :
    ∃ res : sector, proc_sfrac_r rnd cfg sec = some (0, res) ∧ res.fused = 7 ∧
      (∀ j, j < 7 → (res.sf j).a = some (rnd (a / 7))) ∧
      (res.sf 0).start = some s ∧
      (∀ j, j < 6 → (res.sf (j + 1)).start = (res.sf j).end_) ∧
      (∀ j, j < 6 → (res.sf j).end_ = radd rnd (res.sf j).start (some (rnd (a / 7)))) ∧
      (res.sf 6).end_ =
        (if dlt (radd rnd (res.sf 6).start (some (rnd (a / 7)))) (some e) = true then some e
         else radd rnd (res.sf 6).start (some (rnd (a / 7)))) ∧
      (∀ j, j < 7 → (res.sf j).type = if up = true then ARC_TAPER_1 + j else ARC_TAPER_7 - j) ∧
      (∀ j, j < 7 → (res.sf j).startr = decide (j = 0)) := by
  have hae : a ≤ rnd (e - s) := by
    rcases ha with ⟨_, h⟩ | ⟨_, _, h⟩
    · rw [h]
    · exact h
  have htap : (sec.sf 0).type = ARC_TAPER_UP ∨ (sec.sf 0).type = ARC_TAPER_DOWN := by
    cases up
    · right; simpa using ht
    · left; simpa using ht
  have hundef : (sec.sf 0).type ≠ ARC_UNDEF := by
    rcases htap with h | h <;> rw [h] <;> decide
  have h1 : (first_span_r rnd (init_radius cfg sec)).1 = 0 := by
    rw [first_span_r_fst, if_neg (by simp [hf])]
  have f1 : (first_span_r rnd (init_radius cfg sec)).2.fused = 1 ∧
      ((first_span_r rnd (init_radius cfg sec)).2.sf 0).a = some a ∧
      ((first_span_r rnd (init_radius cfg sec)).2.sf 0).type = (sec.sf 0).type := by
    unfold first_span_r
    rcases ha with ⟨h, h'⟩ | ⟨h, h0, _⟩
    · simp [h, h', isnan, hf, hs, he, rsub]
    · simp [h, isnan, dlt, not_lt.mpr h0.le, hf]
  obtain ⟨f1, f2, f3⟩ := f1
  have gfu : (first_segment_r rnd (first_span_r rnd (init_radius cfg sec)).2).fused = 1 := by
    rw [first_segment_r_fused, f1]
  have g0 : ((first_segment_r rnd (first_span_r rnd (init_radius cfg sec)).2).sf 0).start = some s ∧
      ((first_segment_r rnd (first_span_r rnd (init_radius cfg sec)).2).sf 0).a = some a ∧
      ((first_segment_r rnd (first_span_r rnd (init_radius cfg sec)).2).sf 0).type
        = (sec.sf 0).type ∧
      ((first_segment_r rnd (first_span_r rnd (init_radius cfg sec)).2).sf 0).startr = true := by
    simp [first_segment_r, f2, f3, hs, he, dgt, dlt, rsub, not_lt.mpr hae, hundef]
  obtain ⟨g1, g2, g3, g4⟩ := g0
  have ge : (first_segment_r rnd (first_span_r rnd (init_radius cfg sec)).2).end_ = some e := by
    simpa using he
  have hraw := proc_sfrac_r_raw_of rnd cfg sec hdir (by omega)
  rw [gfu] at hraw
  have hloop : resolve_loop_r rnd (1 - 1) 1 (first_segment_r rnd (first_span_r rnd (init_radius cfg sec)).2)
      = (0, first_segment_r rnd (first_span_r rnd (init_radius cfg sec)).2) := rfl
  rw [hloop] at hraw
  simp only [] at hraw
  rw [gfu] at hraw
  generalize first_segment_r rnd (first_span_r rnd (init_radius cfg sec)).2 = S at *
  have hS : tapering (S.sf (S.fused - 1)).type = true := by
    rw [gfu, g3]
    rcases htap with h | h <;> rw [h] <;> decide
  have htl := taper_loop_r_last rnd S (by omega) (by rw [gfu]; decide)
    (fun j hj => by omega) hS
  rw [gfu] at htl
  have hres := hraw _ h1 trivial htl
  have h7 : ((TAPER_SEGS : Nat) : ℚ) = 7 := by simp [TAPER_SEGS]
  have hhead := taper_expand_r_head rnd S 0
  have hsub : ∀ j, 1 ≤ j → j < 7 → _ := fun j => taper_expand_r_sub rnd S 0 j
  simp only [Nat.zero_add, g2, rdiv, h7, g1, g3] at hhead hsub
  have tfu : (taper_expand_r rnd S 0).fused = 7 := by rw [taper_expand_r_fused, gfu]; rfl
  have te : (taper_expand_r rnd S 0).end_ = some e := by rw [taper_expand_r_end]; exact ge
  simp only [Nat.sub_self] at hres
  generalize taper_expand_r rnd S 0 = T at *
  have hty : ∀ j, j < 7 → (T.sf j).type = if up = true then ARC_TAPER_1 + j else ARC_TAPER_7 - j := by
    intro j hj
    by_cases h0 : j = 0
    · subst h0
      rw [hhead, ht]
      cases up <;> simp [ARC_TAPER_UP, ARC_TAPER_DOWN]
    · rw [hsub j (by omega) hj, ht]
      cases up <;> simp [ARC_TAPER_UP, ARC_TAPER_DOWN]
  refine ⟨_, hres, tfu, ?_, ?_, ?_, ?_, ?_, ?_, ?_⟩
  · intro j hj
    rw [close_last_a]
    by_cases h0 : j = 0
    · subst h0; rw [hhead]
    · rw [hsub j (by omega) hj]
  · rw [close_last_start, hhead]
  · intro j hj
    rw [close_last_start, close_last_sf_other _ j (by omega), hsub (j + 1) (by omega) (by omega)]
    rfl
  · intro j hj
    rw [close_last_sf_other _ j (by omega)]
    by_cases h0 : j = 0
    · subst h0; rw [hhead]
    · rw [hsub j (by omega) (by omega)]
  · have h6 := hsub 6 (by omega) (by omega)
    simp only [close_last, setSf_sf, tfu, if_true, te, h6]
  · intro j hj
    rw [close_last_type, hty j hj]
  · intro j hj
    rw [close_last_startr]
    by_cases h0 : j = 0
    · subst h0; rw [hhead]; simpa using g4
    · rw [hsub j (by omega) hj]; simp [h0]
theorem sector_frac_eq (f g : sector_frac) (h1 : f.r = g.r) (h2 : f.a = g.a)
    (h3 : f.start = g.start) (h4 : f.end_ = g.end_) (h5 : f.col = g.col) (h6 : f.type = g.type)
    (h7 : f.startr = g.startr) (h8 : f.endr = g.endr) : f = g := by
  cases f; cases g
  simp only [sector_frac.mk.injEq]
  exact ⟨h1, h2, h3, h4, h5, h6, h7, h8⟩

theorem setSf_setSf (sec : sector) (i : Nat) (f g : sector_frac) :
    setSf (setSf sec i f) i g = setSf sec i g := by
  cases sec
  simp only [setSf, sector.mk.injEq, true_and, and_true]
  funext j
  split_ifs <;> rfl

/-- A second `init_radius` changes nothing once segment 0 has a radius that is
not negative or is the radius of the configuration. -/
theorem init_radius_again (cfg : config) (X : sector) (ρ r0 : ℚ)
    (hρ : cfg.sec_radius_ = some ρ) (hr : (X.sf 0).r = some r0) (hneg : r0 < 0 → r0 = ρ) :
    init_radius cfg X = X := by
  rw [init_radius_eq, init_radius_stable cfg X ρ r0 hρ hr hneg, ← hr]
  exact setSf_self X 0

/-- Lines 680-699 change nothing when the span of segment 0 is a number that
is not negative. -/
theorem first_span_r_again (rnd : ℚ → ℚ) (X : sector) (ha : isnan (X.sf 0).a = false)
    (hp : dlt (X.sf 0).a (some 0) = false) : first_span_r rnd X = (0, X) := by
  unfold first_span_r
  simp [ha, hp]

/-- Lines 701-709 on a segment 0 that they have left before: only its end is
computed again. -/
theorem first_segment_r_again (rnd : ℚ → ℚ) (X : sector) (h : Kept0 rnd X) :
    first_segment_r rnd X
      = setSf X 0 { X.sf 0 with end_ := radd rnd X.start (X.sf 0).a } := by
  have ha : (if dgt (X.sf 0).a (rsub rnd X.end_ X.start) = true then rsub rnd X.end_ X.start
      else (X.sf 0).a) = (X.sf 0).a := by
    split_ifs with hc
    · exact (h.clip hc).symm
    · rfl
  unfold first_segment_r
  simp only [ha, if_neg h.type_def]
  congr 1
  exact sector_frac_eq _ _ rfl rfl h.start_eq.symm rfl h.col_eq.symm rfl h.startr.symm rfl

/-- Lines 740-745 on a segment that they have left before, with a span that is
not negative: only its end is computed again. -/
theorem resolve_step_r_again (rnd : ℚ → ℚ) (X : sector) (i : Nat) (h : Kept rnd X i)
    (hp : dlt (X.sf i).a (some 0) = false) :
    resolve_step_r rnd X i
      = (0, setSf X i { X.sf i with end_ := radd rnd (X.sf (i - 1)).end_ (X.sf i).a }) := by
  have ha : (if dgt (radd rnd (X.sf i).a (X.sf (i - 1)).end_) X.end_ = true
      then rsub rnd X.end_ (X.sf (i - 1)).end_ else (X.sf i).a) = (X.sf i).a := by
    split_ifs with hc
    · exact (h.clip hc).symm
    · rfl
  unfold resolve_step_r
  simp only [h.r_num, h.a_num, hp, if_neg h.type_def, if_false, Bool.false_eq_true, ha]
  congr 2
  exact sector_frac_eq _ _ rfl rfl h.start_eq.symm rfl h.col_eq.symm rfl rfl rfl

/-- The properties `Kept` of segment `i` do not depend on the ends of the
segments other than `i - 1`, nor on the flags. -/
theorem kept_of_eq (rnd : ℚ → ℚ) (X Z : sector) (i : Nat) (h : Kept rnd X i)
    (he : Z.end_ = X.end_) (hp : (Z.sf (i - 1)).end_ = (X.sf (i - 1)).end_)
    (hpc : (Z.sf (i - 1)).col = (X.sf (i - 1)).col)
    (h1 : (Z.sf i).r = (X.sf i).r) (h2 : (Z.sf i).type = (X.sf i).type)
    (h3 : (Z.sf i).col = (X.sf i).col) (h4 : (Z.sf i).a = (X.sf i).a)
    (h5 : (Z.sf i).start = (X.sf i).start) : Kept rnd Z i := by
  refine ⟨?_, ?_, ?_, ?_, ?_, ?_⟩
  · rw [h1]; exact h.r_num
  · rw [h2]; exact h.type_def
  · rw [h3, hpc]; exact h.col_eq
  · rw [h4]; exact h.a_num
  · rw [h4, hp, he]; exact h.clip
  · rw [h5, hp]; exact h.start_eq

theorem kept0_of_eq (rnd : ℚ → ℚ) (X Z : sector) (h : Kept0 rnd X)
    (he : Z.end_ = X.end_) (hs : Z.start = X.start) (hc : Z.col0 = X.col0)
    (h2 : (Z.sf 0).type = (X.sf 0).type)
    (h3 : (Z.sf 0).col = (X.sf 0).col) (h4 : (Z.sf 0).a = (X.sf 0).a)
    (h5 : (Z.sf 0).start = (X.sf 0).start) (h6 : (Z.sf 0).startr = (X.sf 0).startr) :
    Kept0 rnd Z := by
  refine ⟨?_, ?_, ?_, ?_, ?_, ?_⟩
  · rw [h2]; exact h.type_def
  · rw [h3, hc]; exact h.col_eq
  · rw [h4]; exact h.a_num
  · rw [h4, he, hs]; exact h.clip
  · rw [h5, hs]; exact h.start_eq
  · rw [h6]; exact h.startr
/-- Lines 701-709 leave segment 0 in the state `Kept0`, ending at its start
plus its span. -/
theorem kept0_first_segment_r (rnd : ℚ → ℚ) (X : sector) (hs : isnan X.start = false)
    (he : isnan X.end_ = false) (ha : isnan (X.sf 0).a = false) :
    Kept0 rnd (first_segment_r rnd X) ∧
    ((first_segment_r rnd X).sf 0).end_
      = radd rnd (first_segment_r rnd X).start ((first_segment_r rnd X).sf 0).a ∧
    isnan ((first_segment_r rnd X).sf 0).end_ = false := by
  have hA : isnan (if dgt (X.sf 0).a (rsub rnd X.end_ X.start) = true
      then rsub rnd X.end_ X.start else (X.sf 0).a) = false := by
    split_ifs
    · exact rsub_num rnd _ _ he hs
    · exact ha
  refine ⟨⟨?_, ?_, ?_, ?_, ?_, ?_⟩, ?_, ?_⟩
  · simp only [first_segment_r, setSf_sf, if_true]
    split_ifs with h
    · decide
    · exact h
  · simp [first_segment_r]
  · simp only [first_segment_r, setSf_sf, if_true]
    exact hA
  · simp only [first_segment_r, setSf_sf, if_true, setSf_end, setSf_start]
    intro hc
    split_ifs at hc ⊢ with h
    · rfl
    · exact absurd hc (by simpa using h)
  · simp [first_segment_r]
  · simp [first_segment_r]
  · simp [first_segment_r]
  · simp only [first_segment_r, setSf_sf, if_true]
    exact radd_num rnd _ _ hs hA

/-- Lines 740-745 (a span that is a number and not negative) leave segment `i`
in the state `Kept`, ending at its start plus its span, and change no other
segment. -/
theorem kept_resolve_step_r (rnd : ℚ → ℚ) (X : sector) (i : Nat) (h1 : 1 ≤ i) (a0 : ℚ)
    (ha : (X.sf i).a = some a0) (h0 : 0 ≤ a0)
    (hpr : isnan (X.sf (i - 1)).r = false) (hpt : (X.sf (i - 1)).type ≠ ARC_UNDEF)
    (hpe : isnan (X.sf (i - 1)).end_ = false) (he : isnan X.end_ = false) :
    (resolve_step_r rnd X i).1 = 0 ∧ Kept rnd (resolve_step_r rnd X i).2 i ∧
    ((resolve_step_r rnd X i).2.sf i).end_
      = radd rnd ((resolve_step_r rnd X i).2.sf (i - 1)).end_
          ((resolve_step_r rnd X i).2.sf i).a ∧
    isnan ((resolve_step_r rnd X i).2.sf i).end_ = false ∧
    (∀ j, j ≠ i → (resolve_step_r rnd X i).2.sf j = X.sf j) := by
  have hne : i - 1 ≠ i := by omega
  have hnn : isnan (X.sf i).a = false := by rw [ha]; rfl
  have hnp : dlt (X.sf i).a (some 0) = false := by
    rw [ha]; simp [dlt, not_lt.mpr h0]
  have hA : isnan (if dgt (radd rnd (X.sf i).a (X.sf (i - 1)).end_) X.end_ = true
      then rsub rnd X.end_ (X.sf (i - 1)).end_ else (X.sf i).a) = false := by
    split_ifs
    · exact rsub_num rnd _ _ he hpe
    · exact hnn
  have hstep : resolve_step_r rnd X i = (0, setSf X i
      { X.sf i with
          r := if isnan (X.sf i).r = true then (X.sf (i - 1)).r else (X.sf i).r,
          type := if (X.sf i).type = ARC_UNDEF then (X.sf (i - 1)).type else (X.sf i).type,
          col := (X.sf (i - 1)).col,
          a := if dgt (radd rnd (X.sf i).a (X.sf (i - 1)).end_) X.end_ = true
               then rsub rnd X.end_ (X.sf (i - 1)).end_ else (X.sf i).a,
          start := (X.sf (i - 1)).end_,
          end_ := radd rnd (X.sf (i - 1)).end_
            (if dgt (radd rnd (X.sf i).a (X.sf (i - 1)).end_) X.end_ = true
             then rsub rnd X.end_ (X.sf (i - 1)).end_ else (X.sf i).a) }) := by
    unfold resolve_step_r
    simp only [hnn, hnp, if_false, Bool.false_eq_true]
  rw [hstep]
  refine ⟨rfl, ⟨?_, ?_, ?_, ?_, ?_, ?_⟩, ?_, ?_, ?_⟩
  · simp only [setSf_sf, if_true]
    split_ifs with h
    · exact hpr
    · simpa using h
  · simp only [setSf_sf, if_true]
    split_ifs with h
    · exact hpt
    · exact h
  · simp only [setSf_sf, if_true, if_neg hne]
  · simp only [setSf_sf, if_true]
    exact hA
  · simp only [setSf_sf, if_true, if_neg hne, setSf_end]
    intro hc
    split_ifs at hc ⊢ with h
    · rfl
    · exact absurd hc (by simpa using h)
  · simp only [setSf_sf, if_true, if_neg hne]
  · simp only [setSf_sf, if_true, if_neg hne]
  · simp only [setSf_sf, if_true]
    exact radd_num rnd _ _ hpe hA
  · intro j hj
    simp only [setSf_sf, if_neg hj]
/-- The loop over later segments whose spans are numbers and not negative:
it returns 0, leaves every one of them in the state `Kept`, ending at its
start plus its span, and does not touch the segments before them. -/
theorem kept_resolve_loop_r (rnd : ℚ → ℚ) (n : Nat) : ∀ (i : Nat) (X : sector), 1 ≤ i →
    isnan X.end_ = false →
    isnan (X.sf (i - 1)).r = false → (X.sf (i - 1)).type ≠ ARC_UNDEF →
    isnan (X.sf (i - 1)).end_ = false →
    (∀ j, i ≤ j → j < i + n → ∃ a, (X.sf j).a = some a ∧ 0 ≤ a) →
    (resolve_loop_r rnd n i X).1 = 0 ∧
    (∀ j, i ≤ j → j < i + n →
      Kept rnd (resolve_loop_r rnd n i X).2 j ∧
      ((resolve_loop_r rnd n i X).2.sf j).end_
        = radd rnd ((resolve_loop_r rnd n i X).2.sf (j - 1)).end_
            ((resolve_loop_r rnd n i X).2.sf j).a) ∧
    (∀ j, j < i → (resolve_loop_r rnd n i X).2.sf j = X.sf j) := by
  induction n with
  | zero =>
    intro i X _ _ _ _ _ _
    exact ⟨rfl, fun j h1 h2 => by omega, fun j _ => rfl⟩
  | succ n ih =>
    intro i X h1 he hpr hpt hpe hraw
    obtain ⟨a0, ha0, h0⟩ := hraw i le_rfl (by omega)
    obtain ⟨s1, s2, s3, s4, s5⟩ := kept_resolve_step_r rnd X i h1 a0 ha0 h0 hpr hpt hpe he
    have hidx : i + 1 - 1 = i := by omega
    obtain ⟨q1, q2, q3⟩ := ih (i + 1) (resolve_step_r rnd X i).2 (by omega)
      (by rw [resolve_step_r_end]; exact he)
      (by rw [hidx]; exact s2.r_num) (by rw [hidx]; exact s2.type_def)
      (by rw [hidx]; exact s4)
      (fun j hj1 hj2 => by rw [s5 j (by omega)]; exact hraw j (by omega) (by omega))
    rw [resolve_loop_r_succ, if_pos s1]
    refine ⟨q1, ?_, ?_⟩
    · intro j hj1 hj2
      by_cases hji : j = i
      · subst hji
        have e0 := q3 j (by omega)
        have e1 := q3 (j - 1) (by omega)
        have ee := (resolve_loop_r_frame rnd n (j + 1) (resolve_step_r rnd X j).2).2.2
        refine ⟨kept_of_eq rnd _ _ j s2 ee (by rw [e1]) (by rw [e1]) (by rw [e0]) (by rw [e0])
          (by rw [e0]) (by rw [e0]) (by rw [e0]), ?_⟩
        rw [e0, e1]
        exact s3
      · exact q2 j (by omega) (by omega)
    · intro j hj
      rw [q3 j (by omega), s5 j (by omega)]

/-- The loop over later segments that it has left before, with spans that are
not negative and ends at start plus span: nothing changes. -/
theorem resolve_loop_r_again (rnd : ℚ → ℚ) (n : Nat) : ∀ (i : Nat) (X : sector),
    (∀ j, i ≤ j → j < i + n →
      Kept rnd X j ∧ dlt (X.sf j).a (some 0) = false ∧
      (X.sf j).end_ = radd rnd (X.sf (j - 1)).end_ (X.sf j).a) →
    resolve_loop_r rnd n i X = (0, X) := by
  induction n with
  | zero => intro i X _; rfl
  | succ n ih =>
    intro i X h
    obtain ⟨k1, k2, k3⟩ := h i le_rfl (by omega)
    have hstep : resolve_step_r rnd X i = (0, X) := by
      rw [resolve_step_r_again rnd X i k1 k2, ← k3]
      exact congrArg (Prod.mk 0) (setSf_self X i)
    rw [resolve_loop_r_succ, hstep]
    simp only [if_true]
    exact ih (i + 1) X (fun j h1 h2 => h j (by omega) (by omega))

/-- The closure of lines 775-779 after the end of the last segment has been
computed again gives the closed sector again. -/
theorem close_last_again (Y : sector) :
    close_last (setSf (close_last Y) (Y.fused - 1)
      { (close_last Y).sf (Y.fused - 1) with end_ := (Y.sf (Y.fused - 1)).end_ })
      = close_last Y := by
  unfold close_last
  simp only [setSf_sf, setSf_fused, setSf_end, if_true, setSf_setSf]
/-- Lines 680-699 on a segment 0 whose span is not negative: at most the span
changes. -/
theorem first_span_r_keep (rnd : ℚ → ℚ) (T : sector) (hn : negspan (T.sf 0) = false) :
    (first_span_r rnd T).1 = 0 ∧
    ((first_span_r rnd T).2.sf 0).r = (T.sf 0).r ∧
    ((first_span_r rnd T).2.sf 0).type = (T.sf 0).type ∧
    (∀ j, 1 ≤ j → (first_span_r rnd T).2.sf j = T.sf j) ∧
    (first_span_r rnd T).2.fused = T.fused ∧ (first_span_r rnd T).2.col0 = T.col0 ∧
    (first_span_r rnd T).2.dir = T.dir := by
  have hj0 : ∀ j, 1 ≤ j → j ≠ 0 := fun j hj => by omega
  cases ha : (T.sf 0).a with
  | none =>
    refine ⟨by simp [first_span_r, ha, isnan], ?_, ?_, ?_, ?_, ?_, ?_⟩
    · simp [first_span_r, ha, isnan]
    · simp [first_span_r, ha, isnan]
    · intro j hj
      simp [first_span_r, ha, isnan, hj0 j hj]
    · simp [first_span_r, ha, isnan]
    · simp [first_span_r, ha, isnan]
    · simp [first_span_r, ha, isnan]
  | some x =>
    have hx : ¬ x < 0 := by
      simpa [negspan, ha, isnan, dlt] using hn
    refine ⟨by simp [first_span_r, ha, isnan, dlt, hx], ?_, ?_, ?_, ?_, ?_, ?_⟩
    · simp [first_span_r, ha, isnan, dlt, hx]
    · simp [first_span_r, ha, isnan, dlt, hx]
    · intro j _
      simp [first_span_r, ha, isnan, dlt, hx]
    · simp [first_span_r, ha, isnan, dlt, hx]
    · simp [first_span_r, ha, isnan, dlt, hx]
    · simp [first_span_r, ha, isnan, dlt, hx]

@[simp] theorem resolve_step_r_dir (rnd : ℚ → ℚ) (sec : sector) (i : Nat) :
    (resolve_step_r rnd sec i).2.dir = sec.dir := by
  unfold resolve_step_r
  simp only []
  split_ifs <;> rfl

@[simp] theorem resolve_step_r_col0 (rnd : ℚ → ℚ) (sec : sector) (i : Nat) :
    (resolve_step_r rnd sec i).2.col0 = sec.col0 := by
  unfold resolve_step_r
  simp only []
  split_ifs <;> rfl

theorem resolve_loop_r_dir_col0 (rnd : ℚ → ℚ) (n : Nat) : ∀ (i : Nat) (sec : sector),
    (resolve_loop_r rnd n i sec).2.dir = sec.dir ∧
    (resolve_loop_r rnd n i sec).2.col0 = sec.col0 := by
  induction n with
  | zero => intro i sec; exact ⟨rfl, rfl⟩
  | succ n ih =>
    intro i sec
    rw [resolve_loop_r_succ]
    split_ifs with h
    · obtain ⟨h1, h2⟩ := ih (i + 1) (resolve_step_r rnd sec i).2
      simp only [resolve_step_r_dir, resolve_step_r_col0] at h1 h2
      exact ⟨h1, h2⟩
    · simp

theorem close_last_endr_keep (sec : sector) (j : Nat) (h : (sec.sf j).endr = true) :
    ((close_last sec).sf j).endr = true := by
  by_cases hj : j = sec.fused - 1
  · subst hj; simp [close_last]
  · rw [close_last_sf_other sec j hj]; exact h

/-- The second call of `proc_sfrac` on what the first call left of a sector
with raw segments, none of them tapering, whose spans are numbers and not
negative but for the first one, which may be unspecified: when the first call
has left no negative span, the second call returns 0 and leaves the sector as
it is. -/
theorem proc_sfrac_r_raw_again (rnd : ℚ → ℚ) (cfg : config) (sec : sector) (ρ s e : ℚ)
    (hρ : cfg.sec_radius_ = some ρ) (hs : sec.start = some s) (he : sec.end_ = some e)
    (hdir : sec.dir = none) (hk : 1 ≤ sec.fused) (hnt : notaper sec)
    (h0 : negspan (sec.sf 0) = false)
    (hraw : ∀ j, 1 ≤ j → j < sec.fused → ∃ a, (sec.sf j).a = some a ∧ 0 ≤ a) :
    ∃ res : sector, proc_sfrac_r rnd cfg sec = some (0, res) ∧ res.fused = sec.fused ∧
      ((∀ i, i < res.fused → negspan (res.sf i) = false) →
        proc_sfrac_r rnd cfg res = some (0, res)) := by
  have hf : sec.fused ≠ 0 := by omega
  obtain ⟨r0, hr0, hneg⟩ := init_radius_r cfg sec ρ hρ
  have hs0 : isnan (init_radius cfg sec).start = false := by simp [hs, isnan]
  have he0 : isnan (init_radius cfg sec).end_ = false := by simp [he, isnan]
  obtain ⟨h1, p1, p2, p3, p4, p5, p6⟩ := first_span_r_keep rnd (init_radius cfg sec)
    (by simpa [negspan] using h0)
  have hy := first_span_r_a rnd (init_radius cfg sec) hs0 he0 h1
  obtain ⟨k0, k0e, k0n⟩ := kept0_first_segment_r rnd (first_span_r rnd (init_radius cfg sec)).2
    (by simpa using hs0) (by simpa using he0) hy
  have g0r : ((first_segment_r rnd (first_span_r rnd (init_radius cfg sec)).2).sf 0).r
      = some r0 := by
    simp only [first_segment_r, setSf_sf, if_true]
    rw [p1]; exact hr0
  have gfu : (first_segment_r rnd (first_span_r rnd (init_radius cfg sec)).2).fused
      = sec.fused := by
    rw [first_segment_r_fused, p4, init_radius_fused]
  have gs : (first_segment_r rnd (first_span_r rnd (init_radius cfg sec)).2).start = some s := by
    simpa using hs
  have ge : (first_segment_r rnd (first_span_r rnd (init_radius cfg sec)).2).end_ = some e := by
    simpa using he
  have gd : (first_segment_r rnd (first_span_r rnd (init_radius cfg sec)).2).dir = none := by
    show (first_span_r rnd (init_radius cfg sec)).2.dir = none
    rw [p6, init_radius_dir]; exact hdir
  have gl : ∀ j, 1 ≤ j → (first_segment_r rnd (first_span_r rnd (init_radius cfg sec)).2).sf j
      = sec.sf j := by
    intro j hj
    rw [first_segment_r_sf_later rnd _ j hj, p3 j hj, init_radius_sf, if_neg (by omega)]
  have gnt : notaper (first_segment_r rnd (first_span_r rnd (init_radius cfg sec)).2) :=
    notaper_first_segment_r rnd _ (notaper_first_span_r rnd _ (by simp; omega)
      (notaper_init_radius cfg sec hnt))
  have hraw1 := proc_sfrac_r_raw_notaper rnd cfg sec hdir hf hnt h1
  rw [gfu] at hraw1
  generalize first_segment_r rnd (first_span_r rnd (init_radius cfg sec)).2 = S at *
  -- the loop of the first call
  obtain ⟨h3, l2, l3⟩ := kept_resolve_loop_r rnd (sec.fused - 1) 1 S le_rfl
    (by simp [ge, isnan]) (by simp [g0r, isnan]) k0.type_def k0n
    (fun j hj1 hj2 => by rw [gl j hj1]; exact hraw j hj1 (by omega))
  obtain ⟨f1, f2, f3⟩ := resolve_loop_r_frame rnd (sec.fused - 1) 1 S
  obtain ⟨f4, f5⟩ := resolve_loop_r_dir_col0 rnd (sec.fused - 1) 1 S
  have ynt := notaper_resolve_loop_r rnd (sec.fused - 1) 1 S gnt
  have hres := hraw1 h3
  rw [gfu] at f1
  rw [gs] at f2
  rw [ge] at f3
  rw [gd] at f4
  have y0 := l3 0 (by omega)
  generalize (resolve_loop_r rnd (sec.fused - 1) 1 S).2 = Y at *
  have yk0 : Kept0 rnd Y := kept0_of_eq rnd S Y k0 (by rw [f3, ge]) (by rw [f2, gs]) f5
    (by rw [y0]) (by rw [y0]) (by rw [y0]) (by rw [y0]) (by rw [y0])
  have y0e : (Y.sf 0).end_ = radd rnd Y.start (Y.sf 0).a := by
    rw [y0, f2, ← gs]; exact k0e
  refine ⟨close_last Y, hres, by rw [close_last_fused, f1], ?_⟩
  intro hpos
  rw [close_last_fused, f1] at hpos
  have hposa : ∀ i, i < sec.fused → isnan (Y.sf i).a = false →
      dlt ((close_last Y).sf i).a (some 0) = false := by
    intro i hi hnum
    have := hpos i hi
    simp only [negspan, close_last_a, hnum, Bool.not_false, Bool.true_and] at this
    rw [close_last_a]
    exact this
  have hcs : (close_last Y).start = Y.start := rfl
  -- the second call
  have e0 : init_radius cfg (close_last Y) = close_last Y :=
    init_radius_again cfg _ ρ r0 hρ (by rw [close_last_r, y0]; exact g0r) hneg
  have e1 : first_span_r rnd (close_last Y) = (0, close_last Y) :=
    first_span_r_again rnd _ (by rw [close_last_a]; exact yk0.a_num)
      (hposa 0 (by omega) yk0.a_num)
  have ck0 : Kept0 rnd (close_last Y) := kept0_of_eq rnd Y _ yk0 rfl rfl rfl
    (close_last_type Y 0) (close_last_col Y 0) (close_last_a Y 0) (close_last_start Y 0)
    (close_last_startr Y 0)
  have e2 := first_segment_r_again rnd (close_last Y) ck0
  have ckept : ∀ j, 1 ≤ j → j < sec.fused → Kept rnd (close_last Y) j := by
    intro j hj1 hj2
    have hp : (close_last Y).sf (j - 1) = Y.sf (j - 1) :=
      close_last_sf_other Y (j - 1) (by omega)
    exact kept_of_eq rnd Y _ j (l2 j hj1 (by omega)).1 rfl (by rw [hp]) (by rw [hp])
      (close_last_r Y j) (close_last_type Y j) (close_last_col Y j) (close_last_a Y j)
      (close_last_start Y j)
  have e3 : resolve_loop_r rnd (Y.fused - 1) 1
      (setSf (close_last Y) 0
        { (close_last Y).sf 0 with end_ := radd rnd (close_last Y).start ((close_last Y).sf 0).a })
      = (0, setSf (close_last Y) (Y.fused - 1)
        { (close_last Y).sf (Y.fused - 1) with end_ := (Y.sf (Y.fused - 1)).end_ }) := by
    have key0 : radd rnd (close_last Y).start ((close_last Y).sf 0).a = (Y.sf 0).end_ := by
      rw [hcs, close_last_a, ← y0e]
    rw [key0]
    by_cases hk1 : Y.fused = 1
    · rw [hk1]
      rfl
    · have hz : setSf (close_last Y) 0 { (close_last Y).sf 0 with end_ := (Y.sf 0).end_ }
          = close_last Y := by
        have hc0 : (close_last Y).sf 0 = Y.sf 0 := close_last_sf_other Y 0 (by omega)
        have := setSf_self (close_last Y) 0
        rw [hc0] at this ⊢
        exact this
      rw [hz]
      obtain ⟨n, hn⟩ : ∃ n, Y.fused - 1 = n + 1 := ⟨Y.fused - 2, by omega⟩
      have hloop : resolve_loop_r rnd n 1 (close_last Y) = (0, close_last Y) := by
        apply resolve_loop_r_again
        intro j hj1 hj2
        have hj : (close_last Y).sf j = Y.sf j := close_last_sf_other Y j (by omega)
        have hp : (close_last Y).sf (j - 1) = Y.sf (j - 1) :=
          close_last_sf_other Y (j - 1) (by omega)
        refine ⟨ckept j hj1 (by omega), hposa j (by omega) (l2 j hj1 (by omega)).1.a_num, ?_⟩
        rw [hj, hp]
        exact (l2 j hj1 (by omega)).2
      have hL : Y.fused - 1 = 1 + n := by omega
      have hp : (close_last Y).sf (1 + n - 1) = Y.sf (1 + n - 1) :=
        close_last_sf_other Y _ (by omega)
      have key : radd rnd ((close_last Y).sf (1 + n - 1)).end_ ((close_last Y).sf (1 + n)).a
          = (Y.sf (1 + n)).end_ := by
        rw [hp, close_last_a]
        exact (l2 (1 + n) (by omega) (by omega)).2.symm
      rw [hn, resolve_loop_r_last, hloop]
      simp only [if_true]
      rw [resolve_step_r_again rnd (close_last Y) (1 + n) (ckept _ (by omega) (by omega))
        (hposa _ (by omega) (l2 _ (by omega) (by omega)).1.a_num), key]
      rw [show n + 1 = 1 + n by omega]
  have znt : notaper (setSf (close_last Y) (Y.fused - 1)
      { (close_last Y).sf (Y.fused - 1) with end_ := (Y.sf (Y.fused - 1)).end_ }) := by
    intro j hj
    simp only [setSf_fused, close_last_fused] at hj
    have := ynt j hj
    by_cases hjl : j = Y.fused - 1
    · simp only [setSf_sf, hjl, if_true]
      rw [close_last_type, ← hjl]
      exact this
    · simp only [setSf_sf, if_neg hjl]
      rw [close_last_type]
      exact this
  have hfin := proc_sfrac_r_raw_of rnd cfg (close_last Y) (by show Y.dir = none; exact f4)
    (by rw [close_last_fused, f1]; exact hf)
    (setSf (close_last Y) (Y.fused - 1)
      { (close_last Y).sf (Y.fused - 1) with end_ := (Y.sf (Y.fused - 1)).end_ })
  rw [e0, e1] at hfin
  simp only [] at hfin
  rw [e2] at hfin
  simp only [setSf_fused, close_last_fused] at hfin
  rw [e3] at hfin
  simp only [setSf_fused, close_last_fused] at hfin
  have := hfin trivial trivial
    (taper_loop_r_notaper rnd (Y.fused + 2 * TAPER_SEGS) 0 _ znt
      (by simp only [setSf_fused, close_last_fused, TAPER_SEGS]; omega))
  rw [this]
  exact congrArg (fun x => some ((0 : Int), x)) (close_last_again Y)
/-- The way of a sector with a single raw segment through `proc_sfrac`, for a
span that is not negative and a style that is not tapering. -/
theorem proc_sfrac_r_single (rnd : ℚ → ℚ) (cfg : config) (X : sector) (hdir : X.dir = none)
    (hf : X.fused = 1) (hn : negspan (X.sf 0) = false)
    (ht : tapering (X.sf 0).type = false) :
    proc_sfrac_r rnd cfg X
      = some (0, close_last (first_segment_r rnd (first_span_r rnd (init_radius cfg X)).2)) := by
  obtain ⟨h1, _, _, _, p4, _, _⟩ := first_span_r_keep rnd (init_radius cfg X)
    (by simpa [negspan] using hn)
  have hnt : notaper X := by
    intro j hj
    have : j = 0 := by omega
    rw [this]; exact ht
  have gfu : (first_segment_r rnd (first_span_r rnd (init_radius cfg X)).2).fused = 1 := by
    rw [first_segment_r_fused, p4, init_radius_fused, hf]
  have := proc_sfrac_r_raw_notaper rnd cfg X hdir (by omega) hnt h1
  rw [gfu] at this
  exact this rfl

/-- The second call of `proc_sfrac` on what the first call left of a sector
without raw segments that is narrower than 360 degrees as computed: it
returns 0 and leaves the one segment as it is when `start + (end - start)` as
computed is not above `end`. -/
theorem proc_sfrac_r_plain_again (rnd : ℚ → ℚ) (cfg : config) (sec : sector) (ρ s e : ℚ)
    (hρ : cfg.sec_radius_ = some ρ) (hs : sec.start = some s) (he : sec.end_ = some e)
    (hdir : sec.dir = none) (hf : sec.fused = 0) (ha : (sec.sf 0).a = none)
    (hw : rnd (e - s) < 360) (hov : ¬ e < rnd (s + rnd (e - s))) :
    ∃ res2 : sector,
      proc_sfrac_r rnd cfg (plain_sector_r rnd cfg (init_radius cfg sec)) = some (0, res2) ∧
      res2.fused = 1 ∧
      same_segment (res2.sf 0) ((plain_sector_r rnd cfg (init_radius cfg sec)).sf 0) := by
  have hs0 : (init_radius cfg sec).start = some s := by simpa using hs
  have he0 : (init_radius cfg sec).end_ = some e := by simpa using he
  have hd0 : (init_radius cfg sec).dir = none := by simpa using hdir
  have hf0 : (init_radius cfg sec).fused = 0 := by simpa using hf
  have ha0 : ((init_radius cfg sec).sf 0).a = none := by simpa using ha
  generalize init_radius cfg sec = S at *
  have p0 : (plain_sector_r rnd cfg S).sf 0 =
      { S.sf 0 with r := some ρ, start := some s, end_ := some e, col := S.col0,
                    type := ARC_SOLID, startr := true, endr := true } := by
    simp [plain_sector_r, hs0, he0, rsub, dlt, hw, hρ]
  have pf : (plain_sector_r rnd cfg S).fused = 1 := by simp [plain_sector_r, hf0]
  have pd : (plain_sector_r rnd cfg S).dir = none := hd0
  have ps : (plain_sector_r rnd cfg S).start = some s := hs0
  have pe : (plain_sector_r rnd cfg S).end_ = some e := he0
  have pc : (plain_sector_r rnd cfg S).col0 = S.col0 := rfl
  have e0 : init_radius cfg (plain_sector_r rnd cfg S) = plain_sector_r rnd cfg S :=
    init_radius_again cfg _ ρ ρ hρ (by rw [p0]) (fun _ => rfl)
  have hsingle := proc_sfrac_r_single rnd cfg (plain_sector_r rnd cfg S) pd pf
    (by rw [p0]; simp [negspan, ha0, isnan]) (by rw [p0]; exact tapering_solid)
  rw [e0] at hsingle
  generalize plain_sector_r rnd cfg S = P at *
  refine ⟨_, hsingle, by simp [first_span_r, p0, ha0, isnan, pf], ?_⟩
  have hE : (if rnd (s + rnd (e - s)) < e then some e else some (rnd (s + rnd (e - s))))
      = some e := by
    split_ifs with h
    · rfl
    · exact congrArg some (le_antisymm (not_lt.mp hov) (not_lt.mp h))
  refine ⟨?_, ?_, ?_, ?_, ?_, ?_, ?_⟩
  · simp [close_last, first_segment_r, first_span_r, p0, ha0, isnan, pf, ps]
  · simp [close_last, first_segment_r, first_span_r, p0, ha0, isnan, pf, ps, pe, rsub, radd,
      dgt, dlt, hE]
  · simp [close_last, first_segment_r, first_span_r, p0, ha0, isnan, pf]
  · simp [close_last, first_segment_r, first_span_r, p0, ha0, isnan, pf, pc]
  · simp [close_last, first_segment_r, first_span_r, p0, ha0, isnan, pf, ARC_SOLID, ARC_UNDEF]
  · simp [close_last, first_segment_r, first_span_r, p0, ha0, isnan, pf]
  · simp [close_last, first_segment_r, first_span_r, p0, ha0, isnan, pf]
/-- C17 (amended): for a validated sector (start ≤ end, both numbers, at most
`MAX_SFRAC` raw segments, `sec_radius_` a number) that is directional, or has
no raw segment (and no span in segment 0), is narrower than 360 degrees and
has `start + (end - start)` not above `end`, both as computed, or has raw
segments none of which has a tapering style, the first with a span that is
unspecified or not negative and every later one with a span that is specified
and not negative: `proc_sfrac` returns 0, whatever the rounding of the sums,
differences and quotients; and when this first call has left no negative span
(line 742 leaves one when the end of the segment before was rounded above the
end of the sector), a second call of `proc_sfrac` on the resulting sector
returns 0 and leaves the resolved segment list as it is: the same number of
segments and, for every segment, the same start, end, radius, colour, style
and radial flags. -/
theorem proc_sfrac_r_idempotent (rnd : ℚ → ℚ) (cfg : config) (sec : sector) (ρ s e : ℚ)
    (hρ : cfg.sec_radius_ = some ρ) (hs : sec.start = some s) (he : sec.end_ = some e)
    (_hse : s ≤ e) (_hcap : sec.fused ≤ MAX_SFRAC)
    (hclass : (∃ d, sec.dir = some d) ∨
      (sec.dir = none ∧ sec.fused = 0 ∧ (sec.sf 0).a = none ∧ rnd (e - s) < 360 ∧
        ¬ e < rnd (s + rnd (e - s))) ∨
      (sec.dir = none ∧ 1 ≤ sec.fused ∧
        (∀ j, j < sec.fused → tapering (sec.sf j).type = false) ∧
        negspan (sec.sf 0) = false ∧
        (∀ j, 1 ≤ j → j < sec.fused →
          isnan (sec.sf j).a = false ∧ negspan (sec.sf j) = false))) :
    ∃ res : sector, proc_sfrac_r rnd cfg sec = some (0, res) ∧
      ((sec.dir = none → ∀ i, i < res.fused → negspan (res.sf i) = false) →
        ∃ res2 : sector, proc_sfrac_r rnd cfg res = some (0, res2) ∧
          res2.fused = res.fused ∧
          ∀ i, i < res.fused → same_segment (res2.sf i) (res.sf i)) := by
  rcases hclass with ⟨d, hd⟩ | ⟨hdir, hf, ha, hw, hov⟩ | ⟨hdir, hk, hnt, h0, hraw⟩
  · obtain ⟨r0, hr0, hneg⟩ := init_radius_r cfg sec ρ hρ
    exact ⟨directional_r rnd cfg (init_radius cfg sec), directional_r_path rnd cfg sec d hd,
      fun _ => ⟨directional_r rnd cfg (init_radius cfg (directional_r rnd cfg (init_radius cfg sec))),
        directional_r_path rnd cfg _ d (by
          show (init_radius cfg sec).dir = some d
          rw [init_radius_dir]; exact hd),
        rfl, fun i _ => directional_r_again rnd cfg (init_radius cfg sec) ρ r0 hρ hr0 hneg i⟩⟩
  · obtain ⟨res2, h2, hfu, hsame⟩ := proc_sfrac_r_plain_again rnd cfg sec ρ s e hρ hs he hdir hf
      ha hw hov
    have pf : (plain_sector_r rnd cfg (init_radius cfg sec)).fused = 1 := by
      simp [plain_sector_r, hf]
    refine ⟨_, plain_r_path rnd cfg sec hdir hf, fun _ => ⟨res2, h2, by rw [hfu, pf], ?_⟩⟩
    intro i hi
    have hi0 : i = 0 := by omega
    subst hi0
    exact hsame
  · have hraw2 : ∀ j, 1 ≤ j → j < sec.fused → ∃ a, (sec.sf j).a = some a ∧ 0 ≤ a := by
      intro j hj1 hj2
      obtain ⟨n1, n2⟩ := hraw j hj1 hj2
      obtain ⟨a, ha⟩ := (isnan_false_iff _).1 n1
      refine ⟨a, ha, ?_⟩
      have : ¬ a < 0 := by simpa [negspan, ha, isnan, dlt] using n2
      exact not_lt.mp this
    obtain ⟨res, h1, _, h2⟩ := proc_sfrac_r_raw_again rnd cfg sec ρ s e hρ hs he hdir hk hnt
      h0 hraw2
    exact ⟨res, h1, fun hpos => ⟨res, h2 (hpos hdir), rfl, fun i _ => same_segment_refl _⟩⟩

/-! ### Totality with rounding -/

theorem taper_loop_r_total (rnd : ℚ → ℚ) (fuel : Nat) : ∀ (i : Nat) (sec : sector),
    (sec.fused - i) + 6 * ((16 - sec.fused) / 6) < fuel →
    ∃ (r : Int) (res : sector), taper_loop_r rnd fuel i sec = some (r, res) ∧ (r = 0 ∨ r = -2) ∧
      (sec.fused ≤ MAX_SFRAC → res.fused ≤ MAX_SFRAC) := by
  induction fuel with
  | zero => intro i sec h; omega
  | succ fuel ih =>
    intro i sec h
    unfold taper_loop_r
    by_cases h1 : i < sec.fused
    · rw [if_pos h1]
      by_cases h2 : (sec.sf i).type ≠ ARC_TAPER_UP ∧ (sec.sf i).type ≠ ARC_TAPER_DOWN
      · rw [if_pos h2]
        exact ih (i + 1) sec (by omega)
      · rw [if_neg h2]
        by_cases h3 : sec.fused > MAX_SFRAC - TAPER_SEGS + 1
        · rw [if_pos h3]
          exact ⟨-2, sec, rfl, Or.inr rfl, fun h => h⟩
        · rw [if_neg h3]
          have h3' : sec.fused ≤ 10 := by simpa [MAX_SFRAC, TAPER_SEGS] using h3
          obtain ⟨r, res, e1, e2, e3⟩ := ih (i + 1) (taper_expand_r rnd sec i) (by
            rw [taper_expand_r_fused rnd]
            simp only [TAPER_SEGS]
            omega)
          refine ⟨r, res, e1, e2, fun _ => e3 ?_⟩
          rw [taper_expand_r_fused rnd]
          simp only [TAPER_SEGS, MAX_SFRAC]
          omega
    · rw [if_neg h1]
      exact ⟨0, sec, rfl, Or.inl rfl, fun h => h⟩

theorem first_span_r_ret (rnd : ℚ → ℚ) (sec : sector) :
    (first_span_r rnd sec).1 = 0 ∨ (first_span_r rnd sec).1 = -1 := by
  rw [first_span_r_fst rnd]
  split_ifs
  · exact Or.inr rfl
  · exact Or.inl rfl

theorem first_span_r_fused_cap (rnd : ℚ → ℚ) (sec : sector) (h : sec.fused ≤ MAX_SFRAC) :
    (first_span_r rnd sec).2.fused ≤ MAX_SFRAC := by
  unfold first_span_r
  by_cases h1 : isnan (sec.sf 0).a = true
  · simpa [h1] using h
  · by_cases h2 : dlt (sec.sf 0).a (some 0) = true
    · by_cases h3 : sec.fused > 1
      · simpa [h1, h2, h3] using h
      · simp only [h1, h2, h3, if_true, if_false, Bool.false_eq_true, setSf_fused, MAX_SFRAC]
        omega
    · simpa [h1, h2] using h

/-- With rounding too, `proc_sfrac` gives a result for every sector: it returns
0, -1 or -2, and the tapering loop never runs out of its bound. -/
theorem proc_sfrac_r_total (rnd : ℚ → ℚ) (cfg : config) (sec : sector) :
    ∃ (r : Int) (res : sector), proc_sfrac_r rnd cfg sec = some (r, res) ∧
      (r = 0 ∨ r = -1 ∨ r = -2) ∧ (sec.fused ≤ MAX_SFRAC → res.fused ≤ MAX_SFRAC) := by
  cases hd : sec.dir with
  | some d =>
    exact ⟨0, _, directional_r_path rnd cfg sec d hd, Or.inl rfl, fun _ => by
      show 2 ≤ MAX_SFRAC
      decide⟩
  | none =>
    by_cases hf : sec.fused = 0
    · refine ⟨0, _, plain_r_path rnd cfg sec hd hf, Or.inl rfl, fun _ => ?_⟩
      simp [plain_sector_r, hf, MAX_SFRAC]
    · rw [proc_sfrac_r_raw rnd cfg sec hd hf]
      simp only []
      by_cases h1 : (first_span_r rnd (init_radius cfg sec)).1 = 0
      · rw [if_neg (by simpa using h1)]
        by_cases h3 : (resolve_loop_r rnd ((first_segment_r rnd (first_span_r rnd (init_radius cfg sec)).2).fused - 1)
            1 (first_segment_r rnd (first_span_r rnd (init_radius cfg sec)).2)).1 = 0
        · rw [if_neg (by simpa using h3)]
          obtain ⟨f1, _, _⟩ := resolve_loop_r_frame rnd
            ((first_segment_r rnd (first_span_r rnd (init_radius cfg sec)).2).fused - 1) 1
            (first_segment_r rnd (first_span_r rnd (init_radius cfg sec)).2)
          obtain ⟨r, res, e1, e2, e3⟩ := taper_loop_r_total rnd
            ((resolve_loop_r rnd ((first_segment_r rnd (first_span_r rnd (init_radius cfg sec)).2).fused - 1) 1
              (first_segment_r rnd (first_span_r rnd (init_radius cfg sec)).2)).2.fused + 2 * TAPER_SEGS) 0
            (resolve_loop_r rnd ((first_segment_r rnd (first_span_r rnd (init_radius cfg sec)).2).fused - 1) 1
              (first_segment_r rnd (first_span_r rnd (init_radius cfg sec)).2)).2
            (by simp only [TAPER_SEGS]; omega)
          rw [e1]
          have hcap : sec.fused ≤ MAX_SFRAC → res.fused ≤ MAX_SFRAC := by
            intro h
            apply e3
            rw [f1, first_segment_r_fused rnd]
            exact first_span_r_fused_cap rnd _ (by simpa using h)
          rcases e2 with e2 | e2
          · subst e2
            exact ⟨0, close_last res, by simp, Or.inl rfl, fun h => by
              rw [close_last_fused]; exact hcap h⟩
          · subst e2
            exact ⟨-2, res, by simp, Or.inr (Or.inr rfl), hcap⟩
        · rw [if_pos h3]
          refine ⟨_, _, rfl, ?_, fun h => ?_⟩
          · rcases resolve_loop_r_fst rnd _ 1 (first_segment_r rnd (first_span_r rnd (init_radius cfg sec)).2)
              with h | h
            · exact absurd h h3
            · exact Or.inr (Or.inl h)
          · rw [(resolve_loop_r_frame rnd _ 1 _).1, first_segment_r_fused rnd]
            exact first_span_r_fused_cap rnd _ (by simpa using h)
      · rw [if_pos h1]
        refine ⟨_, _, rfl, ?_, fun h => first_span_r_fused_cap rnd _ (by simpa using h)⟩
        rcases first_span_r_ret rnd (init_radius cfg sec) with h | h
        · exact absurd h h1
        · exact Or.inr (Or.inl h)

/-! ## The claims on concrete lights -/

/-- C2, the code at a failing input: `sort_sectors` does not change an array of
two sectors at all, so two sectors with the mean bearings 200 and 100 stay in
this order; this is what happens to a light whose sector 1 is 180-220 and whose
sector 2 is 80-120. -/
theorem sort_sectors_two_unsorted :
    (∀ sec : secarr, sort_sectors sec 2 = sec) ∧
    (sort_sectors unsorted_pair 2 0).mean = some 200 ∧
    (sort_sectors unsorted_pair 2 1).mean = some 100 ∧
    (node_sectors example_config unsorted_tags).map
      (fun r => (r.1, (r.2 0).mean, (r.2 1).mean)) = some (2, some 200, some 100) :=
  ⟨fun _ => rfl, by decide!, by decide!, by decide!⟩

/-- C4, witness: the directional sector at 45 with the neighbours 0-40 and
50-90 (spacing 5 on both sides, half-angle min(2, 5/2) = 2). -/
theorem proc_sfrac_directional_witness :
    between_example.dir = some 45 ∧
    ∃ res : sector, proc_sfrac example_config between_example = some (0, res) ∧
      res.fused = 2 ∧
      (res.sf 0).end_ = some 45 ∧ (res.sf 1).start = some 45 ∧
      (res.sf 0).type = ARC_SOLID ∧ (res.sf 1).type = ARC_SOLID ∧
      (res.sf 0).col = between_example.col0 ∧ (res.sf 1).col = between_example.col0 ∧
      (res.sf 1).r = (res.sf 0).r ∧ (res.sf 0).endr = true ∧
      (∀ da s : ℚ, example_config.dir_arc_ = some da → between_example.sspace = some s →
        (res.sf 0).start = some (45 - (if s < 0 then da else min da (s / 2)))) ∧
      (∀ da e : ℚ, example_config.dir_arc_ = some da → between_example.espace = some e →
        (res.sf 1).end_ = some (45 + (if e < 0 then da else min da (e / 2)))) :=
  ⟨by decide!, proc_sfrac_directional example_config between_example 45 (by decide!)⟩

/-- C5, the code at the failing input: for a node whose only light tags are
orientation=45 and category=directional the validated sector has the spacing
0 to itself on both sides, and `proc_sfrac` resolves it into the two segments
45-45 and 45-45 (not 43-45 and 45-47). -/
theorem lone_directional_zero_width :
    (node_sectors example_config lone_tags).map
      (fun r => (r.1, (r.2 0).dir)) = some (1, some 45) ∧
    (node_sectors example_config lone_tags).map
      (fun r => ((r.2 0).start, (r.2 0).end_)) = some (some 45, some 45) ∧
    (node_sectors example_config lone_tags).map
      (fun r => ((r.2 0).sspace, (r.2 0).espace)) = some (some 0, some 0) ∧
    example_config.dir_arc_ = some 2 ∧
    (proc_sfrac example_config (sector_of (node_sectors example_config lone_tags) 0)).map
      (fun r => (r.1, seg_list r.2)) =
        some (0, [(some 45, some 45, ARC_SOLID), (some 45, some 45, ARC_SOLID)]) ∧
    (proc_sfrac example_config (sector_of (node_sectors example_config lone_tags) 0)).map
      (fun r => ((r.2.sf 0).startr, (r.2.sf 0).endr, (r.2.sf 1).endr)) =
        some (false, true, false) :=
  ⟨by decide!, by decide!, by decide!, by decide!, by decide!, by decide!⟩

/-- C6, witness: the sector 100-200 without raw segments gives the single
segment 100-200 with both radial flags set. -/
theorem proc_sfrac_plain_witness :
    plain_example.dir = none ∧ plain_example.fused = 0 ∧
    plain_example.start = some 100 ∧ plain_example.end_ = some 200 ∧ (100 : ℚ) ≤ 200 ∧
    (plain_example.sf 0).startr = false ∧ (plain_example.sf 0).endr = false ∧
    (∃ res : sector, proc_sfrac example_config plain_example = some (0, res) ∧ res.fused = 1 ∧
      (res.sf 0).start = some 100 ∧ (res.sf 0).end_ = some 200 ∧
      (res.sf 0).type = ARC_SOLID ∧ (res.sf 0).col = plain_example.col0 ∧
      (res.sf 0).r = example_config.sec_radius_ ∧
      (res.sf 0).startr = decide ((200 : ℚ) - 100 < 360) ∧
      (res.sf 0).endr = decide ((200 : ℚ) - 100 < 360)) ∧
    (proc_sfrac example_config plain_example).map
      (fun r => (seg_list r.2, (r.2.sf 0).startr, (r.2.sf 0).endr)) =
        some ([(some 100, some 200, ARC_SOLID)], true, true) :=
  ⟨by decide!, by decide!, by decide!, by decide!, by norm_num, by decide!, by decide!,
    proc_sfrac_plain example_config plain_example 100 200 (by decide!) (by decide!)
      (by decide!) (by decide!) (by norm_num) (by decide!) (by decide!),
    by decide!⟩

/-- C7, witness: the sector 100-200 with the radius value `:-10;:dashed` has a
negative span on the first of its two raw segments. -/
theorem proc_sfrac_negative_not_last_witness :
    invalid_example.dir = none ∧ 2 ≤ invalid_example.fused ∧ 0 + 1 < invalid_example.fused ∧
    (invalid_example.sf 0).a = some (-10) ∧ (-10 : ℚ) < 0 ∧
    ∃ res : sector, proc_sfrac example_config invalid_example = some (-1, res) :=
  ⟨by decide!, by decide!, by decide!, by decide!, by norm_num,
    proc_sfrac_negative_not_last example_config invalid_example 0 (-10) (by decide!)
      (by decide!) (by decide!) (by decide!) (by norm_num)⟩

/-- C8, witness: the sector 100-200 with the radius value `:-10:dashed` gives
100-190 solid and 190-200 dashed. -/
theorem proc_sfrac_negative_single_witness :
    negative_example.dir = none ∧ negative_example.fused = 1 ∧
    negative_example.start = some 100 ∧ negative_example.end_ = some 200 ∧ (100 : ℚ) ≤ 200 ∧
    (negative_example.sf 0).a = some (-10) ∧ (-10 : ℚ) < 0 ∧
    (negative_example.sf 0).type = ARC_DASHED ∧ tapering ARC_DASHED = false ∧
    (∃ res : sector, proc_sfrac example_config negative_example = some (0, res) ∧
      res.fused = 2 ∧
      (res.sf 0).start = some 100 ∧ (res.sf 0).end_ = some (200 - min (-(-10)) (200 - 100)) ∧
      (res.sf 0).type = ARC_SOLID ∧
      (res.sf 1).start = some (200 - min (-(-10)) (200 - 100)) ∧ (res.sf 1).end_ = some 200 ∧
      (res.sf 1).type = (if ARC_DASHED = ARC_UNDEF then ARC_SOLID else ARC_DASHED)) ∧
    (proc_sfrac example_config negative_example).map (fun r => seg_list r.2) =
      some [(some 100, some 190, ARC_SOLID), (some 190, some 200, ARC_DASHED)] :=
  ⟨by decide!, by decide!, by decide!, by decide!, by norm_num, by decide!, by norm_num,
    by decide!, by decide,
    proc_sfrac_negative_single example_config negative_example 100 200 (-10) ARC_DASHED
      (by decide!) (by decide!) (by decide!) (by decide!) (by norm_num) (by decide!)
      (by norm_num) (by decide!) (by decide),
    by decide!⟩

/-- C9, witness: for the sector 100-200 the radius value
`:10;:dashed;:solid:-10`, extracted by `get_sectors` and resolved by
`proc_sfrac`, gives exactly the three segments 100-110 solid, 110-190 dashed
and 190-200 solid. -/
theorem proc_sfrac_negative_last_witness :
    three_example.dir = none ∧ 2 ≤ three_example.fused ∧
    three_example.start = some 100 ∧ three_example.end_ = some 200 ∧ (100 : ℚ) ≤ 200 ∧
    (∀ j, j < three_example.fused → tapering (three_example.sf j).type = false) ∧
    (∀ j, j < three_example.fused - 1 → negspan (three_example.sf j) = false) ∧
    (three_example.sf (three_example.fused - 1)).a = some (-10) ∧
    (0 : ℚ) < 10 ∧ (10 : ℚ) ≤ 200 - 100 ∧
    (∃ res : sector, proc_sfrac example_config three_example = some (0, res) ∧
      res.fused = three_example.fused ∧
      (res.sf (res.fused - 1)).start = some (200 - 10) ∧
      (res.sf (res.fused - 1)).end_ = some 200 ∧
      (res.sf (res.fused - 2)).end_ = some (200 - 10)) ∧
    (proc_sfrac example_config three_example).map (fun r => seg_list r.2) =
      some [(some 100, some 110, ARC_SOLID), (some 110, some 190, ARC_DASHED),
            (some 190, some 200, ARC_SOLID)] :=
  ⟨by decide!, by decide!, by decide!, by decide!, by norm_num, by decide!, by decide!,
    by decide!, by norm_num, by norm_num,
    proc_sfrac_negative_last example_config three_example 100 200 10 (by decide!) (by decide!)
      (by decide!) (by decide!) (by norm_num) (by decide!) (by decide!) (by decide!)
      (by norm_num) (by norm_num),
    by decide!⟩

/-! ## The claims of the validator and of the rendering loop on concrete lights -/

/-- The sector 0-110 with eleven raw segments, the first one
tapering, has `fused = 11 ≤ MAX_SFRAC` and `11 + 6 > MAX_SFRAC`; `proc_sfrac`
returns -2 and leaves eleven segments. -/
theorem proc_sfrac_capacity_witness :
    overflow_example.fused ≤ MAX_SFRAC ∧
    ((∃ (r : Int) (res : sector), proc_sfrac example_config overflow_example = some (r, res) ∧
      (r = 0 ∨ r = -1 ∨ r = -2) ∧ res.fused ≤ MAX_SFRAC) ∧
    (∀ (fuel i : Nat) (s : sector), i < s.fused → tapering (s.sf i).type = true →
      MAX_SFRAC < s.fused + (TAPER_SEGS - 1) → taper_loop (fuel + 1) i s = some (-2, s)) ∧
    (∀ (fuel i : Nat) (s : sector), i < s.fused → tapering (s.sf i).type = true →
      s.fused + (TAPER_SEGS - 1) ≤ MAX_SFRAC →
      taper_loop (fuel + 1) i s = taper_loop fuel (i + 1) (taper_expand s i) ∧
      (taper_expand s i).fused ≤ MAX_SFRAC) ∧
    (overflow_example.dir = none → MAX_SFRAC < overflow_example.fused + (TAPER_SEGS - 1) →
      (∀ j, j < overflow_example.fused - 1 → negspan (overflow_example.sf j) = false) →
      (∃ j, j < overflow_example.fused ∧ tapering (overflow_example.sf j).type = true) →
      ∃ res : sector, proc_sfrac example_config overflow_example = some (-2, res) ∧
        res.fused = overflow_example.fused)) ∧
    (proc_sfrac example_config overflow_example).map (fun r => (r.1, r.2.fused))
      = some (-2, 11) :=
  ⟨by decide!, proc_sfrac_capacity example_config overflow_example (by decide!), by decide!⟩

/-- C12, the code at a failing input: for the radius value
`1;2;3;4;5;6;7;8;9;10;11;12;13;14;15;16;17` of sector 1 `get_sectors` counts 17
raw segments, more than `MAX_SFRAC = 16`, and writes the radius 17 to the
segment with index 16, which `init_sector` had left NaN. -/
theorem get_sectors_overflow :
    MAX_SFRAC = 16 ∧ isnan (init_sector.sf 16).r = true ∧
    (get_sectors example_config long_radius_tags init_sectors MAX_SEC).map
      (fun st => ((st.1 1).used, (st.1 1).fused)) = some (true, 17) ∧
    (get_sectors example_config long_radius_tags init_sectors MAX_SEC).map
      (fun st => (((st.1 1).sf 15).r, ((st.1 1).sf 16).r)) = some (some 16, some 17) :=
  ⟨by decide, by decide!, by decide!, by decide!⟩

/-- C13, counterexample: the sector tagged with start 800 and end 10 stays used
after the validation pass with start 800 and end 10 + 360 = 370, so start ≤ end
does not hold. -/
theorem validate_loop_not_ordered :
    ((extracted_sectors example_config wide_tags) 1).start = some 800 ∧
    ((extracted_sectors example_config wide_tags) 1).end_ = some 10 ∧
    ((validate_loop example_config (extracted_sectors example_config wide_tags)).1 1).used
      = true ∧
    ((validate_loop example_config (extracted_sectors example_config wide_tags)).1 1).start
      = some 800 ∧
    ((validate_loop example_config (extracted_sectors example_config wide_tags)).1 1).end_
      = some 370 ∧
    ¬ ((800 : ℚ) ≤ 370) ∧
    (node_sectors example_config wide_tags).map
      (fun r => (r.1, (r.2 0).used, (r.2 0).start, (r.2 0).end_))
      = some (1, true, some 800, some 370) :=
  ⟨by decide!, by decide!, by decide!, by decide!, by decide!, by norm_num, by decide!⟩

/-- C13, witness of the amended claim: the sector 0-40 in slot 1 of the light
with the sectors 0-40, 45 (directional) and 50-90. -/
theorem validate_loop_ordered_witness :
    1 < MAX_SEC ∧
    ((validate_loop example_config (extracted_sectors example_config between_tags)).1
      ((1 : Nat) : Int)).used = true ∧
    (∃ s e : ℚ,
      ((validate_loop example_config (extracted_sectors example_config between_tags)).1
        ((1 : Nat) : Int)).start = some s ∧
      ((validate_loop example_config (extracted_sectors example_config between_tags)).1
        ((1 : Nat) : Int)).end_ = some e ∧
      ((∀ s0 e0 : ℚ,
        ((extracted_sectors example_config between_tags) ((1 : Nat) : Int)).start = some s0 →
        ((extracted_sectors example_config between_tags) ((1 : Nat) : Int)).end_ = some e0 →
        s0 ≤ e0 + 360) → s ≤ e)) ∧
    ((validate_loop example_config (extracted_sectors example_config between_tags)).1 1).start
      = some 0 ∧
    ((validate_loop example_config (extracted_sectors example_config between_tags)).1 1).end_
      = some 40 :=
  ⟨by decide, by decide!,
    validate_loop_ordered example_config (extracted_sectors example_config between_tags) 1
      (by decide) (by decide!),
    by decide!, by decide!⟩

/-- C14, witness: the directional sector at 45 in slot 2 of the light with the
sectors 0-40, 45 (directional) and 50-90 has neither start nor end; it stays
used with start = end = 45. -/
theorem validate_loop_rule_witness :
    2 < MAX_SEC ∧
    ((extracted_sectors example_config between_tags) ((2 : Nat) : Int)).used = true ∧
    ¬ (2 ≠ 0 ∧
      deq ((extracted_sectors example_config between_tags) ((2 : Nat) : Int)).start
        ((extracted_sectors example_config between_tags) ((2 : Nat) : Int)).end_ = true ∧
      deq ((extracted_sectors example_config between_tags) ((2 : Nat) : Int)).start
        ((validate_loop example_config
          (extracted_sectors example_config between_tags)).1 0).dir = true) ∧
    (((validate_loop example_config (extracted_sectors example_config between_tags)).1
        ((2 : Nat) : Int)).used
      = (validation_rule example_config
          ((extracted_sectors example_config between_tags) ((2 : Nat) : Int))).isSome ∧
    ∀ p, validation_rule example_config
        ((extracted_sectors example_config between_tags) ((2 : Nat) : Int)) = some p →
      ((validate_loop example_config (extracted_sectors example_config between_tags)).1
        ((2 : Nat) : Int)).start = p.1 ∧
      ((validate_loop example_config (extracted_sectors example_config between_tags)).1
        ((2 : Nat) : Int)).end_ = p.2) ∧
    validation_rule example_config ((extracted_sectors example_config between_tags) 2)
      = some (some 45, some 45) ∧
    ((validate_loop example_config (extracted_sectors example_config between_tags)).1 2).used
      = true ∧
    ((validate_loop example_config (extracted_sectors example_config between_tags)).1 2).start
      = some 45 :=
  ⟨by decide, by decide!, by decide!,
    validate_loop_rule example_config (extracted_sectors example_config between_tags) 2
      (by decide) (by decide!) (by decide!),
    by decide!, by decide!, by decide!⟩

/-- C16, the code at a failing input: for the light with the sector 0-110 and
the radius value `1:taper_up;1;1;1;1;1;1;1;1;1;1` the validated sector has
eleven raw segments, `proc_sfrac` returns -2 on it, and the rendering loop
passes the sector to `sector_calc2` all the same (one call, for sector 1 with
its eleven segments). -/
theorem render_overflow_emitted :
    overflow_example.used = true ∧ overflow_example.nr = 1 ∧ overflow_example.fused = 11 ∧
    example_config.gen_sec_ = true ∧
    (proc_sfrac example_config overflow_example).map Prod.fst = some (-2) ∧
    (render_sector example_config overflow_example).map
      (fun r => r.2.map (fun s => (s.nr, s.fused))) = some [(1, 11)] ∧
    (node_render example_config overflow_tags).map
      (fun l => l.map (fun s => (s.nr, s.fused))) = some [(1, 11)] :=
  ⟨by decide!, by decide!, by decide!, by decide!, by decide!, by decide!, by decide!⟩

/-- C18, counterexample: the directional sector at 45 between the sectors 0-40
and 50-90 has the spacing 5 on both sides and `dir_arc_ = 2`; its segments are
43-45 and 45-47, a half-angle of 2 on both sides, which is more than half of
min(2, 5) = 1. -/
theorem directional_half_angle_counterexample :
    between_example.dir = some 45 ∧ example_config.dir_arc_ = some 2 ∧
    between_example.sspace = some 5 ∧ between_example.espace = some 5 ∧
    (proc_sfrac example_config between_example).map
      (fun r => (r.1, (r.2.sf 0).start, (r.2.sf 1).end_)) = some (0, some 43, some 47) ∧
    ¬ ((45 : ℚ) - 43 ≤ min 2 5 / 2) ∧ ¬ ((47 : ℚ) - 45 ≤ min 2 5 / 2) :=
  ⟨by decide!, by decide!, by decide!, by decide!, by decide!, by norm_num, by norm_num⟩

/-- C18, witness of the amended claim: the directional sector at 45 between
the sectors 0-40 and 50-90. -/
theorem directional_half_angle_witness :
    between_example.dir = some 45 ∧ example_config.dir_arc_ = some 2 ∧
    ∃ res : sector, proc_sfrac example_config between_example = some (0, res) ∧
      (∀ s : ℚ, between_example.sspace = some s → 0 ≤ s →
        ∃ h : ℚ, dir_half example_config between_example.sspace = some h ∧
          h = min 2 (s / 2) ∧ h ≤ 2 ∧ h ≤ s / 2 ∧
          (res.sf 0).start = dsub (some 45) (some h) ∧ (res.sf 0).end_ = some 45) ∧
      (∀ e : ℚ, between_example.espace = some e → 0 ≤ e →
        ∃ h : ℚ, dir_half example_config between_example.espace = some h ∧
          h = min 2 (e / 2) ∧ h ≤ 2 ∧ h ≤ e / 2 ∧
          (res.sf 1).start = some 45 ∧ (res.sf 1).end_ = dadd (some 45) (some h)) :=
  ⟨by decide!, by decide!,
    directional_half_angle example_config between_example 45 2 (by decide!) (by decide!)⟩

/-- C19, the code at a failing input: for the sector 100-200 with the radius
value `:10;:20;:solid:-95` `proc_sfrac` returns 0 and resolves the segments
100-110, 110-105 and 105-200: the second one ends before it starts and the
third one overlaps the first. -/
theorem proc_sfrac_overlap :
    overlap_example.dir = none ∧ overlap_example.start = some 100 ∧
    overlap_example.end_ = some 200 ∧ overlap_example.fused = 3 ∧
    ((overlap_example.sf 0).a, (overlap_example.sf 1).a, (overlap_example.sf 2).a)
      = (some 10, some 20, some (-95)) ∧
    (proc_sfrac example_config overlap_example).map (fun r => (r.1, seg_list r.2)) =
      some (0, [(some 100, some 110, ARC_SOLID), (some 110, some 105, ARC_SOLID),
                (some 105, some 200, ARC_SOLID)]) ∧
    ¬ ((110 : ℚ) ≤ 105) :=
  ⟨by decide!, by decide!, by decide!, by decide!, by decide!, by decide!, by norm_num⟩

/-- C20, counterexample: the sector 100-200 with the three raw segments
`:10;:dashed;:solid:-10`, the last one with a negative span, is resolved into
three segments, not four. -/
theorem proc_sfrac_negative_count_counterexample :
    three_example.dir = none ∧ three_example.fused = 3 ∧
    (∀ j, j < three_example.fused → tapering (three_example.sf j).type = false) ∧
    (∀ j, j < three_example.fused - 1 → negspan (three_example.sf j) = false) ∧
    negspan (three_example.sf (three_example.fused - 1)) = true ∧
    (proc_sfrac example_config three_example).map (fun r => (r.1, r.2.fused)) = some (0, 3) ∧
    (3 : Nat) ≠ 3 + 1 :=
  ⟨by decide!, by decide!, by decide!, by decide!, by decide!, by decide!, by decide⟩

/-- C20, witness of the amended claim: the sector 100-200 with the single raw
segment `:-10:dashed` is resolved into two segments. -/
theorem proc_sfrac_negative_count_witness :
    negative_example.dir = none ∧ 1 ≤ negative_example.fused ∧
    (∀ j, j < negative_example.fused → tapering (negative_example.sf j).type = false) ∧
    (∀ j, j < negative_example.fused - 1 → negspan (negative_example.sf j) = false) ∧
    negspan (negative_example.sf (negative_example.fused - 1)) = true ∧
    (∃ res : sector, proc_sfrac example_config negative_example = some (0, res) ∧
      res.fused = (if negative_example.fused = 1 then 2 else negative_example.fused)) ∧
    (proc_sfrac example_config negative_example).map (fun r => (r.1, r.2.fused)) = some (0, 2) :=
  ⟨by decide!, by decide!, by decide!, by decide!, by decide!,
    proc_sfrac_negative_count example_config negative_example (by decide!) (by decide!)
      (by decide!) (by decide!) (by decide!),
    by decide!⟩

/-! ## The claims of the extraction and of the emission on concrete lights -/

/-- C22, the code at a failing input: for the span `5.`, which `bs_isnum`
accepts, the radius value `1:solid:5.` gives the raw segment with radius 1,
span 5 and style solid, but `1:5.:solid` gives radius 1, no span and the style
suppress: `bs_isnum` rejects `5.:solid` although it accepts `5.`, `5:solid` and
`5.0:solid`.  For the span `-10` both orders give the same segment. -/
theorem radius_order_trailing_point :
    bs_isnum "5.".toList = true ∧ bs_isnum "5.:solid".toList = false ∧
    bs_isnum "5:solid".toList = true ∧ bs_isnum "5.0:solid".toList = true ∧
    bs_tod "5.:solid".toList = some 5 ∧
    ((extracted_sectors example_config (radius_tags "1:solid:5.") 1).fused,
      raw_seg (extracted_sectors example_config (radius_tags "1:solid:5.") 1) 0)
      = (1, some 1, some 5, ARC_SOLID) ∧
    ((extracted_sectors example_config (radius_tags "1:5.:solid") 1).fused,
      raw_seg (extracted_sectors example_config (radius_tags "1:5.:solid") 1) 0)
      = (1, some 1, none, ARC_SUPPRESS) ∧
    ((extracted_sectors example_config (radius_tags "1:-10:dashed") 1).fused,
      raw_seg (extracted_sectors example_config (radius_tags "1:-10:dashed") 1) 0)
      = (1, some 1, some (-10), ARC_DASHED) ∧
    ((extracted_sectors example_config (radius_tags "1:dashed:-10") 1).fused,
      raw_seg (extracted_sectors example_config (radius_tags "1:dashed:-10") 1) 0)
      = (1, some 1, some (-10), ARC_DASHED) :=
  ⟨by decide, by decide, by decide, by decide, by decide!, by decide!, by decide!, by decide!,
    by decide!⟩

/-- C28, the code at a failing input: the sector 0-100 with ten raw segments
of span 10 and the radii 1 to 10, the first one tapering, is resolved into the
segments 0-10, 10-20, .. 90-100; the expansion of segment 0 gives 16 segments,
of which the indices 7..12 hold the former segments 1..6, but the indices
13..15 hold the initial segments (0-0, no radius) and not the former segments
7..9 (70-80, 80-90 and 90-100 with the radii 8, 9 and 10), which are lost. -/
theorem taper_expand_loses_followers :
    taper_long_example.fused = 10 ∧
    (taper_long_example.sf 7).r = some 8 ∧ (taper_long_example.sf 7).a = some 10 ∧
    (proc_sfrac example_config taper_long_example).map (fun r => (r.1, r.2.fused))
      = some (0, 16) ∧
    (proc_sfrac example_config taper_long_example).map (fun r => (radius_list r.2).drop 6) =
      some [(some (60 / 7), some 10, some 1), (some 10, some 20, some 2),
        (some 20, some 30, some 3), (some 30, some 40, some 4), (some 40, some 50, some 5),
        (some 50, some 60, some 6), (some 60, some 70, some 7), (some 0, some 0, none),
        (some 0, some 0, none), (some 0, some 100, none)] :=
  ⟨by decide!, by decide!, by decide!, by decide!, by decide!⟩

/-- C29, the code at a failing input: for a light with a sector start and no
sector end `get_sectors` returns 1, the validation drops the sector, the count
of valid sectors is 0, and the spacing step writes `sec[0].start - sec[-1].end`
(NaN) to `espace` of the slot -1 in front of the array, which was 0. -/
theorem neighbour_spacing_below_array :
    (get_sectors example_config half_tags init_sectors MAX_SEC).map Prod.snd = some 1 ∧
    (init_sectors (-1)).espace = some 0 ∧
    (node_sectors example_config half_tags).map Prod.fst = some 0 ∧
    (node_sectors example_config half_tags).map (fun r => (r.2 (-1)).espace) = some none ∧
    (neighbour_spacing init_sectors 0 (-1)).espace
      = dsub (init_sectors 0).start (init_sectors (0 - 1)).end_ :=
  ⟨by decide!, by decide!, by decide!, by decide!, by decide!⟩

/-- C30, the code at a failing input: the sector 0-360 with the radius value
`:180;:solid` is resolved into the segments 0-180 and 180-360 with `startr` on
the first and `endr` on the second; `sector_calc2` writes the radial line from
the anchor to the start point of segment 0 and the one to the end point of
segment 1, since neither segment is 0-360 itself.  For the sector 0-360
without raw segments it writes the arc only. -/
theorem full_circle_radials :
    circle_two_example.start = some 0 ∧ circle_two_example.end_ = some 360 ∧
    (proc_sfrac example_config circle_two_example).map (fun r => (r.1, seg_list r.2)) =
      some (0, [(some 0, some 180, ARC_SOLID), (some 180, some 360, ARC_SOLID)]) ∧
    (proc_sfrac example_config circle_two_example).map (fun r => flag_list r.2) =
      some [(some 0, some 180, true, false), (some 180, some 360, false, true)] ∧
    node_ways example_config circle_two_tags =
      some [[way.start_radial 0, way.arc 0, way.end_radial 1, way.arc 1]] ∧
    node_ways example_config
      [tag_kv "seamark:light:1:sector_start" "0", tag_kv "seamark:light:1:sector_end" "360"]
      = some [[way.arc 0]] :=
  ⟨by decide!, by decide!, by decide!, by decide!, by decide!, by decide!⟩

/-- C25, counterexample: the colour value `red;magenta` of sector 1, whose
second token matches no palette name, sets the primary colour of the sector to
1 (red); the secondary colour stays -1.  With `magenta;red` both stay as they
were (0 and -1). -/
theorem colour_pair_half_set :
    (init_sector.col0, init_sector.col1) = (0, -1) ∧
    ((extracted_sectors example_config (colour_tags "red;magenta") 1).col0,
      (extracted_sectors example_config (colour_tags "red;magenta") 1).col1) = (1, -1) ∧
    ((extracted_sectors example_config (colour_tags "magenta;red") 1).col0,
      (extracted_sectors example_config (colour_tags "magenta;red") 1).col1) = (0, -1) ∧
    ((extracted_sectors example_config (colour_tags "red;green") 1).col0,
      (extracted_sectors example_config (colour_tags "red;green") 1).col1) = (1, 2) :=
  ⟨by decide, by decide!, by decide!, by decide!⟩

/-- C24, witness: the tag `seamark:light:1:colour=magenta`; with the tags for
the sector 100-200 before it, behind it or around it, sector 1 is marked used,
has the start 100 and keeps the colour indices 0 and -1. -/
theorem unknown_colour_ignored_witness :
    digits "1".toList ∧ 1 ≤ (digits_nat 0 "1".toList : Int) ∧
    (digits_nat 0 "1".toList : Int) < 32 ∧
    (∀ s ∈ col_, bs_ncmp "magenta".toList s s.length ≠ 0) ∧
    ((∀ st : gs_state,
      get_sectors_tag example_config 32
        (tag_of (light_pre ++ ("1".toList ++ ":colour".toList)) "magenta".toList)
        (tag_of (light_pre ++ ("1".toList ++ ":colour".toList)) "magenta".toList) st
        = some st) ∧
    (∀ (t1 t2 : hpx_tree) (sec : secarr),
      get_sectors example_config
        (t1 ++ tag_of (light_pre ++ ("1".toList ++ ":colour".toList)) "magenta".toList :: t2)
        sec 32 = get_sectors example_config (t1 ++ t2) sec 32)) ∧
    tag_of (light_pre ++ ("1".toList ++ ":colour".toList)) "magenta".toList
      = tag_kv "seamark:light:1:colour" "magenta" ∧
    colour_state (extracted_sectors example_config (colour_tags "magenta") 1)
      = (true, 0, -1, some 100) ∧
    colour_state (extracted_sectors example_config
      [tag_kv "seamark:light:1:colour" "magenta", tag_kv "seamark:light:1:sector_start" "100",
       tag_kv "seamark:light:1:sector_end" "200"] 1) = (true, 0, -1, some 100) ∧
    colour_state (extracted_sectors example_config
      [tag_kv "seamark:light:1:sector_start" "100", tag_kv "seamark:light:1:colour" "magenta",
       tag_kv "seamark:light:1:sector_end" "200"] 1) = (true, 0, -1, some 100) :=
  ⟨⟨by decide, by decide⟩, by decide, by decide, by decide,
    unknown_colour_ignored example_config 32 "1".toList "magenta".toList
      ⟨by decide, by decide⟩ (by decide) (by decide) (by decide),
    rfl, by decide!, by decide!, by decide!⟩

/-- C25, witness of the amended claim: the tag `seamark:light:1:colour` with
the value `red;magenta` on the initial sector array. -/
theorem colour_pair_partial_witness :
    digits "1".toList ∧ 1 ≤ (digits_nat 0 "1".toList : Int) ∧
    (digits_nat 0 "1".toList : Int) < 32 ∧ ';' ∉ "red".toList ∧
    (((∀ s ∈ col_, bs_ncmp ("red".toList ++ ';' :: "magenta".toList) s s.length ≠ 0) →
      get_sectors_tag example_config 32
        (tag_of (light_pre ++ ("1".toList ++ ":colour".toList))
          ("red".toList ++ ';' :: "magenta".toList))
        (tag_of (light_pre ++ ("1".toList ++ ":colour".toList))
          ("red".toList ++ ';' :: "magenta".toList)) (init_sectors, 0)
        = some (init_sectors, 0)) ∧
    (find_col (fun s => decide (bs_ncmp ("red".toList ++ ';' :: "magenta".toList) s s.length = 0))
        = some 1 →
      (∀ s ∈ col_, bs_ncmp "magenta".toList s s.length ≠ 0) →
      get_sectors_tag example_config 32
        (tag_of (light_pre ++ ("1".toList ++ ":colour".toList))
          ("red".toList ++ ';' :: "magenta".toList))
        (tag_of (light_pre ++ ("1".toList ++ ":colour".toList))
          ("red".toList ++ ';' :: "magenta".toList)) (init_sectors, 0)
        = some (setSec (init_sectors, (0 : Int)).1 (digits_nat 0 "1".toList : Int)
            { (init_sectors, (0 : Int)).1 (digits_nat 0 "1".toList : Int) with
              col0 := ((1 : Nat) : Int) }, (init_sectors, (0 : Int)).2))) ∧
    find_col (fun s => decide (bs_ncmp ("red".toList ++ ';' :: "magenta".toList) s s.length = 0))
      = some 1 ∧
    (∀ s ∈ col_, bs_ncmp "magenta".toList s s.length ≠ 0) ∧
    colour_state (extracted_sectors example_config
      [tag_kv "seamark:light:1:colour" "red;magenta"] 1) = (false, 1, -1, none) :=
  ⟨⟨by decide, by decide⟩, by decide, by decide, by decide,
    colour_pair_partial example_config 32 (init_sectors, 0) "1".toList "red".toList
      "magenta".toList 1 ⟨by decide, by decide⟩ (by decide) (by decide) (by decide),
    by decide, by decide, by decide!⟩

/-- C26, witness: the tag `seamark:light:1=red:10:20:278` with the option for
the renderer hints gives sector 1 the colour 1, the start 10, the end 20 and
the radius 278/278 = 1; without the option it changes nothing. -/
theorem renderer_hint_witness :
    digits "1".toList ∧ 1 ≤ (digits_nat 0 "1".toList : Int) ∧
    (digits_nat 0 "1".toList : Int) < 32 ∧ col_[1]? = some "red" ∧
    ':' ∉ "10".toList ∧ ':' ∉ "20".toList ∧ "278".toList ≠ [] ∧
    rhint_config.parse_rhint_ = true ∧
    ((rhint_config.parse_rhint_ = true →
      ∃ res : gs_state,
        get_sectors_tag rhint_config 32
          (tag_of (light_pre ++ "1".toList)
            ("red".toList ++ ':' :: ("10".toList ++ ':' :: ("20".toList ++ ':' :: "278".toList))))
          (tag_of (light_pre ++ "1".toList)
            ("red".toList ++ ':' :: ("10".toList ++ ':' :: ("20".toList ++ ':' :: "278".toList))))
          (init_sectors, 0) = some res ∧
        (res.1 (digits_nat 0 "1".toList : Int)).col0 = ((1 : Nat) : Int) ∧
        (res.1 (digits_nat 0 "1".toList : Int)).start = bs_tod "10".toList ∧
        (res.1 (digits_nat 0 "1".toList : Int)).end_ = bs_tod "20".toList ∧
        (res.1 (digits_nat 0 "1".toList : Int)).r = ddiv (bs_tod "278".toList) 278 ∧
        (res.1 (digits_nat 0 "1".toList : Int)).used = true ∧
        (((init_sectors, (0 : Int)).1 (digits_nat 0 "1".toList : Int)).used = false →
          (res.1 (digits_nat 0 "1".toList : Int)).nr = (digits_nat 0 "1".toList : Int) ∧
          res.2 = (init_sectors, (0 : Int)).2 + 1) ∧
        (((init_sectors, (0 : Int)).1 (digits_nat 0 "1".toList : Int)).used = true →
          (res.1 (digits_nat 0 "1".toList : Int)).nr
            = ((init_sectors, (0 : Int)).1 (digits_nat 0 "1".toList : Int)).nr ∧
          res.2 = (init_sectors, (0 : Int)).2) ∧
        ∀ j : Int, j ≠ (digits_nat 0 "1".toList : Int) →
          res.1 j = (init_sectors, (0 : Int)).1 j) ∧
    (rhint_config.parse_rhint_ = false →
      get_sectors_tag rhint_config 32
        (tag_of (light_pre ++ "1".toList)
          ("red".toList ++ ':' :: ("10".toList ++ ':' :: ("20".toList ++ ':' :: "278".toList))))
        (tag_of (light_pre ++ "1".toList)
          ("red".toList ++ ':' :: ("10".toList ++ ':' :: ("20".toList ++ ':' :: "278".toList))))
        (init_sectors, 0) = some (init_sectors, 0))) ∧
    tag_of (light_pre ++ "1".toList)
        ("red".toList ++ ':' :: ("10".toList ++ ':' :: ("20".toList ++ ':' :: "278".toList)))
      = tag_kv "seamark:light:1" "red:10:20:278" ∧
    (get_sectors rhint_config [tag_kv "seamark:light:1" "red:10:20:278"] init_sectors 32).map
      (fun st => (st.2, (st.1 1).used, (st.1 1).nr, (st.1 1).col0)) = some (1, true, 1, 1) ∧
    (get_sectors rhint_config [tag_kv "seamark:light:1" "red:10:20:278"] init_sectors 32).map
      (fun st => ((st.1 1).start, (st.1 1).end_, (st.1 1).r)) = some (some 10, some 20, some 1) ∧
    (get_sectors example_config [tag_kv "seamark:light:1" "red:10:20:278"] init_sectors 32).map
      (fun st => (st.2, (st.1 1).used, (st.1 1).col0, (st.1 1).start))
      = some (0, false, 0, none) :=
  ⟨⟨by decide, by decide⟩, by decide, by decide, by decide, by decide, by decide, by decide,
    by decide,
    renderer_hint rhint_config 32 (init_sectors, 0) "1".toList 1 "red" "10".toList "20".toList
      "278".toList ⟨by decide, by decide⟩ (by decide) (by decide) (by decide) (by decide)
      (by decide) (by decide),
    rfl, by decide!, by decide!, by decide!⟩

/-- The two orders of a radius group at the span `-10` and the style `solid`
on the initial sector: the conditions of `radius_orders_agree` hold there. -/
theorem radius_orders_agree_solid :
    radius_loop 9 init_sector "1:-10:solid".toList
      = some { setSf init_sector 0 { init_sector.sf 0 with
          r := bs_tod "1".toList, a := bs_tod "-10".toList, type := ARC_SOLID } with fused := 1 } ∧
    radius_loop 9 init_sector "1:solid:-10".toList
      = some { setSf init_sector 0 { init_sector.sf 0 with
          r := bs_tod "1".toList, a := bs_tod "-10".toList, type := ARC_SOLID } with fused := 1 } :=
  radius_orders_agree init_sector "1".toList "-10".toList 1 "solid" 7 rfl rfl (by decide)
    (by decide) (by decide) (by decide) (by decide)

/-- C31, the code at a failing input: the directional sector at 45 with the
colours red and green, between the sectors 0-40 and 50-90, is resolved into the
segments 43-45 and 45-47 with `endr` on segment 0; `main` clears `sf[0].startr`
and `sf[1].endr` only, so in each of the four repeats segment 0 still has
`endr = 1` and `sector_calc2` writes the radial line from the anchor to its end
point again. -/
theorem repeats_directional_radial :
    (sector_of (node_sectors example_config dir_two_tags) 1).dir = some 45 ∧
    (sector_of (node_sectors example_config dir_two_tags) 1).col1 = 2 ∧
    (node_render example_config dir_two_tags).map (fun l => l.map flag_list) = some
      [[(some 0, some 40, true, true)],
       [(some 43, some 45, false, true), (some 45, some 47, false, false)],
       [(some 43, some 45, false, true), (some 45, some 47, false, false)],
       [(some 43, some 45, false, true), (some 45, some 47, false, false)],
       [(some 43, some 45, false, true), (some 45, some 47, false, false)],
       [(some 43, some 45, false, true), (some 45, some 47, false, false)],
       [(some 50, some 90, true, true)]] ∧
    node_ways example_config dir_two_tags = some
      [[way.start_radial 0, way.end_radial 0, way.arc 0],
       [way.end_radial 0, way.arc 0, way.arc 1], [way.end_radial 0, way.arc 0, way.arc 1],
       [way.end_radial 0, way.arc 0, way.arc 1], [way.end_radial 0, way.arc 0, way.arc 1],
       [way.end_radial 0, way.arc 0, way.arc 1],
       [way.start_radial 0, way.end_radial 0, way.arc 0]] :=
  ⟨by decide!, by decide!, by decide!, by decide!⟩

/-- The sector 100-200 with the colours red and green and the radius value
`:30;:dashed:20`, as the validator leaves it, has no radial flags and a second
colour: `repeats_radial_flags` applies to it. -/
theorem repeats_radial_flags_witness :
    (sector_of (node_sectors example_config two_colour_tags) 0).used = true ∧
    (sector_of (node_sectors example_config two_colour_tags) 0).col1 = 2 ∧
    flags_clear (sector_of (node_sectors example_config two_colour_tags) 0) ∧
    ∃ (r : Int) (res : sector),
      proc_sfrac example_config (sector_of (node_sectors example_config two_colour_tags) 0)
        = some (r, res) ∧ 1 ≤ res.fused ∧
      (r ≠ -1 → ∃ (left : sector) (reps : List sector),
        render_sector example_config (sector_of (node_sectors example_config two_colour_tags) 0)
          = some (left, res :: reps) ∧ reps.length = 4 ∧
        ∀ s ∈ reps,
          (∀ k, (s.sf k).startr = false ∧
            ((s.sf k).endr = true ↔ k = 0 ∧
              isnan (sector_of (node_sectors example_config two_colour_tags) 0).dir = false)) ∧
          (∀ i, way.start_radial i ∉ sector_calc2 s) ∧
          (isnan (sector_of (node_sectors example_config two_colour_tags) 0).dir = true →
            ∀ i, way.end_radial i ∉ sector_calc2 s)) :=
  ⟨by decide!, by decide!, node_sectors_flags example_config two_colour_tags 0,
    repeats_radial_flags example_config _ (by decide!) rfl
      (node_sectors_flags example_config two_colour_tags 0) (by decide!)⟩

/-- The sector 100-200 with the colours red and green and the radius value
`:30;:dashed:20` through `main`: the first call of `sector_calc2` gets the
segments 100-130 and 130-200 with `startr` on the first and `endr` on the
second, the four repeats get them without radial flags and write the two arcs
only. -/
theorem repeats_two_colours :
    (node_render example_config two_colour_tags).map (fun l => l.map flag_list) = some
      [[(some 100, some 130, true, false), (some 130, some 200, false, true)],
       [(some 100, some 130, false, false), (some 130, some 200, false, false)],
       [(some 100, some 130, false, false), (some 130, some 200, false, false)],
       [(some 100, some 130, false, false), (some 130, some 200, false, false)],
       [(some 100, some 130, false, false), (some 130, some 200, false, false)]] ∧
    node_ways example_config two_colour_tags = some
      [[way.start_radial 0, way.arc 0, way.end_radial 1, way.arc 1],
       [way.arc 0, way.arc 1], [way.arc 0, way.arc 1], [way.arc 0, way.arc 1],
       [way.arc 0, way.arc 1]] :=
  ⟨by decide!, by decide!⟩

/-- C32, the code at a failing input: for the sector 100-200 with the colours
red and green and the radius value `0`, the raw segment has the radius 0, and
the first call of `sector_calc2` gets the segment 100-200 with the radius 0 and
writes the two radial lines and no arc; the repeats get it with the radii
-0.003, -0.0065, -0.0155 and -0.0205, which are not 0, and each of them writes
the arc.  With the radius value `:suppress` no call writes an arc. -/
theorem zero_radius_arc_in_repeats :
    ((extracted_sectors example_config zero_radius_tags 1).fused,
      raw_seg (extracted_sectors example_config zero_radius_tags 1) 0)
      = (1, some 0, none, ARC_UNDEF) ∧
    (sector_of (node_sectors example_config zero_radius_tags) 0).col1 = 2 ∧
    (node_render example_config zero_radius_tags).map (fun l => l.map radius_list) = some
      [[(some 100, some 200, some 0)], [(some 100, some 200, some (-3 / 1000))],
       [(some 100, some 200, some (-65 / 10000))], [(some 100, some 200, some (-155 / 10000))],
       [(some 100, some 200, some (-205 / 10000))]] ∧
    node_ways example_config zero_radius_tags = some
      [[way.start_radial 0, way.end_radial 0], [way.arc 0], [way.arc 0], [way.arc 0],
       [way.arc 0]] ∧
    (node_render example_config suppress_tags).map (fun l => l.map seg_list) = some
      [[(some 100, some 200, ARC_SUPPRESS)], [(some 100, some 200, ARC_SUPPRESS)],
       [(some 100, some 200, ARC_SUPPRESS)], [(some 100, some 200, ARC_SUPPRESS)],
       [(some 100, some 200, ARC_SUPPRESS)]] ∧
    node_ways example_config suppress_tags = some
      [[way.start_radial 0, way.end_radial 0], [], [], [], []] :=
  ⟨by decide!, by decide!, by decide!, by decide!, by decide!, by decide!⟩

/-- C11, the code at a failing input: the sector 0-50 with five raw segments,
the fifth one tapering, has `fused = 5`, so that the test of line 755
(`fused > MAX_SFRAC - TAPER_SEGS + 1`) lets the expansion of segment 4 pass;
`proc_sfrac` returns 0 with 11 segments, the segments 4..10 being the seven
sub-segments.  The `memmove` of the expansion of segment 4 writes the segments
11..16, for every sector: segment 16 gets what segment 10 held, and `sf[16]` is
behind the array of `MAX_SFRAC = 16` segments. -/
theorem taper_move_behind_array :
    MAX_SFRAC = 16 ∧ taper_fifth_example.fused = 5 ∧
    (proc_sfrac example_config taper_fifth_example).map (fun r => (r.1, r.2.fused))
      = some (0, 11) ∧
    (proc_sfrac example_config taper_fifth_example).map
      (fun r => (seg_list r.2).map (fun x => x.2.2))
      = some [ARC_SOLID, ARC_SOLID, ARC_SOLID, ARC_SOLID, ARC_TAPER_1, ARC_TAPER_1 + 1,
          ARC_TAPER_1 + 2, ARC_TAPER_1 + 3, ARC_TAPER_1 + 4, ARC_TAPER_1 + 5, ARC_TAPER_7] ∧
    (∀ sec : sector, (taper_expand sec 4).sf 11 = sec.sf 5) ∧
    (∀ sec : sector, (taper_expand sec 4).sf 15 = sec.sf 9) ∧
    (∀ sec : sector, (taper_expand sec 4).sf 16 = sec.sf 10) :=
  ⟨by decide, by decide!, by decide!, by decide!,
    fun sec => taper_expand_moved sec 4 11 (by decide) (by decide),
    fun sec => taper_expand_moved sec 4 15 (by decide) (by decide),
    fun sec => taper_expand_moved sec 4 16 (by decide) (by decide)⟩

/-- The number 4294967297 of a key does not fit an `int` of 32 bits: `k` holds
1 for it, where `bs_tol` gives 4294967297. -/
theorem to_int_wraps :
    bs_isnum "4294967297:sector_start".toList = true ∧
    bs_tol "4294967297:sector_start".toList = 4294967297 ∧
    to_int (bs_tol "4294967297:sector_start".toList) = 1 ∧
    to_int 99 = 99 ∧ to_int (-1) = -1 :=
  ⟨by decide, by decide, by decide, by decide, by decide⟩

/-! ## The resolution in the arithmetic of doubles, on concrete sectors -/

/-- C10, counterexample: the sector 0-13 with the single raw segment
`:taper_up`, in the arithmetic of doubles: `proc_sfrac` returns 0 with 7
segments whose span fields are all the double nearest to `13 / 7`,
1.8571428571428572; that is not `13 / 7`, seven times it is not 13, and added
up in doubles the seven spans give 13.000000000000002; segment 5 ends at
11.142857142857144, which is neither `6 · 13 / 7` nor `0 + 6 * (13 / 7)` as
computed (11.142857142857142), and segment 6 ends at 13.000000000000002. -/
theorem proc_sfrac_r_taper_single_counterexample :
    taper_single_example.dir = none ∧ taper_single_example.fused = 1 ∧
    taper_single_example.start = some 0 ∧ taper_single_example.end_ = some 13 ∧
    (taper_single_example.sf 0).type = ARC_TAPER_UP ∧ (taper_single_example.sf 0).a = none ∧
    (proc_sfrac_r fl example_config taper_single_example).map (fun r => (r.1, r.2.fused)) =
      some (0, 7) ∧
    (proc_sfrac_r fl example_config taper_single_example).map
      (fun r => (List.range 7).map (fun j => (r.2.sf j).a)) =
      some (List.replicate 7 (some (4181913939701175 / 2251799813685248))) ∧
    (4181913939701175 / 2251799813685248 : ℚ) ≠ 13 / 7 ∧
    (7 * (4181913939701175 / 2251799813685248) : ℚ) ≠ 13 ∧
    (proc_sfrac_r fl example_config taper_single_example).map
      (fun r => (List.range 7).foldl (fun acc j => radd fl acc (r.2.sf j).a) (some 0)) =
      some (some (7318349394477057 / 562949953421312)) ∧
    (13 : ℚ) < 7318349394477057 / 562949953421312 ∧
    (proc_sfrac_r fl example_config taper_single_example).map
      (fun r => ((r.2.sf 5).end_, (r.2.sf 6).start, (r.2.sf 6).end_)) =
      some (some (6272870909551763 / 562949953421312), some (6272870909551763 / 562949953421312),
        some (7318349394477057 / 562949953421312)) ∧
    (6272870909551763 / 562949953421312 : ℚ) ≠ 0 + 6 * (13 / 7) ∧
    fl (0 + fl (6 * fl (13 / 7))) = 3136435454775881 / 281474976710656 ∧
    (3136435454775881 / 281474976710656 : ℚ) < 6272870909551763 / 562949953421312 :=
  ⟨by decide!, by decide!, by decide!, by decide!, by decide!, by decide!, by decide!,
    by decide!, by norm_num, by norm_num, by decide!, by norm_num, by decide!, by norm_num,
    by decide!, by norm_num⟩

/-- C10, witness of the amended claim: the sector 0-13 with the single raw
segment `:taper_up`, in the arithmetic of doubles: seven segments with the
span 1.8571428571428572, each starting at the end of the one before it. -/
theorem proc_sfrac_r_taper_single_witness :
    taper_single_example.dir = none ∧ taper_single_example.fused = 1 ∧
    taper_single_example.start = some 0 ∧ taper_single_example.end_ = some 13 ∧
    (0 : ℚ) < 13 ∧
    (taper_single_example.sf 0).type = (if true = true then ARC_TAPER_UP else ARC_TAPER_DOWN) ∧
    (((taper_single_example.sf 0).a = none ∧ (13 : ℚ) = fl (13 - 0)) ∨
      ((taper_single_example.sf 0).a = some 13 ∧ (0 : ℚ) < 13 ∧ (13 : ℚ) ≤ fl (13 - 0))) ∧
    (∃ res : sector, proc_sfrac_r fl example_config taper_single_example = some (0, res) ∧
      res.fused = 7 ∧
      (∀ j, j < 7 → (res.sf j).a = some (fl (13 / 7))) ∧
      (res.sf 0).start = some 0 ∧
      (∀ j, j < 6 → (res.sf (j + 1)).start = (res.sf j).end_) ∧
      (∀ j, j < 6 → (res.sf j).end_ = radd fl (res.sf j).start (some (fl (13 / 7)))) ∧
      (res.sf 6).end_ =
        (if dlt (radd fl (res.sf 6).start (some (fl (13 / 7)))) (some 13) = true then some 13
         else radd fl (res.sf 6).start (some (fl (13 / 7)))) ∧
      (∀ j, j < 7 → (res.sf j).type = if true = true then ARC_TAPER_1 + j else ARC_TAPER_7 - j) ∧
      (∀ j, j < 7 → (res.sf j).startr = decide (j = 0))) ∧
    fl (13 / 7) = 4181913939701175 / 2251799813685248 ∧
    (proc_sfrac_r fl example_config taper_single_example).map (fun r => seg_list r.2) =
      some [(some 0, some (4181913939701175 / 2251799813685248), ARC_TAPER_1),
        (some (4181913939701175 / 2251799813685248), some (4181913939701175 / 1125899906842624),
          ARC_TAPER_1 + 1),
        (some (4181913939701175 / 1125899906842624), some (3136435454775881 / 562949953421312),
          ARC_TAPER_1 + 2),
        (some (3136435454775881 / 562949953421312), some (4181913939701175 / 562949953421312),
          ARC_TAPER_1 + 3),
        (some (4181913939701175 / 562949953421312), some (5227392424626469 / 562949953421312),
          ARC_TAPER_1 + 4),
        (some (5227392424626469 / 562949953421312), some (6272870909551763 / 562949953421312),
          ARC_TAPER_1 + 5),
        (some (6272870909551763 / 562949953421312), some (7318349394477057 / 562949953421312),
          ARC_TAPER_7)] :=
  ⟨by decide!, by decide!, by decide!, by decide!, by norm_num, by decide!,
    Or.inl ⟨by decide!, by decide!⟩,
    proc_sfrac_r_taper_single fl example_config taper_single_example 0 13 13 true (by decide!)
      (by decide!) (by decide!) (by decide!) (by norm_num) (by decide!)
      (Or.inl ⟨by decide!, by decide!⟩),
    by decide!, by decide!⟩
/-- C17, counterexample: sectors on which the first call of `proc_sfrac`
returns 0 and the second call changes the resolved list, in the arithmetic of
doubles. The sector 100-200 with `:10;:dashed;:solid:-10` is resolved into
100-110, 110-190, 190-200 and then into 100-110, 110-200, 200-200, since the
span of the second segment is still the one from before the cut. The sector
0-360 without raw segments gets one segment without radials, and the second
call sets both radial flags. The sector 0.3-0.9 without raw segments ends at
0.9, and at `0.3 + (0.9 - 0.3) = 0.9000000000000001` after the second call;
likewise the last segment of the sector 0-0.9 with `:0.3;:`. The last of the
seven sub-segments of the sector 0-13 with `:taper_up` ends at
13.000000000000002, and at 13 after the second call. In the sector 0.1-0.7
with `:-0.2:dashed` the first segment ends at 0.49999999999999994, and at
0.4999999999999999 after the second call. On the sector 0.3-0.9 with
`:1000;:5;:5` the first call leaves the second segment with the span
`0.9 - 0.9000000000000001 < 0`, and the second call returns -1. -/
theorem proc_sfrac_r_second_call_differs :
    (proc_sfrac_r fl example_config three_example).map (fun r => (r.1, seg_list r.2)) =
      some (0, [(some 100, some 110, ARC_SOLID), (some 110, some 190, ARC_DASHED),
                (some 190, some 200, ARC_SOLID)]) ∧
    (proc_sfrac_r_twice fl example_config three_example).map (fun r => (r.1, seg_list r.2)) =
      some (0, [(some 100, some 110, ARC_SOLID), (some 110, some 200, ARC_DASHED),
                (some 200, some 200, ARC_SOLID)]) ∧
    (proc_sfrac_r fl example_config circle_example).map Prod.fst = some 0 ∧
    (proc_sfrac_r fl example_config circle_example).map (fun r => flag_list r.2) =
      some [(some 0, some 360, false, false)] ∧
    (proc_sfrac_r_twice fl example_config circle_example).map Prod.fst = some 0 ∧
    (proc_sfrac_r_twice fl example_config circle_example).map (fun r => flag_list r.2) =
      some [(some 0, some 360, true, true)] ∧
    (proc_sfrac_r fl example_config plain_overshoot_example).map Prod.fst = some 0 ∧
    (proc_sfrac_r fl example_config plain_overshoot_example).map (fun r => flag_list r.2) =
      some [(some (5404319552844595 / 18014398509481984),
             some (8106479329266893 / 9007199254740992), true, true)] ∧
    (proc_sfrac_r_twice fl example_config plain_overshoot_example).map Prod.fst = some 0 ∧
    (proc_sfrac_r_twice fl example_config plain_overshoot_example).map
      (fun r => flag_list r.2) =
      some [(some (5404319552844595 / 18014398509481984),
             some (4053239664633447 / 4503599627370496), true, true)] ∧
    (proc_sfrac_r fl example_config open_last_example).map
      (fun r => (r.1, r.2.fused, (r.2.sf 1).start, (r.2.sf 1).end_)) =
      some (0, 2, some (5404319552844595 / 18014398509481984),
        some (8106479329266893 / 9007199254740992)) ∧
    (proc_sfrac_r_twice fl example_config open_last_example).map
      (fun r => (r.1, r.2.fused, (r.2.sf 1).start, (r.2.sf 1).end_)) =
      some (0, 2, some (5404319552844595 / 18014398509481984),
        some (4053239664633447 / 4503599627370496)) ∧
    (proc_sfrac_r fl example_config taper_single_example).map
      (fun r => (r.1, r.2.fused, (r.2.sf 6).start, (r.2.sf 6).end_)) =
      some (0, 7, some (6272870909551763 / 562949953421312),
        some (7318349394477057 / 562949953421312)) ∧
    (proc_sfrac_r_twice fl example_config taper_single_example).map
      (fun r => (r.1, r.2.fused, (r.2.sf 6).start, (r.2.sf 6).end_)) =
      some (0, 7, some (6272870909551763 / 562949953421312), some 13) ∧
    (proc_sfrac_r fl example_config negative_single_example).map
      (fun r => (r.1, r.2.fused, (r.2.sf 0).end_, (r.2.sf 1).start)) =
      some (0, 2, some (9007199254740991 / 18014398509481984),
        some (9007199254740991 / 18014398509481984)) ∧
    (proc_sfrac_r_twice fl example_config negative_single_example).map
      (fun r => (r.1, r.2.fused, (r.2.sf 0).end_, (r.2.sf 1).start)) =
      some (0, 2, some (4503599627370495 / 9007199254740992),
        some (4503599627370495 / 9007199254740992)) ∧
    (proc_sfrac_r fl example_config inverted_example).map (fun r => (r.1, span_list r.2)) =
      some (0, [(some (5404319552844595 / 18014398509481984),
                 some (4053239664633447 / 4503599627370496),
                 some (1351079888211149 / 2251799813685248)),
                (some (4053239664633447 / 4503599627370496),
                 some (8106479329266893 / 9007199254740992),
                 some (-1 / 9007199254740992)),
                (some (8106479329266893 / 9007199254740992),
                 some (8106479329266893 / 9007199254740992), some 0)]) ∧
    (proc_sfrac_r_twice fl example_config inverted_example).map Prod.fst = some (-1) :=
  ⟨by decide!, by decide!, by decide!, by decide!, by decide!, by decide!, by decide!,
    by decide!, by decide!, by decide!, by decide!, by decide!, by decide!, by decide!,
    by decide!, by decide!, by decide!, by decide!⟩

/-- C17, witness of the amended claim: the sector 0-0.9 with the raw segments
`:0.3;:1000`, in the arithmetic of doubles, is resolved into 0-0.3 and
0.3-0.9000000000000001 with the spans 0.3 and 0.6000000000000001, none of them
negative, and the second call leaves the two segments as they are. -/
theorem proc_sfrac_r_idempotent_witness :
    example_config.sec_radius_ = some (1 / 5) ∧ clipped_example.start = some 0 ∧
    clipped_example.end_ = some (fl (9 / 10)) ∧ (0 : ℚ) ≤ fl (9 / 10) ∧
    clipped_example.fused ≤ MAX_SFRAC ∧
    (clipped_example.dir = none ∧ 1 ≤ clipped_example.fused ∧
      (∀ j, j < clipped_example.fused → tapering (clipped_example.sf j).type = false) ∧
      negspan (clipped_example.sf 0) = false ∧
      (∀ j, 1 ≤ j → j < clipped_example.fused →
        isnan (clipped_example.sf j).a = false ∧ negspan (clipped_example.sf j) = false)) ∧
    (∃ res : sector, proc_sfrac_r fl example_config clipped_example = some (0, res) ∧
      ((clipped_example.dir = none → ∀ i, i < res.fused → negspan (res.sf i) = false) →
        ∃ res2 : sector, proc_sfrac_r fl example_config res = some (0, res2) ∧
          res2.fused = res.fused ∧
          ∀ i, i < res.fused → same_segment (res2.sf i) (res.sf i))) ∧
    (proc_sfrac_r fl example_config clipped_example).map
      (fun r => decide (∀ i, i < r.2.fused → negspan (r.2.sf i) = false)) = some true ∧
    (proc_sfrac_r fl example_config clipped_example).map (fun r => (r.1, span_list r.2)) =
      some (0, [(some 0, some (5404319552844595 / 18014398509481984),
                 some (5404319552844595 / 18014398509481984)),
                (some (5404319552844595 / 18014398509481984),
                 some (4053239664633447 / 4503599627370496),
                 some (1351079888211149 / 2251799813685248))]) ∧
    (proc_sfrac_r_twice fl example_config clipped_example).map (fun r => (r.1, span_list r.2)) =
      some (0, [(some 0, some (5404319552844595 / 18014398509481984),
                 some (5404319552844595 / 18014398509481984)),
                (some (5404319552844595 / 18014398509481984),
                 some (4053239664633447 / 4503599627370496),
                 some (1351079888211149 / 2251799813685248))]) :=
  ⟨by decide!, by decide!, by decide!, by decide!, by decide!,
    ⟨by decide!, by decide!, by decide!, by decide!, by decide!⟩,
    proc_sfrac_r_idempotent fl example_config clipped_example (1 / 5) 0 (fl (9 / 10))
      (by decide!) (by decide!) (by decide!) (by decide!) (by decide!)
      (Or.inr (Or.inr ⟨by decide!, by decide!, by decide!, by decide!, by decide!⟩)),
    by decide!, by decide!, by decide!⟩

end Smfilter
